import Mathlib

/-!
# OpenBR galleries: universal-template codec, block readers and sequence files

A shallow embedding of `openbr/plugins/gallery.cpp`.

* `utGallery.writeTemplate` / `utGallery.readTemplate` are the two member functions of
  `utGallery`; the byte stream they share is a `QFile` value (content, read position and,
  for pipe-like devices, the sizes in which the device hands out its bytes).
* `memGallery.readBlock` is the block reader of `memGallery`.
* `BinaryGallery.readBlock` is the block reader shared by the galleries that decode a file
  record by record; `urlGallery.readTemplate` is one of their record readers.
* `EmptyGallery.readBlock` lists a directory.
* `seqGallery.open` and `seqGallery.readBlock` read Norpix sequence files through an
  `IfStream` value.
* `FileList.fromGallery` and `memGallery.init` keep the records of a gallery in the registry
  of memory galleries.
* `galGallery.writeTemplate` frames records with the stream operators of `Template`;
  `BinaryGallery.write` and `BinaryGallery.call` open the device on first use.
* `landmarksGallery.readBlock` reads lines of points; `csvGallery.readBlock` and
  `csvGallery.destructor` read and write tables of comma-separated values.

Functions of Qt and of OpenBR that are defined outside this file are parameters of the
definitions that call them, gathered in structures such as `DirectoryTools`.

Machine integers are natural numbers or integers with the reduction modulo `2^32` written
out wherever the C++ code stores into a `uint32_t` or `int32_t`.  Bytes are `Fin 256`.
The host is taken to be little-endian (the code copies the in-memory representation
of its integers to the file).
-/

namespace br

/-! ## Outcomes of a C++ call -/

/-- Result of running a piece of the C++ code: a value, a call of `qFatal` (the process is
aborted), or behaviour the C++ standard leaves undefined (a read outside a buffer, a
buffer of negative size, a signed overflow). -/
inductive Outcome (α : Type) where
  | ok (a : α)
  | fatal
  | undefined
deriving DecidableEq, Repr

/-- Sequencing of outcomes: the first `fatal` or `undefined` ends the computation. -/
def Outcome.bind {α β : Type} (x : Outcome α) (f : α → Outcome β) : Outcome β :=
  match x with
  | .ok a => f a
  | .fatal => .fatal
  | .undefined => .undefined

/-- The outcome with `f` applied to its value. -/
def Outcome.map {α β : Type} (f : α → β) (x : Outcome α) : Outcome β :=
  match x with
  | .ok a => .ok (f a)
  | .fatal => .fatal
  | .undefined => .undefined

instance : Monad Outcome where
  pure := Outcome.ok
  bind := Outcome.bind

/-! ## Bytes and 32-bit integers -/

/-- One byte of a file or of a buffer. -/
abbrev Byte := Fin 256

/-- The four bytes of a `uint32_t` as they lie in memory (little-endian). -/
def le32 (n : Nat) : List Byte :=
  [Fin.ofNat (n % 256), Fin.ofNat (n / 256 % 256), Fin.ofNat (n / 65536 % 256),
   Fin.ofNat (n / 16777216 % 256)]

/-- The `uint32_t` stored at byte offset `off` of `bs` (bytes that are missing read as 0;
every caller checks the bounds first). -/
def u32At (bs : List Byte) (off : Nat) : Nat :=
  (bs.getD off 0).val + 256 * (bs.getD (off + 1) 0).val + 65536 * (bs.getD (off + 2) 0).val
    + 16777216 * (bs.getD (off + 3) 0).val

/-- The 32-bit pattern of an `int32_t` (two's complement). -/
def ofInt32 (i : Int) : Nat := (i % 4294967296).toNat

/-- The `int32_t` with a given 32-bit pattern. -/
def toInt32 (n : Nat) : Int :=
  if n % 4294967296 < 2147483648 then (n % 4294967296 : Nat) else (n % 4294967296 : Nat) - 4294967296

/-! ## Qt value types -/

/-- A `qreal` (a finite `double`): the dyadic rational `mant / 2^exp`, kept in lowest terms
(`exp = 0` or `mant` odd). -/
structure QReal where
  mant : Int
  exp : Nat
deriving DecidableEq, Repr

/-- Conversion `uint32_t → double`, which is exact. -/
def QReal.ofUInt32 (n : Nat) : QReal := ⟨(n : Int), 0⟩

/-- Conversion `double → uint32_t`: the fractional part is discarded.  For values outside
`[0, 2^32)` C++ leaves the result undefined; here it is clamped at 0 and reduced
modulo `2^32`. -/
def QReal.toUInt32 (r : QReal) : Nat := (Int.tdiv r.mant ((2 : Int) ^ r.exp)).toNat % 4294967296

/-- A `QString`: its UTF-16 code units. -/
abbrev QString := List Nat

/-- Qt's `QString::toLatin1`: code units above 0xFF become a question mark. -/
def toLatin1 (s : QString) : List Byte :=
  s.map (fun c => if c < 256 then Fin.ofNat c else 63)

/-- The C string that starts at the beginning of a buffer: the bytes before the first NUL
(a `QByteArray` is always followed by a NUL byte, so the end of the buffer ends it too). -/
def cString (buf : List Byte) : List Byte := buf.takeWhile (fun b => b != 0)

/-- Whether a byte is a UTF-8 continuation byte (`10xxxxxx`). -/
def isContinuationByte (b : Byte) : Bool := 128 ≤ b.val && b.val < 192

/-- The UTF-16 code units of a decoded code point that passed the range checks. -/
def utf16Units (uc : Nat) : List Nat :=
  if uc < 65536 then [uc] else [uc / 1024 + 55232, uc % 1024 + 56320]

/-- Check of a decoded code point (Qt: not overlong, not a surrogate, at most U+10FFFF). -/
def validCodePoint (uc minUc : Nat) : Bool :=
  minUc ≤ uc && !(55296 ≤ uc && uc < 57344) && uc ≤ 1114111

/-- Qt 5's `QUtf8Functions::fromUtf8`, called with the byte `b` just taken from the input
and the bytes `rest` that follow it: the UTF-16 code units of the character that starts
with `b` and the number of further bytes it takes, or `none` when `b` does not start a
well-formed sequence. -/
def utf8Char (b : Byte) (rest : List Byte) : Option (List Nat × Nat) :=
  if b.val < 128 then some ([b.val], 0)
  else if b.val ≤ 193 then none
  else if b.val < 224 then
    match rest with
    | c1 :: _ =>
      if isContinuationByte c1 && validCodePoint (b.val % 32 * 64 + c1.val % 64) 128 then
        some (utf16Units (b.val % 32 * 64 + c1.val % 64), 1)
      else none
    | _ => none
  else if b.val < 240 then
    match rest with
    | c1 :: c2 :: _ =>
      if isContinuationByte c1 && isContinuationByte c2
          && validCodePoint ((b.val % 16 * 64 + c1.val % 64) * 64 + c2.val % 64) 2048 then
        some (utf16Units ((b.val % 16 * 64 + c1.val % 64) * 64 + c2.val % 64), 2)
      else none
    | _ => none
  else if b.val < 245 then
    match rest with
    | c1 :: c2 :: c3 :: _ =>
      if isContinuationByte c1 && isContinuationByte c2 && isContinuationByte c3
          && validCodePoint
              (((b.val % 8 * 64 + c1.val % 64) * 64 + c2.val % 64) * 64 + c3.val % 64) 65536 then
        some (utf16Units (((b.val % 8 * 64 + c1.val % 64) * 64 + c2.val % 64) * 64 + c3.val % 64),
          3)
      else none
    | _ => none
  else none

/-- The loop of Qt 5's `QUtf8::convertToUnicode`: a well-formed sequence gives its code
point, every byte that does not start one gives U+FFFD and decoding resumes at the next
byte.  The first argument bounds the number of iterations; every iteration takes at least
one byte, so the length of the input is enough. -/
def decodeUtf8 : Nat → List Byte → QString
  | 0, _ => []
  | _ + 1, [] => []
  | fuel + 1, b :: rest =>
    match utf8Char b rest with
    | some (units, used) => units ++ decodeUtf8 fuel (rest.drop used)
    | none => 65533 :: decodeUtf8 fuel rest

/-- Qt 5's `QString(const char*)`, that is `QString::fromUtf8`: a leading byte order mark
is skipped, the rest is decoded. -/
def fromUtf8 (bs : List Byte) : QString :=
  match bs with
  | 239 :: 187 :: 191 :: rest => decodeUtf8 rest.length rest
  | _ => decodeUtf8 bs.length bs

/-- Lower-case hexadecimal digit of a value below 16 (`QtMiscUtils::toHexLower`). -/
def toHexLower (n : Nat) : Byte := if n < 10 then Fin.ofNat (48 + n) else Fin.ofNat (87 + n)

/-- Qt's `QByteArray::toHex`: two lower-case digits per byte, high nibble first. -/
def toHex (bs : List Byte) : List Byte :=
  bs.flatMap (fun b => [toHexLower (b.val / 16), toHexLower (b.val % 16)])

/-- Value of a hexadecimal digit (`QtMiscUtils::fromHex`), `none` for any other character. -/
def hexValue (ch : Byte) : Option Nat :=
  if 48 ≤ ch.val && ch.val ≤ 57 then some (ch.val - 48)
  else if 65 ≤ ch.val && ch.val ≤ 70 then some (ch.val - 65 + 10)
  else if 97 ≤ ch.val && ch.val ≤ 102 then some (ch.val - 97 + 10)
  else none

/-- One step of `QByteArray::fromHex`, which walks the text from its end: the state is the
flag `odd_digit` and the bytes produced so far (the first of them is `*result`). -/
def fromHexStep (st : Bool × List Byte) (ch : Byte) : Bool × List Byte :=
  match hexValue ch with
  | none => st
  | some tmp =>
    if st.1 then (false, Fin.ofNat tmp :: st.2)
    else
      match st.2 with
      | [] => (true, [])
      | r :: out => (true, Fin.ofNat (r.val + 16 * tmp) :: out)

/-- Qt's `QByteArray::fromHex`: characters that are not hexadecimal digits are skipped,
the digits are paired from the end of the text. -/
def fromHex (hex : List Byte) : List Byte :=
  (hex.reverse.foldl fromHexStep (true, [])).2

/-- The values a `QVariant` holds in the metadata of a universal template. -/
inductive QVariant where
  | byteArray (b : List Byte)
  | string (s : QString)
  | int (i : Int)
  | pointF (x y : QReal)
  | rectF (x y width height : QReal)
deriving DecidableEq, Repr

/-! ## Records -/

/-- Modelled from the spec: the metadata of a record (`File`, declared in
`openbr/openbr_plugin.h`, which is not among the sources): a file name, the
failure-to-enroll flag and an association of string keys to typed values. -/
structure File where
  name : QString
  fte : Bool
  metadata : List (String × QVariant)
deriving DecidableEq, Repr

/-- Insertion into the metadata map: the value of an existing key is overwritten. -/
def setEntry : List (String × QVariant) → String → QVariant → List (String × QVariant)
  | [], key, v => [(key, v)]
  | (k, w) :: rest, key, v =>
    if k = key then (key, v) :: rest else (k, w) :: setEntry rest key v

/-- Modelled from the spec: `File::set(key, value)`. -/
def File.set (f : File) (key : String) (v : QVariant) : File :=
  { f with metadata := setEntry f.metadata key v }

/-- Modelled from the spec: `File::value(key)`, `none` when the key is absent. -/
def File.value (f : File) (key : String) : Option QVariant := f.metadata.lookup key

/-- Modelled from the spec: `File::isNull()`, no name and no metadata. -/
def File.isNull (f : File) : Bool := f.name.isEmpty && f.metadata.isEmpty

/-- Modelled from the spec: `File::get<int32_t>(key)`; a missing key or a value that is not
a number is fatal, a number is narrowed to 32 bits. -/
def File.getInt32 (f : File) (key : String) : Outcome Int :=
  match f.value key with
  | some (.int i) => .ok (toInt32 (ofInt32 i))
  | _ => .fatal

/-- Modelled from the spec: `File::get<uint32_t>(key, defaultValue)`. -/
def File.getUInt32D (f : File) (key : String) (defaultValue : Nat) : Nat :=
  match f.value key with
  | some (.int i) => ofInt32 i
  | _ => defaultValue

/-- Modelled from the spec: `File::get<QByteArray>(key, defaultValue)`. -/
def File.getByteArrayD (f : File) (key : String) (defaultValue : List Byte) : List Byte :=
  match f.value key with
  | some (.byteArray b) => b
  | _ => defaultValue

/-- Modelled from the spec: `File::get<QString>(key, defaultValue)`. -/
def File.getStringD (f : File) (key : String) (defaultValue : QString) : QString :=
  match f.value key with
  | some (.string s) => s
  | _ => defaultValue

/-- Modelled from the spec: `File::get<QRectF>(key)`, fatal unless a rectangle is stored. -/
def File.getRectF (f : File) (key : String) : Outcome (QReal × QReal × QReal × QReal) :=
  match f.value key with
  | some (.rectF x y w h) => .ok (x, y, w, h)
  | _ => .fatal

/-- Modelled from the spec: `File::get<QPointF>(key)`, fatal unless a point is stored. -/
def File.getPointF (f : File) (key : String) : Outcome (QReal × QReal) :=
  match f.value key with
  | some (.pointF x y) => .ok (x, y)
  | _ => .fatal

/-- A continuous `cv::Mat`: its shape, the size of one element and its bytes. -/
structure Mat where
  rows : Nat
  cols : Nat
  elemSize : Nat
  data : List Byte
deriving DecidableEq, Repr

/-- Modelled from the spec: a record (`Template`, declared in `openbr/openbr_plugin.h`):
metadata plus a list of matrices. -/
structure Template where
  file : File
  mats : List Mat
deriving DecidableEq, Repr

/-- The default-constructed `Template t;`. -/
def Template.null : Template := ⟨⟨[], false, []⟩, []⟩

/-- The call `t.isEmpty()`: the record holds no matrix. -/
def Template.isEmpty (t : Template) : Bool := t.mats.isEmpty

/-- The call `t.append(m)`. -/
def Template.append (t : Template) (m : Mat) : Template := { t with mats := t.mats ++ [m] }

/-- The call `t.m()`: the last matrix of the record. -/
def Template.m (t : Template) : Option Mat := t.mats.getLast?

/-! ## The device -/

/-- The `QFile gallery` of a `BinaryGallery`: the content of the file, the read position
and, for a pipe-like device, the largest number of bytes each coming `read` call can
deliver (an empty list: every call delivers all it is asked for). -/
structure QFile where
  bytes : List Byte
  pos : Nat
  chunks : List Nat
deriving DecidableEq, Repr

/-- The call `gallery.read(dst, maxSize)`: the bytes obtained (`bytesRead` is their number)
and the device afterwards. -/
def QFile.read (g : QFile) (maxSize : Nat) : List Byte × QFile :=
  let limit := match g.chunks with
    | [] => maxSize
    | c :: _ => min c maxSize
  let got := (g.bytes.drop g.pos).take limit
  (got, { g with pos := g.pos + got.length, chunks := g.chunks.tail })

/-- The call `gallery.atEnd()`. -/
def QFile.atEnd (g : QFile) : Bool := g.bytes.length ≤ g.pos

/-! ## Universal templates -/

/-- Modelled from the spec: the record header `br_universal_template`, declared in
`openbr/universal_template.h` (not among the sources), with the fields of the layout
table of section 4.3; `sizeof(br_universal_template)` is 48. -/
structure br_universal_template where
  imageID : List Byte
  algorithmID : Int
  x : Nat
  y : Nat
  width : Nat
  height : Nat
  label : Nat
  urlSize : Nat
  fvSize : Nat
deriving DecidableEq, Repr

/-- The header found in the 48 bytes that `gallery.read((char*)&ut, 48)` delivered. -/
def br_universal_template.ofBytes (b : List Byte) : br_universal_template :=
  { imageID := b.take 16
    algorithmID := toInt32 (u32At b 16)
    x := u32At b 20
    y := u32At b 24
    width := u32At b 28
    height := u32At b 32
    label := u32At b 36
    urlSize := u32At b 40
    fvSize := u32At b 44 }

/-- The test `(algorithmID <= -1) && (algorithmID >= -3)`. -/
def isSentinel (algorithmID : Int) : Bool := decide (algorithmID ≤ -1) && decide (algorithmID ≥ -3)

/-- The loop of `utGallery::readTemplate` that fills `data`: `gallery.read` is called until
`bytesNeeded` bytes have arrived; a call that delivers nothing is fatal.  The first
argument bounds the number of iterations; each iteration obtains at least one byte, so
`bytesNeeded` iterations always suffice. -/
def utGallery.readData : Nat → QFile → Nat → List Byte → Outcome (List Byte × QFile)
  | 0, g, _, data => .ok (data, g)
  | fuel + 1, g, bytesNeeded, data =>
    if bytesNeeded = 0 then .ok (data, g)
    else
      let r := g.read bytesNeeded
      if r.1.length = 0 then .fatal
      else utGallery.readData fuel r.2 (bytesNeeded - r.1.length) (data ++ r.1)

/-- The `n` bytes at offset `off` of a buffer; reading past its end is undefined. -/
def bytesAt (buf : List Byte) (off n : Nat) : Outcome (List Byte) :=
  if off + n ≤ buf.length then .ok ((buf.drop off).take n) else .undefined

/-- The part of `utGallery::readTemplate` that follows the read loop: the record built from
the header `ut` and the buffer `data` (URL section and feature section). -/
def utGallery.buildTemplate (ut : br_universal_template) (data : List Byte) : Outcome Template :=
  let t := Template.null
  let f := t.file.set "ImageID" (.byteArray (toHex ut.imageID))
  let f := f.set "AlgorithmID" (.int ut.algorithmID)
  let f := f.set "URL" (.string (fromUtf8 (cString data)))
  let dataStart := ut.urlSize
  let dataSize := ut.fvSize
  if isSentinel ut.algorithmID then do
    let f := f.set "FrontalFace" (.rectF (QReal.ofUInt32 ut.x) (QReal.ofUInt32 ut.y)
      (QReal.ofUInt32 ut.width) (QReal.ofUInt32 ut.height))
    let eyes ← bytesAt data dataStart 16
    let rightEyeX := u32At eyes 0
    let rightEyeY := u32At eyes 4
    let leftEyeX := u32At eyes 8
    let leftEyeY := u32At eyes 12
    let dataStart := dataStart + 16
    let dataSize := (dataSize + 4294967296 - 16) % 4294967296
    let f := f.set "First_Eye" (.pointF (QReal.ofUInt32 rightEyeX) (QReal.ofUInt32 rightEyeY))
    let f := f.set "Second_Eye" (.pointF (QReal.ofUInt32 leftEyeX) (QReal.ofUInt32 leftEyeY))
    let f := f.set "Label" (.int ut.label)
    let payload ← bytesAt data dataStart dataSize
    pure (({ t with file := f }).append ⟨1, dataSize, 1, payload⟩)
  else do
    let f := f.set "X" (.int ut.x)
    let f := f.set "Y" (.int ut.y)
    let f := f.set "Width" (.int ut.width)
    let f := f.set "Height" (.int ut.height)
    let f := f.set "Label" (.int ut.label)
    let payload ← bytesAt data dataStart dataSize
    pure (({ t with file := f }).append ⟨1, dataSize, 1, payload⟩)

/-- The member function `utGallery::readTemplate`, on the device `g`: the record returned
and the device afterwards.  The buffer `data` has `ut.urlSize + ut.fvSize` bytes, a
`uint32_t` sum handed to `QByteArray(int, ...)`; a sum of `2^31` or more is a negative
size. -/
def utGallery.readTemplate (g : QFile) : Outcome (Template × QFile) :=
  let r := g.read 48
  if r.1.length = 48 then
    let ut := br_universal_template.ofBytes r.1
    let total := (ut.urlSize + ut.fvSize) % 4294967296
    if 2147483648 ≤ total then .undefined
    else do
      let (data, g2) ← utGallery.readData total r.2 total []
      let t ← utGallery.buildTemplate ut data
      pure (t, g2)
  else if !r.2.atEnd then .fatal
  else .ok (Template.null, r.2)

/-- The local `algorithmID` of `utGallery::writeTemplate`:
`(t.isEmpty() || t.file.fte) ? 0 : t.file.get<int32_t>("AlgorithmID")`. -/
def utGallery.algorithmID (t : Template) : Outcome Int :=
  if t.isEmpty || t.file.fte then .ok 0 else t.file.getInt32 "AlgorithmID"

/-- The locals `x`, `y`, `width`, `height` and `header` of `utGallery::writeTemplate` after
its `if`/`else` on the algorithm id. -/
def utGallery.boxAndHeader (t : Template) (algorithmID : Int) :
    Outcome (Nat × Nat × Nat × Nat × List Byte) :=
  if isSentinel algorithmID then do
    let frontalFace ← t.file.getRectF "FrontalFace"
    let firstEye ← t.file.getPointF "First_Eye"
    let secondEye ← t.file.getPointF "Second_Eye"
    let rightEyeX := firstEye.1.toUInt32
    let rightEyeY := firstEye.2.toUInt32
    let leftEyeX := secondEye.1.toUInt32
    let leftEyeY := secondEye.2.toUInt32
    pure (frontalFace.1.toUInt32, frontalFace.2.1.toUInt32, frontalFace.2.2.1.toUInt32,
      frontalFace.2.2.2.toUInt32,
      le32 rightEyeX ++ le32 rightEyeY ++ le32 leftEyeX ++ le32 leftEyeY)
  else
    pure (t.file.getUInt32D "X" 0, t.file.getUInt32D "Y" 0, t.file.getUInt32D "Width" 0,
      t.file.getUInt32D "Height" 0, [])

/-- The bytes that `gallery.write((const char*) t.m().data, signatureSize)` sends, where
`signatureSize` is `(algorithmID == 0) ? 0 : t.m().rows * t.m().cols * t.m().elemSize()`
stored in a `uint32_t`.  The product `rows * cols` is an `int` product; a matrix that
holds fewer bytes than `signatureSize` would be read past its end. -/
def utGallery.signature (t : Template) (algorithmID : Int) : Outcome (List Byte) :=
  if algorithmID = 0 then .ok []
  else
    match t.m with
    | none => .fatal
    | some m =>
      if 2147483648 ≤ m.rows * m.cols then .undefined
      else if m.data.length < m.rows * m.cols * m.elemSize % 4294967296 then .undefined
      else .ok (m.data.take (m.rows * m.cols * m.elemSize % 4294967296))

/-- The member function `utGallery::writeTemplate`: the bytes handed to `gallery.write`,
in order. -/
def utGallery.writeTemplate (t : Template) : Outcome (List Byte) :=
  let imageID := fromHex (t.file.getByteArrayD "ImageID" (List.replicate 32 48))
  if imageID.length ≠ 16 then .fatal
  else do
    let algorithmID ← utGallery.algorithmID t
    let url := toLatin1 (t.file.getStringD "URL" t.file.name)
    let (x, y, width, height, header) ← utGallery.boxAndHeader t algorithmID
    let label := t.file.getUInt32D "Label" 0
    let urlSize := (url.length + 1) % 4294967296
    let signature ← utGallery.signature t algorithmID
    let fvSize := (header.length + signature.length) % 4294967296
    pure (imageID ++ le32 (ofInt32 algorithmID) ++ le32 x ++ le32 y ++ le32 width ++ le32 height
      ++ le32 label ++ le32 urlSize ++ le32 fvSize ++ (url ++ [0]).take urlSize
      ++ (if algorithmID ≠ 0 then header ++ signature else []))

/-- An example record: algorithm id 5, URL `ab`, a bounding box, label 9 and a matrix of
three bytes. -/
def utExample : Template :=
  ⟨⟨[], false, [("ImageID", .byteArray (toHex (List.replicate 16 7))), ("AlgorithmID", .int 5),
    ("URL", .string [97, 98]), ("X", .int 1), ("Y", .int 2), ("Width", .int 3),
    ("Height", .int 4), ("Label", .int 9)]⟩, [⟨1, 3, 1, [10, 20, 30]⟩]⟩

/-- An example record with a sentinel algorithm id: algorithm id -2, a face rectangle, two
eye points and a matrix of three bytes. -/
def utSentinelExample : Template :=
  ⟨⟨[], false, [("ImageID", .byteArray (toHex (List.replicate 16 7))), ("AlgorithmID", .int (-2)),
    ("URL", .string [97, 98]), ("FrontalFace", .rectF ⟨1, 0⟩ ⟨2, 0⟩ ⟨3, 0⟩ ⟨4, 0⟩),
    ("First_Eye", .pointF ⟨5, 0⟩ ⟨6, 0⟩), ("Second_Eye", .pointF ⟨7, 0⟩ ⟨8, 0⟩),
    ("Label", .int 9)]⟩, [⟨1, 3, 1, [10, 20, 30]⟩]⟩

/-! ## The memory gallery -/

/-- The static `MemoryGalleries::galleries`, a `QHash<File, TemplateList>`. -/
abbrev MemoryGalleries := List (File × List Template)

/-- The value of `MemoryGalleries::galleries[file]`: the stored list, or a
default-constructed (empty) one when the registry has no entry for `file`. -/
def MemoryGalleries.entry (galleries : MemoryGalleries) (file : File) : List Template :=
  (galleries.lookup file).getD []

/-- The effect of `MemoryGalleries::galleries[file]` on the registry: `operator[]` inserts
an empty list when the registry has no entry for `file`. -/
def MemoryGalleries.touch (galleries : MemoryGalleries) (file : File) : MemoryGalleries :=
  if (galleries.lookup file).isSome then galleries else galleries ++ [(file, [])]

/-- Qt's `QList::mid(pos, length)` for `pos ≥ 0` and `length ≥ 0`. -/
def mid (l : List Template) (pos length : Nat) : List Template := (l.drop pos).take length

/-- The `for` loop of `memGallery::readBlock`, from index `i` on: record `i` of the block
gets the progress marker `i + block * readBlockSize` (`base` is that product). -/
def setProgress (base : Nat) : Nat → List Template → List Template
  | _, [] => []
  | i, t :: ts =>
    { t with file := t.file.set "progress" (.int ((i + base : Nat) : Int)) }
      :: setProgress base (i + 1) ts

/-- The state of a `memGallery`: its file (the key into the registry), the property
`readBlockSize` and the cursor `block`. -/
structure memGallery where
  file : File
  readBlockSize : Nat
  block : Nat
deriving DecidableEq, Repr

/-- The member function `memGallery::readBlock`: the block returned, the flag `*done`, the
gallery and the registry afterwards.  (A `QList` holds fewer than `2^31` records, so
the `int` product `block * readBlockSize` never exceeds the size of the list.) -/
def memGallery.readBlock (g : memGallery) (galleries : MemoryGalleries) :
    List Template × Bool × memGallery × MemoryGalleries :=
  let templates := mid (galleries.entry g.file) (g.block * g.readBlockSize) g.readBlockSize
  let templates := setProgress (g.block * g.readBlockSize) 0 templates
  let done := decide (templates.length < g.readBlockSize)
  (templates, done, { g with block := if done then 0 else g.block + 1 }, galleries.touch g.file)

/-- The read loop of the callers (`while (!done) ... gallery->readBlock(&done)`, as in
`FileList::fromGallery`): the blocks returned by successive `readBlock` calls up to
and including the first one that sets `done`.  The first argument bounds the number of
calls; `none` means the bound was reached before `done` was set. -/
def memGallery.readPass : Nat → memGallery → MemoryGalleries →
    Option (List (List Template) × memGallery × MemoryGalleries)
  | 0, _, _ => none
  | fuel + 1, g, galleries =>
    let r := g.readBlock galleries
    if r.2.1 then some ([r.1], r.2.2)
    else (memGallery.readPass fuel r.2.2.1 r.2.2.2).map (fun p => (r.1 :: p.1, p.2))

/-- The progress marker a record carries, if any. -/
def Template.progress (t : Template) : Option Int :=
  match t.file.value "progress" with
  | some (.int i) => some i
  | _ => none

/-! ## Binary galleries -/

/-- The modes in which `BinaryGallery` opens its `QFile`. -/
inductive OpenMode where
  | readOnly
  | writeOnly
  | writeAppend
deriving DecidableEq, Repr

/-- The state of a `BinaryGallery`: the device `gallery`, the mode it is open in (`none`:
not open), whether the file exists on disk, whether the device is sequential (a pipe
such as stdin rather than a file) and the property `readBlockSize`. -/
structure BinaryGallery where
  gallery : QFile
  mode : Option OpenMode
  fileExists : Bool
  sequential : Bool
  readBlockSize : Nat
deriving DecidableEq, Repr

/-- The member function `BinaryGallery::readOpen`: a device that is not open is opened
read-only, at position 0; a missing file is fatal. -/
def BinaryGallery.readOpen (g : BinaryGallery) : Outcome BinaryGallery :=
  if g.mode.isNone then
    if !g.fileExists then .fatal
    else .ok { g with mode := some .readOnly, gallery := { g.gallery with pos := 0 } }
  else .ok g

/-- The call `gallery.seek(0)`, which has no effect on a sequential device. -/
def BinaryGallery.seekStart (sequential : Bool) (gallery : QFile) : QFile :=
  if sequential then gallery else { gallery with pos := 0 }

/-- The statement `templates.last().file.set("progress", position())`, applied to the
record just appended. -/
def Template.withProgress (t : Template) (position : Nat) : Template :=
  { t with file := t.file.set "progress" (.int (position : Int)) }

/-- The `while` loop of `BinaryGallery::readBlock`, for the `readTemplate` of the concrete
gallery: the templates collected and the device afterwards.  The first argument bounds
the number of iterations; `none` means the bound was reached. -/
def BinaryGallery.readLoop (readTemplate : QFile → Outcome (Template × QFile))
    (sequential : Bool) (readBlockSize : Nat) :
    Nat → QFile → List Template → Option (Outcome (List Template × QFile))
  | 0, _, _ => none
  | fuel + 1, gallery, templates =>
    if templates.length < readBlockSize && !gallery.atEnd then
      match readTemplate gallery with
      | .ok (t, gallery2) =>
        let templates2 :=
          if !t.isEmpty || !t.file.isNull then
            templates ++ [t.withProgress gallery2.pos]
          else templates
        if sequential then some (.ok (templates2, gallery2))
        else BinaryGallery.readLoop readTemplate sequential readBlockSize fuel gallery2 templates2
      | .fatal => some .fatal
      | .undefined => some .undefined
    else some (.ok (templates, gallery))

/-- The member function `BinaryGallery::readBlock`, for the `readTemplate` of the concrete
gallery: the block, the flag `*done` and the gallery afterwards.  `fuel` bounds the
iterations of the loop. -/
def BinaryGallery.readBlock (readTemplate : QFile → Outcome (Template × QFile)) (fuel : Nat)
    (g : BinaryGallery) : Option (Outcome (List Template × Bool × BinaryGallery)) :=
  match g.readOpen with
  | .ok g1 =>
    match BinaryGallery.readLoop readTemplate g1.sequential g1.readBlockSize fuel
        (if g1.gallery.atEnd then BinaryGallery.seekStart g1.sequential g1.gallery
          else g1.gallery) [] with
    | none => none
    | some (.ok (templates, gallery2)) =>
      some (.ok (templates, gallery2.atEnd, { g1 with gallery := gallery2 }))
    | some .fatal => some .fatal
    | some .undefined => some .undefined
  | .fatal => some .fatal
  | .undefined => some .undefined

/-- The member function `BinaryGallery::totalSize`: `readOpen()`, then `gallery.size()`. -/
def BinaryGallery.totalSize (g : BinaryGallery) : Outcome (Nat × BinaryGallery) :=
  match g.readOpen with
  | .ok g1 => .ok (g1.gallery.bytes.length, g1)
  | .fatal => .fatal
  | .undefined => .undefined

/-- The member function `BinaryGallery::position`. -/
def BinaryGallery.position (g : BinaryGallery) : Nat := g.gallery.pos

/-- The read loop of the callers, on a binary gallery: the blocks returned by successive
`readBlock` calls up to and including the first one that sets `done`.  `calls` bounds
the number of calls and `fuel` the iterations inside each call; `none` means a bound was
reached. -/
def BinaryGallery.readPass (readTemplate : QFile → Outcome (Template × QFile)) (fuel : Nat) :
    Nat → BinaryGallery → Option (Outcome (List (List Template) × BinaryGallery))
  | 0, _ => none
  | calls + 1, g =>
    match BinaryGallery.readBlock readTemplate fuel g with
    | none => none
    | some (.ok (templates, done, g2)) =>
      if done then some (.ok ([templates], g2))
      else
        match BinaryGallery.readPass readTemplate fuel calls g2 with
        | none => none
        | some (.ok (blocks, g3)) => some (.ok (templates :: blocks, g3))
        | some .fatal => some .fatal
        | some .undefined => some .undefined
    | some .fatal => some .fatal
    | some .undefined => some .undefined

/-- A well-formed file: from offset `pos` on, `bytes` holds exactly the records `recs`, each
given with the offset just past it; every one is read by `readTemplate` from an ordinary
file, takes at least one byte and is not null, and the last one ends the file. -/
def BinaryGallery.holdsRecords (readTemplate : QFile → Outcome (Template × QFile))
    (bytes : List Byte) : Nat → List (Template × Nat) → Bool
  | pos, [] => decide (pos = bytes.length)
  | pos, (t, stop) :: rest =>
    decide (pos < stop) && decide (stop ≤ bytes.length)
      && decide (readTemplate ⟨bytes, pos, []⟩ = .ok (t, ⟨bytes, stop, []⟩))
      && (!t.isEmpty || !t.file.isNull)
      && BinaryGallery.holdsRecords readTemplate bytes stop rest

/-- The bytes `utGallery::writeTemplate` produces for `utExample`. -/
def utExampleBytes : List Byte :=
  [7, 7, 7, 7, 7, 7, 7, 7, 7, 7, 7, 7, 7, 7, 7, 7, 5, 0, 0, 0, 1, 0, 0, 0, 2, 0, 0, 0,
    3, 0, 0, 0, 4, 0, 0, 0, 9, 0, 0, 0, 3, 0, 0, 0, 3, 0, 0, 0, 97, 98, 0, 10, 20, 30]

/-- The record `utGallery::readTemplate` builds from `utExampleBytes`. -/
def utExampleRead : Template :=
  ⟨⟨[], false, [("ImageID", .byteArray (toHex (List.replicate 16 7))), ("AlgorithmID", .int 5),
    ("URL", .string [97, 98]), ("X", .int 1), ("Y", .int 2), ("Width", .int 3),
    ("Height", .int 4), ("Label", .int 9)]⟩, [⟨1, 3, 1, [10, 20, 30]⟩]⟩

/-- A file of templates: as `BinaryGallery.holdsRecords`, but a record may also be one that
`readTemplate` returns as a null template, which `readBlock` drops. -/
def BinaryGallery.holdsTemplates (readTemplate : QFile → Outcome (Template × QFile))
    (bytes : List Byte) : Nat → List (Template × Nat) → Bool
  | pos, [] => decide (pos = bytes.length)
  | pos, (t, stop) :: rest =>
    decide (pos < stop) && decide (stop ≤ bytes.length)
      && decide (readTemplate ⟨bytes, pos, []⟩ = .ok (t, ⟨bytes, stop, []⟩))
      && BinaryGallery.holdsTemplates readTemplate bytes stop rest

/-- The test `!t.isEmpty() || !t.file.isNull()` of `BinaryGallery::readBlock`, on a record
of a file. -/
def BinaryGallery.kept (r : Template × Nat) : Bool := !r.1.isEmpty || !r.1.file.isNull

/-- Qt's `QIODevice::readLine()` on an ordinary file: the bytes up to and including the
next line feed, or up to the end of the file. -/
def QFile.readLine (g : QFile) : List Byte × QFile :=
  let rest := g.bytes.drop g.pos
  let line := rest.takeWhile (fun b => b != 10)
  let line := if line.length < rest.length then line ++ [10] else line
  (line, { g with pos := g.pos + line.length })

/-- Qt's `QChar::isSpace`. -/
def isSpace (c : Nat) : Bool :=
  c == 32 || (9 ≤ c && c ≤ 13) || c == 133 || c == 160 || c == 5760 || (8192 ≤ c && c ≤ 8202)
    || c == 8232 || c == 8233 || c == 8239 || c == 8287 || c == 12288

/-- Qt's `QString::simplified`: whitespace is removed from both ends and every internal run
of whitespace becomes one space. -/
def simplified (s : QString) : QString :=
  List.intercalate [32] ((List.splitOnP isSpace s).filter (fun w => !w.isEmpty))

/-- The member function `urlGallery::readTemplate`.  `QString::fromLocal8Bit` is taken with
the UTF-8 codec (the local codec on Unix); like `QString(const char*)` it stops at a NUL. -/
def urlGallery.readTemplate (g : QFile) : Outcome (Template × QFile) :=
  let r := g.readLine
  let url := simplified (fromUtf8 (cString r.1))
  let t := Template.null
  if !url.isEmpty then .ok ({ t with file := t.file.set "URL" (.string url) }, r.2)
  else .ok (t, r.2)

/-! ## The directory gallery -/

/-- The parts of Qt and of OpenBR outside the sources that `EmptyGallery::readBlock` calls:
`QtUtils::naturalSort`, the constructor `File(const QString &, const QVariant &)`, the member
`File::fileName()` and `QRegExp::exactMatch` with wildcard syntax (pattern first). -/
structure DirectoryTools where
  naturalSort : List QString → List QString
  mkFile : QString → QString → File
  fileName : File → QString
  exactMatch : QString → QString → Bool

/-- The directory `QDir dir(file)` as `EmptyGallery::readBlock` reads it: `dir.dirName()`,
the immediate subfolders `dir.entryList(QDir::Dirs | QDir::NoDotAndDotDot)`, for each of them
the list `QtUtils::getFiles(subdir, true)`, and `QtUtils::getFiles(file.name, false)`. -/
structure Directory where
  dirName : QString
  folders : List QString
  filesIn : QString → List QString
  files : List QString

/-- The state of an `EmptyGallery`: its file, the properties `regexp` and `readBlockSize`,
and the member `gallerySize`. -/
structure EmptyGallery where
  file : File
  regexp : QString
  readBlockSize : Nat
  gallerySize : Nat
deriving DecidableEq, Repr

/-- The static member `EmptyGallery::getTemplates` on the subfolder named `folder` (the
`dirName()` of `dir.absoluteFilePath(folder)`) with the file list `files`. -/
def EmptyGallery.getTemplates (tools : DirectoryTools) (folder : QString)
    (files : List QString) : List Template :=
  files.map (fun file => ⟨tools.mkFile file folder, []⟩)

/-- The filter loop of `EmptyGallery::readBlock`, `for (int i=size-1; i>=0; i--)`, with
`i + 1` as first argument: a record whose file name the pattern does not match exactly is
removed. -/
def EmptyGallery.removeUnmatched (tools : DirectoryTools) (regexp : QString) :
    Nat → List Template → List Template
  | 0, templates => templates
  | i + 1, templates =>
    EmptyGallery.removeUnmatched tools regexp i
      (match templates[i]? with
       | some t =>
         if !tools.exactMatch regexp (tools.fileName t.file) then templates.eraseIdx i
         else templates
       | none => templates)

/-- The two listing steps of `EmptyGallery::readBlock`: the records of the immediate
subfolders in naturally sorted folder order (the futures are collected in the order in which
they were started), followed by the records of the files of the root folder. -/
def EmptyGallery.listing (tools : DirectoryTools) (dir : Directory) : List Template :=
  (tools.naturalSort dir.folders).flatMap
      (fun folder => EmptyGallery.getTemplates tools folder (dir.filesIn folder))
    ++ dir.files.map (fun fileName => ⟨tools.mkFile fileName dir.dirName, []⟩)

/-- The member function `EmptyGallery::readBlock`: the block returned and the flag
`*done`.  The closing loop, which gives record `i` the progress marker `i`, is the loop
`setProgress` with base 0. -/
def EmptyGallery.readBlock (tools : DirectoryTools) (dir : Directory) (g : EmptyGallery) :
    List Template × Bool :=
  if g.file.isNull then ([], true)
  else
    let templates := EmptyGallery.listing tools dir
    let templates :=
      if !g.regexp.isEmpty then
        EmptyGallery.removeUnmatched tools g.regexp templates.length templates
      else templates
    (setProgress 0 0 templates, true)

/-- Example tools: folders stay in the listed order, a file is its name alone, and a pattern
matches the names equal to it. -/
def exampleTools : DirectoryTools :=
  ⟨fun l => l, fun name _ => ⟨name, false, []⟩, fun f => f.name, fun p s => p == s⟩

/-- An example directory `d` with no subfolder and the two files `a` and `b`. -/
def exampleDirectory : Directory := ⟨[100], [], fun _ => [], [[97], [98]]⟩

/-! ## The sequence gallery -/

/-- The `std::ifstream seqFile`: whether it is open, the content of the file, the read
position, and whether `failbit` is set (the code never clears it). -/
structure IfStream where
  isOpen : Bool
  bytes : List Byte
  pos : Nat
  failed : Bool
deriving DecidableEq, Repr

/-- The call `seqFile.open(path, std::ios::in | std::ios::binary | std::ios::ate)`, `disk`
being the content of the file at `path` if it can be opened: a stream that is already open
or a file that cannot be opened sets `failbit`; a successful open clears the state and
puts the position at the end of the file. -/
def IfStream.open (s : IfStream) (disk : Option (List Byte)) : IfStream :=
  if s.isOpen then { s with failed := true }
  else
    match disk with
    | some bytes => ⟨true, bytes, bytes.length, false⟩
    | none => { s with failed := true }

/-- The call `seqFile.tellg()`: the position, or -1 when the stream has failed. -/
def IfStream.tellg (s : IfStream) : Int := if s.failed then -1 else (s.pos : Int)

/-- The call `seqFile.seekg(off, std::ios::beg)`: nothing on a failed stream; a negative
position sets `failbit`. -/
def IfStream.seekg (s : IfStream) (off : Int) : IfStream :=
  if s.failed then s
  else if off < 0 then { s with failed := true }
  else { s with pos := off.toNat }

/-- The call `seqFile.seekg(off, std::ios::cur)`. -/
def IfStream.seekgCur (s : IfStream) (off : Int) : IfStream :=
  if s.failed then s
  else if (s.pos : Int) + off < 0 then { s with failed := true }
  else { s with pos := ((s.pos : Int) + off).toNat }

/-- The call `seqFile.read(buffer, n)`: the bytes stored into the buffer and the stream
afterwards.  A failed stream stores nothing; fewer than `n` bytes before the end of the
file set `failbit`. -/
def IfStream.read (s : IfStream) (n : Nat) : List Byte × IfStream :=
  if s.failed then ([], s)
  else
    let got := (s.bytes.drop s.pos).take n
    (got, { s with pos := s.pos + got.length, failed := decide (got.length < n) })

/-- A `read` into an uninitialised buffer of `n` bytes whose content the code then uses:
when fewer than `n` bytes arrive, the rest of the buffer is indeterminate. -/
def seqGallery.readChars (n : Nat) (seqFile : IfStream) : Outcome (List Byte × IfStream) :=
  let r := seqFile.read n
  if r.1.length = n then .ok r else .undefined

/-- The member function `seqGallery::readInt`. -/
def seqGallery.readInt (seqFile : IfStream) : Outcome (Int × IfStream) :=
  match seqGallery.readChars 4 seqFile with
  | .ok (num, seqFile) => .ok (toInt32 (u32At num 0), seqFile)
  | .fatal => .fatal
  | .undefined => .undefined

/-- The loop and the terminator of `seqGallery::readText` on a buffer of `bytes` bytes
(`bytes` is even at both call sites): `buffer[i/2] = buffer[i]` for the even `i`, then
`buffer[bytes/2] = 0`; the bytes behind the terminator stay. -/
def seqGallery.narrow (bytes : Nat) (buffer : List Byte) : List Byte :=
  (List.range (bytes / 2)).map (fun k => buffer.getD (2 * k) 0) ++ [0]
    ++ buffer.drop (bytes / 2 + 1)

/-- The member function `seqGallery::readText`: the buffer afterwards. -/
def seqGallery.readText (bytes : Nat) (seqFile : IfStream) : Outcome (List Byte × IfStream) :=
  match seqGallery.readChars bytes seqFile with
  | .ok (buffer, seqFile) => .ok (seqGallery.narrow bytes buffer, seqFile)
  | .fatal => .fatal
  | .undefined => .undefined

/-- Addition of two `int` values; signed overflow is undefined. -/
def addInt32 (a b : Int) : Outcome Int :=
  if -2147483648 ≤ a + b ∧ a + b < 2147483648 then .ok (a + b) else .undefined

/-- Multiplication of two `int` values; signed overflow is undefined. -/
def mulInt32 (a b : Int) : Outcome Int :=
  if -2147483648 ≤ a * b ∧ a * b < 2147483648 then .ok (a * b) else .undefined

/-- The string literal `"Norpix seq"`. -/
def norpixSeq : List Byte := [78, 111, 114, 112, 105, 120, 32, 115, 101, 113]

/-- The string literal `"raw"`. -/
def rawFormat : QString := [114, 97, 119]

/-- The string literal `"compressed"`. -/
def compressedFormat : QString := [99, 111, 109, 112, 114, 101, 115, 115, 101, 100]

/-- The state of a `seqGallery`: the gallery's file, the stream, the queue of frame
offsets, the header fields the class keeps, and the frame counter `idx`. -/
structure seqGallery where
  file : File
  seqFile : IfStream
  seekPos : List Int
  width : Int
  height : Int
  numChan : Int
  imgSizeBytes : Int
  trueImgSizeBytes : Int
  numFrames : Int
  imgFormat : QString
  idx : Int
deriving DecidableEq, Repr

/-- A `seqGallery` as constructed for `file`, before its first use: the stream is closed and
the queue is empty (the `int` members are not initialised by the class; they are written
by `open` before they are read). -/
def seqGallery.create (file : File) : seqGallery :=
  ⟨file, ⟨false, [], 0, false⟩, [], 0, 0, 0, 0, 0, 0, [], 0⟩

/-- The member function `seqGallery::isOpen`. -/
def seqGallery.isOpen (g : seqGallery) : Bool := g.seqFile.isOpen

/-- The classification of the format code in `seqGallery::open`: the value assigned to
`imgFormat`, or `qFatal("unsupported image format")`. -/
def seqGallery.classify (imgFormatInt : Int) : Outcome QString :=
  if imgFormatInt = 100 ∨ imgFormatInt = 200 ∨ imgFormatInt = 101 then .ok rawFormat
  else if imgFormatInt = 102 ∨ imgFormatInt = 201 ∨ imgFormatInt = 103
      ∨ imgFormatInt = 1 ∨ imgFormatInt = 2 then .ok compressedFormat
  else .fatal

/-- The loop `for (int i=1; i<numFrames; i++)` of `seqGallery::open`.  The first argument
is the number of iterations still to run, `numFrames - i`; then come `i`, `extra`, the
stream and the queue.  An index outside the queue, a read of an indeterminate value and
a signed overflow are undefined. -/
def seqGallery.tableLoop (imgFormat : QString) (trueImgSizeBytes : Int) :
    Nat → Int → Int → IfStream → List Int → Outcome (IfStream × List Int)
  | 0, _, _, seqFile, seekPos => .ok (seqFile, seekPos)
  | remaining + 1, i, extra, seqFile, seekPos =>
    if imgFormat = compressedFormat then
      match seekPos[(i - 1).toNat]? with
      | none => .undefined
      | some lastPos =>
        match seqGallery.readInt (seqFile.seekg lastPos) with
        | .ok (currSize, seqFile) =>
          match (addInt32 lastPos currSize).bind (fun sum => addInt32 sum extra) with
          | .ok s =>
            if i = 1 then
              match seqGallery.readChars 1 (seqFile.seekg s) with
              | .ok (zero, seqFile) =>
                if zero.getD 0 0 = 0 then
                  match (addInt32 s 8).bind (fun s => (addInt32 extra 8).map (fun e => (s, e))) with
                  | .ok (s, extra) =>
                    seqGallery.tableLoop imgFormat trueImgSizeBytes remaining (i + 1) extra
                      seqFile (seekPos ++ [s])
                  | .fatal => .fatal
                  | .undefined => .undefined
                else
                  seqGallery.tableLoop imgFormat trueImgSizeBytes remaining (i + 1) extra
                    seqFile (seekPos ++ [s])
              | .fatal => .fatal
              | .undefined => .undefined
            else
              seqGallery.tableLoop imgFormat trueImgSizeBytes remaining (i + 1) extra
                seqFile (seekPos ++ [s])
          | .fatal => .fatal
          | .undefined => .undefined
        | .fatal => .fatal
        | .undefined => .undefined
    else
      match (mulInt32 i trueImgSizeBytes).bind (fun p => addInt32 1024 p) with
      | .ok s =>
        seqGallery.tableLoop imgFormat trueImgSizeBytes remaining (i + 1) extra seqFile
          (seekPos ++ [s])
      | .fatal => .fatal
      | .undefined => .undefined

/-- The part of `seqGallery::open` after the check of the real bit depth: the remaining
header fields, the classification of the format and the table of frame offsets. -/
def seqGallery.openFrames (g : seqGallery) : Outcome (Bool × seqGallery) :=
  match seqGallery.readInt g.seqFile with
  | .ok (imgSizeBytes, seqFile) =>
    match seqGallery.readInt seqFile with
    | .ok (imgFormatInt, seqFile) =>
      match seqGallery.classify imgFormatInt with
      | .ok imgFormat =>
        match seqGallery.readInt seqFile with
        | .ok (numFrames, seqFile) =>
          match seqGallery.readInt (seqFile.seekgCur 4) with
          | .ok (trueImgSizeBytes, seqFile) =>
            match seqGallery.tableLoop imgFormat trueImgSizeBytes (numFrames - 1).toNat 1 8
                seqFile (g.seekPos ++ [1024]) with
            | .ok (seqFile, seekPos) =>
              .ok (true, { g with seqFile := seqFile, seekPos := seekPos,
                                  imgSizeBytes := imgSizeBytes, imgFormat := imgFormat,
                                  numFrames := numFrames,
                                  trueImgSizeBytes := trueImgSizeBytes })
            | .fatal => .fatal
            | .undefined => .undefined
          | .fatal => .fatal
          | .undefined => .undefined
        | .fatal => .fatal
        | .undefined => .undefined
      | .fatal => .fatal
      | .undefined => .undefined
    | .fatal => .fatal
    | .undefined => .undefined
  | .fatal => .fatal
  | .undefined => .undefined

/-- The part of `seqGallery::open` from the header size on: the checks of the header size
and of the real bit depth, the description and the image shape.  `QString(desc)` decodes
the C string in `desc` as UTF-8. -/
def seqGallery.openFields (g : seqGallery) : Outcome (Bool × seqGallery) :=
  match seqGallery.readInt (g.seqFile.seekgCur 4) with
  | .ok (hSize, seqFile) =>
    if hSize ≠ 1024 then .ok (false, { g with seqFile := seqFile })
    else
      match seqGallery.readText 512 seqFile with
      | .ok (desc, seqFile) =>
        match seqGallery.readInt seqFile with
        | .ok (width, seqFile) =>
          match seqGallery.readInt seqFile with
          | .ok (height, seqFile) =>
            match seqGallery.readInt seqFile with
            | .ok (bitDepth, seqFile) =>
              match seqGallery.readInt seqFile with
              | .ok (imageBitDepthReal, seqFile) =>
                let g2 : seqGallery :=
                  { g with file := g.file.set "Description" (.string (fromUtf8 (cString desc))),
                           seqFile := seqFile, width := width, height := height,
                           numChan := Int.tdiv bitDepth 8 }
                if imageBitDepthReal ≠ 8 then .ok (false, g2)
                else seqGallery.openFrames g2
              | .fatal => .fatal
              | .undefined => .undefined
            | .fatal => .fatal
            | .undefined => .undefined
          | .fatal => .fatal
          | .undefined => .undefined
        | .fatal => .fatal
        | .undefined => .undefined
      | .fatal => .fatal
      | .undefined => .undefined
  | .fatal => .fatal
  | .undefined => .undefined

/-- The member function `seqGallery::open`, with `disk` the content of the file named by
`file.name` if that file can be opened: the value returned and the gallery afterwards.
The narrowing of the file size to `int` keeps the low 32 bits.  The build is the one
without `CVMATIO`, so `annotations` stays empty. -/
def seqGallery.open (disk : Option (List Byte)) (g : seqGallery) : Outcome (Bool × seqGallery) :=
  let g1 : seqGallery := { g with seqFile := g.seqFile.open disk }
  if !g1.isOpen then .ok (false, g1)
  else if toInt32 (ofInt32 g1.seqFile.tellg) < 1024 then .ok (false, g1)
  else
    match seqGallery.readChars 4 (g1.seqFile.seekg 0) with
    | .ok (firstFour, seqFile) =>
      match seqGallery.readText 24 seqFile with
      | .ok (nextTwentyFour, seqFile) =>
        if firstFour.getD 0 0 ≠ 237 ∨ firstFour.getD 1 0 ≠ 254
            ∨ nextTwentyFour.take 10 ≠ norpixSeq then
          .ok (false, { g1 with seqFile := seqFile })
        else seqGallery.openFields { g1 with seqFile := seqFile }
      | .fatal => .fatal
      | .undefined => .undefined
    | .fatal => .fatal
    | .undefined => .undefined

/-- The frame of `seqGallery::readBlock`, read from the stream positioned at its offset.
`imdecode` is OpenCV's decoder.  Compressed: `readInt() - 4` bytes go into a
zero-initialised `std::vector<char>`; a negative size ends the process by an uncaught
exception, and `&imgBuf[0]` of an empty vector is undefined.  Raw: `imgSizeBytes` bytes go
into a `new char[]` buffer (a negative size again throws); `cv::Mat(height, width, type,
imgBuf)` is a matrix of `height` rows and `width` columns with 1 or 3 channels over the
first `height * width * channels` bytes of the buffer, and reaches past a buffer that is
shorter; a short read leaves the frame indeterminate. -/
def seqGallery.readFrame (imdecode : List Byte → Mat) (g : seqGallery) (seqFile : IfStream) :
    Outcome (Mat × IfStream) :=
  if g.imgFormat = compressedFormat then
    match seqGallery.readInt seqFile with
    | .ok (size, seqFile) =>
      match addInt32 size (-4) with
      | .ok imgSize =>
        if imgSize < 0 then .fatal
        else if imgSize = 0 then .undefined
        else
          let r := seqFile.read imgSize.toNat
          .ok (imdecode (r.1 ++ List.replicate (imgSize.toNat - r.1.length) 0), r.2)
      | .fatal => .fatal
      | .undefined => .undefined
    | .fatal => .fatal
    | .undefined => .undefined
  else
    if g.imgSizeBytes < 0 then .fatal
    else
      match seqGallery.readChars g.imgSizeBytes.toNat seqFile with
      | .ok (imgBuf, seqFile) =>
        if g.height < 0 ∨ g.width < 0 then .undefined
        else if imgBuf.length
            < g.height.toNat * g.width.toNat * (if g.numChan = 1 then 1 else 3) then .undefined
        else
          .ok (⟨g.height.toNat, g.width.toNat, if g.numChan = 1 then 1 else 3,
            imgBuf.take (g.height.toNat * g.width.toNat * (if g.numChan = 1 then 1 else 3))⟩,
            seqFile)
      | .fatal => .fatal
      | .undefined => .undefined

/-- The member function `seqGallery::readBlock`: the block returned, the flag `*done` and
the gallery afterwards.  `output.m() = temp` on the fresh `output` makes `temp` its only
matrix. -/
def seqGallery.readBlock (imdecode : List Byte → Mat) (disk : Option (List Byte))
    (g : seqGallery) : Outcome (List Template × Bool × seqGallery) :=
  let opened : Outcome seqGallery :=
    if !g.isOpen then
      match g.open disk with
      | .ok (rc, g1) => if !rc then .fatal else .ok { g1 with idx := 0 }
      | .fatal => .fatal
      | .undefined => .undefined
    else .ok g
  match opened with
  | .ok g1 =>
    match g1.seekPos with
    | [] => .ok ([], true, g1)
    | first :: rest =>
      match seqGallery.readFrame imdecode g1 (g1.seqFile.seekg first) with
      | .ok (temp, seqFile) =>
        let output : Template := ⟨g1.file.set "position" (.int g1.idx), [temp]⟩
        .ok ([output], false, { g1 with seqFile := seqFile, seekPos := rest, idx := g1.idx + 1 })
      | .fatal => .fatal
      | .undefined => .undefined
  | .fatal => .fatal
  | .undefined => .undefined

/-- The 1024 header bytes of a sequence file with the given image shape, image size,
format code, frame count and true image size; the description is empty and the bit depths
are 8. -/
def seqHeader (width height imgSizeBytes imgFormatInt numFrames trueImgSizeBytes : Int) :
    List Byte :=
  [237, 254, 0, 0] ++ [78, 0, 111, 0, 114, 0, 112, 0, 105, 0, 120, 0, 32, 0, 115, 0, 101, 0, 113, 0,
      0, 0, 0, 0]
    ++ le32 3 ++ le32 1024 ++ List.replicate 512 0
    ++ le32 (ofInt32 width) ++ le32 (ofInt32 height) ++ le32 8 ++ le32 8
    ++ le32 (ofInt32 imgSizeBytes) ++ le32 (ofInt32 imgFormatInt) ++ le32 (ofInt32 numFrames)
    ++ le32 0 ++ le32 (ofInt32 trueImgSizeBytes) ++ List.replicate 440 0

/-- The `int` stored in the four bytes at offset `pos` of a file. -/
def seqGallery.int32At (bytes : List Byte) (pos : Nat) : Int := toInt32 (u32At bytes pos)

/-- The checks of `seqGallery::open` up to the real bit depth, as conditions on the bytes of
the file: the size as `open` sees it is at least 1024, the magic bytes, the narrowed text,
the header size at offset 32 and the real bit depth at offset 560. -/
def seqGallery.validHeader (bytes : List Byte) : Bool :=
  decide ((1024 : Int) ≤ toInt32 (ofInt32 (bytes.length : Int)))
    && decide (bytes.getD 0 0 = 237) && decide (bytes.getD 1 0 = 254)
    && decide ((List.range 10).map (fun k => bytes.getD (4 + 2 * k) 0) = norpixSeq)
    && decide (seqGallery.int32At bytes 32 = 1024)
    && decide (seqGallery.int32At bytes 560 = 8)

/-- The step from the offset `a` of a frame of a compressed file to the offset `b` of the
next one, with padding `p`: `a` lies in the file with the four bytes of its length prefix,
and `b` is `a` plus that prefix plus `p`. -/
def seqGallery.follows (bytes : List Byte) (p a b : Int) : Prop :=
  0 ≤ a ∧ a.toNat + 4 ≤ bytes.length ∧ b = a + seqGallery.int32At bytes a.toNat + p

/-- An example of a compressed file: three frames whose length prefixes are 6, 5 and 5; the
byte at offset 1024 + 6 + 8 is zero, so the padding is 16. -/
def seqCompressedExample : List Byte :=
  seqHeader 2 1 2 102 3 0 ++ le32 6 ++ [1, 2] ++ List.replicate 16 0
    ++ le32 5 ++ [3] ++ List.replicate 16 0 ++ le32 5 ++ [3] ++ List.replicate 16 0

/-- An example of a raw file: two frames of two bytes each, stored 10 bytes apart. -/
def seqRawExample : List Byte :=
  seqHeader 2 1 2 100 2 10 ++ [1, 2, 0, 0, 0, 0, 0, 0, 0, 0, 3, 4, 0, 0, 0, 0, 0, 0, 0, 0]

/-! ## The memory gallery and the metadata cache -/

/-- The parts of OpenBR outside the sources that `memGallery::init` and
`FileList::fromGallery` call: the constructor `File(const QString &)`, the members
`File::suffix()`, `File::exists()`, `File::path()`, `File::baseName()` and `File::hash()`,
the default of the property `readBlockSize`, and the reading of a gallery.
`read file blockSize galleries` stands for the gallery that `Gallery::make(file)` constructs,
read to its end by successive `readBlock` calls until `done` (with `readBlockSize` set to
`blockSize` if given): the blocks returned and the registry afterwards. -/
structure GalleryTools where
  ofName : QString → File
  suffix : File → QString
  fileExists : File → Bool
  path : File → QString
  baseName : File → QString
  hash : File → QString
  blockSize : Nat
  read : File → Option Nat → MemoryGalleries →
    Outcome (List (List Template) × MemoryGalleries)

/-- The call `MemoryGalleries::galleries.contains(file)`. -/
def MemoryGalleries.contains (galleries : MemoryGalleries) (file : File) : Bool :=
  (galleries.lookup file).isSome

/-- The assignment `MemoryGalleries::galleries[file] = templates`. -/
def MemoryGalleries.assign : MemoryGalleries → File → List Template → MemoryGalleries
  | [], file, templates => [(file, templates)]
  | (k, v) :: rest, file, templates =>
    if k = file then (file, templates) :: rest
    else (k, v) :: MemoryGalleries.assign rest file templates

/-- Qt's `QString::mid(0, n)`: the first `n` units, or the whole string when `n` is
negative or exceeds the length. -/
def mid0 (s : QString) (n : Int) : QString := if n < 0 then s else s.take n.toNat

/-- The member function `memGallery::init`.  The member `gallerySize` is carried next to the
gallery: `none` while no value has been assigned to it.  Returned are the gallery, the
member `gallerySize`, the registry and the files for which a gallery was constructed. -/
def memGallery.init (tools : GalleryTools) (g : memGallery) (gallerySize : Option Int)
    (galleries : MemoryGalleries) :
    Outcome (memGallery × Option Int × MemoryGalleries × List File) :=
  let g1 : memGallery := { g with block := 0 }
  let galleryFile := tools.ofName (mid0 g.file.name ((g.file.name.length : Int) - 4))
  if tools.suffix galleryFile = [103, 97, 108] ∧ tools.fileExists galleryFile = true
      ∧ galleries.contains g.file = false then
    match tools.read galleryFile none galleries with
    | .ok (blocks, galleries2) =>
      let galleries3 := galleries2.assign g.file blocks.flatten
      .ok (g1, some ((galleries3.entry g.file).length : Int), galleries3.touch g.file,
        [galleryFile])
    | .fatal => .fatal
    | .undefined => .undefined
  else .ok (g1, gallerySize, galleries, [])

/-- The member function `memGallery::write`: the registry afterwards. -/
def memGallery.write (g : memGallery) (t : Template) (galleries : MemoryGalleries) :
    MemoryGalleries :=
  galleries.assign g.file (galleries.entry g.file ++ [t])

/-- The member function `memGallery::totalSize`; the value of a member that was never
assigned is indeterminate. -/
def memGallery.totalSize (gallerySize : Option Int) : Outcome Int :=
  match gallerySize with
  | some n => .ok n
  | none => .undefined

/-- Modelled from the spec: `File::remove(key)`, the metadata without the key. -/
def File.remove (f : File) (key : String) : File :=
  { f with metadata := f.metadata.filter (fun e => e.1 ≠ key) }

/-- Modelled from the spec: `Gallery::writeBlock`, which hands the records to `write` one
by one; here for a `memGallery`. -/
def memGallery.writeBlock (g : memGallery) (templates : List Template)
    (galleries : MemoryGalleries) : MemoryGalleries :=
  templates.foldl (fun gs t => g.write t gs) galleries

/-- The local `targetMeta` of `FileList::fromGallery`. -/
def FileList.targetMeta (tools : GalleryTools) (file : File) : File :=
  { file with name := tools.path file ++ tools.baseName file ++ [95, 109, 101, 116, 97]
                        ++ tools.hash file ++ [46, 109, 101, 109] }

/-- The suffixes `gal`, `mem`, `template` and `ut` of the gallery types that hold
matrices. -/
def FileList.matrixSuffixes : List QString :=
  [[103, 97, 108], [109, 101, 109], [116, 101, 109, 112, 108, 97, 116, 101], [117, 116]]

/-- The function `FileList::fromGallery`: the list returned, the registry afterwards, and
the files for which a gallery was constructed, in order.  `Gallery::make(targetMeta)`
constructs the gallery registered for the suffix `mem`, a `memGallery`, and runs its
`init`. -/
def FileList.fromGallery (tools : GalleryTools) (rFile : File) (cache : Bool)
    (galleries : MemoryGalleries) : Outcome (List File × MemoryGalleries × List File) :=
  let file := rFile.remove "append"
  let targetMeta := FileList.targetMeta tools file
  if galleries.contains targetMeta then
    .ok ((galleries.entry targetMeta).map (fun t => t.file), galleries, [])
  else
    let readAll : Outcome (List Template × MemoryGalleries) :=
      if tools.suffix file ∈ FileList.matrixSuffixes then
        match tools.read file (some 10) galleries with
        | .ok (blocks, galleries2) =>
          .ok (blocks.flatten.map (fun t => ⟨t.file, []⟩), galleries2)
        | .fatal => .fatal
        | .undefined => .undefined
      else
        match tools.read file none galleries with
        | .ok (blocks, galleries2) => .ok (blocks.flatten, galleries2)
        | .fatal => .fatal
        | .undefined => .undefined
    match readAll with
    | .ok (templates, galleries2) =>
      if cache then
        match memGallery.init tools ⟨targetMeta, tools.blockSize, 0⟩ none galleries2 with
        | .ok (memOutput, _, galleries3, made) =>
          .ok (templates.map (fun t => t.file), memOutput.writeBlock templates galleries3,
            [file, targetMeta] ++ made)
        | .fatal => .fatal
        | .undefined => .undefined
      else .ok (templates.map (fun t => t.file), galleries2, [file])
    | .fatal => .fatal
    | .undefined => .undefined

/-- Modelled from the spec: `Gallery::read`, the loop of `readBlock` calls until `done`; here
for a `seqGallery`.  The first argument bounds the number of calls. -/
def seqGallery.read (imdecode : List Byte → Mat) (disk : Option (List Byte)) :
    Nat → seqGallery → Option (Outcome (List (List Template)))
  | 0, _ => none
  | calls + 1, g =>
    match seqGallery.readBlock imdecode disk g with
    | .ok (templates, done, g2) =>
      if done then some (.ok [templates])
      else
        match seqGallery.read imdecode disk calls g2 with
        | some (.ok blocks) => some (.ok (templates :: blocks))
        | other => other
    | .fatal => some .fatal
    | .undefined => some .undefined

/-- Example tools: a file is its name alone, the suffix is what follows the last dot, no
file exists next to the registry, the path is empty, the base name is what precedes the first
dot, the hash is `0`, and every gallery reads as the one block `blocks`. -/
def exampleGalleryTools (blocks : List (List Template)) : GalleryTools :=
  { ofName := fun name => ⟨name, false, []⟩
    suffix := fun f => (f.name.reverse.takeWhile (fun c => c != 46)).reverse
    fileExists := fun _ => false
    path := fun _ => []
    baseName := fun f => f.name.takeWhile (fun c => c != 46)
    hash := fun _ => [48]
    blockSize := 10
    read := fun _ _ galleries => .ok (blocks, galleries) }

/-- Example tools for a sequence file: as `exampleGalleryTools`, but every gallery reads as
the raw example file read by a `seqGallery`. -/
def exampleSeqTools : GalleryTools :=
  { exampleGalleryTools [] with
    read := fun file _ galleries =>
      match seqGallery.read (fun _ => ⟨0, 0, 1, []⟩) (some seqRawExample) 4
          (seqGallery.create file) with
      | some (.ok blocks) => .ok (blocks, galleries)
      | some .fatal => .fatal
      | _ => .undefined }

/-! ## The binary gallery of framed records -/

/-- The stream operators `stream << t` and `stream >> t` for a `Template`, which are defined
outside the sources: the bytes that `<<` appends to the device for a record, and the record
that `>>` takes from the device together with the device afterwards. -/
structure TemplateStream where
  write : Template → List Byte
  read : QFile → Outcome (Template × QFile)

/-- The member function `galGallery::writeTemplate`: the bytes appended to the device.
`Template(t.file)` is the record with the file of `t` and no matrix. -/
def galGallery.writeTemplate (stream : TemplateStream) (t : Template) : List Byte :=
  if t.isEmpty && t.file.isNull then []
  else if t.file.fte then stream.write ⟨t.file, []⟩
  else stream.write t

/-- The member function `galGallery::readTemplate`. -/
def galGallery.readTemplate (stream : TemplateStream) (gallery : QFile) :
    Outcome (Template × QFile) :=
  stream.read gallery

/-- The four bytes of a 32-bit number, most significant first. -/
def be32 (n : Nat) : List Byte :=
  [Fin.ofNat (n / 16777216 % 256), Fin.ofNat (n / 65536 % 256), Fin.ofNat (n / 256 % 256),
   Fin.ofNat (n % 256)]

/-- The eight bytes of a 64-bit number, most significant first. -/
def be64 (n : Nat) : List Byte := be32 (n / 4294967296) ++ be32 (n % 4294967296)

/-- One step of reading: a value and the bytes that remain, if the bytes suffice. -/
abbrev Parse (α : Type) := List Byte → Option (α × List Byte)

/-- The number in the next `n` bytes, most significant first. -/
def parseNat (n : Nat) : Parse Nat := fun bytes =>
  if n ≤ bytes.length then
    some ((bytes.take n).foldl (fun acc b => 256 * acc + b.val) 0, bytes.drop n)
  else none

/-- The next `n` bytes. -/
def parseBytes (n : Nat) : Parse (List Byte) := fun bytes =>
  if n ≤ bytes.length then some (bytes.take n, bytes.drop n) else none

/-- The signed number in the next eight bytes (two's complement). -/
def parseInt64 : Parse Int := fun bytes =>
  match parseNat 8 bytes with
  | some (n, rest) =>
    some (if n < 9223372036854775808 then (n : Int) else (n : Int) - 18446744073709551616, rest)
  | none => none

/-- The same step `count` times. -/
def parseMany {α : Type} (p : Parse α) : Nat → Parse (List α)
  | 0, bytes => some ([], bytes)
  | count + 1, bytes =>
    match p bytes with
    | some (a, rest) =>
      match parseMany p count rest with
      | some (as, rest2) => some (a :: as, rest2)
      | none => none
    | none => none

/-- Example stream, writing: a string as its length in bytes and its units, two bytes
each. -/
def exampleStream.writeString (s : QString) : List Byte :=
  be32 (2 * s.length) ++ s.flatMap (fun c => [Fin.ofNat (c / 256 % 256), Fin.ofNat (c % 256)])

/-- Example stream, reading a string. -/
def exampleStream.parseString : Parse QString := fun bytes =>
  match parseNat 4 bytes with
  | some (n, rest) => parseMany (parseNat 2) (n / 2) rest
  | none => none

/-- Example stream, writing a real number: mantissa and exponent. -/
def exampleStream.writeReal (r : QReal) : List Byte :=
  be64 (r.mant % 18446744073709551616).toNat ++ be32 r.exp

/-- Example stream, reading a real number. -/
def exampleStream.parseReal : Parse QReal := fun bytes =>
  match parseInt64 bytes with
  | some (mant, rest) =>
    match parseNat 4 rest with
    | some (exp, rest2) => some (⟨mant, exp⟩, rest2)
    | none => none
  | none => none

/-- Example stream, writing a value: a byte for its type, then its content. -/
def exampleStream.writeVariant : QVariant → List Byte
  | .byteArray b => [0] ++ be32 b.length ++ b
  | .string s => [1] ++ exampleStream.writeString s
  | .int i => [2] ++ be64 (i % 18446744073709551616).toNat
  | .pointF x y => [3] ++ exampleStream.writeReal x ++ exampleStream.writeReal y
  | .rectF x y w h =>
    [4] ++ exampleStream.writeReal x ++ exampleStream.writeReal y ++ exampleStream.writeReal w
      ++ exampleStream.writeReal h

/-- Example stream, reading a value. -/
def exampleStream.parseVariant : Parse QVariant := fun bytes =>
  match bytes with
  | [] => none
  | kind :: rest =>
    if kind = 0 then
      match parseNat 4 rest with
      | some (n, rest2) =>
        match parseBytes n rest2 with
        | some (b, rest3) => some (.byteArray b, rest3)
        | none => none
      | none => none
    else if kind = 1 then
      match exampleStream.parseString rest with
      | some (s, rest2) => some (.string s, rest2)
      | none => none
    else if kind = 2 then
      match parseInt64 rest with
      | some (i, rest2) => some (.int i, rest2)
      | none => none
    else if kind = 3 then
      match parseMany exampleStream.parseReal 2 rest with
      | some ([x, y], rest2) => some (.pointF x y, rest2)
      | _ => none
    else if kind = 4 then
      match parseMany exampleStream.parseReal 4 rest with
      | some ([x, y, w, h], rest2) => some (.rectF x y w h, rest2)
      | _ => none
    else none

/-- Example stream, writing a matrix: its shape, the number of its bytes and the bytes. -/
def exampleStream.writeMat (m : Mat) : List Byte :=
  be32 m.rows ++ be32 m.cols ++ be32 m.elemSize ++ be32 m.data.length ++ m.data

/-- Example stream, reading a matrix. -/
def exampleStream.parseMat : Parse Mat := fun bytes =>
  match parseMany (parseNat 4) 4 bytes with
  | some ([rows, cols, elemSize, len], rest) =>
    match parseBytes len rest with
    | some (data, rest2) => some (⟨rows, cols, elemSize, data⟩, rest2)
    | none => none
  | _ => none

/-- Example stream, writing a file: name, failure-to-enroll flag, number of metadata
entries, then each key and value. -/
def exampleStream.writeFile (f : File) : List Byte :=
  exampleStream.writeString f.name ++ [if f.fte then 1 else 0] ++ be32 f.metadata.length
    ++ f.metadata.flatMap (fun e =>
        exampleStream.writeString (e.1.toList.map Char.toNat) ++ exampleStream.writeVariant e.2)

/-- Example stream, reading one metadata entry. -/
def exampleStream.parseEntry : Parse (String × QVariant) := fun bytes =>
  match exampleStream.parseString bytes with
  | some (key, rest) =>
    match exampleStream.parseVariant rest with
    | some (v, rest2) => some ((String.mk (key.map Char.ofNat), v), rest2)
    | none => none
  | none => none

/-- Example stream, reading a file. -/
def exampleStream.parseFile : Parse File := fun bytes =>
  match exampleStream.parseString bytes with
  | some (name, rest) =>
    match parseNat 1 rest with
    | some (fte, rest2) =>
      match parseNat 4 rest2 with
      | some (count, rest3) =>
        match parseMany exampleStream.parseEntry count rest3 with
        | some (metadata, rest4) => some (⟨name, decide (fte ≠ 0), metadata⟩, rest4)
        | none => none
      | none => none
    | none => none
  | none => none

/-- Example stream, reading a record: the list of matrices, then the file. -/
def exampleStream.parseTemplate : Parse Template := fun bytes =>
  match parseNat 4 bytes with
  | some (count, rest) =>
    match parseMany exampleStream.parseMat count rest with
    | some (mats, rest2) =>
      match exampleStream.parseFile rest2 with
      | some (file, rest3) => some (⟨file, mats⟩, rest3)
      | none => none
    | none => none
  | none => none

/-- An example of stream operators, in the manner of `QDataStream`: a record is written as
the number of its matrices, the matrices and its file; a frame that is cut short reads as
the default record at the end of the device. -/
def exampleStream : TemplateStream :=
  { write := fun t =>
      be32 t.mats.length ++ t.mats.flatMap exampleStream.writeMat ++ exampleStream.writeFile t.file
    read := fun gallery =>
      match exampleStream.parseTemplate (gallery.bytes.drop gallery.pos) with
      | some (t, rest) => .ok (t, { gallery with pos := gallery.bytes.length - rest.length })
      | none => .ok (Template.null, { gallery with pos := gallery.bytes.length }) }

/-- An example record marked failure-to-enroll: the file `x` with a label, and a matrix of
three bytes. -/
def fteExample : Template :=
  ⟨⟨[120], true, [("Label", .int 9)]⟩, [⟨1, 3, 1, [10, 20, 30]⟩]⟩

/-- An example directory `d` with the subfolders `x` and `y` (whose files are `1`, `a` and
`2`, `a`, `3`) and the two files `a` and `b`. -/
def exampleTree : Directory :=
  ⟨[100], [[120], [121]], fun folder => if folder = [120] then [[49], [97]] else [[50], [97], [51]],
    [[97], [98]]⟩

/-! ## Reading and writing through one binary gallery -/

/-- The two pure virtual members of `BinaryGallery`, `readTemplate` and `writeTemplate`, as
functions of the device; what they do may depend on the mode in which the device is
open (a device opened for writing delivers nothing to `read`, one opened for reading takes
nothing from `write`). -/
structure BinaryHooks where
  readTemplate : Option OpenMode → QFile → Outcome (Template × QFile)
  writeTemplate : Option OpenMode → Template → QFile → Outcome QFile

/-- The member function `BinaryGallery::writeOpen`.  `remove` and `append` are the values of
`file.get<bool>("remove")` and `file.get<bool>("append")`, `canOpen` tells whether
`gallery.open(mode)` succeeds.  Opening for writing empties the file unless it is opened to
append; the position is then the end of the file. -/
def BinaryGallery.writeOpen (remove append canOpen : Bool) (g : BinaryGallery) :
    Outcome BinaryGallery :=
  if g.mode.isNone then
    let kept := if g.fileExists && !remove && append then g.gallery.bytes else []
    if !canOpen then .fatal
    else .ok { g with mode := some (if append then .writeAppend else .writeOnly),
                      fileExists := true,
                      gallery := { g.gallery with bytes := kept, pos := kept.length } }
  else .ok g

/-- The member function `BinaryGallery::write`. -/
def BinaryGallery.write (hooks : BinaryHooks) (remove append canOpen : Bool) (t : Template)
    (g : BinaryGallery) : Outcome BinaryGallery :=
  match g.writeOpen remove append canOpen with
  | .ok g1 =>
    match hooks.writeTemplate g1.mode t g1.gallery with
    | .ok gallery => .ok { g1 with gallery := gallery }
    | .fatal => .fatal
    | .undefined => .undefined
  | .fatal => .fatal
  | .undefined => .undefined

/-- The member function `BinaryGallery::readBlock` with the `readTemplate` of the hooks, which
sees the mode of the device that `readOpen` leaves. -/
def BinaryGallery.readBlockWith (hooks : BinaryHooks) (fuel : Nat) (g : BinaryGallery) :
    Option (Outcome (List Template × Bool × BinaryGallery)) :=
  match g.readOpen with
  | .ok g1 => BinaryGallery.readBlock (hooks.readTemplate g1.mode) fuel g
  | .fatal => some .fatal
  | .undefined => some .undefined

/-- A call made on a gallery: `readBlock`, or `write` with a record. -/
inductive GalleryCall where
  | readBlock
  | write (t : Template)
deriving DecidableEq, Repr

/-- One call on a `BinaryGallery`: the gallery afterwards. -/
def BinaryGallery.call (hooks : BinaryHooks) (remove append canOpen : Bool) (fuel : Nat)
    (c : GalleryCall) (g : BinaryGallery) : Option (Outcome BinaryGallery) :=
  match c with
  | .readBlock =>
    match BinaryGallery.readBlockWith hooks fuel g with
    | none => none
    | some (.ok r) => some (.ok r.2.2)
    | some .fatal => some .fatal
    | some .undefined => some .undefined
  | .write t => some (BinaryGallery.write hooks remove append canOpen t g)

/-- A sequence of calls on a `BinaryGallery`, made one after the other. -/
def BinaryGallery.calls (hooks : BinaryHooks) (remove append canOpen : Bool) (fuel : Nat) :
    List GalleryCall → BinaryGallery → Option (Outcome BinaryGallery)
  | [], g => some (.ok g)
  | c :: rest, g =>
    match BinaryGallery.call hooks remove append canOpen fuel c g with
    | some (.ok g1) => BinaryGallery.calls hooks remove append canOpen fuel rest g1
    | other => other

/-- Example hooks: the universal-template reader on a device open for reading (on one open
for writing nothing arrives, which is fatal away from the end of the file), and a writer
that appends the record's universal template on a device open for writing (nothing is
taken on one open for reading). -/
def exampleHooks : BinaryHooks :=
  { readTemplate := fun mode gallery =>
      if mode = some .readOnly then utGallery.readTemplate gallery
      else if gallery.atEnd then .ok (Template.null, gallery)
      else .fatal
    writeTemplate := fun mode t gallery =>
      if mode = some .readOnly then .ok gallery
      else
        match utGallery.writeTemplate t with
        | .ok out => .ok { gallery with bytes := gallery.bytes ++ out,
                                        pos := gallery.pos + out.length }
        | .fatal => .fatal
        | .undefined => .undefined }

/-- The mode in which a call opens a closed device: `readOpen` opens it `ReadOnly`,
`writeOpen` opens it `WriteOnly`, with `Append` if the file's `append` flag is set. -/
def BinaryGallery.openingMode (append : Bool) (c : GalleryCall) : OpenMode :=
  match c with
  | .readBlock => .readOnly
  | .write _ => if append then .writeAppend else .writeOnly

/-! ## The gallery of comma-separated values -/

/-- White space is removed from the end of a string. -/
def chopped (s : QString) : QString := (s.reverse.dropWhile isSpace).reverse

/-- Qt's `QString::trimmed`: white space is removed from both ends. -/
def trimmed (s : QString) : QString := chopped (s.dropWhile isSpace)

/-- The parts between commas, from the second argument on: the white space next to a comma
is removed; `first` tells that the first part given starts the string. -/
def csvGallery.splitFrom : Bool → List QString → List QString
  | _, [] => []
  | first, [w] => [if first then w else w.dropWhile isSpace]
  | first, w :: w2 :: ws =>
    chopped (if first then w else w.dropWhile isSpace) :: csvGallery.splitFrom false (w2 :: ws)

/-- Qt's `QString::split(QRegExp("\\s*,\\s*"))`, empty parts kept.  The leftmost match of
the expression at or after a position is the next comma together with the white space on
both sides of it, so the parts are those between the commas, without the white space next
to a comma. -/
def csvGallery.split (line : QString) : List QString :=
  csvGallery.splitFrom true (List.splitOn 44 line)

/-- The text of a line read from the file: `QString::fromLocal8Bit(lineBytes).trimmed()`.
`QString::fromLocal8Bit` is taken with the UTF-8 codec (the local codec on Unix); it stops
at a NUL. -/
def csvGallery.decodeLine (lineBytes : List Byte) : QString :=
  trimmed (fromUtf8 (cString lineBytes))

/-- The character that stands for a UTF-16 code unit in a key of the metadata: the
character of that number, and for a surrogate unit, which is no character, the one
`0xF0000` above it, so that different units give different characters. -/
def unitChar (u : Nat) : Char :=
  if 55296 ≤ u ∧ u < 57344 then Char.ofNat (u + 983040) else Char.ofNat u

/-- A `QString` as key of the metadata, unit by unit. -/
def QString.toKey (s : QString) : String := String.mk (s.map unitChar)

/-- The name `progress` as a `QString`. -/
def progressName : QString := [112, 114, 111, 103, 114, 101, 115, 115]

/-- The state of a `csvGallery` that `readBlock` uses: the device `f` of the `FileGallery`,
whether it is open, whether the file exists, the member `headers` and the property
`readBlockSize`. -/
structure csvGallery where
  f : QFile
  isOpen : Bool
  fileExists : Bool
  headers : List QString
  readBlockSize : Nat
deriving DecidableEq, Repr

/-- The member function `FileGallery::readOpen`: a device that is not open is opened
read-only, at position 0; a missing file is fatal. -/
def csvGallery.readOpen (g : csvGallery) : Outcome csvGallery :=
  if !g.isOpen then
    if !g.fileExists then .fatal
    else .ok { g with isOpen := true, f := { g.f with pos := 0 } }
  else .ok g

/-- The inner loop `for (int j=0; j<words.size(); j++)` of `csvGallery::readBlock`, with
the first argument iterations to go from index `j`. -/
def csvGallery.fillFrom (headers words : List QString) : Nat → Nat → File → File
  | 0, _, fi => fi
  | n + 1, j, fi =>
    csvGallery.fillFrom headers words n (j + 1)
      (if j = 0 then { fi with name := words.getD j [] }
        else fi.set (QString.toKey (headers.getD j [])) (.string (words.getD j [])))

/-- The file `fi` that `csvGallery::readBlock` builds from the words of a line. -/
def csvGallery.fill (headers words : List QString) : File :=
  csvGallery.fillFrom headers words words.length 0 ⟨[], false, []⟩

/-- The loop `for (qint64 i = 0; i < this->readBlockSize && !f.atEnd(); i++)` of
`csvGallery::readBlock`, with the first argument iterations to go: the records collected
and the device afterwards. -/
def csvGallery.readLoop (headers : List QString) : Nat → QFile → List Template →
    List Template × QFile
  | 0, f, templates => (templates, f)
  | n + 1, f, templates =>
    if f.atEnd then (templates, f)
    else
      let r := f.readLine
      let words := csvGallery.split (csvGallery.decodeLine r.1)
      if words.length ≠ headers.length then csvGallery.readLoop headers n r.2 templates
      else
        csvGallery.readLoop headers n r.2
          (templates ++ [⟨(csvGallery.fill headers words).set "progress" (.int (r.2.pos : Int)),
            []⟩])

/-- The part of `csvGallery::readBlock` that reads the first line into `headers` when the
device is at position 0. -/
def csvGallery.readHeaders (g : csvGallery) : csvGallery :=
  if g.f.pos = 0 then
    let r := g.f.readLine
    { g with f := r.2, headers := csvGallery.split (csvGallery.decodeLine r.1) }
  else g

/-- The member function `csvGallery::readBlock`: the block, the flag `*done` and the
gallery afterwards. -/
def csvGallery.readBlock (g : csvGallery) : Outcome (List Template × Bool × csvGallery) :=
  match g.readOpen with
  | .ok g1 =>
    if !g1.fileExists then .ok ([], true, g1)
    else
      let g2 := g1.readHeaders
      let r := csvGallery.readLoop g2.headers g2.readBlockSize g2.f []
      .ok (r.1, r.2.atEnd, { g2 with f := r.2 })
  | .fatal => .fatal
  | .undefined => .undefined

/-- The read loop of the callers, on a `csvGallery`: the blocks returned by successive
`readBlock` calls up to and including the first one that sets `done`.  The first argument
bounds the number of calls; `none` means the bound was reached. -/
def csvGallery.readPass : Nat → csvGallery → Option (Outcome (List (List Template) × csvGallery))
  | 0, _ => none
  | calls + 1, g =>
    match g.readBlock with
    | .ok (templates, done, g2) =>
      if done then some (.ok ([templates], g2))
      else
        match csvGallery.readPass calls g2 with
        | none => none
        | some (.ok (blocks, g3)) => some (.ok (templates :: blocks, g3))
        | some .fatal => some .fatal
        | some .undefined => some .undefined
    | .fatal => some .fatal
    | .undefined => some .undefined

/-- The lines of a text: each ends with its line feed, but for a last line that has
none. -/
def byteLines : List Byte → List (List Byte)
  | [] => []
  | b :: bs =>
    if b = 10 then [b] :: byteLines bs
    else
      match byteLines bs with
      | [] => [[b]]
      | line :: lines => (b :: line) :: lines

/-- Lines that start at offset `pos`, each with the offset just past it. -/
def withStops : Nat → List (List Byte) → List (List Byte × Nat)
  | _, [] => []
  | pos, line :: lines => (line, pos + line.length) :: withStops (pos + line.length) lines

/-- The header of a text: the fields of its first line. -/
def csvGallery.headerOf (bytes : List Byte) : List QString :=
  csvGallery.split (csvGallery.decodeLine ((byteLines bytes).headD []))

/-- The record of a row of the table under the header `headers`, for a row that has as many
fields as the header; `stop` is the offset just past the row. -/
def csvGallery.record (headers : List QString) (row : List Byte × Nat) : Option Template :=
  if (csvGallery.split (csvGallery.decodeLine row.1)).length = headers.length then
    some ⟨(csvGallery.fill headers (csvGallery.split (csvGallery.decodeLine row.1))).set
      "progress" (.int (row.2 : Int)), []⟩
  else none

/-- The bytes of the text `File,a,b`, `x,1,2`, `y,3`, `z , 4 , 5`, one per line. -/
def csvExample : List Byte :=
  [70, 105, 108, 101, 44, 97, 44, 98, 10, 120, 44, 49, 44, 50, 10, 121, 44, 51, 10,
    122, 32, 44, 32, 52, 32, 44, 32, 53, 10]

/-- The bytes of the text `File,U+1F600,U+1F601`, `x,1,2`, one per line: two header names
outside the basic plane that share their first code unit. -/
def csvAstral : List Byte :=
  [70, 105, 108, 101, 44, 240, 159, 152, 128, 44, 240, 159, 152, 129, 10,
    120, 44, 49, 44, 50, 10]

/-- The bytes of the text `File,a,a`, `x,1,2`, one per line. -/
def csvTwice : List Byte := [70, 105, 108, 101, 44, 97, 44, 97, 10, 120, 44, 49, 44, 50, 10]

/-! ## The landmarks gallery -/

/-- Qt's `QString::split(sep)` for a one-character separator: the parts between the
separators, empty parts kept. -/
def QString.split (sep : Nat) (s : QString) : List QString := List.splitOn sep s

/-- The parts of OpenBR outside the sources that `landmarksGallery::readBlock` calls:
`QtUtils::readLines`, `QtUtils::toFloats`, the constructor `File(const QString &)` and
`File::setPoints`. -/
structure LandmarkTools where
  readLines : File → List QString
  toFloats : List QString → Outcome (List QReal)
  ofName : QString → File
  setPoints : File → List (QReal × QReal) → File

/-- The loop `for (int i=0; i<vals.size(); i+=2) points.append(QPointF(vals[i], vals[i+1]))`,
which runs on lists of even length. -/
def landmarksGallery.points : List QReal → List (QReal × QReal)
  | x :: y :: vals => (x, y) :: landmarksGallery.points vals
  | _ => []

/-- The body of the `foreach` of `landmarksGallery::readBlock`: the record of one line. -/
def landmarksGallery.readLine (tools : LandmarkTools) (line : QString) : Outcome Template :=
  let words := QString.split 58 line
  if words.length ≠ 2 then .fatal
  else
    match tools.toFloats (QString.split 44 (words.getD 1 [])) with
    | .ok vals =>
      if vals.length % 2 ≠ 0 then .fatal
      else .ok ⟨tools.setPoints (tools.ofName (words.getD 0 [])) (landmarksGallery.points vals), []⟩
    | .fatal => .fatal
    | .undefined => .undefined

/-- The `foreach` of `landmarksGallery::readBlock` over the lines that remain, `templates`
being the records appended so far. -/
def landmarksGallery.readLoop (tools : LandmarkTools) :
    List QString → List Template → Outcome (List Template)
  | [], templates => .ok templates
  | line :: lines, templates =>
    match landmarksGallery.readLine tools line with
    | .ok t => landmarksGallery.readLoop tools lines (templates ++ [t])
    | .fatal => .fatal
    | .undefined => .undefined

/-- The member function `landmarksGallery::readBlock`: the block and the flag `*done`. -/
def landmarksGallery.readBlock (tools : LandmarkTools) (file : File) :
    Outcome (List Template × Bool) :=
  match landmarksGallery.readLoop tools (tools.readLines file) [] with
  | .ok templates => .ok (templates, true)
  | .fatal => .fatal
  | .undefined => .undefined

/-- Example tools: the file holds the two lines `a:1,2,3,4` and `b:5,6`; a value is a
string of decimal digits, anything else fails to convert; the constructor keeps the name
and `setPoints` appends the points in order as entries `Points`. -/
def exampleLandmarkTools : LandmarkTools :=
  { readLines := fun _ => [[97, 58, 49, 44, 50, 44, 51, 44, 52], [98, 58, 53, 44, 54]]
    toFloats := fun strings =>
      if strings.all (fun s => !s.isEmpty && s.all (fun c => decide (48 ≤ c ∧ c ≤ 57))) then
        .ok (strings.map (fun s => ⟨(s.foldl (fun acc c => 10 * acc + (c - 48)) 0 : Nat), 0⟩))
      else .fatal
    ofName := fun name => ⟨name, false, []⟩
    setPoints := fun f points =>
      { f with metadata := f.metadata ++ points.map (fun p => ("Points", .pointF p.1 p.2)) } }

/-! ## The gallery of comma-separated values: writing -/

/-- The parts of Qt that `csvGallery::getCSVElement` calls on values: the text of a value
that converts to a string, `QVariant::value<QString>()`, and `QString::number` on a
`double`. -/
structure CsvTools where
  toQString : QVariant → QString
  number : QReal → QString

/-- A key of the metadata as `QString`. -/
def QString.ofKey (key : String) : QString := key.toList.map Char.toNat

/-- The text `QString::number(std::numeric_limits<float>::quiet_NaN())`, which is `nan`. -/
def csvGallery.nan : QString := [110, 97, 110]

/-- Modelled from the spec: `File::localKeys()`, the keys of the metadata. -/
def File.localKeys (f : File) : List String := f.metadata.map (fun e => e.1)

/-- Qt's `QMap::contains`. -/
def mapContains {α : Type} (m : List (String × α)) (key : String) : Bool :=
  m.any (fun e => e.1 == key)

/-- The order of `QString`: the first code unit that differs decides, a proper prefix
comes first. -/
def QString.less : QString → QString → Bool
  | _, [] => false
  | [], _ :: _ => true
  | x :: xs, y :: ys => decide (x < y) || (x == y && QString.less xs ys)

/-- Qt's `QMap::insert`: the entries are kept in the order of their keys, the value of an
existing key is replaced. -/
def mapInsert {α : Type} : List (String × α) → String → α → List (String × α)
  | [], key, v => [(key, v)]
  | (k, w) :: rest, key, v =>
    if QString.less (QString.ofKey key) (QString.ofKey k) then (key, v) :: (k, w) :: rest
    else if key = k then (key, v) :: rest
    else (k, w) :: mapInsert rest key v

/-- Qt's `QMap::remove`. -/
def mapRemove {α : Type} (m : List (String × α)) (key : String) : List (String × α) :=
  m.filter (fun e => e.1 != key)

/-- The inner loop `foreach (const QString &key, file.localKeys())` that collects the
samples: the value of a key not seen before is inserted. -/
def csvGallery.addSamples (samples : List (String × QVariant)) (file : File) :
    List (String × QVariant) :=
  file.localKeys.foldl (fun samples key =>
    if !mapContains samples key then
      match file.value key with
      | some v => mapInsert samples key v
      | none => samples
    else samples) samples

/-- The map `samples` of the destructor: for every key of some file the value in the first
file that has it, without the keys `Points` and `Rects`. -/
def csvGallery.samples (files : List File) : List (String × QVariant) :=
  mapRemove (mapRemove (files.foldl csvGallery.addSamples []) "Points") "Rects"

/-- The member function `csvGallery::getCSVElement`: the text and the value of
`columnCount` afterwards.  A value that is missing is an invalid `QVariant`, which converts
to nothing.  Byte arrays, strings and numbers convert to a string; a point converts to a
point only, a rectangle to a rectangle only. -/
def csvGallery.getCSVElement (tools : CsvTools) (key : QString) (value : Option QVariant)
    (header : Bool) (columnCount : Nat) : Outcome (QString × Nat) :=
  let columnCount := if header then 1 else columnCount
  match value with
  | some (.pointF x y) =>
    if header then .ok (key ++ [95, 88, 44] ++ key ++ [95, 89], 2)
    else if columnCount ≠ 2 then .fatal
    else .ok (tools.number x ++ [44] ++ tools.number y, columnCount)
  | some (.rectF x y width height) =>
    if header then
      .ok (key ++ [95, 88, 44] ++ key ++ [95, 89, 44] ++ key ++ [95, 87, 105, 100, 116, 104, 44]
        ++ key ++ [95, 72, 101, 105, 103, 104, 116], 4)
    else if columnCount ≠ 4 then .fatal
    else
      .ok (tools.number x ++ [44] ++ tools.number y ++ [44] ++ tools.number width ++ [44]
        ++ tools.number height, columnCount)
  | some v =>
    if header then .ok (key, columnCount)
    else if columnCount ≠ 1 then .fatal
    else .ok (tools.toQString v, columnCount)
  | none =>
    if header then .ok (key, columnCount)
    else
      .ok (csvGallery.nan
        ++ ((List.range' 1 (columnCount - 1)).map (fun _ => [44] ++ csvGallery.nan)).flatten,
        columnCount)

/-- The loop that makes the header: the words after `File` and the map `columnCounts`. -/
def csvGallery.makeHeader (tools : CsvTools) :
    List (String × QVariant) → Outcome (List QString × List (String × Nat))
  | [] => .ok ([], [])
  | (key, v) :: samples =>
    match csvGallery.getCSVElement tools (QString.ofKey key) (some v) true 0 with
    | .ok (word, count) =>
      match csvGallery.makeHeader tools samples with
      | .ok (words, columnCounts) => .ok (word :: words, mapInsert columnCounts key count)
      | .fatal => .fatal
      | .undefined => .undefined
    | .fatal => .fatal
    | .undefined => .undefined

/-- Qt's `QMap::operator[]` on the map of column counts: 0 for a key that is absent. -/
def mapValue (m : List (String × Nat)) (key : String) : Nat := (m.lookup key).getD 0

/-- The inner loop that makes a row of the table: the words after the file name. -/
def csvGallery.makeRow (tools : CsvTools) (columnCounts : List (String × Nat)) (file : File) :
    List String → Outcome (List QString)
  | [] => .ok []
  | key :: keys =>
    match csvGallery.getCSVElement tools (QString.ofKey key) (file.value key) false
        (mapValue columnCounts key) with
    | .ok (word, _) =>
      match csvGallery.makeRow tools columnCounts file keys with
      | .ok words => .ok (word :: words)
      | .fatal => .fatal
      | .undefined => .undefined
    | .fatal => .fatal
    | .undefined => .undefined

/-- The loop that makes the table: one line per file. -/
def csvGallery.makeTable (tools : CsvTools) (columnCounts : List (String × Nat))
    (keys : List String) : List File → Outcome (List QString)
  | [] => .ok []
  | file :: files =>
    match csvGallery.makeRow tools columnCounts file keys with
    | .ok words =>
      match csvGallery.makeTable tools columnCounts keys files with
      | .ok lines => .ok (List.intercalate [44] (file.name :: words) :: lines)
      | .fatal => .fatal
      | .undefined => .undefined
    | .fatal => .fatal
    | .undefined => .undefined

/-- The destructor `csvGallery::~csvGallery`, for the member `files`: the lines handed to
`QtUtils::writeFile`, `none` when nothing is written. -/
def csvGallery.destructor (tools : CsvTools) (files : List File) :
    Outcome (Option (List QString)) :=
  if files.isEmpty then .ok none
  else
    let samples := csvGallery.samples files
    match csvGallery.makeHeader tools samples with
    | .ok (words, columnCounts) =>
      match csvGallery.makeTable tools columnCounts (samples.map (fun e => e.1)) files with
      | .ok lines => .ok (some (List.intercalate [44] ([70, 105, 108, 101] :: words) :: lines))
      | .fatal => .fatal
      | .undefined => .undefined
    | .fatal => .fatal
    | .undefined => .undefined

/-- The number of columns of a value: 2 for a point, 4 for a rectangle, 1 for a value that
converts to a string. -/
def csvGallery.columns : QVariant → Nat
  | .pointF _ _ => 2
  | .rectF _ _ _ _ => 4
  | _ => 1

/-- The decimal digits of a number, the first argument bounding their number. -/
def decimal : Nat → Nat → QString
  | 0, _ => []
  | fuel + 1, n => if n < 10 then [48 + n] else decimal fuel (n / 10) ++ [48 + n % 10]

/-- Example of a text for a value that converts to a string: a string is its own text, a
byte array its bytes, a number its decimal digits after the sign. -/
def exampleToQString : QVariant → QString
  | .string s => s
  | .byteArray b => b.map (fun x => x.val)
  | .int i => (if i < 0 then [45] else []) ++ decimal 20 i.natAbs
  | _ => []

/-- Example of a text for a real number: its numerator and, when it is not 1, a slash and
its denominator. -/
def exampleNumber (r : QReal) : QString :=
  (if r.mant < 0 then [45] else []) ++ decimal 20 r.mant.natAbs
    ++ (if r.exp = 0 then [] else [47] ++ decimal 20 (2 ^ r.exp))

/-- Example tools. -/
def exampleCsvTools : CsvTools := ⟨exampleToQString, exampleNumber⟩

/-- Two example files: `a` with the label `v` and the point (1, 2), `b` with the label
`w`. -/
def csvFiles : List File :=
  [⟨[97], false, [("L", .string [118]), ("P", .pointF ⟨1, 0⟩ ⟨2, 0⟩)]⟩,
    ⟨[98], false, [("L", .string [119])]⟩]

/-! # Theorems -/

/-! ## The UTF-8 decoder -/

/-- The bound on the iterations of the decoder is never reached: any bound that is at
least the length of the input gives the same text. -/
theorem decodeUtf8_fuel : ∀ (fuel : Nat) (bs : List Byte), bs.length ≤ fuel →
    decodeUtf8 fuel bs = decodeUtf8 bs.length bs := by
  intro fuel
  induction fuel using Nat.strong_induction_on with
  | _ fuel ih =>
    intro bs hle
    cases bs with
    | nil => cases fuel <;> rfl
    | cons b rest =>
      cases fuel with
      | zero => simp at hle
      | succ fuel =>
        simp only [List.length_cons] at hle ⊢
        simp only [decodeUtf8]
        cases hc : utf8Char b rest with
        | none =>
          simp only
          rw [ih fuel (by omega) rest (by omega)]
        | some p =>
          obtain ⟨units, used⟩ := p
          simp only
          have hd : (rest.drop used).length ≤ rest.length := by
            rw [List.length_drop]; omega
          rw [ih fuel (by omega) (rest.drop used) (by omega),
            ih rest.length (by omega) (rest.drop used) hd]


/-! ## Bytes -/

theorem le32_length (n : Nat) : (le32 n).length = 4 := rfl

theorem u32At_le32 (n : Nat) (rest : List Byte) : u32At (le32 n ++ rest) 0 = n % 4294967296 := by
  simp [u32At, le32, Fin.ofNat]
  omega

theorem u32At_append_right (l r : List Byte) (off k : Nat) (h : off = l.length + k) :
    u32At (l ++ r) off = u32At r k := by
  subst h
  unfold u32At
  rw [List.getD_append_right _ _ _ _ (by omega), List.getD_append_right _ _ _ _ (by omega),
    List.getD_append_right _ _ _ _ (by omega), List.getD_append_right _ _ _ _ (by omega)]
  have h0 : l.length + k - l.length = k := by omega
  have h1 : l.length + k + 1 - l.length = k + 1 := by omega
  have h2 : l.length + k + 2 - l.length = k + 2 := by omega
  have h3 : l.length + k + 3 - l.length = k + 3 := by omega
  rw [h0, h1, h2, h3]

theorem toInt32_ofInt32 (i : Int) (hlo : -2147483648 ≤ i) (hhi : i < 2147483648) :
    toInt32 (ofInt32 i) = i := by
  unfold toInt32 ofInt32
  have hnn : (0 : Int) ≤ i % 4294967296 := Int.emod_nonneg _ (by decide)
  have hlt : i % 4294967296 < 4294967296 := Int.emod_lt_of_pos _ (by decide)
  have hcast : (((i % 4294967296).toNat : Nat) : Int) = i % 4294967296 := Int.toNat_of_nonneg hnn
  have hmod : (i % 4294967296).toNat % 4294967296 = (i % 4294967296).toNat := by
    apply Nat.mod_eq_of_lt
    omega
  rw [hmod]
  split
  · rename_i h
    omega
  · rename_i h
    omega

theorem ofInt32_lt (i : Int) : ofInt32 i < 4294967296 := by
  unfold ofInt32
  have hnn : (0 : Int) ≤ i % 4294967296 := Int.emod_nonneg _ (by decide)
  have hlt : i % 4294967296 < 4294967296 := Int.emod_lt_of_pos _ (by decide)
  omega

theorem ofInt32_ofNat (n : Nat) (h : n < 4294967296) : ofInt32 (n : Int) = n := by
  unfold ofInt32
  omega

theorem QReal.toUInt32_ofUInt32 (n : Nat) (h : n < 4294967296) :
    (QReal.ofUInt32 n).toUInt32 = n := by
  simp [QReal.ofUInt32, QReal.toUInt32, Int.tdiv_one]
  omega

/-! ## Hexadecimal text -/

theorem hexValue_toHexLower (n : Nat) (h : n < 16) : hexValue (toHexLower n) = some n := by
  interval_cases n <;> rfl

theorem fromHexStep_pair (b : Byte) (out : List Byte) :
    fromHexStep (fromHexStep (true, out) (toHexLower (b.val % 16))) (toHexLower (b.val / 16))
      = (true, b :: out) := by
  have h1 : b.val % 16 < 16 := Nat.mod_lt _ (by decide)
  have h2 : b.val / 16 < 16 := by have := b.isLt; omega
  simp only [fromHexStep, hexValue_toHexLower _ h1, hexValue_toHexLower _ h2, if_true,
    Bool.false_eq_true, if_false]
  congr 2
  apply Fin.ext
  have := b.isLt
  simp [Fin.ofNat]
  omega

theorem fromHex_foldl (bs : List Byte) (out : List Byte) :
    (toHex bs).reverse.foldl fromHexStep (true, out) = (true, bs ++ out) := by
  induction bs using List.reverseRecOn generalizing out with
  | nil => rfl
  | append_singleton bs b ih =>
    simp only [toHex, List.flatMap_append, List.flatMap_cons, List.flatMap_nil, List.append_nil,
      List.reverse_append, List.reverse_cons, List.reverse_nil, List.nil_append,
      List.singleton_append, List.cons_append, List.foldl_cons]
    rw [fromHexStep_pair]
    have := ih (b :: out)
    simp only [toHex] at this
    rw [this]
    simp

theorem fromHex_toHex (bs : List Byte) : fromHex (toHex bs) = bs := by
  unfold fromHex
  rw [fromHex_foldl]
  simp

/-! ## The device and the read loop -/

theorem QFile.read_fst (g : QFile) (n : Nat) :
    ∃ limit, (g.read n).1 = (g.bytes.drop g.pos).take limit ∧ limit ≤ n
      ∧ (g.chunks = [] → limit = n) ∧ ((∀ c ∈ g.chunks, 0 < c) → 0 < n → 0 < limit) := by
  cases hc : g.chunks with
  | nil =>
    refine ⟨n, ?_, le_refl _, fun _ => rfl, fun _ h => h⟩
    simp [QFile.read, hc]
  | cons c cs =>
    refine ⟨min c n, ?_, Nat.min_le_right _ _, fun h => by simp at h, ?_⟩
    · simp [QFile.read, hc]
    · intro hpos hn
      have := hpos c (by simp)
      omega

theorem QFile.read_snd (g : QFile) (n : Nat) :
    (g.read n).2 = ⟨g.bytes, g.pos + (g.read n).1.length, g.chunks.tail⟩ := by
  simp [QFile.read]

theorem take_take_drop (l : List Byte) (k n : Nat) (hk : k ≤ n) :
    l.take k ++ (l.drop k).take (n - k) = l.take n := by
  have h : n = k + (n - k) := by omega
  conv_rhs => rw [h, List.take_add]

theorem take_min_length (l : List Byte) (m : Nat) : l.take (min m l.length) = l.take m := by
  rcases Nat.le_total m l.length with h | h
  · rw [Nat.min_eq_left h]
  · rw [Nat.min_eq_right h, List.take_of_length_le h, List.take_of_length_le (le_refl _)]

/-- The read loop obtains exactly the next `bytesNeeded` bytes of the device, however the
device splits them into positive-length reads, and is fatal exactly when fewer bytes are
left. -/
theorem utGallery.readData_spec : ∀ (fuel n : Nat) (g : QFile) (data : List Byte),
    n ≤ fuel → (∀ c ∈ g.chunks, 0 < c) →
    ∃ j, utGallery.readData fuel g n data =
      if n ≤ g.bytes.length - g.pos then
        .ok (data ++ (g.bytes.drop g.pos).take n, ⟨g.bytes, g.pos + n, g.chunks.drop j⟩)
      else .fatal := by
  intro fuel
  induction fuel with
  | zero =>
    intro n g data hn _
    have h0 : n = 0 := by omega
    subst h0
    exact ⟨0, by simp [utGallery.readData]⟩
  | succ fuel ih =>
    intro n g data hn hpos
    by_cases h0 : n = 0
    · subst h0
      exact ⟨0, by simp [utGallery.readData]⟩
    · obtain ⟨limit, hgot, hle, _, hlim⟩ := QFile.read_fst g n
      have hsnd := QFile.read_snd g n
      have hlimpos : 0 < limit := hlim hpos (by omega)
      simp only [utGallery.readData, h0, if_false]
      generalize g.read n = r at hgot hsnd ⊢
      obtain ⟨got, g2⟩ := r
      simp only at hgot hsnd ⊢
      subst hsnd
      have hlen : got.length = min limit (g.bytes.length - g.pos) := by
        rw [hgot, List.length_take, List.length_drop]
      by_cases hz : got.length = 0
      · refine ⟨0, ?_⟩
        have : ¬ n ≤ g.bytes.length - g.pos := by omega
        simp [hz, this]
      · simp only [hz, if_false]
        obtain ⟨j, hj⟩ := ih (n - got.length) ⟨g.bytes, g.pos + got.length, g.chunks.tail⟩
          (data ++ got) (by omega) (fun c hc => hpos c (List.mem_of_mem_tail hc))
        refine ⟨j + 1, ?_⟩
        rw [hj]
        have hk : got.length ≤ n := by omega
        by_cases hfit : n ≤ g.bytes.length - g.pos
        · have hfit2 : n - got.length ≤ g.bytes.length - (g.pos + got.length) := by omega
          simp only [hfit, hfit2, if_true]
          have hgot2 : got = (g.bytes.drop g.pos).take got.length := by
            rw [hlen]
            conv_lhs => rw [hgot]
            rw [← List.length_drop, take_min_length]
          have hdata : data ++ got
                ++ List.take (n - got.length) (List.drop (g.pos + got.length) g.bytes)
              = data ++ List.take n (List.drop g.pos g.bytes) := by
            rw [List.append_assoc, ← List.drop_drop]
            congr 1
            calc got ++ List.take (n - got.length) (List.drop got.length (List.drop g.pos g.bytes))
                = List.take got.length (List.drop g.pos g.bytes)
                  ++ List.take (n - got.length)
                      (List.drop got.length (List.drop g.pos g.bytes)) := by rw [← hgot2]
              _ = List.take n (List.drop g.pos g.bytes) := take_take_drop _ _ _ hk
          rw [hdata]
          have hp : g.pos + got.length + (n - got.length) = g.pos + n := by omega
          rw [hp]
          simp
        · have hfit2 : ¬ n - got.length ≤ g.bytes.length - (g.pos + got.length) := by omega
          simp only [hfit, hfit2, if_false]


/-! ## Outcomes -/

@[simp] theorem Outcome.bind_ok {α β : Type} (a : α) (f : α → Outcome β) :
    (Outcome.ok a >>= f) = f a := rfl

@[simp] theorem Outcome.bind_fatal {α β : Type} (f : α → Outcome β) :
    ((Outcome.fatal : Outcome α) >>= f) = Outcome.fatal := rfl

@[simp] theorem Outcome.bind_undefined {α β : Type} (f : α → Outcome β) :
    ((Outcome.undefined : Outcome α) >>= f) = Outcome.undefined := rfl

@[simp] theorem Outcome.pure_eq {α : Type} (a : α) : (pure a : Outcome α) = Outcome.ok a := rfl

@[simp] theorem Outcome.map_ok {α β : Type} (f : α → β) (a : α) :
    Outcome.map f (Outcome.ok a) = Outcome.ok (f a) := rfl

@[simp] theorem Outcome.map_fatal {α β : Type} (f : α → β) :
    Outcome.map f (Outcome.fatal : Outcome α) = Outcome.fatal := rfl

@[simp] theorem Outcome.map_undefined {α β : Type} (f : α → β) :
    Outcome.map f (Outcome.undefined : Outcome α) = Outcome.undefined := rfl

/-! ## Reading a record -/

/-- What `readTemplate` returns once the header has arrived in one piece: the record is
built from the next `urlSize + fvSize` bytes, whatever the sizes of the reads that
deliver them. -/
theorem utGallery.readTemplate_spec (g : QFile) (hfirst : ∀ c ∈ g.chunks.head?, 48 ≤ c)
    (hpos : ∀ c ∈ g.chunks.tail, 0 < c) :
    Outcome.map (fun r => (r.1, r.2.pos)) (utGallery.readTemplate g) =
      if ((g.bytes.drop g.pos).take 48).length = 48 then
        if 2147483648 ≤ ((br_universal_template.ofBytes ((g.bytes.drop g.pos).take 48)).urlSize
            + (br_universal_template.ofBytes ((g.bytes.drop g.pos).take 48)).fvSize) % 4294967296
        then .undefined
        else if ((br_universal_template.ofBytes ((g.bytes.drop g.pos).take 48)).urlSize
            + (br_universal_template.ofBytes ((g.bytes.drop g.pos).take 48)).fvSize) % 4294967296
              ≤ g.bytes.length - (g.pos + 48)
        then Outcome.map
          (fun t => (t, g.pos + 48
            + ((br_universal_template.ofBytes ((g.bytes.drop g.pos).take 48)).urlSize
              + (br_universal_template.ofBytes ((g.bytes.drop g.pos).take 48)).fvSize)
                % 4294967296))
          (utGallery.buildTemplate (br_universal_template.ofBytes ((g.bytes.drop g.pos).take 48))
            ((g.bytes.drop (g.pos + 48)).take
              (((br_universal_template.ofBytes ((g.bytes.drop g.pos).take 48)).urlSize
                + (br_universal_template.ofBytes ((g.bytes.drop g.pos).take 48)).fvSize)
                  % 4294967296)))
        else .fatal
      else if g.bytes.length ≤ g.pos + ((g.bytes.drop g.pos).take 48).length
        then .ok (Template.null, g.pos + ((g.bytes.drop g.pos).take 48).length)
      else .fatal := by
  have hread : (g.read 48).1 = (g.bytes.drop g.pos).take 48 := by
    cases hc : g.chunks with
    | nil => simp [QFile.read, hc]
    | cons c cs =>
      have : 48 ≤ c := hfirst c (by simp [hc])
      simp [QFile.read, hc, Nat.min_eq_right this]
  have hsnd := QFile.read_snd g 48
  unfold utGallery.readTemplate
  simp only [hsnd, hread]
  generalize (g.bytes.drop g.pos).take 48 = hdr
  by_cases h48 : hdr.length = 48
  · simp only [h48, if_true]
    generalize br_universal_template.ofBytes hdr = ut
    by_cases hbig : 2147483648 ≤ (ut.urlSize + ut.fvSize) % 4294967296
    · simp [hbig]
    · simp only [hbig, if_false]
      obtain ⟨j, hj⟩ := utGallery.readData_spec ((ut.urlSize + ut.fvSize) % 4294967296)
        ((ut.urlSize + ut.fvSize) % 4294967296) ⟨g.bytes, g.pos + 48, g.chunks.tail⟩ []
        (le_refl _) hpos
      rw [hj]
      by_cases hfit : (ut.urlSize + ut.fvSize) % 4294967296 ≤ g.bytes.length - (g.pos + 48)
      · simp only [hfit, if_true, List.nil_append, Outcome.bind_ok]
        cases utGallery.buildTemplate ut
            (List.take ((ut.urlSize + ut.fvSize) % 4294967296) (List.drop (g.pos + 48) g.bytes))
          <;> simp
      · simp [hfit]
  · simp only [h48, if_false, QFile.atEnd]
    by_cases hend : g.bytes.length ≤ g.pos + hdr.length
    · simp [hend]
    · simp [hend]


/-! ## Writing a record -/

/-- The output of `writeTemplate` in terms of the locals of the function. -/
theorem utGallery.writeTemplate_eq (t : Template) (alg : Int) (x y width height : Nat)
    (header sig : List Byte)
    (hid : (fromHex (t.file.getByteArrayD "ImageID" (List.replicate 32 48))).length = 16)
    (halg : utGallery.algorithmID t = .ok alg)
    (hbox : utGallery.boxAndHeader t alg = .ok (x, y, width, height, header))
    (hsig : utGallery.signature t alg = .ok sig) :
    utGallery.writeTemplate t = .ok
      (fromHex (t.file.getByteArrayD "ImageID" (List.replicate 32 48))
        ++ le32 (ofInt32 alg) ++ le32 x ++ le32 y ++ le32 width ++ le32 height
        ++ le32 (t.file.getUInt32D "Label" 0)
        ++ le32 (((toLatin1 (t.file.getStringD "URL" t.file.name)).length + 1) % 4294967296)
        ++ le32 ((header.length + sig.length) % 4294967296)
        ++ (toLatin1 (t.file.getStringD "URL" t.file.name) ++ [0]).take
            (((toLatin1 (t.file.getStringD "URL" t.file.name)).length + 1) % 4294967296)
        ++ (if alg ≠ 0 then header ++ sig else [])) := by
  unfold utGallery.writeTemplate
  simp only [hid, ne_eq, not_true_eq_false, if_false, halg, Outcome.bind_ok, hbox, hsig,
    Outcome.pure_eq]

/-- Every output of `writeTemplate` has the form of `writeTemplate_eq`. -/
theorem utGallery.writeTemplate_inv (t : Template) (out : List Byte)
    (h : utGallery.writeTemplate t = .ok out) :
    ∃ alg x y width height header sig,
      (fromHex (t.file.getByteArrayD "ImageID" (List.replicate 32 48))).length = 16
      ∧ utGallery.algorithmID t = .ok alg
      ∧ utGallery.boxAndHeader t alg = .ok (x, y, width, height, header)
      ∧ utGallery.signature t alg = .ok sig
      ∧ out = fromHex (t.file.getByteArrayD "ImageID" (List.replicate 32 48))
        ++ le32 (ofInt32 alg) ++ le32 x ++ le32 y ++ le32 width ++ le32 height
        ++ le32 (t.file.getUInt32D "Label" 0)
        ++ le32 (((toLatin1 (t.file.getStringD "URL" t.file.name)).length + 1) % 4294967296)
        ++ le32 ((header.length + sig.length) % 4294967296)
        ++ (toLatin1 (t.file.getStringD "URL" t.file.name) ++ [0]).take
            (((toLatin1 (t.file.getStringD "URL" t.file.name)).length + 1) % 4294967296)
        ++ (if alg ≠ 0 then header ++ sig else []) := by
  by_cases hid : (fromHex (t.file.getByteArrayD "ImageID" (List.replicate 32 48))).length = 16
  · cases halg : utGallery.algorithmID t with
    | ok alg =>
      cases hbox : utGallery.boxAndHeader t alg with
      | ok b =>
        obtain ⟨x, y, width, height, header⟩ := b
        cases hsig : utGallery.signature t alg with
        | ok sig =>
          rw [utGallery.writeTemplate_eq t alg x y width height header sig hid halg hbox hsig] at h
          exact ⟨alg, x, y, width, height, header, sig, hid, rfl, hbox, hsig,
            (Outcome.ok.inj h).symm⟩
        | fatal =>
          simp only [utGallery.writeTemplate, hid, halg, hbox, hsig, ne_eq, not_true_eq_false, not_false_eq_true, if_true, if_false, Outcome.bind_ok,
            Outcome.bind_fatal, Outcome.bind_undefined, reduceCtorEq] at h
        | undefined =>
          simp only [utGallery.writeTemplate, hid, halg, hbox, hsig, ne_eq, not_true_eq_false, not_false_eq_true, if_true, if_false, Outcome.bind_ok,
            Outcome.bind_fatal, Outcome.bind_undefined, reduceCtorEq] at h
      | fatal => simp only [utGallery.writeTemplate, hid, halg, hbox, ne_eq, not_true_eq_false, not_false_eq_true, if_true, if_false, Outcome.bind_ok,
            Outcome.bind_fatal, Outcome.bind_undefined, reduceCtorEq] at h
      | undefined => simp only [utGallery.writeTemplate, hid, halg, hbox, ne_eq, not_true_eq_false, not_false_eq_true, if_true, if_false, Outcome.bind_ok,
            Outcome.bind_fatal, Outcome.bind_undefined, reduceCtorEq] at h
    | fatal => simp only [utGallery.writeTemplate, hid, halg, ne_eq, not_true_eq_false, not_false_eq_true, if_true, if_false, Outcome.bind_ok,
            Outcome.bind_fatal, Outcome.bind_undefined, reduceCtorEq] at h
    | undefined => simp only [utGallery.writeTemplate, hid, halg, ne_eq, not_true_eq_false, not_false_eq_true, if_true, if_false, Outcome.bind_ok,
            Outcome.bind_fatal, Outcome.bind_undefined, reduceCtorEq] at h
  · simp only [utGallery.writeTemplate, hid, ne_eq, not_true_eq_false, not_false_eq_true, if_true, if_false, Outcome.bind_ok,
            Outcome.bind_fatal, Outcome.bind_undefined, reduceCtorEq] at h

theorem isSentinel_iff (alg : Int) : isSentinel alg = true ↔ alg = -1 ∨ alg = -2 ∨ alg = -3 := by
  simp only [isSentinel, Bool.and_eq_true, decide_eq_true_eq]
  omega

theorem utGallery.boxAndHeader_length (t : Template) (alg : Int) (x y width height : Nat)
    (header : List Byte) (h : utGallery.boxAndHeader t alg = .ok (x, y, width, height, header)) :
    header.length = if isSentinel alg then 16 else 0 := by
  unfold utGallery.boxAndHeader at h
  by_cases hs : isSentinel alg = true
  · simp only [hs, if_true] at h ⊢
    cases hf : t.file.getRectF "FrontalFace" with
    | ok f =>
      cases h1 : t.file.getPointF "First_Eye" with
      | ok e1 =>
        cases h2 : t.file.getPointF "Second_Eye" with
        | ok e2 =>
          simp only [hf, h1, h2, Outcome.bind_ok, Outcome.pure_eq, Outcome.ok.injEq,
            Prod.mk.injEq] at h
          rw [← h.2.2.2.2]
          simp [le32_length]
        | fatal => simp [hf, h1, h2] at h
        | undefined => simp [hf, h1, h2] at h
      | fatal => simp [hf, h1] at h
      | undefined => simp [hf, h1] at h
    | fatal => simp [hf] at h
    | undefined => simp [hf] at h
  · simp only [hs, Bool.false_eq_true, if_false, Outcome.pure_eq, Outcome.ok.injEq,
      Prod.mk.injEq] at h ⊢
    rw [← h.2.2.2.2]
    rfl

theorem utGallery.signature_length (t : Template) (alg : Int) (sig : List Byte)
    (h : utGallery.signature t alg = .ok sig) :
    sig.length < 4294967296
      ∧ (alg ≠ 0 → ∃ m, t.m = some m ∧ sig.length = m.rows * m.cols * m.elemSize % 4294967296) := by
  unfold utGallery.signature at h
  by_cases h0 : alg = 0
  · simp only [h0, if_true, Outcome.ok.injEq] at h
    subst h
    exact ⟨by simp, fun hne => absurd h0 hne⟩
  · simp only [h0, if_false] at h
    cases hm : t.m with
    | none => simp [hm] at h
    | some m =>
      simp only [hm] at h
      by_cases h1 : 2147483648 ≤ m.rows * m.cols
      · simp [h1] at h
      · by_cases h2 : m.data.length < m.rows * m.cols * m.elemSize % 4294967296
        · simp [h1, h2] at h
        · simp only [h1, h2, if_false, Outcome.ok.injEq] at h
          subst h
          have hl : (List.take (m.rows * m.cols * m.elemSize % 4294967296) m.data).length
              = m.rows * m.cols * m.elemSize % 4294967296 := by
            rw [List.length_take]; omega
          refine ⟨?_, fun _ => ⟨m, rfl, hl⟩⟩
          rw [hl]
          exact Nat.mod_lt _ (by decide)


/-! ## The 48 header bytes -/

theorem u32At_skip4 (n : Nat) (r : List Byte) (k : Nat) :
    u32At (le32 n ++ r) (k + 4) = u32At r k :=
  u32At_append_right (le32 n) r (k + 4) k (by rw [le32_length]; omega)

/-- The fields found in a header that was written field by field. -/
theorem header_fields (id : List Byte) (a x y w h l us fs : Nat) (rest : List Byte)
    (hid : id.length = 16) :
    u32At (id ++ le32 a ++ le32 x ++ le32 y ++ le32 w ++ le32 h ++ le32 l ++ le32 us
        ++ le32 fs ++ rest) 16 = a % 4294967296
    ∧ u32At (id ++ le32 a ++ le32 x ++ le32 y ++ le32 w ++ le32 h ++ le32 l ++ le32 us
        ++ le32 fs ++ rest) 20 = x % 4294967296
    ∧ u32At (id ++ le32 a ++ le32 x ++ le32 y ++ le32 w ++ le32 h ++ le32 l ++ le32 us
        ++ le32 fs ++ rest) 24 = y % 4294967296
    ∧ u32At (id ++ le32 a ++ le32 x ++ le32 y ++ le32 w ++ le32 h ++ le32 l ++ le32 us
        ++ le32 fs ++ rest) 28 = w % 4294967296
    ∧ u32At (id ++ le32 a ++ le32 x ++ le32 y ++ le32 w ++ le32 h ++ le32 l ++ le32 us
        ++ le32 fs ++ rest) 32 = h % 4294967296
    ∧ u32At (id ++ le32 a ++ le32 x ++ le32 y ++ le32 w ++ le32 h ++ le32 l ++ le32 us
        ++ le32 fs ++ rest) 36 = l % 4294967296
    ∧ u32At (id ++ le32 a ++ le32 x ++ le32 y ++ le32 w ++ le32 h ++ le32 l ++ le32 us
        ++ le32 fs ++ rest) 40 = us % 4294967296
    ∧ u32At (id ++ le32 a ++ le32 x ++ le32 y ++ le32 w ++ le32 h ++ le32 l ++ le32 us
        ++ le32 fs ++ rest) 44 = fs % 4294967296
    ∧ (id ++ le32 a ++ le32 x ++ le32 y ++ le32 w ++ le32 h ++ le32 l ++ le32 us
        ++ le32 fs ++ rest).take 16 = id
    ∧ (id ++ le32 a ++ le32 x ++ le32 y ++ le32 w ++ le32 h ++ le32 l ++ le32 us
        ++ le32 fs ++ rest).length = 48 + rest.length := by
  simp only [List.append_assoc]
  refine ⟨?_, ?_, ?_, ?_, ?_, ?_, ?_, ?_, ?_, ?_⟩
  · rw [u32At_append_right id _ 16 0 (by omega), u32At_le32]
  · rw [u32At_append_right id _ 20 4 (by omega), u32At_skip4 _ _ 0, u32At_le32]
  · rw [u32At_append_right id _ 24 8 (by omega), u32At_skip4 _ _ 4, u32At_skip4 _ _ 0,
      u32At_le32]
  · rw [u32At_append_right id _ 28 12 (by omega), u32At_skip4 _ _ 8, u32At_skip4 _ _ 4,
      u32At_skip4 _ _ 0, u32At_le32]
  · rw [u32At_append_right id _ 32 16 (by omega), u32At_skip4 _ _ 12, u32At_skip4 _ _ 8,
      u32At_skip4 _ _ 4, u32At_skip4 _ _ 0, u32At_le32]
  · rw [u32At_append_right id _ 36 20 (by omega), u32At_skip4 _ _ 16, u32At_skip4 _ _ 12,
      u32At_skip4 _ _ 8, u32At_skip4 _ _ 4, u32At_skip4 _ _ 0, u32At_le32]
  · rw [u32At_append_right id _ 40 24 (by omega), u32At_skip4 _ _ 20, u32At_skip4 _ _ 16,
      u32At_skip4 _ _ 12, u32At_skip4 _ _ 8, u32At_skip4 _ _ 4, u32At_skip4 _ _ 0, u32At_le32]
  · rw [u32At_append_right id _ 44 28 (by omega), u32At_skip4 _ _ 24, u32At_skip4 _ _ 20,
      u32At_skip4 _ _ 16, u32At_skip4 _ _ 12, u32At_skip4 _ _ 8, u32At_skip4 _ _ 4,
      u32At_skip4 _ _ 0, u32At_le32]
  · exact List.take_left' hid
  · simp only [List.length_append, le32_length, hid]
    omega

/-- Splitting a written record at the end of its header. -/
theorem header_split (id : List Byte) (a x y w h l us fs : Nat) (rest : List Byte)
    (hid : id.length = 16) :
    (id ++ le32 a ++ le32 x ++ le32 y ++ le32 w ++ le32 h ++ le32 l ++ le32 us
        ++ le32 fs ++ rest).take 48
      = id ++ le32 a ++ le32 x ++ le32 y ++ le32 w ++ le32 h ++ le32 l ++ le32 us ++ le32 fs
    ∧ (id ++ le32 a ++ le32 x ++ le32 y ++ le32 w ++ le32 h ++ le32 l ++ le32 us
        ++ le32 fs ++ rest).drop 48 = rest := by
  have hlen : (id ++ le32 a ++ le32 x ++ le32 y ++ le32 w ++ le32 h ++ le32 l ++ le32 us
      ++ le32 fs).length = 48 := by
    simp only [List.length_append, le32_length, hid]
  exact ⟨List.take_left' hlen, List.drop_left' hlen⟩

/-- The header parsed from the bytes of a header that was written field by field. -/
theorem ofBytes_header (id : List Byte) (a x y w h l us fs : Nat) (hid : id.length = 16) :
    br_universal_template.ofBytes
        (id ++ le32 a ++ le32 x ++ le32 y ++ le32 w ++ le32 h ++ le32 l ++ le32 us ++ le32 fs)
      = ⟨id, toInt32 (a % 4294967296), x % 4294967296, y % 4294967296, w % 4294967296,
          h % 4294967296, l % 4294967296, us % 4294967296, fs % 4294967296⟩ := by
  have hf := header_fields id a x y w h l us fs [] hid
  simp only [List.append_nil] at hf
  obtain ⟨h1, h2, h3, h4, h5, h6, h7, h8, h9, _⟩ := hf
  unfold br_universal_template.ofBytes
  rw [h1, h2, h3, h4, h5, h6, h7, h8, h9]


/-! ## The locals of `writeTemplate` -/

theorem utGallery.algorithmID_of_value (t : Template) (a : Int) (he : t.isEmpty = false)
    (hf : t.file.fte = false) (ha : t.file.value "AlgorithmID" = some (.int a)) :
    utGallery.algorithmID t = .ok (toInt32 (ofInt32 a)) := by
  simp [utGallery.algorithmID, he, hf, File.getInt32, ha]

theorem utGallery.boxAndHeader_sentinel (t : Template) (alg : Int) (fx fy fw fh e1x e1y e2x e2y : QReal)
    (hs : isSentinel alg = true)
    (hface : t.file.value "FrontalFace" = some (.rectF fx fy fw fh))
    (h1 : t.file.value "First_Eye" = some (.pointF e1x e1y))
    (h2 : t.file.value "Second_Eye" = some (.pointF e2x e2y)) :
    utGallery.boxAndHeader t alg = .ok (fx.toUInt32, fy.toUInt32, fw.toUInt32, fh.toUInt32,
      le32 e1x.toUInt32 ++ le32 e1y.toUInt32 ++ le32 e2x.toUInt32 ++ le32 e2y.toUInt32) := by
  simp [utGallery.boxAndHeader, hs, File.getRectF, File.getPointF, hface, h1, h2]

theorem utGallery.boxAndHeader_plain (t : Template) (alg : Int) (hs : isSentinel alg = false) :
    utGallery.boxAndHeader t alg = .ok (t.file.getUInt32D "X" 0, t.file.getUInt32D "Y" 0,
      t.file.getUInt32D "Width" 0, t.file.getUInt32D "Height" 0, []) := by
  simp [utGallery.boxAndHeader, hs]

theorem utGallery.signature_of_mat (t : Template) (alg : Int) (m : Mat) (h0 : alg ≠ 0)
    (hm : t.m = some m) (hint : m.rows * m.cols < 2147483648)
    (hcont : m.data.length = m.rows * m.cols * m.elemSize) (hlt : m.data.length < 4294967296) :
    utGallery.signature t alg = .ok m.data := by
  have hmod : m.rows * m.cols * m.elemSize % 4294967296 = m.data.length := by
    rw [← hcont]; exact Nat.mod_eq_of_lt hlt
  have h1 : ¬ 2147483648 ≤ m.rows * m.cols := by omega
  simp only [utGallery.signature, h0, if_false, hm, h1, hmod, Nat.lt_irrefl, List.take_length]

theorem File.getUInt32D_lt (f : File) (key : String) : f.getUInt32D key 0 < 4294967296 := by
  unfold File.getUInt32D
  split
  · exact ofInt32_lt _
  · decide

theorem QReal.toUInt32_lt (r : QReal) : r.toUInt32 < 4294967296 :=
  Nat.mod_lt _ (by decide)

/-- The box fields that `writeTemplate` stores: below `2^32`, taken from `X`, `Y`, `Width`
and `Height` for an ordinary algorithm id and from the rectangle `FrontalFace` for a
sentinel. -/
theorem utGallery.boxAndHeader_fields (t : Template) (alg : Int) (x y width height : Nat)
    (header : List Byte) (h : utGallery.boxAndHeader t alg = .ok (x, y, width, height, header)) :
    (x < 4294967296 ∧ y < 4294967296 ∧ width < 4294967296 ∧ height < 4294967296)
    ∧ (isSentinel alg = false →
        x = t.file.getUInt32D "X" 0 ∧ y = t.file.getUInt32D "Y" 0
        ∧ width = t.file.getUInt32D "Width" 0 ∧ height = t.file.getUInt32D "Height" 0
        ∧ header = [])
    ∧ (isSentinel alg = true →
        ∃ fx fy fw fh, t.file.getRectF "FrontalFace" = .ok (fx, fy, fw, fh)
          ∧ x = fx.toUInt32 ∧ y = fy.toUInt32 ∧ width = fw.toUInt32 ∧ height = fh.toUInt32
          ∧ header.length = 16) := by
  have hlen := utGallery.boxAndHeader_length t alg x y width height header h
  unfold utGallery.boxAndHeader at h
  by_cases hs : isSentinel alg = true
  · simp only [hs, if_true] at h hlen
    cases hf : t.file.getRectF "FrontalFace" with
    | ok f =>
      cases h1 : t.file.getPointF "First_Eye" with
      | ok e1 =>
        cases h2 : t.file.getPointF "Second_Eye" with
        | ok e2 =>
          simp only [hf, h1, h2, Outcome.bind_ok, Outcome.pure_eq, Outcome.ok.injEq,
            Prod.mk.injEq] at h
          obtain ⟨hx, hy, hw, hh, _⟩ := h
          subst hx hy hw hh
          refine ⟨⟨QReal.toUInt32_lt _, QReal.toUInt32_lt _, QReal.toUInt32_lt _,
            QReal.toUInt32_lt _⟩, fun hn => ?_, fun _ => ?_⟩
          · rw [hs] at hn
            exact absurd hn (by decide)
          · exact ⟨f.1, f.2.1, f.2.2.1, f.2.2.2, rfl, rfl, rfl, rfl, rfl, hlen⟩
        | fatal => simp [hf, h1, h2] at h
        | undefined => simp [hf, h1, h2] at h
      | fatal => simp [hf, h1] at h
      | undefined => simp [hf, h1] at h
    | fatal => simp [hf] at h
    | undefined => simp [hf] at h
  · simp only [hs, Bool.false_eq_true, if_false, Outcome.pure_eq, Outcome.ok.injEq,
      Prod.mk.injEq] at h
    obtain ⟨hx, hy, hw, hh, hhd⟩ := h
    subst hx hy hw hh hhd
    refine ⟨⟨File.getUInt32D_lt _ _, File.getUInt32D_lt _ _, File.getUInt32D_lt _ _,
      File.getUInt32D_lt _ _⟩, fun _ => ⟨rfl, rfl, rfl, rfl, rfl⟩, fun hn => absurd hn hs⟩

/-! ## C4: records without payload -/

/-- C4, counterexample: a record without matrix, marked failure-to-enroll, whose ImageID is
the text `ab`.  The text decodes to one byte, not 16, and `writeTemplate` aborts before it
writes anything: no header with algorithm id 0 is written. -/
theorem utGallery_writeTemplate_no_payload_counterexample :
    (⟨⟨[97], true, [("ImageID", .byteArray [97, 98])]⟩, []⟩ : Template).isEmpty = true
    ∧ (⟨⟨[97], true, [("ImageID", .byteArray [97, 98])]⟩, []⟩ : Template).file.fte = true
    ∧ fromHex ((⟨⟨[97], true, [("ImageID", .byteArray [97, 98])]⟩, []⟩ : Template).file.getByteArrayD
        "ImageID" (List.replicate 32 48)) = [171]
    ∧ utGallery.writeTemplate ⟨⟨[97], true, [("ImageID", .byteArray [97, 98])]⟩, []⟩ = .fatal := by
  decide

/-- C4, amended: a record whose ImageID decodes to 16 bytes, as `writeTemplate` demands,
and that is empty, is marked failure-to-enroll or has algorithm id 0 is written as the 48
header bytes with algorithm id 0 and feature-section length 0, followed by the URL section
and nothing else, whatever matrix the record carries. -/
theorem utGallery_writeTemplate_no_payload (t : Template)
    (hid : (fromHex (t.file.getByteArrayD "ImageID" (List.replicate 32 48))).length = 16)
    (h : t.isEmpty = true ∨ t.file.fte = true ∨ t.file.getInt32 "AlgorithmID" = .ok 0) :
    ∃ out, utGallery.writeTemplate t = .ok out
      ∧ out = fromHex (t.file.getByteArrayD "ImageID" (List.replicate 32 48))
        ++ le32 0 ++ le32 (t.file.getUInt32D "X" 0) ++ le32 (t.file.getUInt32D "Y" 0)
        ++ le32 (t.file.getUInt32D "Width" 0) ++ le32 (t.file.getUInt32D "Height" 0)
        ++ le32 (t.file.getUInt32D "Label" 0)
        ++ le32 (((toLatin1 (t.file.getStringD "URL" t.file.name)).length + 1) % 4294967296)
        ++ le32 0
        ++ (toLatin1 (t.file.getStringD "URL" t.file.name) ++ [0]).take
            (((toLatin1 (t.file.getStringD "URL" t.file.name)).length + 1) % 4294967296)
      ∧ toInt32 (u32At out 16) = 0
      ∧ u32At out 44 = 0
      ∧ out.length = 48 + ((toLatin1 (t.file.getStringD "URL" t.file.name) ++ [0]).take
            (((toLatin1 (t.file.getStringD "URL" t.file.name)).length + 1) % 4294967296)).length := by
  have halg : utGallery.algorithmID t = .ok 0 := by
    unfold utGallery.algorithmID
    by_cases hc : (t.isEmpty || t.file.fte) = true
    · simp [hc]
    · rcases h with h | h | h
      · simp [h] at hc
      · simp [h] at hc
      · simp [hc, h]
  have hbox := utGallery.boxAndHeader_plain t 0 (by decide)
  have hsig : utGallery.signature t 0 = .ok [] := by simp [utGallery.signature]
  have hw := utGallery.writeTemplate_eq t 0 _ _ _ _ _ _ hid halg hbox hsig
  have h00 : ofInt32 0 = 0 := by decide
  simp only [ne_eq, not_true_eq_false, if_false, List.append_nil, List.length_nil, Nat.add_zero,
    Nat.zero_mod, h00] at hw
  refine ⟨_, hw, rfl, ?_, ?_, ?_⟩
  · rw [(header_fields _ 0 _ _ _ _ _ _ 0 _ hid).1]
    decide
  · rw [(header_fields _ 0 _ _ _ _ _ _ 0 _ hid).2.2.2.2.2.2.2.1]
  · rw [(header_fields _ 0 _ _ _ _ _ _ 0 _ hid).2.2.2.2.2.2.2.2.2]

/-- Witness for C4: a record marked failure-to-enroll
that carries algorithm id 5 and a matrix of three bytes. -/
theorem utGallery_writeTemplate_no_payload_witness :
    ((fromHex ((⟨⟨[97], true, [("AlgorithmID", .int 5)]⟩, [⟨1, 3, 1, [10, 20, 30]⟩]⟩ : Template).file.getByteArrayD
        "ImageID" (List.replicate 32 48))).length = 16
      ∧ ((⟨⟨[97], true, [("AlgorithmID", .int 5)]⟩, [⟨1, 3, 1, [10, 20, 30]⟩]⟩ : Template).isEmpty = true
        ∨ (⟨⟨[97], true, [("AlgorithmID", .int 5)]⟩, [⟨1, 3, 1, [10, 20, 30]⟩]⟩ : Template).file.fte = true
        ∨ (⟨⟨[97], true, [("AlgorithmID", .int 5)]⟩, [⟨1, 3, 1, [10, 20, 30]⟩]⟩ : Template).file.getInt32
            "AlgorithmID" = .ok 0))
    ∧ ∃ out, utGallery.writeTemplate ⟨⟨[97], true, [("AlgorithmID", .int 5)]⟩, [⟨1, 3, 1, [10, 20, 30]⟩]⟩
        = .ok out
      ∧ toInt32 (u32At out 16) = 0 ∧ u32At out 44 = 0 ∧ out.length = 48 + 2 :=
  ⟨⟨by decide, Or.inr (Or.inl rfl)⟩,
    (utGallery_writeTemplate_no_payload
      ⟨⟨[97], true, [("AlgorithmID", .int 5)]⟩, [⟨1, 3, 1, [10, 20, 30]⟩]⟩ (by decide)
      (Or.inr (Or.inl rfl))).imp
      (fun _ h => ⟨h.1, h.2.2.1, h.2.2.2.1, h.2.2.2.2.trans (by decide)⟩)⟩


/-! ## Records with a payload -/

theorem toLatin1_length (s : QString) : (toLatin1 s).length = s.length := by
  simp [toLatin1]

theorem Template.isEmpty_of_m (t : Template) (m : Mat) (hm : t.m = some m) : t.isEmpty = false := by
  unfold Template.m at hm
  unfold Template.isEmpty
  cases hl : t.mats with
  | nil => rw [hl] at hm; simp at hm
  | cons a l => rfl

/-- The output of `writeTemplate` for a record that is not marked failure-to-enroll and
carries a non-zero algorithm id `a` and a continuous matrix `m` of fewer than `2^32`
bytes: no bound on the sum of the eye block and the matrix is assumed. -/
theorem utGallery.writeTemplate_of_mat (t : Template) (a : Int) (m : Mat) (x y width height : Nat)
    (header : List Byte)
    (hid : (fromHex (t.file.getByteArrayD "ImageID" (List.replicate 32 48))).length = 16)
    (hf : t.file.fte = false)
    (ha : t.file.value "AlgorithmID" = some (.int a))
    (hlo : -2147483648 ≤ a) (hhi : a < 2147483648) (hne : a ≠ 0)
    (hbox : utGallery.boxAndHeader t a = .ok (x, y, width, height, header))
    (hm : t.m = some m) (hint : m.rows * m.cols < 2147483648)
    (hcont : m.data.length = m.rows * m.cols * m.elemSize) (hlt : m.data.length < 4294967296) :
    utGallery.writeTemplate t = .ok
      (fromHex (t.file.getByteArrayD "ImageID" (List.replicate 32 48))
        ++ le32 (ofInt32 a) ++ le32 x ++ le32 y ++ le32 width ++ le32 height
        ++ le32 (t.file.getUInt32D "Label" 0)
        ++ le32 (((toLatin1 (t.file.getStringD "URL" t.file.name)).length + 1) % 4294967296)
        ++ le32 ((header.length + m.data.length) % 4294967296)
        ++ (toLatin1 (t.file.getStringD "URL" t.file.name) ++ [0]).take
            (((toLatin1 (t.file.getStringD "URL" t.file.name)).length + 1) % 4294967296)
        ++ (header ++ m.data)) := by
  have halg := utGallery.algorithmID_of_value t a (Template.isEmpty_of_m t m hm) hf ha
  rw [toInt32_ofInt32 a hlo hhi] at halg
  have hsig := utGallery.signature_of_mat t a m hne hm hint hcont hlt
  have hw := utGallery.writeTemplate_eq t a x y width height header m.data hid halg hbox hsig
  simp only [ne_eq, hne, not_false_eq_true, if_true] at hw
  exact hw

/-- The length fields and the length of the output of `writeTemplate_of_mat`. -/
theorem utGallery.writeTemplate_of_mat_fields (t : Template) (a : Int) (m : Mat)
    (x y width height : Nat) (header : List Byte)
    (hid : (fromHex (t.file.getByteArrayD "ImageID" (List.replicate 32 48))).length = 16)
    (hf : t.file.fte = false)
    (ha : t.file.value "AlgorithmID" = some (.int a))
    (hlo : -2147483648 ≤ a) (hhi : a < 2147483648) (hne : a ≠ 0)
    (hbox : utGallery.boxAndHeader t a = .ok (x, y, width, height, header))
    (hm : t.m = some m) (hint : m.rows * m.cols < 2147483648)
    (hcont : m.data.length = m.rows * m.cols * m.elemSize) (hlt : m.data.length < 4294967296) :
    ∃ out, utGallery.writeTemplate t = .ok out
      ∧ u32At out 40 = ((t.file.getStringD "URL" t.file.name).length + 1) % 4294967296
      ∧ u32At out 44 = (header.length + m.data.length) % 4294967296
      ∧ out.length = 48
          + min (((t.file.getStringD "URL" t.file.name).length + 1) % 4294967296)
              ((t.file.getStringD "URL" t.file.name).length + 1)
          + (header.length + m.data.length) := by
  refine ⟨_, utGallery.writeTemplate_of_mat t a m x y width height header hid hf ha hlo hhi hne
    hbox hm hint hcont hlt, ?_, ?_, ?_⟩
  · rw [List.append_assoc _ _ (header ++ m.data),
      (header_fields _ _ _ _ _ _ _ _ _ _ hid).2.2.2.2.2.2.1, toLatin1_length, Nat.mod_mod]
  · rw [List.append_assoc _ _ (header ++ m.data),
      (header_fields _ _ _ _ _ _ _ _ _ _ hid).2.2.2.2.2.2.2.1, Nat.mod_mod]
  · rw [List.append_assoc _ _ (header ++ m.data),
      (header_fields _ _ _ _ _ _ _ _ _ _ hid).2.2.2.2.2.2.2.2.2]
    simp only [List.length_append, List.length_take, toLatin1_length, List.length_cons,
      List.length_nil]
    omega

/-! ## C2: the byte layout -/

theorem utGallery.signature_zero (t : Template) (sig : List Byte)
    (h : utGallery.signature t 0 = .ok sig) : sig = [] := by
  simp only [utGallery.signature, if_true, Outcome.ok.injEq] at h
  exact h.symm

/-- C8: when the 48 header bytes arrive in one read, the record that `readTemplate` returns
(and the position it leaves the device at, and whether it fails) is the same for every
way in which the device hands out the following bytes as positive-length reads as it
is when every read delivers all it is asked for. -/
theorem utGallery_readTemplate_chunked_reads (bytes : List Byte) (pos c : Nat) (chunks : List Nat)
    (hc : 48 ≤ c) (hpos : ∀ k ∈ chunks, 0 < k) :
    Outcome.map (fun r => (r.1, r.2.pos)) (utGallery.readTemplate ⟨bytes, pos, c :: chunks⟩)
      = Outcome.map (fun r => (r.1, r.2.pos)) (utGallery.readTemplate ⟨bytes, pos, []⟩) := by
  rw [utGallery.readTemplate_spec ⟨bytes, pos, c :: chunks⟩
      (by intro k hk; simp at hk; omega) (by simpa using hpos),
    utGallery.readTemplate_spec ⟨bytes, pos, []⟩ (by simp) (by simp)]

/-- Witness for C8: a record with a two-byte URL section
and a two-byte feature section, delivered as reads of 48, 1, 2 and 1 bytes. -/
theorem utGallery_readTemplate_chunked_reads_witness :
    (48 ≤ 48 ∧ ∀ k ∈ [1, 2, 5], 0 < k)
    ∧ Outcome.map (fun r => (r.1, r.2.pos)) (utGallery.readTemplate
        ⟨[0, 0, 0, 0, 0, 0, 0, 0, 0, 0, 0, 0, 0, 0, 0, 0, 1, 0, 0, 0,
          0, 0, 0, 0, 0, 0, 0, 0, 0, 0, 0, 0, 0, 0, 0, 0, 0, 0, 0, 0,
          2, 0, 0, 0, 2, 0, 0, 0, 65, 0, 7, 8], 0, 48 :: [1, 2, 5]⟩)
      = Outcome.map (fun r => (r.1, r.2.pos)) (utGallery.readTemplate
        ⟨[0, 0, 0, 0, 0, 0, 0, 0, 0, 0, 0, 0, 0, 0, 0, 0, 1, 0, 0, 0,
          0, 0, 0, 0, 0, 0, 0, 0, 0, 0, 0, 0, 0, 0, 0, 0, 0, 0, 0, 0,
          2, 0, 0, 0, 2, 0, 0, 0, 65, 0, 7, 8], 0, []⟩) :=
  ⟨⟨by decide, by decide⟩,
    utGallery_readTemplate_chunked_reads _ 0 48 [1, 2, 5] (by decide) (by decide)⟩

/-! ## Reading what was written -/

/-- Reading a record whose header was written field by field. -/
theorem utGallery.readTemplate_written (id : List Byte) (a x y w h l us fs : Nat)
    (body : List Byte) (hid : id.length = 16) :
    Outcome.map (fun r => (r.1, r.2.pos)) (utGallery.readTemplate
      ⟨id ++ le32 a ++ le32 x ++ le32 y ++ le32 w ++ le32 h ++ le32 l ++ le32 us ++ le32 fs
        ++ body, 0, []⟩)
    = if 2147483648 ≤ (us % 4294967296 + fs % 4294967296) % 4294967296 then .undefined
      else if (us % 4294967296 + fs % 4294967296) % 4294967296 ≤ body.length then
        Outcome.map
          (fun t => (t, 48 + (us % 4294967296 + fs % 4294967296) % 4294967296))
          (utGallery.buildTemplate
            ⟨id, toInt32 (a % 4294967296), x % 4294967296, y % 4294967296, w % 4294967296,
              h % 4294967296, l % 4294967296, us % 4294967296, fs % 4294967296⟩
            (body.take ((us % 4294967296 + fs % 4294967296) % 4294967296)))
      else .fatal := by
  rw [utGallery.readTemplate_spec _ (by simp) (by simp)]
  obtain ⟨htake, hdrop⟩ := header_split id a x y w h l us fs body hid
  have hlen := (header_fields id a x y w h l us fs body hid).2.2.2.2.2.2.2.2.2
  have hlen2 : (id ++ le32 a ++ le32 x ++ le32 y ++ le32 w ++ le32 h ++ le32 l ++ le32 us
      ++ le32 fs).length = 48 := by
    simp only [List.length_append, le32_length, hid]
  simp only [List.drop_zero, Nat.zero_add, htake, hdrop, hlen, hlen2, if_true,
    ofBytes_header id a x y w h l us fs hid, Nat.add_sub_cancel_left]

theorem bytesAt_mid (data pre mid post : List Byte) (off n : Nat) (hdata : data = pre ++ mid ++ post)
    (hoff : off = pre.length) (hn : n = mid.length) : bytesAt data off n = .ok mid := by
  subst hdata hoff hn
  unfold bytesAt
  have hle : pre.length + mid.length ≤ (pre ++ mid ++ post).length := by
    simp only [List.length_append]; omega
  rw [if_pos hle, List.append_assoc, List.drop_left, List.take_left]

theorem cString_append_nul (u rest : List Byte) (hu : ∀ b ∈ u, b ≠ 0) :
    cString (u ++ [0] ++ rest) = u := by
  unfold cString
  induction u with
  | nil => simp [List.takeWhile]
  | cons b u ih =>
    have hb : b ≠ 0 := hu b (by simp)
    have hb2 : (b != 0) = true := by simp [hb]
    simp only [List.cons_append, List.takeWhile_cons, hb2, if_true, List.cons.injEq, true_and]
    exact ih (fun c hc => hu c (by simp [hc]))

theorem decodeUtf8_ascii (u : List Byte) (hu : ∀ b ∈ u, b.val < 128) :
    decodeUtf8 u.length u = u.map (fun b => b.val) := by
  induction u with
  | nil => rfl
  | cons b u ih =>
    have hb : b.val < 128 := hu b (by simp)
    simp only [List.length_cons, decodeUtf8, utf8Char, hb, if_true, List.drop_zero,
      List.singleton_append, List.map_cons]
    rw [ih (fun c hc => hu c (by simp [hc]))]

theorem fromUtf8_ascii (u : List Byte) (hu : ∀ b ∈ u, b.val < 128) :
    fromUtf8 u = u.map (fun b => b.val) := by
  unfold fromUtf8
  split
  · rename_i rest
    have := hu 239 (by simp)
    exact absurd this (by decide)
  · exact decodeUtf8_ascii u hu

/-- A URL of 7-bit characters other than NUL comes back from the URL section unchanged. -/
theorem url_roundtrip (url : QString) (rest : List Byte) (hascii : ∀ c ∈ url, 0 < c ∧ c < 128) :
    fromUtf8 (cString (toLatin1 url ++ [0] ++ rest)) = url := by
  have hnz : ∀ b ∈ toLatin1 url, b ≠ 0 := by
    intro b hb
    simp only [toLatin1, List.mem_map] at hb
    obtain ⟨c, hc, rfl⟩ := hb
    obtain ⟨h0, h1⟩ := hascii c hc
    have h2 : c < 256 := by omega
    rw [if_pos h2]
    intro h
    have := congrArg Fin.val h
    simp [Fin.ofNat] at this
    omega
  have hlt : ∀ b ∈ toLatin1 url, b.val < 128 := by
    intro b hb
    simp only [toLatin1, List.mem_map] at hb
    obtain ⟨c, hc, rfl⟩ := hb
    obtain ⟨h0, h1⟩ := hascii c hc
    have h2 : c < 256 := by omega
    rw [if_pos h2]
    simp [Fin.ofNat]
    omega
  rw [cString_append_nul _ _ hnz, fromUtf8_ascii _ hlt]
  simp only [toLatin1, List.map_map]
  conv_rhs => rw [← List.map_id url]
  apply List.map_congr_left
  intro c hc
  obtain ⟨h0, h1⟩ := hascii c hc
  have h2 : c < 256 := by omega
  simp only [Function.comp_apply, if_pos h2, id]
  simp [Fin.ofNat]
  omega


/-! ## The record built by the reader -/

theorem eye_fields (a b c d : Nat) :
    u32At (le32 a ++ le32 b ++ le32 c ++ le32 d) 0 = a % 4294967296
    ∧ u32At (le32 a ++ le32 b ++ le32 c ++ le32 d) 4 = b % 4294967296
    ∧ u32At (le32 a ++ le32 b ++ le32 c ++ le32 d) 8 = c % 4294967296
    ∧ u32At (le32 a ++ le32 b ++ le32 c ++ le32 d) 12 = d % 4294967296 := by
  simp only [List.append_assoc]
  refine ⟨?_, ?_, ?_, ?_⟩
  · rw [u32At_le32]
  · rw [u32At_skip4 _ _ 0, u32At_le32]
  · rw [u32At_skip4 _ _ 4, u32At_skip4 _ _ 0, u32At_le32]
  · rw [u32At_skip4 _ _ 8, u32At_skip4 _ _ 4, u32At_skip4 _ _ 0]
    have := u32At_le32 d []
    rw [List.append_nil] at this
    exact this

/-- The record built from a header with an ordinary algorithm id and a buffer that holds
the URL section `u` and the feature section `payload`. -/
theorem utGallery.buildTemplate_plain (ut : br_universal_template) (u payload : List Byte)
    (hs : isSentinel ut.algorithmID = false) (hus : ut.urlSize = u.length)
    (hfs : ut.fvSize = payload.length) :
    ∃ t, utGallery.buildTemplate ut (u ++ payload) = .ok t
      ∧ t.m = some ⟨1, payload.length, 1, payload⟩
      ∧ t.file.value "ImageID" = some (.byteArray (toHex ut.imageID))
      ∧ t.file.value "AlgorithmID" = some (.int ut.algorithmID)
      ∧ t.file.value "URL" = some (.string (fromUtf8 (cString (u ++ payload))))
      ∧ t.file.value "X" = some (.int ut.x)
      ∧ t.file.value "Y" = some (.int ut.y)
      ∧ t.file.value "Width" = some (.int ut.width)
      ∧ t.file.value "Height" = some (.int ut.height)
      ∧ t.file.value "Label" = some (.int ut.label) := by
  have hp : bytesAt (u ++ payload) ut.urlSize ut.fvSize = .ok payload :=
    bytesAt_mid (u ++ payload) u payload [] _ _ (by simp) hus hfs
  unfold utGallery.buildTemplate
  simp only [hs, Bool.false_eq_true, if_false, hp, Outcome.bind_ok, Outcome.pure_eq]
  refine ⟨_, rfl, ?_, ?_, ?_, ?_, ?_, ?_, ?_, ?_, ?_⟩
  · simp [Template.m, Template.append, Template.null, hfs]
  all_goals simp [File.value, File.set, setEntry, Template.null, Template.append, List.lookup]

/-- The record built from a header with algorithm id -1, -2 or -3 and a buffer that holds
the URL section `u`, the four eye fields and the feature data `payload`. -/
theorem utGallery.buildTemplate_sentinel (ut : br_universal_template) (u payload : List Byte)
    (a b c d : Nat)
    (hs : isSentinel ut.algorithmID = true) (hus : ut.urlSize = u.length)
    (hfs : ut.fvSize = 16 + payload.length) (hlt : ut.fvSize < 4294967296) :
    ∃ t, utGallery.buildTemplate ut (u ++ (le32 a ++ le32 b ++ le32 c ++ le32 d ++ payload)) = .ok t
      ∧ t.m = some ⟨1, payload.length, 1, payload⟩
      ∧ t.file.value "ImageID" = some (.byteArray (toHex ut.imageID))
      ∧ t.file.value "AlgorithmID" = some (.int ut.algorithmID)
      ∧ t.file.value "URL" = some (.string (fromUtf8 (cString
          (u ++ (le32 a ++ le32 b ++ le32 c ++ le32 d ++ payload)))))
      ∧ t.file.value "FrontalFace" = some (.rectF (QReal.ofUInt32 ut.x) (QReal.ofUInt32 ut.y)
          (QReal.ofUInt32 ut.width) (QReal.ofUInt32 ut.height))
      ∧ t.file.value "First_Eye" = some (.pointF (QReal.ofUInt32 (a % 4294967296))
          (QReal.ofUInt32 (b % 4294967296)))
      ∧ t.file.value "Second_Eye" = some (.pointF (QReal.ofUInt32 (c % 4294967296))
          (QReal.ofUInt32 (d % 4294967296)))
      ∧ t.file.value "Label" = some (.int ut.label) := by
  have he : bytesAt (u ++ (le32 a ++ le32 b ++ le32 c ++ le32 d ++ payload)) ut.urlSize 16
      = .ok (le32 a ++ le32 b ++ le32 c ++ le32 d) :=
    bytesAt_mid _ u (le32 a ++ le32 b ++ le32 c ++ le32 d) payload _ _
      (by simp only [List.append_assoc]) hus (by simp [le32_length])
  have hsz : (ut.fvSize + 4294967296 - 16) % 4294967296 = payload.length := by omega
  have hp : bytesAt (u ++ (le32 a ++ le32 b ++ le32 c ++ le32 d ++ payload)) (ut.urlSize + 16)
      payload.length = .ok payload :=
    bytesAt_mid _ (u ++ (le32 a ++ le32 b ++ le32 c ++ le32 d)) payload [] _ _
      (by simp only [List.append_assoc, List.append_nil])
      (by simp [le32_length, hus]) rfl
  obtain ⟨e0, e4, e8, e12⟩ := eye_fields a b c d
  unfold utGallery.buildTemplate
  simp only [hs, if_true, he, hsz, hp, Outcome.bind_ok, Outcome.pure_eq, e0, e4, e8, e12]
  refine ⟨_, rfl, ?_, ?_, ?_, ?_, ?_, ?_, ?_, ?_⟩
  · simp [Template.m, Template.append, Template.null]
  all_goals simp [File.value, File.set, setEntry, Template.null, Template.append, List.lookup]


/-! ## Writing, then reading -/

theorem Outcome.map_pos_eq_ok (x : Outcome (Template × QFile)) (t : Template) (p : Nat)
    (h : Outcome.map (fun r => (r.1, r.2.pos)) x = .ok (t, p)) : ∃ g, x = .ok (t, g) := by
  cases x with
  | ok r =>
    simp only [Outcome.map_ok, Outcome.ok.injEq, Prod.mk.injEq] at h
    exact ⟨r.2, by rw [← h.1]⟩
  | fatal => simp at h
  | undefined => simp at h

theorem Outcome.map_pos_eq_undefined (x : Outcome (Template × QFile))
    (h : Outcome.map (fun r => (r.1, r.2.pos)) x = .undefined) : x = .undefined := by
  cases x with
  | ok r => simp at h
  | fatal => simp at h
  | undefined => rfl

/-- A record with a non-zero algorithm id and a matrix is written and read back: the reader
builds its record from the header fields the writer stored and from a buffer that holds
the URL, a NUL, the eye block `header` (if any) and the bytes of the matrix. -/
theorem utGallery.write_then_read (t : Template) (a : Int) (m : Mat) (x y width height : Nat)
    (header : List Byte)
    (hid : (fromHex (t.file.getByteArrayD "ImageID" (List.replicate 32 48))).length = 16)
    (hf : t.file.fte = false)
    (ha : t.file.value "AlgorithmID" = some (.int a))
    (hlo : -2147483648 ≤ a) (hhi : a < 2147483648) (hne : a ≠ 0)
    (hbox : utGallery.boxAndHeader t a = .ok (x, y, width, height, header))
    (hx : x < 4294967296) (hy : y < 4294967296) (hw : width < 4294967296)
    (hh : height < 4294967296)
    (hm : t.m = some m) (hint : m.rows * m.cols < 2147483648)
    (hcont : m.data.length = m.rows * m.cols * m.elemSize)
    (hsize : (t.file.getStringD "URL" t.file.name).length + 1 + header.length + m.data.length
      < 2147483648) :
    ∃ out, utGallery.writeTemplate t = .ok out
      ∧ u32At out 44 = header.length + m.data.length
      ∧ ∀ t2, utGallery.buildTemplate
          ⟨fromHex (t.file.getByteArrayD "ImageID" (List.replicate 32 48)), a, x, y, width, height,
            t.file.getUInt32D "Label" 0,
            (toLatin1 (t.file.getStringD "URL" t.file.name) ++ [0]).length,
            header.length + m.data.length⟩
          ((toLatin1 (t.file.getStringD "URL" t.file.name) ++ [0]) ++ (header ++ m.data))
        = .ok t2 → ∃ g2, utGallery.readTemplate ⟨out, 0, []⟩ = .ok (t2, g2) := by
  have hul : (toLatin1 (t.file.getStringD "URL" t.file.name)).length
      = (t.file.getStringD "URL" t.file.name).length := toLatin1_length _
  have hw1 := utGallery.writeTemplate_of_mat t a m x y width height header hid hf ha hlo hhi hne
    hbox hm hint hcont (by omega)
  have hmod1 : ((toLatin1 (t.file.getStringD "URL" t.file.name)).length + 1) % 4294967296
      = (toLatin1 (t.file.getStringD "URL" t.file.name)).length + 1 :=
    Nat.mod_eq_of_lt (by omega)
  have hmod2 : (header.length + m.data.length) % 4294967296 = header.length + m.data.length :=
    Nat.mod_eq_of_lt (by omega)
  have htake : (toLatin1 (t.file.getStringD "URL" t.file.name) ++ [0]).take
      ((toLatin1 (t.file.getStringD "URL" t.file.name)).length + 1)
      = toLatin1 (t.file.getStringD "URL" t.file.name) ++ [0] :=
    List.take_of_length_le (by simp)
  rw [hmod1, hmod2, htake, List.append_assoc _ _ (header ++ m.data)] at hw1
  have hr := utGallery.readTemplate_written
    (fromHex (t.file.getByteArrayD "ImageID" (List.replicate 32 48))) (ofInt32 a) x y width height
    (t.file.getUInt32D "Label" 0) ((toLatin1 (t.file.getStringD "URL" t.file.name)).length + 1)
    (header.length + m.data.length)
    ((toLatin1 (t.file.getStringD "URL" t.file.name) ++ [0]) ++ (header ++ m.data)) hid
  have hl := File.getUInt32D_lt t.file "Label"
  have hbody : ((toLatin1 (t.file.getStringD "URL" t.file.name) ++ [0]) ++ (header ++ m.data)).length
      = (toLatin1 (t.file.getStringD "URL" t.file.name)).length + 1 + (header.length + m.data.length) := by
    simp only [List.length_append, List.length_cons, List.length_nil]
  have htot : (((toLatin1 (t.file.getStringD "URL" t.file.name)).length + 1) % 4294967296
      + (header.length + m.data.length) % 4294967296) % 4294967296
      = (toLatin1 (t.file.getStringD "URL" t.file.name)).length + 1
        + (header.length + m.data.length) := by
    rw [hmod1, hmod2]; exact Nat.mod_eq_of_lt (by omega)
  have hnot : ¬ 2147483648 ≤ (toLatin1 (t.file.getStringD "URL" t.file.name)).length + 1
      + (header.length + m.data.length) := by omega
  rw [htot, if_neg hnot, hbody, if_pos (le_refl _), ← hbody, List.take_length,
    Nat.mod_eq_of_lt (ofInt32_lt a), toInt32_ofInt32 a hlo hhi, Nat.mod_eq_of_lt hx,
    Nat.mod_eq_of_lt hy, Nat.mod_eq_of_lt hw, Nat.mod_eq_of_lt hh, Nat.mod_eq_of_lt hl, hmod1,
    hmod2] at hr
  have hlen1 : (toLatin1 (t.file.getStringD "URL" t.file.name) ++ [0]).length
      = (toLatin1 (t.file.getStringD "URL" t.file.name)).length + 1 := by simp
  rw [hlen1]
  refine ⟨_, hw1, ?_, ?_⟩
  · rw [(header_fields _ _ _ _ _ _ _ _ _ _ hid).2.2.2.2.2.2.2.1, hmod2]
  · intro t2 hb
    rw [hb, Outcome.map_ok] at hr
    exact Outcome.map_pos_eq_ok _ _ _ hr


/-- A record whose URL section and feature section together take `2^31` bytes or more (and
fewer than `2^32`) is written, but reading it back builds a buffer of negative size. -/
theorem utGallery.write_then_read_big (t : Template) (a : Int) (m : Mat) (x y width height : Nat)
    (header : List Byte)
    (hid : (fromHex (t.file.getByteArrayD "ImageID" (List.replicate 32 48))).length = 16)
    (hf : t.file.fte = false)
    (ha : t.file.value "AlgorithmID" = some (.int a))
    (hlo : -2147483648 ≤ a) (hhi : a < 2147483648) (hne : a ≠ 0)
    (hbox : utGallery.boxAndHeader t a = .ok (x, y, width, height, header))
    (hm : t.m = some m) (hint : m.rows * m.cols < 2147483648)
    (hcont : m.data.length = m.rows * m.cols * m.elemSize)
    (hbig : 2147483648 ≤ (t.file.getStringD "URL" t.file.name).length + 1 + header.length
      + m.data.length)
    (hsize : (t.file.getStringD "URL" t.file.name).length + 1 + header.length + m.data.length
      < 4294967296) :
    ∃ out, utGallery.writeTemplate t = .ok out
      ∧ u32At out 44 = header.length + m.data.length
      ∧ utGallery.readTemplate ⟨out, 0, []⟩ = .undefined := by
  have hul : (toLatin1 (t.file.getStringD "URL" t.file.name)).length
      = (t.file.getStringD "URL" t.file.name).length := toLatin1_length _
  have hw1 := utGallery.writeTemplate_of_mat t a m x y width height header hid hf ha hlo hhi hne
    hbox hm hint hcont (by omega)
  have hmod1 : ((toLatin1 (t.file.getStringD "URL" t.file.name)).length + 1) % 4294967296
      = (toLatin1 (t.file.getStringD "URL" t.file.name)).length + 1 :=
    Nat.mod_eq_of_lt (by omega)
  have hmod2 : (header.length + m.data.length) % 4294967296 = header.length + m.data.length :=
    Nat.mod_eq_of_lt (by omega)
  have hr := utGallery.readTemplate_written
    (fromHex (t.file.getByteArrayD "ImageID" (List.replicate 32 48))) (ofInt32 a) x y width height
    (t.file.getUInt32D "Label" 0)
    (((toLatin1 (t.file.getStringD "URL" t.file.name)).length + 1) % 4294967296)
    ((header.length + m.data.length) % 4294967296)
    ((toLatin1 (t.file.getStringD "URL" t.file.name) ++ [0]).take
        (((toLatin1 (t.file.getStringD "URL" t.file.name)).length + 1) % 4294967296)
      ++ (header ++ m.data)) hid
  have htot : ((((toLatin1 (t.file.getStringD "URL" t.file.name)).length + 1) % 4294967296)
        % 4294967296
      + ((header.length + m.data.length) % 4294967296) % 4294967296) % 4294967296
      = (toLatin1 (t.file.getStringD "URL" t.file.name)).length + 1
        + (header.length + m.data.length) := by
    rw [hmod1, hmod2, hmod1, hmod2]; exact Nat.mod_eq_of_lt (by omega)
  have hge : 2147483648 ≤ (toLatin1 (t.file.getStringD "URL" t.file.name)).length + 1
      + (header.length + m.data.length) := by omega
  rw [htot, if_pos hge, ← List.append_assoc _ _ (header ++ m.data)] at hr
  refine ⟨_, hw1, ?_, Outcome.map_pos_eq_undefined _ hr⟩
  rw [List.append_assoc _ _ (header ++ m.data),
    (header_fields _ _ _ _ _ _ _ _ _ _ hid).2.2.2.2.2.2.2.1, Nat.mod_mod, hmod2]

/-! ## C3: sentinel algorithm ids -/

/-- C3, as stated, fails.  (1) A record with algorithm id -2 whose First_Eye is (1/2, 0)
is read back with First_Eye (0, 0): the writer stores the coordinates as `uint32_t`.
(2) A record with algorithm id -2, an empty URL and K = 2^31 - 17 bytes of feature data
is written with feature-section length 16 + K, but `readTemplate` then asks for a buffer
of 2^31 bytes through an `int`, which is a negative size. -/
theorem utGallery_sentinel_counterexample :
    ((utGallery.writeTemplate
        ⟨⟨[], false, [("AlgorithmID", .int (-2)), ("FrontalFace", .rectF ⟨1, 0⟩ ⟨2, 0⟩ ⟨3, 0⟩ ⟨4, 0⟩),
          ("First_Eye", .pointF ⟨1, 1⟩ ⟨0, 0⟩), ("Second_Eye", .pointF ⟨7, 0⟩ ⟨8, 0⟩)]⟩,
          [⟨1, 3, 1, [10, 20, 30]⟩]⟩).bind
        (fun out => (utGallery.readTemplate ⟨out, 0, []⟩).map
          (fun r => r.1.file.value "First_Eye"))
      = .ok (some (.pointF ⟨0, 0⟩ ⟨0, 0⟩)))
    ∧ ∃ out,
      utGallery.writeTemplate
        ⟨⟨[], false, [("AlgorithmID", .int (-2)), ("FrontalFace", .rectF ⟨1, 0⟩ ⟨2, 0⟩ ⟨3, 0⟩ ⟨4, 0⟩),
          ("First_Eye", .pointF ⟨5, 0⟩ ⟨6, 0⟩), ("Second_Eye", .pointF ⟨7, 0⟩ ⟨8, 0⟩)]⟩,
          [⟨1, 2147483631, 1, List.replicate 2147483631 0⟩]⟩ = .ok out
      ∧ u32At out 44 = 16 + 2147483631
      ∧ utGallery.readTemplate ⟨out, 0, []⟩ = .undefined := by
  refine ⟨by decide, ?_⟩
  have hdata : (⟨1, 2147483631, 1, List.replicate 2147483631 0⟩ : Mat).data.length = 2147483631 :=
    List.length_replicate _ _
  obtain ⟨out, hw, h44, hr⟩ := utGallery.write_then_read_big
    ⟨⟨[], false, [("AlgorithmID", .int (-2)), ("FrontalFace", .rectF ⟨1, 0⟩ ⟨2, 0⟩ ⟨3, 0⟩ ⟨4, 0⟩),
      ("First_Eye", .pointF ⟨5, 0⟩ ⟨6, 0⟩), ("Second_Eye", .pointF ⟨7, 0⟩ ⟨8, 0⟩)]⟩,
      [⟨1, 2147483631, 1, List.replicate 2147483631 0⟩]⟩
    (-2) ⟨1, 2147483631, 1, List.replicate 2147483631 0⟩
    _ _ _ _ _ (by decide) rfl rfl (by decide) (by decide) (by decide)
    (utGallery.boxAndHeader_sentinel _ (-2) ⟨1, 0⟩ ⟨2, 0⟩ ⟨3, 0⟩ ⟨4, 0⟩ ⟨5, 0⟩ ⟨6, 0⟩ ⟨7, 0⟩ ⟨8, 0⟩
      (by decide) rfl rfl rfl)
    rfl (by decide) hdata (by rw [hdata]; decide) (by rw [hdata]; decide)
  rw [hdata] at h44
  exact ⟨out, hw, h44, hr⟩

/-- C3, amended: a record that is not marked failure-to-enroll, with algorithm id -1, -2 or
-3, eye points with whole-number coordinates below 2^32 and a continuous matrix of K
bytes, where URL length + 1 + 16 + K < 2^31, is written with feature-section length
16 + K, and `readTemplate` on those bytes returns a record whose payload is exactly the
K bytes of the matrix and whose First_Eye and Second_Eye are the written points, in
that order. -/
theorem utGallery_sentinel_roundtrip (t : Template) (alg : Int) (m : Mat)
    (fx fy fw fh : QReal) (e1x e1y e2x e2y : Nat)
    (hid : (fromHex (t.file.getByteArrayD "ImageID" (List.replicate 32 48))).length = 16)
    (hf : t.file.fte = false)
    (ha : t.file.value "AlgorithmID" = some (.int alg))
    (hs : alg = -1 ∨ alg = -2 ∨ alg = -3)
    (hface : t.file.value "FrontalFace" = some (.rectF fx fy fw fh))
    (h1 : t.file.value "First_Eye" = some (.pointF (QReal.ofUInt32 e1x) (QReal.ofUInt32 e1y)))
    (h2 : t.file.value "Second_Eye" = some (.pointF (QReal.ofUInt32 e2x) (QReal.ofUInt32 e2y)))
    (he : e1x < 4294967296 ∧ e1y < 4294967296 ∧ e2x < 4294967296 ∧ e2y < 4294967296)
    (hm : t.m = some m) (helem : 0 < m.elemSize)
    (hcont : m.data.length = m.rows * m.cols * m.elemSize)
    (hsize : (t.file.getStringD "URL" t.file.name).length + 1 + 16 + m.data.length
      < 2147483648) :
    ∃ out t2 g2, utGallery.writeTemplate t = .ok out
      ∧ u32At out 44 = 16 + m.data.length
      ∧ utGallery.readTemplate ⟨out, 0, []⟩ = .ok (t2, g2)
      ∧ t2.m = some ⟨1, m.data.length, 1, m.data⟩
      ∧ t2.file.value "First_Eye" = some (.pointF (QReal.ofUInt32 e1x) (QReal.ofUInt32 e1y))
      ∧ t2.file.value "Second_Eye" = some (.pointF (QReal.ofUInt32 e2x) (QReal.ofUInt32 e2y)) := by
  have hsent : isSentinel alg = true := (isSentinel_iff alg).2 hs
  have hint : m.rows * m.cols < 2147483648 := by
    have := Nat.le_mul_of_pos_right (m.rows * m.cols) helem
    omega
  have hbox := utGallery.boxAndHeader_sentinel t alg fx fy fw fh _ _ _ _ hsent hface h1 h2
  rw [QReal.toUInt32_ofUInt32 e1x he.1, QReal.toUInt32_ofUInt32 e1y he.2.1,
    QReal.toUInt32_ofUInt32 e2x he.2.2.1, QReal.toUInt32_ofUInt32 e2y he.2.2.2] at hbox
  have hhl : (le32 e1x ++ le32 e1y ++ le32 e2x ++ le32 e2y).length = 16 := by
    simp [le32_length]
  obtain ⟨out, hw, h44, hread⟩ := utGallery.write_then_read t alg m _ _ _ _ _ hid hf ha
    (by omega) (by omega) (by omega) hbox (QReal.toUInt32_lt _) (QReal.toUInt32_lt _)
    (QReal.toUInt32_lt _) (QReal.toUInt32_lt _) hm hint hcont (by rw [hhl]; exact hsize)
  rw [hhl] at h44 hread
  obtain ⟨t2, hb, hmat, _, _, _, _, hfe, hse, _⟩ := utGallery.buildTemplate_sentinel
    ⟨fromHex (t.file.getByteArrayD "ImageID" (List.replicate 32 48)), alg, fx.toUInt32,
      fy.toUInt32, fw.toUInt32, fh.toUInt32, t.file.getUInt32D "Label" 0,
      (toLatin1 (t.file.getStringD "URL" t.file.name) ++ [0]).length, 16 + m.data.length⟩
    (toLatin1 (t.file.getStringD "URL" t.file.name) ++ [0]) m.data e1x e1y e2x e2y
    hsent rfl rfl (by show 16 + m.data.length < 4294967296; omega)
  obtain ⟨g2, hg⟩ := hread t2 hb
  rw [Nat.mod_eq_of_lt he.1, Nat.mod_eq_of_lt he.2.1] at hfe
  rw [Nat.mod_eq_of_lt he.2.2.1, Nat.mod_eq_of_lt he.2.2.2] at hse
  exact ⟨out, t2, g2, hw, h44, hg, hmat, hfe, hse⟩


/-- Witness for C3: the example record with algorithm id -2. -/
theorem utGallery_sentinel_roundtrip_witness :
    ((fromHex (utSentinelExample.file.getByteArrayD "ImageID" (List.replicate 32 48))).length = 16
      ∧ utSentinelExample.file.fte = false
      ∧ utSentinelExample.file.value "AlgorithmID" = some (.int (-2))
      ∧ ((-2 : Int) = -1 ∨ (-2 : Int) = -2 ∨ (-2 : Int) = -3)
      ∧ utSentinelExample.file.value "First_Eye"
          = some (.pointF (QReal.ofUInt32 5) (QReal.ofUInt32 6))
      ∧ utSentinelExample.file.value "Second_Eye"
          = some (.pointF (QReal.ofUInt32 7) (QReal.ofUInt32 8))
      ∧ utSentinelExample.m = some ⟨1, 3, 1, [10, 20, 30]⟩
      ∧ 0 < (⟨1, 3, 1, [10, 20, 30]⟩ : Mat).elemSize
      ∧ (utSentinelExample.file.getStringD "URL" utSentinelExample.file.name).length + 1 + 16
          + (⟨1, 3, 1, [10, 20, 30]⟩ : Mat).data.length < 2147483648)
    ∧ ∃ out t2 g2, utGallery.writeTemplate utSentinelExample = .ok out
      ∧ u32At out 44 = 16 + (⟨1, 3, 1, [10, 20, 30]⟩ : Mat).data.length
      ∧ utGallery.readTemplate ⟨out, 0, []⟩ = .ok (t2, g2)
      ∧ t2.m = some ⟨1, (⟨1, 3, 1, [10, 20, 30]⟩ : Mat).data.length, 1,
          (⟨1, 3, 1, [10, 20, 30]⟩ : Mat).data⟩
      ∧ t2.file.value "First_Eye" = some (.pointF (QReal.ofUInt32 5) (QReal.ofUInt32 6))
      ∧ t2.file.value "Second_Eye" = some (.pointF (QReal.ofUInt32 7) (QReal.ofUInt32 8)) :=
  ⟨⟨by decide, rfl, rfl, Or.inr (Or.inl rfl), rfl, rfl, rfl, by decide, by decide⟩,
    utGallery_sentinel_roundtrip utSentinelExample (-2) ⟨1, 3, 1, [10, 20, 30]⟩
      ⟨1, 0⟩ ⟨2, 0⟩ ⟨3, 0⟩ ⟨4, 0⟩ 5 6 7 8 (by decide) rfl rfl (Or.inr (Or.inl rfl)) rfl rfl rfl
      (by decide) rfl (by decide) rfl (by decide)⟩

/-! ## C1: the round trip -/

/-- C1, as stated, fails, in each of these ways.  (1) A record marked failure-to-enroll is
written without payload, so its three payload bytes are not read back.  (2) An ImageID
written with upper-case digits `AB00..0` is read back as `ab00..0`.  (3) The URL `é`
(U+00E9) is written as the byte 0xE9 and read back as U+FFFD.  (4) The URL `a`, NUL, `b`
is read back as `a`.  (5) The label -1 is read back as 4294967295, and so is X = -1.
(6) With algorithm id -2, a face rectangle at x = 1/2 is read back at x = 0, and a
Second_Eye at (7, 17/2) is read back at (7, 8).  (7) The AlgorithmID 2^32 is narrowed to
the `int32_t` 0, so the payload is not written.  (8) A record with an empty URL and a
matrix of 2^31 - 1 bytes is written, but reading it back asks for a buffer of 2^31 bytes
through an `int`. -/
theorem utGallery_roundtrip_counterexample :
    ((utGallery.writeTemplate { utExample with file := { utExample.file with fte := true } }).bind
        (fun out => (utGallery.readTemplate ⟨out, 0, []⟩).map (fun r => r.1.m))
      = .ok (some ⟨1, 0, 1, []⟩))
    ∧ ((utGallery.writeTemplate
          (⟨utExample.file.set "ImageID" (.byteArray ([65, 66] ++ List.replicate 30 48)),
            utExample.mats⟩)).bind
        (fun out => (utGallery.readTemplate ⟨out, 0, []⟩).map
          (fun r => r.1.file.value "ImageID"))
      = .ok (some (.byteArray ([97, 98] ++ List.replicate 30 48))))
    ∧ ((utGallery.writeTemplate (⟨utExample.file.set "URL" (.string [233]), utExample.mats⟩)).bind
        (fun out => (utGallery.readTemplate ⟨out, 0, []⟩).map (fun r => r.1.file.value "URL"))
      = .ok (some (.string [65533])))
    ∧ ((utGallery.writeTemplate
          (⟨utExample.file.set "URL" (.string [97, 0, 98]), utExample.mats⟩)).bind
        (fun out => (utGallery.readTemplate ⟨out, 0, []⟩).map (fun r => r.1.file.value "URL"))
      = .ok (some (.string [97])))
    ∧ ((utGallery.writeTemplate (⟨utExample.file.set "Label" (.int (-1)), utExample.mats⟩)).bind
        (fun out => (utGallery.readTemplate ⟨out, 0, []⟩).map (fun r => r.1.file.value "Label"))
      = .ok (some (.int 4294967295)))
    ∧ ((utGallery.writeTemplate
          (⟨utSentinelExample.file.set "FrontalFace" (.rectF ⟨1, 1⟩ ⟨2, 0⟩ ⟨3, 0⟩ ⟨4, 0⟩),
            utSentinelExample.mats⟩)).bind
        (fun out => (utGallery.readTemplate ⟨out, 0, []⟩).map
          (fun r => r.1.file.value "FrontalFace"))
      = .ok (some (.rectF ⟨0, 0⟩ ⟨2, 0⟩ ⟨3, 0⟩ ⟨4, 0⟩)))
    ∧ ((utGallery.writeTemplate (⟨utExample.file.set "X" (.int (-1)), utExample.mats⟩)).bind
        (fun out => (utGallery.readTemplate ⟨out, 0, []⟩).map (fun r => r.1.file.value "X"))
      = .ok (some (.int 4294967295)))
    ∧ ((utGallery.writeTemplate
          (⟨utSentinelExample.file.set "Second_Eye" (.pointF ⟨7, 0⟩ ⟨17, 1⟩),
            utSentinelExample.mats⟩)).bind
        (fun out => (utGallery.readTemplate ⟨out, 0, []⟩).map
          (fun r => r.1.file.value "Second_Eye"))
      = .ok (some (.pointF ⟨7, 0⟩ ⟨8, 0⟩)))
    ∧ ((utGallery.writeTemplate
          (⟨utExample.file.set "AlgorithmID" (.int 4294967296), utExample.mats⟩)).bind
        (fun out => (utGallery.readTemplate ⟨out, 0, []⟩).map (fun r => r.1.m))
      = .ok (some ⟨1, 0, 1, []⟩))
    ∧ ∃ out,
      utGallery.writeTemplate
        ⟨⟨[], false, [("AlgorithmID", .int 5)]⟩,
          [⟨1, 2147483647, 1, List.replicate 2147483647 0⟩]⟩ = .ok out
      ∧ utGallery.readTemplate ⟨out, 0, []⟩ = .undefined := by
  refine ⟨by decide, by decide, by decide, by decide, by decide, by decide, by decide,
    by decide, by decide, ?_⟩
  have hdata : (⟨1, 2147483647, 1, List.replicate 2147483647 0⟩ : Mat).data.length = 2147483647 :=
    List.length_replicate _ _
  obtain ⟨out, hw, _, hr⟩ := utGallery.write_then_read_big
    ⟨⟨[], false, [("AlgorithmID", .int 5)]⟩, [⟨1, 2147483647, 1, List.replicate 2147483647 0⟩]⟩
    5 ⟨1, 2147483647, 1, List.replicate 2147483647 0⟩
    _ _ _ _ _ (by decide) rfl rfl (by decide) (by decide) (by decide)
    (utGallery.boxAndHeader_plain _ 5 (by decide))
    rfl (by decide) hdata (by rw [hdata]; decide) (by rw [hdata]; decide)
  exact ⟨out, hw, hr⟩


/-- C1, amended: a record that is not marked failure-to-enroll, with an ImageID of 32
lower-case hexadecimal digits (the rendering of 16 bytes), a non-zero AlgorithmID in the
`int32_t` range, a Label in `[0, 2^32)`, a URL of 7-bit characters other than NUL, a
bounding box (X, Y, Width, Height in `[0, 2^32)`; or, for AlgorithmID -1, -2 or -3, a
FrontalFace and two eye points with whole-number coordinates in `[0, 2^32)`) and a
continuous matrix, with URL length + 1 + matrix bytes (+ 16 for the eye block) below
2^31, is written by `writeTemplate`, and `readTemplate` on those bytes returns a record
with the same ImageID, Label, URL, bounding box (or face and eye points) and payload
bytes. -/
theorem utGallery_roundtrip (t : Template) (id : List Byte) (alg : Int) (label : Nat)
    (url : QString) (m : Mat)
    (hid : t.file.value "ImageID" = some (.byteArray (toHex id))) (hidlen : id.length = 16)
    (hf : t.file.fte = false)
    (ha : t.file.value "AlgorithmID" = some (.int alg))
    (hlo : -2147483648 ≤ alg) (hhi : alg < 2147483648) (hne : alg ≠ 0)
    (hlabel : t.file.value "Label" = some (.int (label : Int))) (hl : label < 4294967296)
    (hurl : t.file.value "URL" = some (.string url)) (hascii : ∀ c ∈ url, 0 < c ∧ c < 128)
    (hplain : isSentinel alg = false →
      ∃ x y w h : Nat, x < 4294967296 ∧ y < 4294967296 ∧ w < 4294967296 ∧ h < 4294967296
        ∧ t.file.value "X" = some (.int (x : Int)) ∧ t.file.value "Y" = some (.int (y : Int))
        ∧ t.file.value "Width" = some (.int (w : Int))
        ∧ t.file.value "Height" = some (.int (h : Int)))
    (hsent : isSentinel alg = true →
      ∃ fx fy fw fh e1x e1y e2x e2y : Nat,
        (fx < 4294967296 ∧ fy < 4294967296 ∧ fw < 4294967296 ∧ fh < 4294967296)
        ∧ (e1x < 4294967296 ∧ e1y < 4294967296 ∧ e2x < 4294967296 ∧ e2y < 4294967296)
        ∧ t.file.value "FrontalFace" = some (.rectF (QReal.ofUInt32 fx) (QReal.ofUInt32 fy)
            (QReal.ofUInt32 fw) (QReal.ofUInt32 fh))
        ∧ t.file.value "First_Eye" = some (.pointF (QReal.ofUInt32 e1x) (QReal.ofUInt32 e1y))
        ∧ t.file.value "Second_Eye" = some (.pointF (QReal.ofUInt32 e2x) (QReal.ofUInt32 e2y)))
    (hm : t.m = some m) (helem : 0 < m.elemSize)
    (hcont : m.data.length = m.rows * m.cols * m.elemSize)
    (hsize : url.length + 1 + (if isSentinel alg = true then 16 else 0) + m.data.length
      < 2147483648) :
    ∃ out t2 g2, utGallery.writeTemplate t = .ok out
      ∧ utGallery.readTemplate ⟨out, 0, []⟩ = .ok (t2, g2)
      ∧ t2.file.value "ImageID" = t.file.value "ImageID"
      ∧ t2.file.value "Label" = t.file.value "Label"
      ∧ t2.file.value "URL" = t.file.value "URL"
      ∧ (isSentinel alg = false →
          t2.file.value "X" = t.file.value "X" ∧ t2.file.value "Y" = t.file.value "Y"
          ∧ t2.file.value "Width" = t.file.value "Width"
          ∧ t2.file.value "Height" = t.file.value "Height")
      ∧ (isSentinel alg = true →
          t2.file.value "FrontalFace" = t.file.value "FrontalFace"
          ∧ t2.file.value "First_Eye" = t.file.value "First_Eye"
          ∧ t2.file.value "Second_Eye" = t.file.value "Second_Eye")
      ∧ t2.m = some ⟨1, m.data.length, 1, m.data⟩ := by
  have hint : m.rows * m.cols < 2147483648 := by
    have := Nat.le_mul_of_pos_right (m.rows * m.cols) helem
    omega
  have hgid : t.file.getByteArrayD "ImageID" (List.replicate 32 48) = toHex id := by
    simp only [File.getByteArrayD, hid]
  have hgurl : t.file.getStringD "URL" t.file.name = url := by
    simp only [File.getStringD, hurl]
  have hglabel : t.file.getUInt32D "Label" 0 = label := by
    simp only [File.getUInt32D, hlabel]
    exact ofInt32_ofNat label hl
  have hidl : (fromHex (t.file.getByteArrayD "ImageID" (List.replicate 32 48))).length = 16 := by
    rw [hgid, fromHex_toHex, hidlen]
  by_cases hs : isSentinel alg = true
  · obtain ⟨fx, fy, fw, fh, e1x, e1y, e2x, e2y, hfb, heb, hface, h1, h2⟩ := hsent hs
    have hbox := utGallery.boxAndHeader_sentinel t alg _ _ _ _ _ _ _ _ hs hface h1 h2
    rw [QReal.toUInt32_ofUInt32 e1x heb.1, QReal.toUInt32_ofUInt32 e1y heb.2.1,
      QReal.toUInt32_ofUInt32 e2x heb.2.2.1, QReal.toUInt32_ofUInt32 e2y heb.2.2.2,
      QReal.toUInt32_ofUInt32 fx hfb.1, QReal.toUInt32_ofUInt32 fy hfb.2.1,
      QReal.toUInt32_ofUInt32 fw hfb.2.2.1, QReal.toUInt32_ofUInt32 fh hfb.2.2.2] at hbox
    have hhl : (le32 e1x ++ le32 e1y ++ le32 e2x ++ le32 e2y).length = 16 := by
      simp [le32_length]
    rw [if_pos hs] at hsize
    obtain ⟨out, hw, _, hread⟩ := utGallery.write_then_read t alg m _ _ _ _ _ hidl hf ha
      hlo hhi hne hbox hfb.1 hfb.2.1 hfb.2.2.1 hfb.2.2.2 hm hint hcont
      (by rw [hhl, hgurl]; exact hsize)
    rw [hhl, hgid, fromHex_toHex, hgurl, hglabel] at hread
    obtain ⟨t2, hb, hmat, hv1, _, hv3, hv4, hv5, hv6, hv7⟩ := utGallery.buildTemplate_sentinel
      ⟨id, alg, fx, fy, fw, fh, label, (toLatin1 url ++ [0]).length, 16 + m.data.length⟩
      (toLatin1 url ++ [0]) m.data e1x e1y e2x e2y
      hs rfl rfl (by show 16 + m.data.length < 4294967296; omega)
    obtain ⟨g2, hg⟩ := hread t2 hb
    rw [Nat.mod_eq_of_lt heb.1, Nat.mod_eq_of_lt heb.2.1] at hv5
    rw [Nat.mod_eq_of_lt heb.2.2.1, Nat.mod_eq_of_lt heb.2.2.2] at hv6
    rw [url_roundtrip url _ hascii] at hv3
    refine ⟨out, t2, g2, hw, hg, ?_, ?_, ?_, ?_, ?_, hmat⟩
    · rw [hv1, hid]
    · rw [hv7, hlabel]
    · rw [hv3, hurl]
    · intro hn; rw [hs] at hn; exact absurd hn (by decide)
    · intro _
      exact ⟨by rw [hv4, hface], by rw [hv5, h1], by rw [hv6, h2]⟩
  · have hs2 : isSentinel alg = false := by simpa using hs
    obtain ⟨x, y, w, h, hx, hy, hw0, hh, hvx, hvy, hvw, hvh⟩ := hplain hs2
    have hbox := utGallery.boxAndHeader_plain t alg hs2
    have hgx : t.file.getUInt32D "X" 0 = x := by
      simp only [File.getUInt32D, hvx]; exact ofInt32_ofNat x hx
    have hgy : t.file.getUInt32D "Y" 0 = y := by
      simp only [File.getUInt32D, hvy]; exact ofInt32_ofNat y hy
    have hgw : t.file.getUInt32D "Width" 0 = w := by
      simp only [File.getUInt32D, hvw]; exact ofInt32_ofNat w hw0
    have hgh : t.file.getUInt32D "Height" 0 = h := by
      simp only [File.getUInt32D, hvh]; exact ofInt32_ofNat h hh
    rw [hgx, hgy, hgw, hgh] at hbox
    rw [if_neg hs] at hsize
    obtain ⟨out, hw, _, hread⟩ := utGallery.write_then_read t alg m _ _ _ _ _ hidl hf ha
      hlo hhi hne hbox hx hy hw0 hh hm hint hcont
      (by rw [hgurl]; simpa using hsize)
    rw [hgid, fromHex_toHex, hgurl, hglabel] at hread
    simp only [List.length_nil, Nat.zero_add, List.nil_append] at hread
    obtain ⟨t2, hb, hmat, hv1, _, hv3, hv4, hv5, hv6, hv7, hv8⟩ := utGallery.buildTemplate_plain
      ⟨id, alg, x, y, w, h, label, (toLatin1 url ++ [0]).length, m.data.length⟩
      (toLatin1 url ++ [0]) m.data hs2 rfl rfl
    obtain ⟨g2, hg⟩ := hread t2 hb
    rw [url_roundtrip url _ hascii] at hv3
    refine ⟨out, t2, g2, hw, hg, ?_, ?_, ?_, ?_, ?_, hmat⟩
    · rw [hv1, hid]
    · rw [hv8, hlabel]
    · rw [hv3, hurl]
    · intro _
      exact ⟨by rw [hv4, hvx], by rw [hv5, hvy], by rw [hv6, hvw], by rw [hv7, hvh]⟩
    · intro hn; exact absurd hn hs

/-- Witness for C1: the example record with algorithm id 5. -/
theorem utGallery_roundtrip_witness :
    (utExample.file.value "ImageID" = some (.byteArray (toHex (List.replicate 16 7)))
      ∧ (List.replicate 16 (7 : Byte)).length = 16
      ∧ utExample.file.fte = false
      ∧ utExample.file.value "AlgorithmID" = some (.int 5)
      ∧ utExample.file.value "Label" = some (.int ((9 : Nat) : Int))
      ∧ utExample.file.value "URL" = some (.string [97, 98])
      ∧ (∀ c ∈ ([97, 98] : QString), 0 < c ∧ c < 128)
      ∧ utExample.m = some ⟨1, 3, 1, [10, 20, 30]⟩
      ∧ 0 < (⟨1, 3, 1, [10, 20, 30]⟩ : Mat).elemSize
      ∧ ([97, 98] : QString).length + 1 + (if isSentinel 5 = true then 16 else 0)
          + (⟨1, 3, 1, [10, 20, 30]⟩ : Mat).data.length < 2147483648)
    ∧ ∃ out t2 g2, utGallery.writeTemplate utExample = .ok out
      ∧ utGallery.readTemplate ⟨out, 0, []⟩ = .ok (t2, g2)
      ∧ t2.file.value "ImageID" = utExample.file.value "ImageID"
      ∧ t2.file.value "Label" = utExample.file.value "Label"
      ∧ t2.file.value "URL" = utExample.file.value "URL"
      ∧ (isSentinel 5 = false →
          t2.file.value "X" = utExample.file.value "X"
          ∧ t2.file.value "Y" = utExample.file.value "Y"
          ∧ t2.file.value "Width" = utExample.file.value "Width"
          ∧ t2.file.value "Height" = utExample.file.value "Height")
      ∧ (isSentinel 5 = true →
          t2.file.value "FrontalFace" = utExample.file.value "FrontalFace"
          ∧ t2.file.value "First_Eye" = utExample.file.value "First_Eye"
          ∧ t2.file.value "Second_Eye" = utExample.file.value "Second_Eye")
      ∧ t2.m = some ⟨1, (⟨1, 3, 1, [10, 20, 30]⟩ : Mat).data.length, 1,
          (⟨1, 3, 1, [10, 20, 30]⟩ : Mat).data⟩ :=
  ⟨⟨rfl, rfl, rfl, rfl, rfl, rfl, by decide, rfl, by decide, by decide⟩,
    utGallery_roundtrip utExample (List.replicate 16 7) 5 9 [97, 98] ⟨1, 3, 1, [10, 20, 30]⟩
      rfl rfl rfl rfl (by decide) (by decide) (by decide) rfl (by decide) rfl (by decide)
      (fun _ => ⟨1, 2, 3, 4, by decide, by decide, by decide, by decide, rfl, rfl, rfl, rfl⟩)
      (fun h => absurd h (by decide)) rfl (by decide) rfl (by decide)⟩


/-! ## Evaluations of the universal-template reader -/

/-- C5: on a stream that ends inside a record header (here after 3 bytes, and after 47
bytes) `utGallery::readTemplate` does not fail: it consumes the bytes and returns the
empty record, as it does at a clean end of stream. -/
theorem utGallery_readTemplate_truncated_header :
    utGallery.readTemplate ⟨[1, 2, 3], 0, []⟩ = .ok (Template.null, ⟨[1, 2, 3], 3, []⟩)
    ∧ utGallery.readTemplate ⟨List.replicate 47 1, 0, []⟩
        = .ok (Template.null, ⟨List.replicate 47 1, 47, []⟩)
    ∧ utGallery.readTemplate ⟨[], 0, []⟩ = .ok (Template.null, ⟨[], 0, []⟩) := by
  decide

/-- C6: a record with algorithm id -1, url length 1 and feature-section length 4: the
reader takes the 16 bytes of the eye block at the start of the feature section without
comparing the section length with 16, so it reads past the end of the buffer that holds
the record. -/
theorem utGallery_readTemplate_short_sentinel :
    utGallery.readTemplate
      ⟨[0, 0, 0, 0, 0, 0, 0, 0, 0, 0, 0, 0, 0, 0, 0, 0, 255, 255, 255, 255,
        0, 0, 0, 0, 0, 0, 0, 0, 0, 0, 0, 0, 0, 0, 0, 0, 0, 0, 0, 0,
        1, 0, 0, 0, 4, 0, 0, 0, 0, 9, 9, 9, 9], 0, []⟩ = .undefined := by
  decide

/-- C7: two records with the same header (algorithm id 1, url length 1, feature-section
length 1) and the same URL section (the byte `A`, no NUL) that differ in the feature
section decode to different URLs, `AB` and `AC`; with url length 0 the URL is taken from
the feature section altogether. -/
theorem utGallery_readTemplate_url_overrun :
    (utGallery.readTemplate
      ⟨[0, 0, 0, 0, 0, 0, 0, 0, 0, 0, 0, 0, 0, 0, 0, 0, 1, 0, 0, 0,
        0, 0, 0, 0, 0, 0, 0, 0, 0, 0, 0, 0, 0, 0, 0, 0, 0, 0, 0, 0,
        1, 0, 0, 0, 1, 0, 0, 0, 65, 66], 0, []⟩).map (fun r => r.1.file.value "URL")
      = .ok (some (.string [65, 66]))
    ∧ (utGallery.readTemplate
      ⟨[0, 0, 0, 0, 0, 0, 0, 0, 0, 0, 0, 0, 0, 0, 0, 0, 1, 0, 0, 0,
        0, 0, 0, 0, 0, 0, 0, 0, 0, 0, 0, 0, 0, 0, 0, 0, 0, 0, 0, 0,
        1, 0, 0, 0, 1, 0, 0, 0, 65, 67], 0, []⟩).map (fun r => r.1.file.value "URL")
      = .ok (some (.string [65, 67]))
    ∧ (utGallery.readTemplate
      ⟨[0, 0, 0, 0, 0, 0, 0, 0, 0, 0, 0, 0, 0, 0, 0, 0, 1, 0, 0, 0,
        0, 0, 0, 0, 0, 0, 0, 0, 0, 0, 0, 0, 0, 0, 0, 0, 0, 0, 0, 0,
        0, 0, 0, 0, 1, 0, 0, 0, 66], 0, []⟩).map (fun r => r.1.file.value "URL")
      = .ok (some (.string [66])) := by
  decide


/-! ## The memory gallery -/

theorem setProgress_length (base i : Nat) (ts : List Template) :
    (setProgress base i ts).length = ts.length := by
  induction ts generalizing i with
  | nil => rfl
  | cons t ts ih => simp [setProgress, ih]

theorem setProgress_shift (base i : Nat) (ts : List Template) :
    setProgress base i ts = setProgress 0 (i + base) ts := by
  induction ts generalizing i with
  | nil => rfl
  | cons t ts ih =>
    simp only [setProgress, ih (i + 1), Nat.add_zero]
    congr 2
    omega

theorem setProgress_append (i : Nat) (xs ys : List Template) :
    setProgress 0 i (xs ++ ys) = setProgress 0 i xs ++ setProgress 0 (i + xs.length) ys := by
  induction xs generalizing i with
  | nil => simp [setProgress]
  | cons t ts ih =>
    have h : i + 1 + ts.length = i + (ts.length + 1) := by omega
    simp only [List.cons_append, setProgress, List.length_cons, List.append_eq]
    rw [ih (i + 1), h]

theorem setProgress_getElem? (i k : Nat) (ts : List Template) :
    (setProgress 0 i ts)[k]? =
      ts[k]?.map (fun t => { t with file := t.file.set "progress" (.int ((i + k : Nat) : Int)) }) := by
  induction ts generalizing i k with
  | nil => simp [setProgress]
  | cons t ts ih =>
    cases k with
    | zero => simp [setProgress]
    | succ k =>
      simp only [setProgress, List.getElem?_cons_succ, ih (i + 1) k, Nat.add_zero]
      congr 2
      funext t
      congr 4
      omega

theorem lookup_setEntry_self (md : List (String × QVariant)) (key : String) (v : QVariant) :
    (setEntry md key v).lookup key = some v := by
  induction md with
  | nil => simp [setEntry, List.lookup]
  | cons p rest ih =>
    obtain ⟨k, w⟩ := p
    by_cases h : k = key
    · simp [setEntry, h, List.lookup]
    · have h2 : (key == k) = false := by simp [Ne.symm h]
      simp [setEntry, h, List.lookup, h2, ih]

theorem lookup_setEntry_other (md : List (String × QVariant)) (key key2 : String) (v : QVariant)
    (hne : key2 ≠ key) : (setEntry md key v).lookup key2 = md.lookup key2 := by
  induction md with
  | nil =>
    have h2 : (key2 == key) = false := by simp [hne]
    simp [setEntry, List.lookup, h2]
  | cons p rest ih =>
    obtain ⟨k, w⟩ := p
    by_cases h : k = key
    · subst h
      have h2 : (key2 == k) = false := by simp [hne]
      simp [setEntry, List.lookup, h2]
    · by_cases h3 : key2 = k
      · subst h3
        simp [setEntry, h, List.lookup]
      · have h4 : (key2 == k) = false := by simp [h3]
        simp [setEntry, h, List.lookup, h4, ih]

theorem File.value_set_self (f : File) (key : String) (v : QVariant) :
    (f.set key v).value key = some v := by
  simp [File.value, File.set, lookup_setEntry_self]

theorem File.value_set_other (f : File) (key key2 : String) (v : QVariant) (hne : key2 ≠ key) :
    (f.set key v).value key2 = f.value key2 := by
  simp [File.value, File.set, lookup_setEntry_other _ _ _ _ hne]

theorem setProgress_progress (i : Nat) (ts : List Template) :
    (setProgress 0 i ts).map Template.progress
      = (List.range ts.length).map (fun k => some ((i + k : Nat) : Int)) := by
  induction ts generalizing i with
  | nil => simp [setProgress]
  | cons t ts ih =>
    simp only [setProgress, List.map_cons, ih (i + 1), List.length_cons, List.range_succ_eq_map,
      List.map_map, Nat.add_zero]
    simp only [Template.progress, File.value_set_self, List.cons.injEq, true_and]
    apply List.map_congr_left
    intro k _
    simp only [Function.comp_apply, Option.some.injEq, Nat.cast_inj]
    omega

theorem MemoryGalleries.entry_touch (galleries : MemoryGalleries) (file : File) :
    (galleries.touch file).entry file = galleries.entry file := by
  unfold MemoryGalleries.touch MemoryGalleries.entry
  cases h : List.lookup file galleries with
  | none => simp [h, List.lookup_append, List.lookup]
  | some l => simp [h]

/-- The whole pass, from cursor `b`: the number of calls and the concatenation of the
blocks. -/
theorem memGallery.readPass_from (file : File) (B : Nat) (hB : 1 ≤ B) :
    ∀ (fuel b : Nat) (galleries : MemoryGalleries),
      ((galleries.entry file).length - b * B) / B + 1 ≤ fuel →
      ∃ blocks st, memGallery.readPass fuel ⟨file, B, b⟩ galleries = some (blocks, st)
        ∧ blocks.length = ((galleries.entry file).length - b * B) / B + 1
        ∧ blocks.flatten = setProgress 0 (b * B) ((galleries.entry file).drop (b * B)) := by
  intro fuel
  induction fuel with
  | zero => intro b galleries h; exact absurd h (Nat.not_succ_le_zero _)
  | succ fuel ih =>
    intro b galleries hfuel
    simp only [memGallery.readPass, memGallery.readBlock, setProgress_length, mid,
      List.length_take, List.length_drop, decide_eq_true_eq]
    by_cases hd : min B ((galleries.entry file).length - b * B) < B
    · have hlt : (galleries.entry file).length - b * B < B := by omega
      simp only [hd, if_true]
      refine ⟨_, _, rfl, ?_, ?_⟩
      · simp [Nat.div_eq_of_lt hlt]
      · simp only [List.flatten_cons, List.flatten_nil, List.append_nil]
        rw [setProgress_shift, List.take_of_length_le (by simp; omega)]
        simp
    · have hge : B ≤ (galleries.entry file).length - b * B := by omega
      simp only [hd, if_false]
      have hsub : (galleries.entry file).length - (b + 1) * B
          = (galleries.entry file).length - b * B - B := by
        rw [Nat.add_mul]; omega
      have hdiv : ((galleries.entry file).length - b * B) / B
          = ((galleries.entry file).length - (b + 1) * B) / B + 1 := by
        rw [hsub]
        exact Nat.div_eq_sub_div (by omega) hge
      obtain ⟨blocks, st, hrun, hlen, hcat⟩ := ih (b + 1) (galleries.touch file) (by
        rw [MemoryGalleries.entry_touch]; rw [hdiv] at hfuel; omega)
      rw [MemoryGalleries.entry_touch] at hlen hcat
      simp only [Bool.false_eq_true, if_false, hrun, Option.map_some']
      refine ⟨_, _, rfl, ?_, ?_⟩
      · simp [hlen, hdiv]
      · simp only [List.flatten_cons, hcat]
        rw [setProgress_shift]
        have hsplit : List.drop (b * B) (galleries.entry file)
            = List.take B (List.drop (b * B) (galleries.entry file))
              ++ List.drop ((b + 1) * B) (galleries.entry file) := by
          rw [Nat.add_mul, Nat.one_mul, ← List.drop_drop, List.take_append_drop]
        conv_rhs => rw [hsplit, setProgress_append]
        simp only [Nat.zero_add, List.length_take, List.length_drop]
        congr 2
        rw [Nat.add_mul]; omega

/-- C9, as stated, fails: a registry entry of N = 2 records read with block size B = 2
takes two `readBlock` calls before `done` is set (the second call returns an empty
block), whereas ceil(N/B) = 1. -/
theorem memGallery_readBlock_calls_counterexample :
    (memGallery.readPass 3 ⟨⟨[103], false, []⟩, 2, 0⟩
        [(⟨[103], false, []⟩, [Template.null, Template.null])]).map (fun r => r.1.length) = some 2
    ∧ (MemoryGalleries.entry [(⟨[103], false, []⟩, [Template.null, Template.null])]
        ⟨[103], false, []⟩).length = 2
    ∧ (2 + 2 - 1) / 2 ≠ 2 := by
  decide

/-- C9, amended: for a registry entry of N records and a block size B ≥ 1, starting from
a fresh cursor, the `readBlock` calls up to and including the first one that sets `done`
number floor(N/B) + 1 (any bound on the number of calls that is at least that large is
enough); this is ceil(N/B) whenever B does not divide N. -/
theorem memGallery_readBlock_calls (file : File) (B : Nat) (galleries : MemoryGalleries)
    (fuel : Nat) (hB : 1 ≤ B) (hfuel : (galleries.entry file).length / B + 1 ≤ fuel) :
    ∃ blocks st,
      memGallery.readPass fuel ⟨file, B, 0⟩ galleries = some (blocks, st)
      ∧ blocks.length = (galleries.entry file).length / B + 1
      ∧ (¬ B ∣ (galleries.entry file).length →
          blocks.length = ((galleries.entry file).length + B - 1) / B) := by
  obtain ⟨blocks, st, hrun, hlen, _⟩ :=
    memGallery.readPass_from file B hB fuel 0 galleries (by simpa using hfuel)
  simp only [Nat.zero_mul, Nat.sub_zero] at hlen
  refine ⟨blocks, st, hrun, hlen, ?_⟩
  intro hdvd
  rw [hlen]
  symm
  have hmod : 0 < (galleries.entry file).length % B :=
    Nat.pos_of_ne_zero (fun h => hdvd (Nat.dvd_of_mod_eq_zero h))
  have hlt : (galleries.entry file).length % B < B := Nat.mod_lt _ (by omega)
  have hdm := Nat.div_add_mod (galleries.entry file).length B
  apply Nat.div_eq_of_lt_le
  · rw [Nat.add_mul, Nat.one_mul, Nat.mul_comm]; omega
  · rw [Nat.add_mul, Nat.add_mul, Nat.one_mul, Nat.mul_comm]; omega

/-- Witness for C9: three records, block size 2. -/
theorem memGallery_readBlock_calls_witness :
    (1 ≤ 2 ∧
      (MemoryGalleries.entry [(⟨[103], false, []⟩, [Template.null, Template.null, Template.null])]
        ⟨[103], false, []⟩).length / 2 + 1 ≤ 4) ∧
    ∃ blocks st,
      memGallery.readPass 4 ⟨⟨[103], false, []⟩, 2, 0⟩
          [(⟨[103], false, []⟩, [Template.null, Template.null, Template.null])] = some (blocks, st)
      ∧ blocks.length =
          (MemoryGalleries.entry [(⟨[103], false, []⟩, [Template.null, Template.null, Template.null])]
            ⟨[103], false, []⟩).length / 2 + 1
      ∧ (¬ 2 ∣ (MemoryGalleries.entry
              [(⟨[103], false, []⟩, [Template.null, Template.null, Template.null])]
              ⟨[103], false, []⟩).length →
          blocks.length =
            ((MemoryGalleries.entry
              [(⟨[103], false, []⟩, [Template.null, Template.null, Template.null])]
              ⟨[103], false, []⟩).length + 2 - 1) / 2) :=
  ⟨⟨by decide, by decide⟩,
    memGallery_readBlock_calls ⟨[103], false, []⟩ 2
      [(⟨[103], false, []⟩, [Template.null, Template.null, Template.null])] 4
      (by decide) (by decide)⟩

/-- C10: for a memGallery whose registry entry is the list L and a block size B ≥ 1, the
blocks returned by successive `readBlock` calls up to and including the first `done`
concatenate to a list of the length of L whose k-th record is L[k] with the progress
marker set to k; the markers are 0, 1, ..., |L| - 1, hence strictly increasing. -/
theorem memGallery_readBlock_concat (file : File) (B : Nat) (galleries : MemoryGalleries)
    (fuel : Nat) (hB : 1 ≤ B) (hfuel : (galleries.entry file).length / B + 1 ≤ fuel) :
    ∃ blocks st,
      memGallery.readPass fuel ⟨file, B, 0⟩ galleries = some (blocks, st)
      ∧ blocks.flatten.length = (galleries.entry file).length
      ∧ (∀ k : Nat, blocks.flatten[k]? = (galleries.entry file)[k]?.map
            (fun t : Template => { t with file := t.file.set "progress" (.int (k : Int)) }))
      ∧ blocks.flatten.map Template.progress
          = (List.range (galleries.entry file).length).map (fun k : Nat => some (k : Int))
      ∧ (blocks.flatten.map Template.progress).Pairwise
          (fun a b => ∃ i j : Int, a = some i ∧ b = some j ∧ i < j) := by
  obtain ⟨blocks, st, hrun, _, hcat⟩ :=
    memGallery.readPass_from file B hB fuel 0 galleries (by simpa using hfuel)
  simp only [Nat.zero_mul, List.drop_zero] at hcat
  refine ⟨blocks, st, hrun, ?_, ?_, ?_, ?_⟩
  · rw [hcat, setProgress_length]
  · intro k
    rw [hcat, setProgress_getElem?]
    simp only [Nat.zero_add]
  · rw [hcat, setProgress_progress]
    simp only [Nat.zero_add]
  · rw [hcat, setProgress_progress]
    simp only [Nat.zero_add]
    rw [List.pairwise_map]
    refine List.Pairwise.imp ?_ (List.pairwise_lt_range _)
    intro a b hab
    exact ⟨_, _, rfl, rfl, by simpa using hab⟩

/-- Witness for C10: four records, block size 2. -/
theorem memGallery_readBlock_concat_witness :
    (1 ≤ 2 ∧
      (MemoryGalleries.entry
        [(⟨[103], false, []⟩, [Template.null, Template.null, Template.null, Template.null])]
        ⟨[103], false, []⟩).length / 2 + 1 ≤ 3) ∧
    ∃ blocks st,
      memGallery.readPass 3 ⟨⟨[103], false, []⟩, 2, 0⟩
          [(⟨[103], false, []⟩, [Template.null, Template.null, Template.null, Template.null])]
        = some (blocks, st)
      ∧ blocks.flatten.length = (MemoryGalleries.entry
          [(⟨[103], false, []⟩, [Template.null, Template.null, Template.null, Template.null])]
          ⟨[103], false, []⟩).length :=
  ⟨⟨by decide, by decide⟩,
    (memGallery_readBlock_concat ⟨[103], false, []⟩ 2
      [(⟨[103], false, []⟩, [Template.null, Template.null, Template.null, Template.null])] 3
      (by decide) (by decide)).imp
      (fun _ h => h.imp (fun _ h2 => ⟨h2.1, h2.2.1⟩))⟩


/-! ## Binary galleries -/

theorem BinaryGallery.holdsRecords_nil (rt : QFile → Outcome (Template × QFile))
    (bytes : List Byte) (pos : Nat) :
    BinaryGallery.holdsRecords rt bytes pos [] = true ↔ pos = bytes.length := by
  simp [BinaryGallery.holdsRecords]

theorem BinaryGallery.holdsRecords_cons (rt : QFile → Outcome (Template × QFile))
    (bytes : List Byte) (pos : Nat) (t : Template) (stop : Nat) (rest : List (Template × Nat)) :
    BinaryGallery.holdsRecords rt bytes pos ((t, stop) :: rest) = true ↔
      pos < stop ∧ stop ≤ bytes.length ∧ rt ⟨bytes, pos, []⟩ = .ok (t, ⟨bytes, stop, []⟩)
        ∧ (!t.isEmpty || !t.file.isNull) = true
        ∧ BinaryGallery.holdsRecords rt bytes stop rest = true := by
  simp only [BinaryGallery.holdsRecords, Bool.and_eq_true, decide_eq_true_eq]
  tauto

/-- The loop of `readBlock` on a well-formed file: it appends the next records, as many as
the block still takes, each with the offset past it as progress marker, and leaves the
device at a record boundary. -/
theorem BinaryGallery.readLoop_spec (rt : QFile → Outcome (Template × QFile))
    (bytes : List Byte) (B : Nat) :
    ∀ (recs : List (Template × Nat)) (fuel pos : Nat) (acc : List Template),
      BinaryGallery.holdsRecords rt bytes pos recs = true →
      min (B - acc.length) recs.length + 1 ≤ fuel →
      ∃ pos2,
        BinaryGallery.readLoop rt false B fuel ⟨bytes, pos, []⟩ acc
          = some (.ok (acc ++ (recs.take (B - acc.length)).map
              (fun r => r.1.withProgress r.2), ⟨bytes, pos2, []⟩))
        ∧ BinaryGallery.holdsRecords rt bytes pos2 (recs.drop (B - acc.length)) = true := by
  intro recs
  induction recs with
  | nil =>
    intro fuel pos acc hrec hfuel
    obtain ⟨fuel, rfl⟩ : ∃ f, fuel = f + 1 := ⟨fuel - 1, by omega⟩
    have hpos := (BinaryGallery.holdsRecords_nil rt bytes pos).1 hrec
    refine ⟨pos, ?_, by simpa using hrec⟩
    simp [BinaryGallery.readLoop, QFile.atEnd, hpos]
  | cons r rest ih =>
    obtain ⟨t, stop⟩ := r
    intro fuel pos acc hrec hfuel
    obtain ⟨fuel, rfl⟩ : ∃ f, fuel = f + 1 := ⟨fuel - 1, by omega⟩
    obtain ⟨hlt, hle, hread, hnn, hrest⟩ :=
      (BinaryGallery.holdsRecords_cons rt bytes pos t stop rest).1 hrec
    by_cases hB : acc.length < B
    · have hend : QFile.atEnd ⟨bytes, pos, []⟩ = false := by
        simp [QFile.atEnd]; omega
      obtain ⟨pos2, hrun, hrec2⟩ := ih fuel stop (acc ++ [t.withProgress stop]) hrest (by
        simp only [List.length_append, List.length_cons, List.length_nil] at hfuel ⊢
        omega)
      refine ⟨pos2, ?_, ?_⟩
      · simp only [BinaryGallery.readLoop, hB, hend, decide_True, Bool.not_false, Bool.and_self,
          if_true, hread, hnn, Bool.false_eq_true, if_false]
        rw [hrun]
        have hk : B - acc.length = (B - (acc ++ [t.withProgress stop]).length) + 1 := by
          simp only [List.length_append, List.length_cons, List.length_nil]; omega
        rw [hk]
        simp
      · have hk : B - acc.length = (B - (acc ++ [t.withProgress stop]).length) + 1 := by
          simp only [List.length_append, List.length_cons, List.length_nil]; omega
        rw [hk]
        simpa using hrec2
    · have hz : B - acc.length = 0 := by omega
      refine ⟨pos, ?_, by rw [hz]; simpa using hrec⟩
      simp [BinaryGallery.readLoop, hB, hz]


theorem BinaryGallery.holdsRecords_atEnd (rt : QFile → Outcome (Template × QFile))
    (bytes : List Byte) (pos : Nat) (recs : List (Template × Nat))
    (h : BinaryGallery.holdsRecords rt bytes pos recs = true) :
    QFile.atEnd ⟨bytes, pos, []⟩ = recs.isEmpty := by
  cases recs with
  | nil =>
    have := (BinaryGallery.holdsRecords_nil rt bytes pos).1 h
    simp [QFile.atEnd, this]
  | cons r rest =>
    obtain ⟨t, stop⟩ := r
    obtain ⟨hlt, hle, _⟩ := (BinaryGallery.holdsRecords_cons rt bytes pos t stop rest).1 h
    simp [QFile.atEnd]
    omega

theorem BinaryGallery.readOpen_ok (g g1 : BinaryGallery) (h : g.readOpen = .ok g1) :
    g1.readOpen = .ok g1 ∧ g1.sequential = g.sequential ∧ g1.readBlockSize = g.readBlockSize
      ∧ g1.gallery.bytes = g.gallery.bytes ∧ g1.gallery.chunks = g.gallery.chunks := by
  unfold BinaryGallery.readOpen at h
  by_cases hm : g.mode.isNone = true
  · by_cases he : g.fileExists = true
    · simp only [hm, he, if_true, Bool.not_true, Bool.false_eq_true, if_false,
        Outcome.ok.injEq] at h
      subst h
      simp [BinaryGallery.readOpen]
    · simp [hm, he] at h
  · simp only [hm, Bool.false_eq_true, if_false, Outcome.ok.injEq] at h
    subst h
    simp [BinaryGallery.readOpen, hm]

/-- One `readBlock` call on a well-formed file, away from its end: the block holds the next
records, at most `readBlockSize` of them, and `done` tells whether they were the last. -/
theorem BinaryGallery.readBlock_spec (rt : QFile → Outcome (Template × QFile))
    (bytes : List Byte) (recs : List (Template × Nat)) (fuel pos : Nat) (g g1 : BinaryGallery)
    (hopen : g.readOpen = .ok g1) (hseq : g1.sequential = false)
    (hgal : g1.gallery = ⟨bytes, pos, []⟩)
    (hrec : BinaryGallery.holdsRecords rt bytes pos recs = true) (hne : recs ≠ [])
    (hfuel : g1.readBlockSize + 1 ≤ fuel) :
    ∃ pos2,
      BinaryGallery.readBlock rt fuel g
        = some (.ok ((recs.take g1.readBlockSize).map (fun r => r.1.withProgress r.2),
            (recs.drop g1.readBlockSize).isEmpty, { g1 with gallery := ⟨bytes, pos2, []⟩ }))
      ∧ BinaryGallery.holdsRecords rt bytes pos2 (recs.drop g1.readBlockSize) = true := by
  have hend := BinaryGallery.holdsRecords_atEnd rt bytes pos recs hrec
  have hne2 : recs.isEmpty = false := by
    cases recs with
    | nil => exact absurd rfl hne
    | cons _ _ => rfl
  rw [hne2] at hend
  obtain ⟨pos2, hrun, hrec2⟩ := BinaryGallery.readLoop_spec rt bytes g1.readBlockSize recs fuel
    pos [] hrec (by simp only [List.length_nil, Nat.sub_zero]; omega)
  simp only [List.length_nil, Nat.sub_zero, List.nil_append] at hrun hrec2
  refine ⟨pos2, ?_, hrec2⟩
  have hend2 := BinaryGallery.holdsRecords_atEnd rt bytes pos2 _ hrec2
  simp only [BinaryGallery.readBlock, hopen, hgal, hend, Bool.false_eq_true, if_false, hseq,
    hrun, hend2]


theorem ceil_div_le (n B : Nat) (h1 : 1 ≤ n) (h2 : n ≤ B) : (n + B - 1) / B = 1 := by
  apply Nat.div_eq_of_lt_le
  · omega
  · omega

theorem ceil_div_step (n B : Nat) (hB : 1 ≤ B) (h : B < n) :
    (n + B - 1) / B = (n - B + B - 1) / B + 1 := by
  have h1 : n + B - 1 = (n - B + B - 1) + B := by omega
  rw [h1, Nat.add_div_right _ (by omega)]

/-- A whole pass over a well-formed file of at least one record. -/
theorem BinaryGallery.readPass_spec (rt : QFile → Outcome (Template × QFile))
    (bytes : List Byte) (B : Nat) (hB : 1 ≤ B) :
    ∀ (n : Nat) (recs : List (Template × Nat)) (fuel calls pos : Nat) (g g1 : BinaryGallery),
      recs.length = n → g.readOpen = .ok g1 → g1.sequential = false → g1.readBlockSize = B →
      g1.gallery = ⟨bytes, pos, []⟩ → BinaryGallery.holdsRecords rt bytes pos recs = true →
      recs ≠ [] → B + 1 ≤ fuel → (recs.length + B - 1) / B ≤ calls →
      ∃ blocks g2,
        BinaryGallery.readPass rt fuel calls g = some (.ok (blocks, g2))
        ∧ blocks.length = (recs.length + B - 1) / B
        ∧ (∀ b ∈ blocks, b.length ≤ B)
        ∧ blocks.flatten = recs.map (fun r => r.1.withProgress r.2) := by
  intro n
  induction n using Nat.strong_induction_on with
  | _ n ih =>
    intro recs fuel calls pos g g1 hn hopen hseq hsize hgal hrec hne hfuel hcalls
    subst hn
    have hpos : 1 ≤ recs.length := by
      cases recs with
      | nil => exact absurd rfl hne
      | cons _ _ => simp
    obtain ⟨pos2, hblock, hrec2⟩ := BinaryGallery.readBlock_spec rt bytes recs fuel pos g g1
      hopen hseq hgal hrec hne (by omega)
    rw [hsize] at hblock hrec2
    by_cases hlast : recs.length ≤ B
    · have hc := ceil_div_le recs.length B hpos hlast
      rw [hc] at hcalls ⊢
      obtain ⟨calls, rfl⟩ : ∃ c, calls = c + 1 := ⟨calls - 1, by omega⟩
      have hd : (recs.drop B).isEmpty = true := by
        simp [List.drop_eq_nil_iff.2 hlast]
      refine ⟨[(recs.take B).map (fun r => r.1.withProgress r.2)],
        ⟨⟨bytes, pos2, []⟩, g1.mode, g1.fileExists, g1.sequential, B⟩, ?_, ?_, ?_, ?_⟩
      · simp only [BinaryGallery.readPass, hblock, hd, if_true]
      · rfl
      · intro b hb
        simp only [List.mem_singleton] at hb
        subst hb
        simp only [List.length_map, List.length_take]
        exact Nat.min_le_left _ _
      · simp [List.take_of_length_le hlast]
    · have hgt : B < recs.length := by omega
      have hc := ceil_div_step recs.length B hB hgt
      rw [hc] at hcalls ⊢
      have hc1 : 1 ≤ calls := le_trans (Nat.le_add_left 1 _) hcalls
      obtain ⟨calls, rfl⟩ : ∃ c, calls = c + 1 := ⟨calls - 1, by omega⟩
      have hdl : (recs.drop B).length = recs.length - B := List.length_drop _ _
      have hdne : recs.drop B ≠ [] := by
        intro h0
        rw [h0] at hdl
        simp at hdl
        omega
      have hd : (recs.drop B).isEmpty = false := by
        cases hx : recs.drop B with
        | nil => exact absurd hx hdne
        | cons _ _ => rfl
      obtain ⟨hopen2, hseq2, hsize2, _, _⟩ := BinaryGallery.readOpen_ok g g1 hopen
      have hopen3 : (⟨⟨bytes, pos2, []⟩, g1.mode, g1.fileExists, g1.sequential, B⟩
            : BinaryGallery).readOpen
          = .ok ⟨⟨bytes, pos2, []⟩, g1.mode, g1.fileExists, g1.sequential, B⟩ := by
        unfold BinaryGallery.readOpen at hopen2 ⊢
        by_cases hm : g1.mode.isNone = true
        · by_cases he : g1.fileExists = true
          · simp only [hm, he, if_true, Bool.not_true, Bool.false_eq_true, if_false,
              Outcome.ok.injEq] at hopen2
            have := congrArg BinaryGallery.mode hopen2
            simp at this
            rw [← this] at hm
            simp at hm
          · simp [hm, he] at hopen2
        · simp [hm]
      obtain ⟨blocks, g3, hrun, hlen, hbound, hcat⟩ := ih (recs.length - B) (by omega)
        (recs.drop B) fuel calls pos2 ⟨⟨bytes, pos2, []⟩, g1.mode, g1.fileExists, g1.sequential, B⟩
        ⟨⟨bytes, pos2, []⟩, g1.mode, g1.fileExists, g1.sequential, B⟩ hdl hopen3 hseq rfl rfl
        hrec2 hdne hfuel
        (by rw [hdl]; exact Nat.le_of_succ_le_succ hcalls)
      rw [hdl] at hlen
      refine ⟨(recs.take B).map (fun r => r.1.withProgress r.2) :: blocks, g3, ?_, ?_, ?_, ?_⟩
      · simp only [BinaryGallery.readPass, hblock, hd, Bool.false_eq_true, if_false, hrun]
      · simp only [List.length_cons, hlen]
      · intro b hb
        simp only [List.mem_cons] at hb
        rcases hb with hb | hb
        · subst hb
          simp only [List.length_map, List.length_take]
          exact Nat.min_le_left _ _
        · exact hbound b hb
      · simp only [List.flatten_cons, hcat, ← List.map_append, List.take_append_drop]

theorem BinaryGallery.holdsTemplates_nil (rt : QFile → Outcome (Template × QFile))
    (bytes : List Byte) (pos : Nat) :
    BinaryGallery.holdsTemplates rt bytes pos [] = true ↔ pos = bytes.length := by
  simp [BinaryGallery.holdsTemplates]

theorem BinaryGallery.holdsTemplates_cons (rt : QFile → Outcome (Template × QFile))
    (bytes : List Byte) (pos : Nat) (t : Template) (stop : Nat) (rest : List (Template × Nat)) :
    BinaryGallery.holdsTemplates rt bytes pos ((t, stop) :: rest) = true ↔
      pos < stop ∧ stop ≤ bytes.length ∧ rt ⟨bytes, pos, []⟩ = .ok (t, ⟨bytes, stop, []⟩)
        ∧ BinaryGallery.holdsTemplates rt bytes stop rest = true := by
  simp only [BinaryGallery.holdsTemplates, Bool.and_eq_true, decide_eq_true_eq]
  tauto

theorem BinaryGallery.holdsTemplates_atEnd (rt : QFile → Outcome (Template × QFile))
    (bytes : List Byte) (pos : Nat) (recs : List (Template × Nat))
    (h : BinaryGallery.holdsTemplates rt bytes pos recs = true) :
    QFile.atEnd ⟨bytes, pos, []⟩ = recs.isEmpty := by
  cases recs with
  | nil =>
    have := (BinaryGallery.holdsTemplates_nil rt bytes pos).1 h
    simp [QFile.atEnd, this]
  | cons r rest =>
    obtain ⟨t, stop⟩ := r
    obtain ⟨hlt, hle, _⟩ := (BinaryGallery.holdsTemplates_cons rt bytes pos t stop rest).1 h
    simp [QFile.atEnd]
    omega

/-- The offsets past the records of a file are strictly increasing, above the start and
within the file. -/
theorem BinaryGallery.holdsTemplates_stops (rt : QFile → Outcome (Template × QFile))
    (bytes : List Byte) :
    ∀ (recs : List (Template × Nat)) (pos : Nat),
      BinaryGallery.holdsTemplates rt bytes pos recs = true →
      (recs.map Prod.snd).Pairwise (fun a b => a < b)
        ∧ (∀ r ∈ recs, pos < r.2 ∧ r.2 ≤ bytes.length)
        ∧ (∀ r, recs.getLast? = some r → r.2 = bytes.length) := by
  intro recs
  induction recs with
  | nil => intro pos _; simp
  | cons r rest ih =>
    obtain ⟨t, stop⟩ := r
    intro pos h
    obtain ⟨hlt, hle, _, hrest⟩ := (BinaryGallery.holdsTemplates_cons rt bytes pos t stop rest).1 h
    obtain ⟨hpair, hall, hlast⟩ := ih stop hrest
    refine ⟨?_, ?_, ?_⟩
    · simp only [List.map_cons, List.pairwise_cons]
      refine ⟨?_, hpair⟩
      intro b hb
      obtain ⟨r, hr, rfl⟩ := List.mem_map.1 hb
      exact (hall r hr).1
    · intro r hr
      simp only [List.mem_cons] at hr
      rcases hr with hr | hr
      · subst hr; exact ⟨hlt, hle⟩
      · exact ⟨lt_trans hlt (hall r hr).1, (hall r hr).2⟩
    · intro r hr
      cases rest with
      | nil =>
        simp at hr
        subst hr
        have := (BinaryGallery.holdsTemplates_nil rt bytes stop).1 hrest
        exact this
      | cons r2 rest2 =>
        rw [List.getLast?_cons_cons] at hr
        exact hlast r hr

/-- The loop of `readBlock` on a file of templates: it consumes some of the next records,
at least one if the block has room and the file is not at its end, appends those that are
not null, each with the offset past it as progress marker, and leaves the device at a
record boundary. -/
theorem BinaryGallery.readLoop_templates (rt : QFile → Outcome (Template × QFile))
    (bytes : List Byte) (B : Nat) :
    ∀ (recs : List (Template × Nat)) (fuel pos : Nat) (acc : List Template),
      BinaryGallery.holdsTemplates rt bytes pos recs = true →
      recs.length + 1 ≤ fuel →
      ∃ pos2 taken rest,
        recs = taken ++ rest
        ∧ BinaryGallery.readLoop rt false B fuel ⟨bytes, pos, []⟩ acc
          = some (.ok (acc ++ (taken.filter BinaryGallery.kept).map
              (fun r => r.1.withProgress r.2), ⟨bytes, pos2, []⟩))
        ∧ BinaryGallery.holdsTemplates rt bytes pos2 rest = true
        ∧ (acc.length < B → recs ≠ [] → taken ≠ []) := by
  intro recs
  induction recs with
  | nil =>
    intro fuel pos acc hrec hfuel
    obtain ⟨fuel, rfl⟩ : ∃ f, fuel = f + 1 := ⟨fuel - 1, by omega⟩
    have hpos := (BinaryGallery.holdsTemplates_nil rt bytes pos).1 hrec
    refine ⟨pos, [], [], rfl, ?_, hrec, fun _ h => absurd rfl h⟩
    simp [BinaryGallery.readLoop, QFile.atEnd, hpos]
  | cons r rest ih =>
    obtain ⟨t, stop⟩ := r
    intro fuel pos acc hrec hfuel
    obtain ⟨fuel, rfl⟩ : ∃ f, fuel = f + 1 := ⟨fuel - 1, by omega⟩
    obtain ⟨hlt, hle, hread, hrest⟩ :=
      (BinaryGallery.holdsTemplates_cons rt bytes pos t stop rest).1 hrec
    by_cases hB : acc.length < B
    · have hend : QFile.atEnd ⟨bytes, pos, []⟩ = false := by
        simp [QFile.atEnd]; omega
      by_cases hk : (!t.isEmpty || !t.file.isNull) = true
      · obtain ⟨pos2, taken, rest2, hsplit, hrun, hrec2, _⟩ :=
          ih fuel stop (acc ++ [t.withProgress stop]) hrest (by
            simp only [List.length_cons] at hfuel; omega)
        refine ⟨pos2, (t, stop) :: taken, rest2, by rw [hsplit]; rfl, ?_, hrec2,
          fun _ _ => List.cons_ne_nil _ _⟩
        simp only [BinaryGallery.readLoop, hB, hend, decide_True, Bool.not_false, Bool.and_self,
          if_true, hread, hk, Bool.false_eq_true, if_false]
        rw [hrun]
        have hkept : BinaryGallery.kept (t, stop) = true := hk
        simp [List.filter_cons, hkept]
      · obtain ⟨pos2, taken, rest2, hsplit, hrun, hrec2, _⟩ :=
          ih fuel stop acc hrest (by simp only [List.length_cons] at hfuel; omega)
        refine ⟨pos2, (t, stop) :: taken, rest2, by rw [hsplit]; rfl, ?_, hrec2,
          fun _ _ => List.cons_ne_nil _ _⟩
        simp only [BinaryGallery.readLoop, hB, hend, decide_True, Bool.not_false, Bool.and_self,
          if_true, hread, hk, Bool.false_eq_true, if_false]
        rw [hrun]
        have hkept : BinaryGallery.kept (t, stop) = false := by
          simpa [BinaryGallery.kept] using hk
        simp [List.filter_cons, hkept]
    · refine ⟨pos, [], (t, stop) :: rest, rfl, ?_, hrec, fun h => absurd h hB⟩
      simp [BinaryGallery.readLoop, hB]

/-- One `readBlock` call on a file of templates, away from its end. -/
theorem BinaryGallery.readBlock_templates (rt : QFile → Outcome (Template × QFile))
    (bytes : List Byte) (recs : List (Template × Nat)) (fuel pos : Nat) (g g1 : BinaryGallery)
    (hopen : g.readOpen = .ok g1) (hseq : g1.sequential = false)
    (hgal : g1.gallery = ⟨bytes, pos, []⟩)
    (hrec : BinaryGallery.holdsTemplates rt bytes pos recs = true) (hne : recs ≠ [])
    (hB : 1 ≤ g1.readBlockSize) (hfuel : recs.length + 1 ≤ fuel) :
    ∃ pos2 taken rest,
      recs = taken ++ rest ∧ taken ≠ []
      ∧ BinaryGallery.readBlock rt fuel g
        = some (.ok ((taken.filter BinaryGallery.kept).map (fun r => r.1.withProgress r.2),
            rest.isEmpty, { g1 with gallery := ⟨bytes, pos2, []⟩ }))
      ∧ BinaryGallery.holdsTemplates rt bytes pos2 rest = true := by
  have hend := BinaryGallery.holdsTemplates_atEnd rt bytes pos recs hrec
  have hne2 : recs.isEmpty = false := by
    cases recs with
    | nil => exact absurd rfl hne
    | cons _ _ => rfl
  rw [hne2] at hend
  obtain ⟨pos2, taken, rest, hsplit, hrun, hrec2, htaken⟩ :=
    BinaryGallery.readLoop_templates rt bytes g1.readBlockSize recs fuel pos [] hrec hfuel
  simp only [List.nil_append] at hrun
  refine ⟨pos2, taken, rest, hsplit, htaken (by simpa using hB) hne, ?_, hrec2⟩
  have hend2 := BinaryGallery.holdsTemplates_atEnd rt bytes pos2 _ hrec2
  simp only [BinaryGallery.readBlock, hopen, hgal, hend, Bool.false_eq_true, if_false, hseq,
    hrun, hend2]

theorem BinaryGallery.readOpen_again (g1 : BinaryGallery) (q : QFile) (g : BinaryGallery)
    (h : g.readOpen = .ok g1) :
    (⟨q, g1.mode, g1.fileExists, g1.sequential, g1.readBlockSize⟩ : BinaryGallery).readOpen
      = .ok ⟨q, g1.mode, g1.fileExists, g1.sequential, g1.readBlockSize⟩ := by
  unfold BinaryGallery.readOpen at h ⊢
  by_cases hm : g.mode.isNone = true
  · by_cases he : g.fileExists = true
    · simp only [hm, he, if_true, Bool.not_true, Bool.false_eq_true, if_false,
        Outcome.ok.injEq] at h
      subst h
      simp
    · simp [hm, he] at h
  · simp only [hm, Bool.false_eq_true, if_false, Outcome.ok.injEq] at h
    subst h
    simp [hm]

/-- A whole pass over a file of at least one template: the blocks hold the records that are
not null, in file order, each with the offset past it as progress marker. -/
theorem BinaryGallery.readPass_templates (rt : QFile → Outcome (Template × QFile))
    (bytes : List Byte) (B : Nat) (hB : 1 ≤ B) :
    ∀ (n : Nat) (recs : List (Template × Nat)) (fuel calls pos : Nat) (g g1 : BinaryGallery),
      recs.length = n → g.readOpen = .ok g1 → g1.sequential = false → g1.readBlockSize = B →
      g1.gallery = ⟨bytes, pos, []⟩ → BinaryGallery.holdsTemplates rt bytes pos recs = true →
      recs ≠ [] → recs.length + 1 ≤ fuel → recs.length ≤ calls →
      ∃ blocks g2,
        BinaryGallery.readPass rt fuel calls g = some (.ok (blocks, g2))
        ∧ blocks.flatten = (recs.filter BinaryGallery.kept).map
            (fun r => r.1.withProgress r.2) := by
  intro n
  induction n using Nat.strong_induction_on with
  | _ n ih =>
    intro recs fuel calls pos g g1 hn hopen hseq hsize hgal hrec hne hfuel hcalls
    subst hn
    have hpos : 1 ≤ recs.length := by
      cases recs with
      | nil => exact absurd rfl hne
      | cons _ _ => simp
    obtain ⟨pos2, taken, rest, hsplit, htaken, hblock, hrec2⟩ :=
      BinaryGallery.readBlock_templates rt bytes recs fuel pos g g1 hopen hseq hgal hrec hne
        (by omega) hfuel
    obtain ⟨calls, rfl⟩ : ∃ c, calls = c + 1 := ⟨calls - 1, by omega⟩
    have htl : 1 ≤ taken.length := by
      cases taken with
      | nil => exact absurd rfl htaken
      | cons _ _ => simp
    have hlen : recs.length = taken.length + rest.length := by rw [hsplit]; simp
    cases hrest : rest with
    | nil =>
      subst hrest
      refine ⟨[(taken.filter BinaryGallery.kept).map (fun r => r.1.withProgress r.2)],
        { g1 with gallery := ⟨bytes, pos2, []⟩ }, ?_, ?_⟩
      · simp only [BinaryGallery.readPass, hblock, List.isEmpty_nil, if_true]
      · simp [hsplit]
    | cons r rest2 =>
      have hopen3 := BinaryGallery.readOpen_again g1 ⟨bytes, pos2, []⟩ g hopen
      have hrne : rest ≠ [] := by rw [hrest]; exact List.cons_ne_nil _ _
      obtain ⟨blocks, g3, hrun, hcat⟩ := ih rest.length (by omega) rest fuel calls pos2
        ⟨⟨bytes, pos2, []⟩, g1.mode, g1.fileExists, g1.sequential, g1.readBlockSize⟩
        ⟨⟨bytes, pos2, []⟩, g1.mode, g1.fileExists, g1.sequential, g1.readBlockSize⟩
        rfl hopen3 hseq hsize rfl hrec2 hrne (by omega) (by omega)
      refine ⟨(taken.filter BinaryGallery.kept).map (fun r => r.1.withProgress r.2) :: blocks,
        g3, ?_, ?_⟩
      · have hd : rest.isEmpty = false := by rw [hrest]; rfl
        simp only [BinaryGallery.readPass, hblock, hd, Bool.false_eq_true, if_false]
        rw [hrun]
      · simp only [List.flatten_cons, hcat, hsplit, List.filter_append, List.map_append]

theorem Template.progress_withProgress (t : Template) (position : Nat) :
    (t.withProgress position).progress = some (position : Int) := by
  simp [Template.progress, Template.withProgress, File.value_set_self]

/-- C11: a seekable binary gallery file that holds N ≥ 1 records, none of them null, read
from the start with block size B ≥ 1: the pass ends (`done` is set) after exactly
ceil(N/B) calls of `readBlock`, every block has at most B records, and the blocks
concatenate to the N records of the file in file order (each as `readTemplate` returns it,
with its progress marker set). -/
theorem BinaryGallery_readBlock_exhaustion (rt : QFile → Outcome (Template × QFile))
    (bytes : List Byte) (recs : List (Template × Nat)) (B fuel calls : Nat)
    (hB : 1 ≤ B) (hne : recs ≠ [])
    (hrec : BinaryGallery.holdsRecords rt bytes 0 recs = true)
    (hfuel : B + 1 ≤ fuel) (hcalls : (recs.length + B - 1) / B ≤ calls) :
    ∃ blocks g2,
      BinaryGallery.readPass rt fuel calls ⟨⟨bytes, 0, []⟩, none, true, false, B⟩
        = some (.ok (blocks, g2))
      ∧ blocks.length = (recs.length + B - 1) / B
      ∧ (∀ b ∈ blocks, b.length ≤ B)
      ∧ blocks.flatten = recs.map (fun r => r.1.withProgress r.2) :=
  BinaryGallery.readPass_spec rt bytes B hB recs.length recs fuel calls 0
    ⟨⟨bytes, 0, []⟩, none, true, false, B⟩ ⟨⟨bytes, 0, []⟩, some .readOnly, true, false, B⟩
    rfl rfl rfl rfl rfl hrec hne hfuel hcalls

set_option maxRecDepth 8000 in
/-- Witness for C11: a universal-template file of three records read with block size 2
takes two calls. -/
theorem BinaryGallery_readBlock_exhaustion_witness :
    (1 ≤ 2 ∧ [(utExampleRead, 54), (utExampleRead, 108), (utExampleRead, 162)] ≠ []
      ∧ BinaryGallery.holdsRecords utGallery.readTemplate
          (utExampleBytes ++ utExampleBytes ++ utExampleBytes) 0
          [(utExampleRead, 54), (utExampleRead, 108), (utExampleRead, 162)] = true
      ∧ 2 + 1 ≤ 3 ∧ (3 + 2 - 1) / 2 ≤ 2) ∧
    ∃ blocks g2,
      BinaryGallery.readPass utGallery.readTemplate 3 2
          ⟨⟨utExampleBytes ++ utExampleBytes ++ utExampleBytes, 0, []⟩, none, true, false, 2⟩
        = some (.ok (blocks, g2))
      ∧ blocks.length = 2 :=
  ⟨⟨by decide, by simp, rfl, by decide, by decide⟩,
    (BinaryGallery_readBlock_exhaustion utGallery.readTemplate
      (utExampleBytes ++ utExampleBytes ++ utExampleBytes)
      [(utExampleRead, 54), (utExampleRead, 108), (utExampleRead, 162)] 2 3 2
      (by decide) (by simp) rfl (by decide) (by decide)).imp
      (fun _ h => h.imp (fun _ h2 => ⟨h2.1, h2.2.1⟩))⟩

/-! ## The directory gallery -/

/-- The filter loop, run down from index `i`, keeps of the first `i` records those whose
file name matches and leaves the others in place. -/
theorem EmptyGallery.removeUnmatched_eq (tools : DirectoryTools) (regexp : QString) :
    ∀ (i : Nat) (templates : List Template), i ≤ templates.length →
      EmptyGallery.removeUnmatched tools regexp i templates
        = (templates.take i).filter (fun t => tools.exactMatch regexp (tools.fileName t.file))
          ++ templates.drop i := by
  intro i
  induction i with
  | zero => intro templates _; simp [EmptyGallery.removeUnmatched]
  | succ i ih =>
    intro templates hi
    have hlt : i < templates.length := by omega
    have hget : templates[i]? = some templates[i] := List.getElem?_eq_getElem hlt
    have htake : templates.take (i + 1) = templates.take i ++ [templates[i]] := by
      rw [List.take_succ, hget]; rfl
    simp only [EmptyGallery.removeUnmatched, hget]
    by_cases hm : tools.exactMatch regexp (tools.fileName templates[i].file) = true
    · simp only [hm, Bool.not_true, Bool.false_eq_true, if_false]
      rw [ih templates (by omega), htake, List.filter_append]
      simp only [List.filter_cons, hm, if_true, List.filter_nil, List.append_assoc,
        List.singleton_append]
      rw [List.cons_getElem_drop_succ]
    · simp only [hm, Bool.not_false, if_true]
      have hlen : (templates.eraseIdx i).length = templates.length - 1 :=
        List.length_eraseIdx_of_lt hlt
      rw [ih (templates.eraseIdx i) (by omega), htake, List.filter_append]
      have he : templates.eraseIdx i = templates.take i ++ templates.drop (i + 1) :=
        List.eraseIdx_eq_take_drop_succ templates i
      have hl : (templates.take i).length = i := by simp; omega
      have h1 : (templates.eraseIdx i).take i = templates.take i := by
        rw [he]; exact List.take_left' hl
      have h2 : (templates.eraseIdx i).drop i = templates.drop (i + 1) := by
        rw [he]; exact List.drop_left' hl
      rw [h1, h2]
      simp [List.filter_cons, hm]

/-- C12 as stated fails: on a directory with the two files `a` and `b` and block size 1,
`readBlock` returns two records. -/
theorem EmptyGallery_readBlock_bound_counterexample :
    ¬ ((EmptyGallery.readBlock exampleTools exampleDirectory
        ⟨⟨[100], false, []⟩, [], 1, 2⟩).1.length ≤ 1) := by
  decide

/-- C12, amended: `EmptyGallery::readBlock` does not consult the block size.  For every
directory tree, pattern and block size B it returns one block and sets `done`; the block
is the same for every other block size; it holds the entries of the listing whose file name
matches the pattern (all entries when there is no pattern, none for the null file), hence at
most as many records as the listing has entries. -/
theorem EmptyGallery_readBlock_single_block (tools : DirectoryTools) (dir : Directory)
    (file : File) (regexp : QString) (B B2 size : Nat) :
    EmptyGallery.readBlock tools dir ⟨file, regexp, B, size⟩
      = EmptyGallery.readBlock tools dir ⟨file, regexp, B2, size⟩
    ∧ (EmptyGallery.readBlock tools dir ⟨file, regexp, B, size⟩).2 = true
    ∧ (EmptyGallery.readBlock tools dir ⟨file, regexp, B, size⟩).1.length
        = (if file.isNull then 0
           else if regexp.isEmpty then (EmptyGallery.listing tools dir).length
           else ((EmptyGallery.listing tools dir).filter
              (fun t => tools.exactMatch regexp (tools.fileName t.file))).length)
    ∧ (EmptyGallery.readBlock tools dir ⟨file, regexp, B, size⟩).1.length
        ≤ (EmptyGallery.listing tools dir).length := by
  have hlen : (EmptyGallery.readBlock tools dir ⟨file, regexp, B, size⟩).1.length
        = (if file.isNull then 0
           else if regexp.isEmpty then (EmptyGallery.listing tools dir).length
           else ((EmptyGallery.listing tools dir).filter
              (fun t => tools.exactMatch regexp (tools.fileName t.file))).length) := by
    unfold EmptyGallery.readBlock
    by_cases hn : file.isNull = true
    · simp [hn]
    · by_cases hr : regexp.isEmpty = true
      · simp [hn, hr, setProgress_length]
      · simp only [hn, hr, Bool.false_eq_true, if_false, Bool.not_false, if_true,
          setProgress_length]
        rw [EmptyGallery.removeUnmatched_eq tools regexp _ _ (le_refl _)]
        simp
  refine ⟨rfl, ?_, hlen, ?_⟩
  · unfold EmptyGallery.readBlock
    by_cases hn : file.isNull = true
    · simp [hn]
    · simp [hn]
  · rw [hlen]
    by_cases hn : file.isNull = true
    · simp [hn]
    · by_cases hr : regexp.isEmpty = true
      · simp [hn, hr]
      · simp only [hn, hr, Bool.false_eq_true, if_false]
        exact List.length_filter_le _ _

/-! ## The sequence gallery -/

theorem getD_take_drop (bytes : List Byte) (pos n k : Nat) (hk : k < n) :
    ((bytes.drop pos).take n).getD k 0 = bytes.getD (pos + k) 0 := by
  simp only [List.getD_eq_getElem?_getD, List.getElem?_take, hk, if_true, List.getElem?_drop]

theorem seqGallery.readChars_at (bytes : List Byte) (pos n : Nat) (h : pos + n ≤ bytes.length) :
    seqGallery.readChars n ⟨true, bytes, pos, false⟩
      = .ok ((bytes.drop pos).take n, ⟨true, bytes, pos + n, false⟩) := by
  have hl : ((bytes.drop pos).take n).length = n := by
    simp only [List.length_take, List.length_drop]; omega
  simp [seqGallery.readChars, IfStream.read, hl]

theorem seqGallery.readInt_at (bytes : List Byte) (pos : Nat) (h : pos + 4 ≤ bytes.length) :
    seqGallery.readInt ⟨true, bytes, pos, false⟩
      = .ok (seqGallery.int32At bytes pos, ⟨true, bytes, pos + 4, false⟩) := by
  simp only [seqGallery.readInt, seqGallery.readChars_at bytes pos 4 h, seqGallery.int32At, u32At]
  rw [getD_take_drop bytes pos 4 0 (by omega), getD_take_drop bytes pos 4 (0 + 1) (by omega),
    getD_take_drop bytes pos 4 (0 + 2) (by omega), getD_take_drop bytes pos 4 (0 + 3) (by omega)]
  simp only [Nat.zero_add, Nat.add_zero]

theorem seqGallery.readText_at (bytes : List Byte) (pos n : Nat) (h : pos + n ≤ bytes.length) :
    seqGallery.readText n ⟨true, bytes, pos, false⟩
      = .ok (seqGallery.narrow n ((bytes.drop pos).take n), ⟨true, bytes, pos + n, false⟩) := by
  simp only [seqGallery.readText, seqGallery.readChars_at bytes pos n h]

/-- What a successful `readChars` tells: the stream had not failed, the bytes were there. -/
theorem seqGallery.readChars_ok (n : Nat) (s s2 : IfStream) (buf : List Byte)
    (h : seqGallery.readChars n s = .ok (buf, s2)) (hn : 0 < n) :
    s.failed = false ∧ s.pos + n ≤ s.bytes.length ∧ buf = (s.bytes.drop s.pos).take n
      ∧ s2 = { s with pos := s.pos + n } := by
  obtain ⟨isOpen, bytes, pos, failed⟩ := s
  cases failed with
  | true =>
    simp only [seqGallery.readChars, IfStream.read, if_true, List.length_nil] at h
    split at h
    · omega
    · simp at h
  | false =>
    simp only [seqGallery.readChars, IfStream.read, Bool.false_eq_true, if_false] at h
    split at h
    · rename_i hlen
      simp only [List.length_take, List.length_drop] at hlen
      have hle : pos + n ≤ bytes.length := by omega
      simp only [Outcome.ok.injEq, Prod.mk.injEq] at h
      refine ⟨rfl, hle, h.1.symm, ?_⟩
      rw [← h.2]
      have hl : ((bytes.drop pos).take n).length = n := by
        simp only [List.length_take, List.length_drop]; omega
      simp [hl]
    · simp at h

theorem seqGallery.readInt_ok (s s2 : IfStream) (v : Int)
    (h : seqGallery.readInt s = .ok (v, s2)) :
    s.failed = false ∧ s.pos + 4 ≤ s.bytes.length ∧ v = seqGallery.int32At s.bytes s.pos
      ∧ s2 = { s with pos := s.pos + 4 } := by
  unfold seqGallery.readInt at h
  cases hr : seqGallery.readChars 4 s with
  | ok r =>
    obtain ⟨buf, s3⟩ := r
    rw [hr] at h
    simp only [Outcome.ok.injEq, Prod.mk.injEq] at h
    obtain ⟨hf, hlen, hbuf, hs⟩ := seqGallery.readChars_ok 4 s s3 buf hr (by omega)
    refine ⟨hf, hlen, ?_, by rw [← h.2, hs]⟩
    rw [← h.1, hbuf]
    simp only [seqGallery.int32At, u32At]
    rw [getD_take_drop _ s.pos 4 0 (by omega), getD_take_drop _ s.pos 4 (0 + 1) (by omega),
      getD_take_drop _ s.pos 4 (0 + 2) (by omega), getD_take_drop _ s.pos 4 (0 + 3) (by omega)]
    simp only [Nat.zero_add, Nat.add_zero]
  | fatal => rw [hr] at h; simp at h
  | undefined => rw [hr] at h; simp at h

theorem seqGallery.openFrames_at (g : seqGallery) (bytes : List Byte)
    (hs : g.seqFile = ⟨true, bytes, 564, false⟩) (hlen : 1024 ≤ bytes.length) :
    seqGallery.openFrames g
      = (seqGallery.classify (seqGallery.int32At bytes 568)).bind (fun imgFormat =>
          (seqGallery.tableLoop imgFormat (seqGallery.int32At bytes 580)
              (seqGallery.int32At bytes 572 - 1).toNat 1 8 ⟨true, bytes, 584, false⟩
              (g.seekPos ++ [1024])).bind (fun r =>
            .ok (true, { g with seqFile := r.1, seekPos := r.2,
                                imgSizeBytes := seqGallery.int32At bytes 564,
                                imgFormat := imgFormat,
                                numFrames := seqGallery.int32At bytes 572,
                                trueImgSizeBytes := seqGallery.int32At bytes 580 }))) := by
  have hk : (⟨true, bytes, 576, false⟩ : IfStream).seekgCur 4 = ⟨true, bytes, 580, false⟩ := by
    simp [IfStream.seekgCur]
  unfold seqGallery.openFrames
  rw [hs, seqGallery.readInt_at bytes 564 (by omega)]
  simp only []
  rw [seqGallery.readInt_at bytes 568 (by omega)]
  simp only []
  cases hc : seqGallery.classify (seqGallery.int32At bytes 568) with
  | ok imgFormat =>
    simp only [Outcome.bind]
    rw [seqGallery.readInt_at bytes 572 (by omega)]
    simp only []
    rw [hk, seqGallery.readInt_at bytes 580 (by omega)]
    simp only []
    cases seqGallery.tableLoop imgFormat (seqGallery.int32At bytes 580)
        (seqGallery.int32At bytes 572 - 1).toNat 1 8 ⟨true, bytes, 584, false⟩
        (g.seekPos ++ [1024]) with
    | ok r => rfl
    | fatal => rfl
    | undefined => rfl
  | fatal => rfl
  | undefined => rfl

theorem seqGallery.openFields_at (g : seqGallery) (bytes : List Byte)
    (hs : g.seqFile = ⟨true, bytes, 28, false⟩) (hlen : 1024 ≤ bytes.length) :
    seqGallery.openFields g
      = if seqGallery.int32At bytes 32 ≠ 1024 then
          .ok (false, { g with seqFile := ⟨true, bytes, 36, false⟩ })
        else if seqGallery.int32At bytes 560 ≠ 8 then
          .ok (false, { g with
            file := g.file.set "Description"
              (.string (fromUtf8 (cString (seqGallery.narrow 512 ((bytes.drop 36).take 512))))),
            seqFile := ⟨true, bytes, 564, false⟩, width := seqGallery.int32At bytes 548,
            height := seqGallery.int32At bytes 552,
            numChan := Int.tdiv (seqGallery.int32At bytes 556) 8 })
        else
          seqGallery.openFrames { g with
            file := g.file.set "Description"
              (.string (fromUtf8 (cString (seqGallery.narrow 512 ((bytes.drop 36).take 512))))),
            seqFile := ⟨true, bytes, 564, false⟩, width := seqGallery.int32At bytes 548,
            height := seqGallery.int32At bytes 552,
            numChan := Int.tdiv (seqGallery.int32At bytes 556) 8 } := by
  have hk : (⟨true, bytes, 28, false⟩ : IfStream).seekgCur 4 = ⟨true, bytes, 32, false⟩ := by
    simp [IfStream.seekgCur]
  unfold seqGallery.openFields
  rw [hs, hk, seqGallery.readInt_at bytes 32 (by omega)]
  simp only []
  by_cases h1 : seqGallery.int32At bytes 32 = 1024
  · simp only [h1, ne_eq, not_true_eq_false, if_false]
    rw [seqGallery.readText_at bytes 36 512 (by omega)]
    simp only []
    rw [seqGallery.readInt_at bytes 548 (by omega)]
    simp only []
    rw [seqGallery.readInt_at bytes 552 (by omega)]
    simp only []
    rw [seqGallery.readInt_at bytes 556 (by omega)]
    simp only []
    rw [seqGallery.readInt_at bytes 560 (by omega)]
  · simp only [h1, ne_eq, not_false_eq_true, if_true]

theorem seqGallery.narrow_take (bytes : List Byte) :
    (seqGallery.narrow 24 ((bytes.drop 4).take 24)).take 10
      = (List.range 10).map (fun k => bytes.getD (4 + 2 * k) 0) := by
  have h12 : List.range (24 / 2) = [0, 1, 2, 3, 4, 5, 6, 7, 8, 9, 10, 11] := by decide
  have h10 : List.range 10 = [0, 1, 2, 3, 4, 5, 6, 7, 8, 9] := by decide
  simp only [seqGallery.narrow, h12, h10, List.map_cons, List.map_nil, List.cons_append,
    List.take_succ_cons, List.take_zero]
  rw [getD_take_drop bytes 4 24 (2 * 0) (by omega), getD_take_drop bytes 4 24 (2 * 1) (by omega),
    getD_take_drop bytes 4 24 (2 * 2) (by omega), getD_take_drop bytes 4 24 (2 * 3) (by omega),
    getD_take_drop bytes 4 24 (2 * 4) (by omega), getD_take_drop bytes 4 24 (2 * 5) (by omega),
    getD_take_drop bytes 4 24 (2 * 6) (by omega), getD_take_drop bytes 4 24 (2 * 7) (by omega),
    getD_take_drop bytes 4 24 (2 * 8) (by omega), getD_take_drop bytes 4 24 (2 * 9) (by omega)]

theorem seqGallery.open_head (file : File) (bytes : List Byte)
    (hsize : (1024 : Int) ≤ toInt32 (ofInt32 (bytes.length : Int)))
    (hlen : 1024 ≤ bytes.length) :
    seqGallery.open (some bytes) (seqGallery.create file)
      = if bytes.getD 0 0 ≠ 237 ∨ bytes.getD 1 0 ≠ 254
            ∨ (List.range 10).map (fun k => bytes.getD (4 + 2 * k) 0) ≠ norpixSeq then
          .ok (false, { seqGallery.create file with seqFile := ⟨true, bytes, 28, false⟩ })
        else
          seqGallery.openFields
            { seqGallery.create file with seqFile := ⟨true, bytes, 28, false⟩ } := by
  have ho : (seqGallery.create file).seqFile.open (some bytes) = ⟨true, bytes, bytes.length, false⟩ := by
    simp [seqGallery.create, IfStream.open]
  have hk : (⟨true, bytes, bytes.length, false⟩ : IfStream).seekg 0 = ⟨true, bytes, 0, false⟩ := by
    simp [IfStream.seekg]
  have ht : (⟨true, bytes, bytes.length, false⟩ : IfStream).tellg = (bytes.length : Int) := by
    simp [IfStream.tellg]
  unfold seqGallery.open
  simp only [ho, seqGallery.isOpen, Bool.not_true, Bool.false_eq_true, if_false, ht,
    not_lt.2 hsize, hk]
  rw [seqGallery.readChars_at bytes 0 4 (by omega)]
  simp only []
  rw [seqGallery.readText_at bytes (0 + 4) 24 (by omega)]
  simp only [Nat.zero_add]
  rw [seqGallery.narrow_take bytes, getD_take_drop bytes 0 4 0 (by omega),
    getD_take_drop bytes 0 4 1 (by omega)]

theorem toInt32_length_le (n : Nat) (h : (1024 : Int) ≤ toInt32 (ofInt32 (n : Int))) :
    1024 ≤ n := by
  unfold toInt32 ofInt32 at h
  by_contra hlt
  have hn : n < 1024 := by omega
  have h1 : ((n : Int) % 4294967296).toNat = n := by omega
  rw [h1] at h
  have h2 : n % 4294967296 = n := by omega
  rw [h2] at h
  simp only [show n < 2147483648 by omega, if_true] at h
  omega

theorem seqGallery.validHeader_iff (bytes : List Byte) :
    seqGallery.validHeader bytes = true ↔
      (1024 : Int) ≤ toInt32 (ofInt32 (bytes.length : Int))
        ∧ bytes.getD 0 0 = 237 ∧ bytes.getD 1 0 = 254
        ∧ (List.range 10).map (fun k => bytes.getD (4 + 2 * k) 0) = norpixSeq
        ∧ seqGallery.int32At bytes 32 = 1024 ∧ seqGallery.int32At bytes 560 = 8 := by
  simp only [seqGallery.validHeader, Bool.and_eq_true, decide_eq_true_eq]
  tauto

/-- On a file whose header passes the checks, `open` classifies the format, builds the
table and returns `true`. -/
theorem seqGallery.open_valid (file : File) (bytes : List Byte)
    (hv : seqGallery.validHeader bytes = true) :
    seqGallery.open (some bytes) (seqGallery.create file)
      = (seqGallery.classify (seqGallery.int32At bytes 568)).bind (fun imgFormat =>
          (seqGallery.tableLoop imgFormat (seqGallery.int32At bytes 580)
              (seqGallery.int32At bytes 572 - 1).toNat 1 8 ⟨true, bytes, 584, false⟩
              [1024]).bind (fun r =>
            .ok (true, ⟨file.set "Description"
                (.string (fromUtf8 (cString (seqGallery.narrow 512 ((bytes.drop 36).take 512))))),
              r.1, r.2, seqGallery.int32At bytes 548, seqGallery.int32At bytes 552,
              Int.tdiv (seqGallery.int32At bytes 556) 8, seqGallery.int32At bytes 564,
              seqGallery.int32At bytes 580, seqGallery.int32At bytes 572, imgFormat, 0⟩))) := by
  obtain ⟨hsize, h0, h1, htext, hhead, hdepth⟩ := (seqGallery.validHeader_iff bytes).1 hv
  have hlen := toInt32_length_le bytes.length hsize
  rw [seqGallery.open_head file bytes hsize hlen]
  simp only [h0, h1, htext, ne_eq, not_true_eq_false, or_self, if_false]
  rw [seqGallery.openFields_at _ bytes rfl hlen]
  simp only [hhead, hdepth, ne_eq, not_true_eq_false, if_false]
  rw [seqGallery.openFrames_at _ bytes rfl hlen]
  rfl

/-- On a file that cannot be opened or whose header fails a check, `open` returns
`false`. -/
theorem seqGallery.open_invalid (file : File) (disk : Option (List Byte))
    (h : ∀ bytes, disk = some bytes → seqGallery.validHeader bytes = false) :
    ∃ st, seqGallery.open disk (seqGallery.create file) = .ok (false, st) := by
  cases disk with
  | none => exact ⟨_, rfl⟩
  | some bytes =>
    have hv := h bytes rfl
    by_cases hsize : (1024 : Int) ≤ toInt32 (ofInt32 (bytes.length : Int))
    · have hlen := toInt32_length_le bytes.length hsize
      rw [seqGallery.open_head file bytes hsize hlen]
      by_cases hm : bytes.getD 0 0 ≠ 237 ∨ bytes.getD 1 0 ≠ 254
          ∨ (List.range 10).map (fun k => bytes.getD (4 + 2 * k) 0) ≠ norpixSeq
      · rw [if_pos hm]
        exact ⟨_, rfl⟩
      · rw [if_neg hm, seqGallery.openFields_at _ bytes rfl hlen]
        by_cases hh : seqGallery.int32At bytes 32 ≠ 1024
        · rw [if_pos hh]
          exact ⟨_, rfl⟩
        · rw [if_neg hh]
          by_cases hd : seqGallery.int32At bytes 560 ≠ 8
          · rw [if_pos hd]
            exact ⟨_, rfl⟩
          · exfalso
            have hv2 : seqGallery.validHeader bytes = true := by
              rw [seqGallery.validHeader_iff]
              simp only [not_or, ne_eq, not_not] at hm hh hd
              exact ⟨hsize, hm.1, hm.2.1, hm.2.2, hh, hd⟩
            rw [hv] at hv2
            exact Bool.false_ne_true hv2
    · have ho : (seqGallery.create file).seqFile.open (some bytes)
          = ⟨true, bytes, bytes.length, false⟩ := by
        simp [seqGallery.create, IfStream.open]
      refine ⟨{ seqGallery.create file with seqFile := ⟨true, bytes, bytes.length, false⟩ }, ?_⟩
      unfold seqGallery.open
      simp only [ho, seqGallery.isOpen, Bool.not_true, Bool.false_eq_true, if_false,
        IfStream.tellg, not_le.1 hsize, if_true]

theorem addInt32_ok (a b s : Int) (h : addInt32 a b = .ok s) : s = a + b := by
  unfold addInt32 at h
  split at h
  · exact (Outcome.ok.inj h).symm
  · simp at h

theorem mulInt32_ok (a b s : Int) (h : mulInt32 a b = .ok s) : s = a * b := by
  unfold mulInt32 at h
  split at h
  · exact (Outcome.ok.inj h).symm
  · simp at h

theorem Outcome.bind_eq_ok {α β : Type} (x : Outcome α) (f : α → Outcome β) (b : β)
    (h : x.bind f = .ok b) : ∃ a, x = .ok a ∧ f a = .ok b := by
  cases x with
  | ok a => exact ⟨a, rfl, h⟩
  | fatal => simp [Outcome.bind] at h
  | undefined => simp [Outcome.bind] at h

theorem IfStream.seekg_ok (s : IfStream) (off : Int) (h : (s.seekg off).failed = false) :
    0 ≤ off ∧ s.seekg off = { s with pos := off.toNat } := by
  unfold IfStream.seekg at h ⊢
  by_cases hf : s.failed = true
  · simp [hf] at h
  · by_cases hneg : off < 0
    · simp [hf, hneg] at h
    · simp only [hf, hneg, Bool.false_eq_true, if_false]
      exact ⟨by omega, trivial⟩

/-- The table loop on a raw file appends `1024 + k * trueImgSizeBytes` for each index `k`
it runs through and leaves the stream alone. -/
theorem seqGallery.tableLoop_raw (imgFormat : QString) (t : Int)
    (hf : imgFormat ≠ compressedFormat) :
    ∀ (remaining : Nat) (i extra : Int) (seqFile : IfStream) (seekPos : List Int)
      (seqFile2 : IfStream) (table : List Int),
      seqGallery.tableLoop imgFormat t remaining i extra seqFile seekPos = .ok (seqFile2, table) →
      seqFile2 = seqFile
        ∧ table = seekPos ++ (List.range remaining).map (fun k : Nat => 1024 + (i + k) * t) := by
  intro remaining
  induction remaining with
  | zero =>
    intro i extra seqFile seekPos seqFile2 table h
    simp only [seqGallery.tableLoop, Outcome.ok.injEq, Prod.mk.injEq] at h
    simp [h.1, h.2]
  | succ n ih =>
    intro i extra seqFile seekPos seqFile2 table h
    simp only [seqGallery.tableLoop, hf, if_false] at h
    cases hs : (mulInt32 i t).bind (fun p => addInt32 1024 p) with
    | ok s =>
      rw [hs] at h
      simp only [] at h
      obtain ⟨p, hp, hsum⟩ := Outcome.bind_eq_ok _ _ _ hs
      have hp2 := mulInt32_ok _ _ _ hp
      have hs2 := addInt32_ok _ _ _ hsum
      obtain ⟨h1, h2⟩ := ih (i + 1) extra seqFile (seekPos ++ [s]) seqFile2 table h
      refine ⟨h1, ?_⟩
      rw [h2, List.range_succ_eq_map, List.map_cons, List.map_map, List.append_assoc]
      simp only [List.singleton_append, hs2, hp2, Nat.cast_zero, add_zero, List.cons.injEq,
        true_and, List.append_cancel_left_eq]
      apply List.map_congr_left
      intro k _
      simp only [Function.comp_apply, Nat.cast_succ]
      ring
    | fatal => rw [hs] at h; simp at h
    | undefined => rw [hs] at h; simp at h

/-- The table loop on a compressed file, after its first round: each offset it appends
follows the one before with the padding `extra`. -/
theorem seqGallery.tableLoop_compressed (t : Int) (bytes : List Byte) (p : Int) :
    ∀ (remaining : Nat) (i : Int) (seqFile : IfStream) (seekPos : List Int)
      (seqFile2 : IfStream) (table : List Int) (last : Int),
      2 ≤ i → seqFile.bytes = bytes → seekPos.length = i.toNat → seekPos.getLast? = some last →
      seqGallery.tableLoop compressedFormat t remaining i p seqFile seekPos
        = .ok (seqFile2, table) →
      ∃ new, table = seekPos ++ new ∧ new.length = remaining
        ∧ List.Chain (seqGallery.follows bytes p) last new := by
  intro remaining
  induction remaining with
  | zero =>
    intro i seqFile seekPos seqFile2 table last _ _ _ _ h
    simp only [seqGallery.tableLoop, Outcome.ok.injEq, Prod.mk.injEq] at h
    exact ⟨[], by simp [h.2], rfl, List.Chain.nil⟩
  | succ n ih =>
    intro i seqFile seekPos seqFile2 table last hi hbytes hlen hlast h
    have hidx : seekPos[(i - 1).toNat]? = some last := by
      rw [← hlast, List.getLast?_eq_getElem?]
      congr 1
      omega
    have hi1 : i ≠ 1 := by omega
    simp only [seqGallery.tableLoop, if_true, hidx, hi1, if_false] at h
    cases hr : seqGallery.readInt (seqFile.seekg last) with
    | ok r =>
      obtain ⟨currSize, seqFile3⟩ := r
      rw [hr] at h
      simp only [] at h
      obtain ⟨hnf, hfit, hcur, hs3⟩ := seqGallery.readInt_ok _ _ _ hr
      obtain ⟨hpos, hseek⟩ := IfStream.seekg_ok seqFile last hnf
      rw [hseek] at hfit hcur hs3
      simp only [hbytes] at hfit hcur
      cases hs : (addInt32 last currSize).bind (fun sum => addInt32 sum p) with
      | ok s =>
        rw [hs] at h
        simp only [] at h
        obtain ⟨sum, hsum, hsum2⟩ := Outcome.bind_eq_ok _ _ _ hs
        have e1 := addInt32_ok _ _ _ hsum
        have e2 := addInt32_ok _ _ _ hsum2
        obtain ⟨new, hnew, hnl, hchain⟩ := ih (i + 1) seqFile3 (seekPos ++ [s]) seqFile2 table s
          (by omega) (by rw [hs3]; exact hbytes)
          (by rw [List.length_append, hlen]; simp only [List.length_singleton]; omega)
          (by simp) h
        refine ⟨s :: new, by rw [hnew]; simp, by simp [hnl], List.Chain.cons ?_ hchain⟩
        exact ⟨hpos, hfit, by rw [e2, e1, hcur]⟩
      | fatal => rw [hs] at h; simp at h
      | undefined => rw [hs] at h; simp at h
    | fatal => rw [hr] at h; simp at h
    | undefined => rw [hr] at h; simp at h

/-- The first round of the table loop on a compressed file settles the padding, and every
offset of the table follows the one before with that padding. -/
theorem seqGallery.tableLoop_first (t : Int) (bytes : List Byte) (n : Nat)
    (seqFile seqFile2 : IfStream) (table : List Int) (hbytes : seqFile.bytes = bytes)
    (h : seqGallery.tableLoop compressedFormat t (n + 1) 1 8 seqFile [1024]
      = .ok (seqFile2, table)) :
    ∃ new, table = 1024 :: new ∧ new.length = n + 1
      ∧ List.Chain (seqGallery.follows bytes
          (if bytes.getD (1024 + seqGallery.int32At bytes 1024 + 8).toNat 0 = 0 then 16 else 8))
          1024 new := by
  have hidx : ([1024] : List Int)[((1 : Int) - 1).toNat]? = some 1024 := by decide
  simp only [seqGallery.tableLoop, if_true, hidx] at h
  cases hr : seqGallery.readInt (seqFile.seekg 1024) with
  | ok r =>
    obtain ⟨currSize, seqFile3⟩ := r
    rw [hr] at h
    simp only [] at h
    obtain ⟨hnf, hfit, hcur, hs3⟩ := seqGallery.readInt_ok _ _ _ hr
    obtain ⟨hpos, hseek⟩ := IfStream.seekg_ok seqFile 1024 hnf
    rw [hseek] at hfit hcur hs3
    simp only [hbytes] at hfit hcur
    have h1024 : (1024 : Int).toNat = 1024 := by decide
    rw [h1024] at hfit hcur
    have hb3 : seqFile3.bytes = bytes := by rw [hs3]; exact hbytes
    cases hs : (addInt32 1024 currSize).bind (fun sum => addInt32 sum 8) with
    | ok s =>
      rw [hs] at h
      simp only [] at h
      obtain ⟨sum, hsum, hsum2⟩ := Outcome.bind_eq_ok _ _ _ hs
      have e1 := addInt32_ok _ _ _ hsum
      have e2 := addInt32_ok _ _ _ hsum2
      have es : s = 1024 + seqGallery.int32At bytes 1024 + 8 := by rw [e2, e1, hcur]
      cases hz : seqGallery.readChars 1 (seqFile3.seekg s) with
      | ok rz =>
        obtain ⟨zero, seqFile4⟩ := rz
        rw [hz] at h
        simp only [] at h
        obtain ⟨hnf4, hfit4, hzero, hs4⟩ := seqGallery.readChars_ok 1 _ _ _ hz (by omega)
        obtain ⟨hpos4, hseek4⟩ := IfStream.seekg_ok seqFile3 s hnf4
        rw [hseek4] at hzero hs4
        simp only [hb3] at hzero
        have hb4 : seqFile4.bytes = bytes := by rw [hs4]; exact hb3
        have hzero2 : zero.getD 0 0 = bytes.getD s.toNat 0 := by
          rw [hzero, getD_take_drop bytes s.toNat 1 0 (by omega)]
          rfl
        rw [hzero2] at h
        rw [← es]
        by_cases hz0 : bytes.getD s.toNat 0 = 0
        · simp only [hz0, if_true] at h ⊢
          cases hs8 : (addInt32 s 8).bind (fun s => (addInt32 8 8).map (fun e => (s, e))) with
          | ok se =>
            obtain ⟨s2, extra⟩ := se
            rw [hs8] at h
            simp only [] at h
            obtain ⟨s3, hs3a, hs3b⟩ := Outcome.bind_eq_ok _ _ _ hs8
            have e3 := addInt32_ok _ _ _ hs3a
            have e8 : addInt32 8 8 = .ok 16 := by decide
            rw [e8] at hs3b
            simp only [Outcome.map, Outcome.ok.injEq, Prod.mk.injEq] at hs3b
            obtain ⟨rfl, rfl⟩ := hs3b
            obtain ⟨new, hnew, hnl, hchain⟩ := seqGallery.tableLoop_compressed t bytes 16 n
              (1 + 1) seqFile4 ([1024] ++ [s3]) seqFile2 table s3 (by omega) hb4 (by simp)
              (by simp) h
            refine ⟨s3 :: new, by rw [hnew]; simp, by simp [hnl], List.Chain.cons ?_ hchain⟩
            refine ⟨by omega, hfit, ?_⟩
            rw [e3, es]
            simp only [h1024]
            ring
          | fatal => rw [hs8] at h; simp at h
          | undefined => rw [hs8] at h; simp at h
        · simp only [hz0, if_false] at h ⊢
          obtain ⟨new, hnew, hnl, hchain⟩ := seqGallery.tableLoop_compressed t bytes 8 n
            (1 + 1) seqFile4 ([1024] ++ [s]) seqFile2 table s (by omega) hb4 (by simp)
            (by simp) h
          refine ⟨s :: new, by rw [hnew]; simp, by simp [hnl], List.Chain.cons ?_ hchain⟩
          refine ⟨by omega, hfit, ?_⟩
          rw [es]
          simp only [h1024]
      | fatal => rw [hz] at h; simp at h
      | undefined => rw [hz] at h; simp at h
    | fatal => rw [hs] at h; simp at h
    | undefined => rw [hs] at h; simp at h
  | fatal => rw [hr] at h; simp at h
  | undefined => rw [hr] at h; simp at h

theorem seqGallery.classify_ok (c : Int) (imgFormat : QString)
    (h : seqGallery.classify c = .ok imgFormat) :
    (imgFormat = rawFormat ∧ (c = 100 ∨ c = 200 ∨ c = 101))
      ∨ (imgFormat = compressedFormat
          ∧ (c = 102 ∨ c = 201 ∨ c = 103 ∨ c = 1 ∨ c = 2)
          ∧ ¬ (c = 100 ∨ c = 200 ∨ c = 101)) := by
  unfold seqGallery.classify at h
  by_cases h1 : c = 100 ∨ c = 200 ∨ c = 101
  · rw [if_pos h1] at h
    exact Or.inl ⟨(Outcome.ok.inj h).symm, h1⟩
  · rw [if_neg h1] at h
    by_cases h2 : c = 102 ∨ c = 201 ∨ c = 103 ∨ c = 1 ∨ c = 2
    · rw [if_pos h2] at h
      exact Or.inr ⟨(Outcome.ok.inj h).symm, h2, h1⟩
    · rw [if_neg h2] at h
      simp at h

theorem rawFormat_ne_compressedFormat : rawFormat ≠ compressedFormat := by decide

/-- What a successful `open` of a fresh gallery tells: the header passed the checks, the
format code was classified, and the table loop ran to its end. -/
theorem seqGallery.open_true (file : File) (bytes : List Byte) (st : seqGallery)
    (h : seqGallery.open (some bytes) (seqGallery.create file) = .ok (true, st)) :
    seqGallery.validHeader bytes = true
      ∧ seqGallery.classify (seqGallery.int32At bytes 568) = .ok st.imgFormat
      ∧ seqGallery.tableLoop st.imgFormat (seqGallery.int32At bytes 580)
          (seqGallery.int32At bytes 572 - 1).toNat 1 8 ⟨true, bytes, 584, false⟩ [1024]
        = .ok (st.seqFile, st.seekPos)
      ∧ st.numFrames = seqGallery.int32At bytes 572
      ∧ st.trueImgSizeBytes = seqGallery.int32At bytes 580 := by
  by_cases hv : seqGallery.validHeader bytes = true
  · rw [seqGallery.open_valid file bytes hv] at h
    obtain ⟨imgFormat, hc, h2⟩ := Outcome.bind_eq_ok _ _ _ h
    obtain ⟨r, ht, h3⟩ := Outcome.bind_eq_ok _ _ _ h2
    simp only [Outcome.ok.injEq, Prod.mk.injEq, true_and] at h3
    subst h3
    exact ⟨hv, hc, ht, rfl, rfl⟩
  · obtain ⟨st2, h2⟩ := seqGallery.open_invalid file (some bytes) (by
      intro b hb
      cases hb
      simpa using hv)
    rw [h2] at h
    simp at h

/-- The table of an opened file has one entry, plus one for each frame after the first. -/
theorem seqGallery.open_table_length (file : File) (bytes : List Byte) (st : seqGallery)
    (h : seqGallery.open (some bytes) (seqGallery.create file) = .ok (true, st)) :
    st.seekPos.length = 1 + (st.numFrames - 1).toNat := by
  obtain ⟨_, hc, ht, hn, _⟩ := seqGallery.open_true file bytes st h
  rw [hn]
  rcases seqGallery.classify_ok _ _ hc with ⟨hf, _⟩ | ⟨hf, _, _⟩
  · rw [hf] at ht
    obtain ⟨_, h2⟩ := seqGallery.tableLoop_raw rawFormat _ rawFormat_ne_compressedFormat _ _ _ _ _
      _ _ ht
    rw [h2]
    simp only [List.length_append, List.length_map, List.length_range, List.length_singleton]
  · rw [hf] at ht
    cases hk : (seqGallery.int32At bytes 572 - 1).toNat with
    | zero =>
      rw [hk] at ht
      simp only [seqGallery.tableLoop, Outcome.ok.injEq, Prod.mk.injEq] at ht
      rw [← ht.2]
      rfl
    | succ k =>
      rw [hk] at ht
      obtain ⟨new, hnew, hnl, _⟩ := seqGallery.tableLoop_first _ bytes k _ _ _ rfl ht
      rw [hnew]
      simp only [List.length_cons, hnl]
      omega

/-- C13: for every file that `seqGallery::open` accepts with raw layout, frame count
n ≥ 1 (the header field at offset 572) and true frame size s (the field at offset 580),
the table of frame offsets has `offset[i] = 1024 + i * s` for every `i < n`, and no other
entry. -/
theorem seqGallery_open_raw_offsets (file : File) (bytes : List Byte) (st : seqGallery)
    (h : seqGallery.open (some bytes) (seqGallery.create file) = .ok (true, st))
    (hraw : st.imgFormat = rawFormat) (hn : 1 ≤ st.numFrames) :
    st.numFrames = seqGallery.int32At bytes 572
      ∧ st.trueImgSizeBytes = seqGallery.int32At bytes 580
      ∧ st.seekPos = (List.range st.numFrames.toNat).map
          (fun i : Nat => 1024 + (i : Int) * st.trueImgSizeBytes)
      ∧ ∀ i : Nat, (i : Int) < st.numFrames →
          st.seekPos[i]? = some (1024 + (i : Int) * st.trueImgSizeBytes) := by
  obtain ⟨_, _, ht, hnum, htrue⟩ := seqGallery.open_true file bytes st h
  have htable : st.seekPos = (List.range st.numFrames.toNat).map
      (fun i : Nat => 1024 + (i : Int) * st.trueImgSizeBytes) := by
    rw [hraw] at ht
    obtain ⟨_, h2⟩ := seqGallery.tableLoop_raw rawFormat _ rawFormat_ne_compressedFormat _ _ _ _ _
      _ _ ht
    rw [h2, ← hnum, ← htrue]
    obtain ⟨k, hk⟩ : ∃ k : Nat, st.numFrames.toNat = k + 1 := ⟨st.numFrames.toNat - 1, by omega⟩
    have hk2 : (st.numFrames - 1).toNat = k := by omega
    rw [hk, hk2, List.range_succ_eq_map, List.map_cons, List.map_map]
    simp only [Nat.cast_zero, zero_mul, add_zero, List.singleton_append, List.cons.injEq,
      true_and]
    apply List.map_congr_left
    intro j _
    simp only [Function.comp_apply, Nat.cast_succ]
    ring
  refine ⟨hnum, htrue, htable, ?_⟩
  intro i hi
  rw [htable, List.getElem?_map, List.getElem?_range (by omega)]
  rfl

set_option maxRecDepth 100000 in
/-- Witness for C13: the header with five frames of true size 100. -/
theorem seqGallery_open_raw_offsets_witness :
    (seqGallery.open (some (seqHeader 2 1 2 100 5 100)) (seqGallery.create ⟨[115], false, []⟩)
        = .ok (true, ⟨⟨[115], false, [("Description", .string [])]⟩,
            ⟨true, seqHeader 2 1 2 100 5 100, 584, false⟩, [1024, 1124, 1224, 1324, 1424],
            2, 1, 1, 2, 100, 5, rawFormat, 0⟩)
      ∧ rawFormat = rawFormat ∧ (1 : Int) ≤ 5) ∧
    ([1024, 1124, 1224, 1324, 1424] : List Int)
      = (List.range (5 : Int).toNat).map (fun i : Nat => 1024 + (i : Int) * 100) :=
  ⟨⟨by decide, rfl, by decide⟩,
    (seqGallery_open_raw_offsets ⟨[115], false, []⟩ (seqHeader 2 1 2 100 5 100)
      ⟨⟨[115], false, [("Description", .string [])]⟩,
        ⟨true, seqHeader 2 1 2 100 5 100, 584, false⟩, [1024, 1124, 1224, 1324, 1424],
        2, 1, 1, 2, 100, 5, rawFormat, 0⟩ (by decide) rfl (by decide)).2.2.1⟩

set_option maxRecDepth 100000 in
/-- C14 fails on the code: a header that declares 0 frames is accepted, and the table of
frame offsets then has one entry, 1024, not zero entries. -/
theorem seqGallery_open_zero_frames :
    (seqGallery.open (some (seqHeader 2 1 2 100 0 100)) (seqGallery.create ⟨[115], false, []⟩)).map
        (fun r => (r.1, r.2.numFrames, r.2.seekPos, r.2.seekPos.length))
      = .ok (true, 0, [1024], 1) := by
  decide

theorem chain_getElem? {R : Int → Int → Prop} (l : List Int) (h : List.Chain' R l) (i : Nat)
    (hi : i + 1 < l.length) :
    ∃ a b, l[i]? = some a ∧ l[i + 1]? = some b ∧ R a b := by
  have h2 := List.chain'_iff_get.1 h i (by omega)
  refine ⟨l[i], l[i + 1], List.getElem?_eq_getElem (by omega), List.getElem?_eq_getElem hi, ?_⟩
  simpa using h2

/-- The table of an accepted compressed file: it starts with 1024, has one entry plus one
for each frame after the first, and each entry follows the one before. -/
theorem seqGallery.open_compressed_chain (file : File) (bytes : List Byte) (st : seqGallery)
    (h : seqGallery.open (some bytes) (seqGallery.create file) = .ok (true, st))
    (hc : st.imgFormat = compressedFormat) :
    ∃ new, st.seekPos = 1024 :: new ∧ new.length = (st.numFrames - 1).toNat
      ∧ List.Chain (seqGallery.follows bytes
          (if bytes.getD (1024 + seqGallery.int32At bytes 1024 + 8).toNat 0 = 0 then 16 else 8))
          1024 new := by
  obtain ⟨_, _, ht, hnum, _⟩ := seqGallery.open_true file bytes st h
  rw [hc] at ht
  rw [hnum]
  cases hk : (seqGallery.int32At bytes 572 - 1).toNat with
  | zero =>
    rw [hk] at ht
    simp only [seqGallery.tableLoop, Outcome.ok.injEq, Prod.mk.injEq] at ht
    exact ⟨[], ht.2.symm, rfl, List.Chain.nil⟩
  | succ k =>
    rw [hk] at ht
    exact seqGallery.tableLoop_first _ bytes k _ _ _ rfl ht

/-- C15: for every file that `seqGallery::open` accepts with compressed layout, with d(j)
the 4-byte length stored at `offset[j]` and p = 16 if the byte at position
`offset[0] + d(0) + 8` is zero and p = 8 otherwise: `offset[0] = 1024`, and for every
`1 ≤ i < numFrames` the offset `offset[i-1]` lies in the file with its length prefix and
`offset[i] = offset[i-1] + d(i-1) + p`, with the same p for all i. -/
theorem seqGallery_open_compressed_offsets (file : File) (bytes : List Byte) (st : seqGallery)
    (h : seqGallery.open (some bytes) (seqGallery.create file) = .ok (true, st))
    (hc : st.imgFormat = compressedFormat) :
    st.numFrames = seqGallery.int32At bytes 572
      ∧ st.seekPos[0]? = some 1024
      ∧ ∀ i : Nat, 1 ≤ i → (i : Int) < st.numFrames →
          ∃ prev : Int, st.seekPos[i - 1]? = some prev ∧ 0 ≤ prev
            ∧ prev.toNat + 4 ≤ bytes.length
            ∧ st.seekPos[i]? = some (prev + seqGallery.int32At bytes prev.toNat
                + (if bytes.getD (1024 + seqGallery.int32At bytes 1024 + 8).toNat 0 = 0
                    then 16 else 8)) := by
  obtain ⟨new, hnew, hlen, hchain⟩ := seqGallery.open_compressed_chain file bytes st h hc
  refine ⟨(seqGallery.open_true file bytes st h).2.2.2.1, by rw [hnew]; simp, ?_⟩
  intro i hi hin
  have hchain2 : List.Chain' (seqGallery.follows bytes
      (if bytes.getD (1024 + seqGallery.int32At bytes 1024 + 8).toNat 0 = 0 then 16 else 8))
      st.seekPos := by
    rw [hnew]; exact hchain
  have hl : st.seekPos.length = 1 + (st.numFrames - 1).toNat := by
    rw [hnew, List.length_cons, hlen]; omega
  obtain ⟨a, b, ha, hb, hpos, hfit, hab⟩ := chain_getElem? st.seekPos hchain2 (i - 1) (by omega)
  have hi2 : i - 1 + 1 = i := by omega
  rw [hi2] at hb
  exact ⟨a, ha, hpos, hfit, by rw [hb, hab]⟩

set_option maxRecDepth 100000 in
/-- Witness for C15: a compressed file of three frames with padding 16. -/
theorem seqGallery_open_compressed_offsets_witness :
    (seqGallery.open (some seqCompressedExample) (seqGallery.create ⟨[115], false, []⟩)
        = .ok (true, ⟨⟨[115], false, [("Description", .string [])]⟩,
            ⟨true, seqCompressedExample, 1050, false⟩, [1024, 1046, 1067],
            2, 1, 1, 2, 0, 3, compressedFormat, 0⟩)
      ∧ compressedFormat = compressedFormat) ∧
    ([1024, 1046, 1067] : List Int)[0]? = some 1024 :=
  ⟨⟨by decide, rfl⟩,
    (seqGallery_open_compressed_offsets ⟨[115], false, []⟩ seqCompressedExample
      ⟨⟨[115], false, [("Description", .string [])]⟩,
        ⟨true, seqCompressedExample, 1050, false⟩, [1024, 1046, 1067],
        2, 1, 1, 2, 0, 3, compressedFormat, 0⟩ (by decide) rfl).2.1⟩

theorem chain_and_dropLast {R : Int → Int → Prop} {P : Int → Prop} :
    ∀ (l : List Int) (a : Int), List.Chain R a l → (∀ x ∈ (a :: l).dropLast, P x) →
      List.Chain (fun x y => R x y ∧ P x) a l := by
  intro l
  induction l with
  | nil => intro a _ _; exact List.Chain.nil
  | cons b l ih =>
    intro a h hP
    rw [List.chain_cons] at h
    have hd : (a :: b :: l).dropLast = a :: (b :: l).dropLast := rfl
    rw [hd] at hP
    exact List.Chain.cons ⟨h.1, hP a (List.mem_cons_self _ _)⟩
      (ih b h.2 (fun x hx => hP x (List.mem_cons_of_mem _ hx)))

/-- The table of an accepted raw file, whatever its frame count. -/
theorem seqGallery.open_raw_table (file : File) (bytes : List Byte) (st : seqGallery)
    (h : seqGallery.open (some bytes) (seqGallery.create file) = .ok (true, st))
    (hraw : st.imgFormat = rawFormat) :
    st.seekPos = (List.range (1 + (st.numFrames - 1).toNat)).map
      (fun i : Nat => 1024 + (i : Int) * st.trueImgSizeBytes) := by
  obtain ⟨_, _, ht, hnum, htrue⟩ := seqGallery.open_true file bytes st h
  rw [hraw] at ht
  obtain ⟨_, h2⟩ := seqGallery.tableLoop_raw rawFormat _ rawFormat_ne_compressedFormat _ _ _ _ _
    _ _ ht
  rw [h2, ← hnum, ← htrue, Nat.add_comm 1, List.range_succ_eq_map, List.map_cons, List.map_map]
  simp only [Nat.cast_zero, zero_mul, add_zero, List.singleton_append, List.cons.injEq,
    true_and]
  apply List.map_congr_left
  intro j _
  simp only [Function.comp_apply, Nat.cast_succ]
  ring

set_option maxRecDepth 100000 in
/-- C16 as stated fails: a raw header with two frames and true frame size -1 is accepted
with the decreasing table 1024, 1023; a compressed file with two frames whose first length
prefix is -8 is accepted with the table 1024, 1024, which is not strictly increasing. -/
theorem seqGallery_open_monotone_counterexample :
    (seqGallery.open (some (seqHeader 2 1 2 100 2 (-1)))
        (seqGallery.create ⟨[115], false, []⟩)).map
        (fun r => (r.1, r.2.imgFormat, r.2.seekPos,
          decide (r.2.seekPos.Pairwise (fun a b => a ≤ b))))
      = .ok (true, rawFormat, [1024, 1023], false)
    ∧ (seqGallery.open (some (seqHeader 2 1 2 102 2 0 ++ le32 (ofInt32 (-8)) ++ [1, 2]))
        (seqGallery.create ⟨[115], false, []⟩)).map
        (fun r => (r.1, r.2.imgFormat, r.2.seekPos,
          decide (r.2.seekPos.Pairwise (fun a b => a < b))))
      = .ok (true, compressedFormat, [1024, 1024], false) := by
  constructor
  · decide
  · decide

/-- C16, amended: for every file that `seqGallery::open` accepts, the table of frame offsets
is non-decreasing for raw layout when the true frame size is not negative, and strictly
increasing for compressed layout when every length prefix d(j) that the table is built from
(those of all frames but the last) has d(j) + p > 0, p being the padding, 8 or 16. -/
theorem seqGallery_open_monotone (file : File) (bytes : List Byte) (st : seqGallery)
    (h : seqGallery.open (some bytes) (seqGallery.create file) = .ok (true, st)) :
    (st.imgFormat = rawFormat → 0 ≤ st.trueImgSizeBytes →
        st.seekPos.Pairwise (fun a b => a ≤ b))
    ∧ (st.imgFormat = compressedFormat →
        (∀ a ∈ st.seekPos.dropLast,
          0 < seqGallery.int32At bytes a.toNat
            + (if bytes.getD (1024 + seqGallery.int32At bytes 1024 + 8).toNat 0 = 0
                then 16 else 8)) →
        st.seekPos.Pairwise (fun a b => a < b)) := by
  constructor
  · intro hraw hs
    rw [seqGallery.open_raw_table file bytes st h hraw, List.pairwise_map]
    refine List.Pairwise.imp ?_ (List.pairwise_lt_range _)
    intro a b hab
    have h1 : (a : Int) ≤ (b : Int) := by exact_mod_cast le_of_lt hab
    have h2 := mul_le_mul_of_nonneg_right h1 hs
    omega
  · intro hc hpos
    obtain ⟨new, hnew, _, hchain⟩ := seqGallery.open_compressed_chain file bytes st h hc
    rw [hnew] at hpos ⊢
    have h2 := chain_and_dropLast new 1024 hchain hpos
    have h3 : List.Chain (fun a b : Int => a < b) 1024 new := by
      refine List.Chain.imp ?_ h2
      intro a b hab
      obtain ⟨⟨_, _, hb⟩, hp⟩ := hab
      rw [hb]
      omega
    exact List.chain_iff_pairwise.1 h3

set_option maxRecDepth 100000 in
/-- Witness for C16 (amended): the compressed example file, whose length prefixes are 6, 5
and 5. -/
theorem seqGallery_open_monotone_witness :
    (seqGallery.open (some seqCompressedExample) (seqGallery.create ⟨[115], false, []⟩)
        = .ok (true, ⟨⟨[115], false, [("Description", .string [])]⟩,
            ⟨true, seqCompressedExample, 1050, false⟩, [1024, 1046, 1067],
            2, 1, 1, 2, 0, 3, compressedFormat, 0⟩)
      ∧ compressedFormat = compressedFormat
      ∧ ∀ a ∈ ([1024, 1046, 1067] : List Int).dropLast,
          0 < seqGallery.int32At seqCompressedExample a.toNat
            + (if seqCompressedExample.getD
                  (1024 + seqGallery.int32At seqCompressedExample 1024 + 8).toNat 0 = 0
                then 16 else 8)) ∧
    ([1024, 1046, 1067] : List Int).Pairwise (fun a b => a < b) :=
  ⟨⟨by decide, rfl, by decide⟩,
    (seqGallery_open_monotone ⟨[115], false, []⟩ seqCompressedExample
      ⟨⟨[115], false, [("Description", .string [])]⟩,
        ⟨true, seqCompressedExample, 1050, false⟩, [1024, 1046, 1067],
        2, 1, 1, 2, 0, 3, compressedFormat, 0⟩ (by decide)).2 rfl (by decide)⟩

theorem seqGallery.validHeader_conditions (bytes : List Byte)
    (hv : seqGallery.validHeader bytes = true) :
    1024 ≤ bytes.length ∧ bytes.getD 0 0 = 237 ∧ bytes.getD 1 0 = 254
      ∧ (List.range 10).map (fun k => bytes.getD (4 + 2 * k) 0) = norpixSeq
      ∧ seqGallery.int32At bytes 32 = 1024 ∧ seqGallery.int32At bytes 560 = 8 := by
  obtain ⟨hsize, h0, h1, htext, hhead, hdepth⟩ := (seqGallery.validHeader_iff bytes).1 hv
  exact ⟨toInt32_length_le bytes.length hsize, h0, h1, htext, hhead, hdepth⟩

theorem seqGallery.validHeader_of_conditions (bytes : List Byte)
    (hlen : 1024 ≤ bytes.length) (hsmall : bytes.length < 2147483648)
    (h0 : bytes.getD 0 0 = 237) (h1 : bytes.getD 1 0 = 254)
    (htext : (List.range 10).map (fun k => bytes.getD (4 + 2 * k) 0) = norpixSeq)
    (hhead : seqGallery.int32At bytes 32 = 1024) (hdepth : seqGallery.int32At bytes 560 = 8) :
    seqGallery.validHeader bytes = true := by
  rw [seqGallery.validHeader_iff]
  refine ⟨?_, h0, h1, htext, hhead, hdepth⟩
  rw [toInt32_ofInt32 _ (by omega) (by omega)]
  exact_mod_cast hlen

/-- When `open` returns `false`, is fatal or undefined, `readBlock` on a fresh gallery
returns nothing. -/
theorem seqGallery.readBlock_of_open_false (imdecode : List Byte → Mat) (file : File)
    (disk : Option (List Byte)) (st : seqGallery)
    (h : seqGallery.open disk (seqGallery.create file) = .ok (false, st)) :
    seqGallery.readBlock imdecode disk (seqGallery.create file) = .fatal := by
  have hio : (seqGallery.create file).isOpen = false := rfl
  simp only [seqGallery.readBlock, hio, Bool.not_false, if_true, h]

/-- C17: for every file, `seqGallery::readBlock` on a gallery not yet opened returns a
result only if the file can be opened, has at least 1024 bytes, starts with the bytes
0xED 0xFE, the ten bytes at offsets 4, 6, ..., 22 (the next 24 bytes narrowed to every second
byte) spell "Norpix seq", the header size read at offset 32 is 1024 and the real bit depth
read at offset 560 is 8; when any of these fails, `readBlock` ends in `qFatal` and returns no
record. -/
theorem seqGallery_readBlock_header_checks (imdecode : List Byte → Mat) (file : File)
    (disk : Option (List Byte)) :
    ((∃ r, seqGallery.readBlock imdecode disk (seqGallery.create file) = .ok r) →
      ∃ bytes, disk = some bytes ∧ 1024 ≤ bytes.length
        ∧ bytes.getD 0 0 = 237 ∧ bytes.getD 1 0 = 254
        ∧ (List.range 10).map (fun k => bytes.getD (4 + 2 * k) 0) = norpixSeq
        ∧ seqGallery.int32At bytes 32 = 1024 ∧ seqGallery.int32At bytes 560 = 8)
    ∧ ((¬ ∃ bytes, disk = some bytes ∧ 1024 ≤ bytes.length
        ∧ bytes.getD 0 0 = 237 ∧ bytes.getD 1 0 = 254
        ∧ (List.range 10).map (fun k => bytes.getD (4 + 2 * k) 0) = norpixSeq
        ∧ seqGallery.int32At bytes 32 = 1024 ∧ seqGallery.int32At bytes 560 = 8) →
      seqGallery.readBlock imdecode disk (seqGallery.create file) = .fatal) := by
  have hfatal : (¬ ∃ bytes, disk = some bytes ∧ 1024 ≤ bytes.length
        ∧ bytes.getD 0 0 = 237 ∧ bytes.getD 1 0 = 254
        ∧ (List.range 10).map (fun k => bytes.getD (4 + 2 * k) 0) = norpixSeq
        ∧ seqGallery.int32At bytes 32 = 1024 ∧ seqGallery.int32At bytes 560 = 8) →
      seqGallery.readBlock imdecode disk (seqGallery.create file) = .fatal := by
    intro hbad
    obtain ⟨st, hst⟩ := seqGallery.open_invalid file disk (by
      intro bytes hb
      cases hv : seqGallery.validHeader bytes with
      | false => rfl
      | true => exact absurd ⟨bytes, hb, seqGallery.validHeader_conditions bytes hv⟩ hbad)
    exact seqGallery.readBlock_of_open_false imdecode file disk st hst
  refine ⟨?_, hfatal⟩
  intro hr
  by_contra hbad
  obtain ⟨r, hr⟩ := hr
  rw [hfatal hbad] at hr
  simp at hr

set_option maxRecDepth 100000 in
/-- Witness for C17: a file of three bytes is rejected fatally, and the raw example file
yields its first frame. -/
theorem seqGallery_readBlock_header_checks_witness :
    seqGallery.readBlock (fun _ => ⟨0, 0, 1, []⟩) (some [1, 2, 3])
        (seqGallery.create ⟨[115], false, []⟩) = .fatal
    ∧ ∃ bytes, some seqRawExample = some bytes ∧ 1024 ≤ bytes.length
        ∧ bytes.getD 0 0 = 237 ∧ bytes.getD 1 0 = 254
        ∧ (List.range 10).map (fun k => bytes.getD (4 + 2 * k) 0) = norpixSeq
        ∧ seqGallery.int32At bytes 32 = 1024 ∧ seqGallery.int32At bytes 560 = 8 :=
  ⟨(seqGallery_readBlock_header_checks (fun _ => ⟨0, 0, 1, []⟩) ⟨[115], false, []⟩
      (some [1, 2, 3])).2 (by
        rintro ⟨bytes, hb, hlen, _⟩
        cases hb
        simp at hlen),
    (seqGallery_readBlock_header_checks (fun _ => ⟨0, 0, 1, []⟩) ⟨[115], false, []⟩
      (some seqRawExample)).1 ⟨([⟨⟨[115], false,
          [("Description", .string []), ("position", .int 0)]⟩, [⟨1, 2, 1, [1, 2]⟩]⟩], false,
        ⟨⟨[115], false, [("Description", .string [])]⟩, ⟨true, seqRawExample, 1026, false⟩,
          [1034], 2, 1, 1, 2, 10, 2, rawFormat, 1⟩), by decide⟩⟩

theorem seqGallery.readChars_ne_fatal (n : Nat) (s : IfStream) :
    seqGallery.readChars n s ≠ .fatal := by
  unfold seqGallery.readChars
  by_cases h : (s.read n).1.length = n
  · simp [h]
  · simp [h]

theorem seqGallery.readInt_ne_fatal (s : IfStream) : seqGallery.readInt s ≠ .fatal := by
  unfold seqGallery.readInt
  split
  · simp
  · rename_i h
    exact absurd h (seqGallery.readChars_ne_fatal 4 s)
  · simp

theorem addInt32_ne_fatal (a b : Int) : addInt32 a b ≠ .fatal := by
  unfold addInt32
  split <;> simp

theorem mulInt32_ne_fatal (a b : Int) : mulInt32 a b ≠ .fatal := by
  unfold mulInt32
  split <;> simp

theorem Outcome.bind_ne_fatal {α β : Type} (x : Outcome α) (f : α → Outcome β)
    (hx : x ≠ .fatal) (hf : ∀ a, f a ≠ .fatal) : x.bind f ≠ .fatal := by
  cases x with
  | ok a => exact hf a
  | fatal => exact absurd rfl hx
  | undefined => simp [Outcome.bind]

theorem Outcome.map_ne_fatal {α β : Type} (x : Outcome α) (f : α → β)
    (hx : x ≠ .fatal) : x.map f ≠ .fatal := by
  cases x with
  | ok a => simp [Outcome.map]
  | fatal => exact absurd rfl hx
  | undefined => simp [Outcome.map]

/-- The table loop never calls `qFatal`. -/
theorem seqGallery.tableLoop_ne_fatal (imgFormat : QString) (t : Int) :
    ∀ (remaining : Nat) (i extra : Int) (seqFile : IfStream) (seekPos : List Int),
      seqGallery.tableLoop imgFormat t remaining i extra seqFile seekPos ≠ .fatal := by
  intro remaining
  induction remaining with
  | zero => intro i extra seqFile seekPos; simp [seqGallery.tableLoop]
  | succ n ih =>
    intro i extra seqFile seekPos
    have hadd : ∀ a b c : Int, (addInt32 a b).bind (fun sum => addInt32 sum c) ≠ .fatal :=
      fun a b c => Outcome.bind_ne_fatal _ _ (addInt32_ne_fatal a b)
        (fun s => addInt32_ne_fatal s c)
    have hadd8 : ∀ s e : Int,
        (addInt32 s 8).bind (fun s => (addInt32 e 8).map (fun e => (s, e))) ≠ .fatal :=
      fun s e => Outcome.bind_ne_fatal _ _ (addInt32_ne_fatal s 8)
        (fun s => Outcome.map_ne_fatal _ _ (addInt32_ne_fatal e 8))
    have hmul : ∀ a b : Int, (mulInt32 a b).bind (fun p => addInt32 1024 p) ≠ .fatal :=
      fun a b => Outcome.bind_ne_fatal _ _ (mulInt32_ne_fatal a b)
        (fun s => addInt32_ne_fatal 1024 s)
    simp only [seqGallery.tableLoop]
    repeat' split
    all_goals first
      | exact ih _ _ _ _
      | exact Outcome.noConfusion
      | (rename_i h; exact absurd h (seqGallery.readInt_ne_fatal _))
      | (rename_i h; exact absurd h (seqGallery.readChars_ne_fatal _ _))
      | (rename_i h; exact absurd h (hadd _ _ _))
      | (rename_i h; exact absurd h (hadd8 _ _))
      | (rename_i h; exact absurd h (hmul _ _))

set_option maxRecDepth 100000 in
/-- C19 fails on the code: the two frames that `readBlock` produces from the raw example
file carry no `progress` marker; the frame counter is stored under the key `position`
instead (0 for the first frame, 1 for the second). -/
theorem seqGallery_readBlock_position_key :
    ((seqGallery.readBlock (fun _ => ⟨0, 0, 1, []⟩) (some seqRawExample)
        (seqGallery.create ⟨[115], false, []⟩)).bind (fun first =>
      (seqGallery.readBlock (fun _ => ⟨0, 0, 1, []⟩) (some seqRawExample) first.2.2).map
        (fun second => (first.1 ++ second.1).map
          (fun t => (t.progress, t.file.value "progress", t.file.value "position")))))
      = .ok [(none, none, some (.int 0)), (none, none, some (.int 1))] := by
  decide

/-! ## Progress markers of the binary galleries -/

/-- C20 as stated fails: a `urlGallery` file of the three bytes "a", line feed, line feed
holds one URL and one blank line; the pass returns the URL record with marker 2 as its
last record, while `totalSize()` is 3. -/
theorem BinaryGallery_progress_counterexample :
    ∃ blocks g2 t g3,
      BinaryGallery.readPass urlGallery.readTemplate 4 4
          ⟨⟨[97, 10, 10], 0, []⟩, none, true, false, 2⟩ = some (.ok (blocks, g2))
      ∧ blocks.flatten.getLast? = some t
      ∧ t.progress = some 2
      ∧ BinaryGallery.totalSize ⟨⟨[97, 10, 10], 0, []⟩, none, true, false, 2⟩ = .ok (3, g3) :=
  ⟨_, _, _, _, rfl, rfl, rfl, rfl⟩

/-- C20, amended: in one pass over a seekable binary gallery file read from the start with
block size B ≥ 1, the returned records are the records of the file that are not null, in
file order; each carries as progress marker the byte offset just past it; the markers are
strictly increasing over the whole pass; each is at most `totalSize()`; and when the last
record of the file is not null, the marker of the last returned record is `totalSize()`. -/
theorem BinaryGallery_progress_markers (rt : QFile → Outcome (Template × QFile))
    (bytes : List Byte) (recs : List (Template × Nat)) (B fuel calls : Nat)
    (hB : 1 ≤ B) (hne : recs ≠ [])
    (hrec : BinaryGallery.holdsTemplates rt bytes 0 recs = true)
    (hfuel : recs.length + 1 ≤ fuel) (hcalls : recs.length ≤ calls) :
    ∃ blocks g2 size g3 markers,
      BinaryGallery.readPass rt fuel calls ⟨⟨bytes, 0, []⟩, none, true, false, B⟩
        = some (.ok (blocks, g2))
      ∧ BinaryGallery.totalSize ⟨⟨bytes, 0, []⟩, none, true, false, B⟩ = .ok (size, g3)
      ∧ blocks.flatten = (recs.filter BinaryGallery.kept).map (fun r => r.1.withProgress r.2)
      ∧ markers = (recs.filter BinaryGallery.kept).map Prod.snd
      ∧ blocks.flatten.map Template.progress = markers.map (fun m : Nat => some (m : Int))
      ∧ markers.Pairwise (fun a b => a < b)
      ∧ (∀ m ∈ markers, m ≤ size)
      ∧ (∀ r, recs.getLast? = some r → BinaryGallery.kept r = true →
          markers.getLast? = some size) := by
  obtain ⟨blocks, g2, hrun, hcat⟩ := BinaryGallery.readPass_templates rt bytes B hB recs.length
    recs fuel calls 0 ⟨⟨bytes, 0, []⟩, none, true, false, B⟩
    ⟨⟨bytes, 0, []⟩, some .readOnly, true, false, B⟩ rfl rfl rfl rfl rfl hrec hne hfuel hcalls
  obtain ⟨hpair, hall, hlast⟩ := BinaryGallery.holdsTemplates_stops rt bytes recs 0 hrec
  refine ⟨blocks, g2, bytes.length, ⟨⟨bytes, 0, []⟩, some .readOnly, true, false, B⟩,
    (recs.filter BinaryGallery.kept).map Prod.snd, hrun, rfl, hcat, rfl, ?_, ?_, ?_, ?_⟩
  · rw [hcat]
    simp only [List.map_map]
    apply List.map_congr_left
    intro r _
    exact Template.progress_withProgress r.1 r.2
  · exact hpair.sublist ((List.filter_sublist recs).map Prod.snd)
  · intro m hm
    obtain ⟨r, hr, rfl⟩ := List.mem_map.1 hm
    exact (hall r (List.mem_of_mem_filter hr)).2
  · intro r hr hk
    obtain ⟨front, rfl⟩ : ∃ front, recs = front ++ [r] := by
      obtain ⟨front, x, hx⟩ : ∃ front x, recs = front ++ [x] := by
        refine ⟨recs.dropLast, recs.getLast hne, ?_⟩
        exact (List.dropLast_append_getLast hne).symm
      subst hx
      have hx : (front ++ [x]).getLast? = some x := by simp
      rw [hx] at hr
      exact ⟨front, by rw [Option.some.inj hr]⟩
    have h2 := hlast r (by simp)
    simp [List.filter_append, List.filter_cons, hk, h2]

/-- Witness for C20 (amended): the `urlGallery` file "a", line feed, line feed. -/
theorem BinaryGallery_progress_markers_witness :
    (1 ≤ 2
      ∧ [((⟨⟨[], false, [("URL", .string [97])]⟩, []⟩ : Template), 2), (Template.null, 3)] ≠ []
      ∧ BinaryGallery.holdsTemplates urlGallery.readTemplate [97, 10, 10] 0
          [(⟨⟨[], false, [("URL", .string [97])]⟩, []⟩, 2), (Template.null, 3)] = true
      ∧ 2 + 1 ≤ 3 ∧ 2 ≤ 2) ∧
    ∃ blocks g2,
      BinaryGallery.readPass urlGallery.readTemplate 3 2
          ⟨⟨[97, 10, 10], 0, []⟩, none, true, false, 2⟩ = some (.ok (blocks, g2))
      ∧ blocks.flatten.map Template.progress = [some 2] :=
  ⟨⟨by decide, by simp, by rfl, by decide, by decide⟩,
    (BinaryGallery_progress_markers urlGallery.readTemplate [97, 10, 10]
      [(⟨⟨[], false, [("URL", .string [97])]⟩, []⟩, 2), (Template.null, 3)] 2 3 2
      (by decide) (by simp) (by rfl) (by decide) (by decide)).elim
      (fun blocks h => h.elim (fun g2 h2 => h2.elim (fun _ h3 => h3.elim (fun _ h4 =>
        h4.elim (fun markers h5 => ⟨blocks, g2, h5.1, by
          rw [h5.2.2.2.2.1, h5.2.2.2.1]; rfl⟩)))))⟩

/-! ## C21: the cache is idempotent -/

theorem MemoryGalleries.lookup_assign_self (galleries : MemoryGalleries) (file : File)
    (templates : List Template) :
    (galleries.assign file templates).lookup file = some templates := by
  induction galleries with
  | nil => simp [MemoryGalleries.assign, List.lookup]
  | cons p rest ih =>
    obtain ⟨k, v⟩ := p
    by_cases h : k = file
    · simp [MemoryGalleries.assign, h, List.lookup]
    · have h2 : (file == k) = false := by simp [Ne.symm h]
      simp [MemoryGalleries.assign, h, List.lookup, h2, ih]

theorem MemoryGalleries.lookup_assign_other (galleries : MemoryGalleries) (file key : File)
    (templates : List Template) (hne : key ≠ file) :
    (galleries.assign file templates).lookup key = galleries.lookup key := by
  induction galleries with
  | nil =>
    have h2 : (key == file) = false := by simp [hne]
    simp [MemoryGalleries.assign, List.lookup, h2]
  | cons p rest ih =>
    obtain ⟨k, v⟩ := p
    by_cases h : k = file
    · subst h
      have h2 : (key == k) = false := by simp [hne]
      simp [MemoryGalleries.assign, List.lookup, h2]
    · by_cases h3 : key = k
      · subst h3
        simp [MemoryGalleries.assign, h, List.lookup]
      · have h4 : (key == k) = false := by simp [h3]
        simp [MemoryGalleries.assign, h, List.lookup, h4, ih]

/-- Writing a block of at least one record to a `memGallery` leaves under its file the
records that were there, followed by the block. -/
theorem memGallery.lookup_writeBlock (g : memGallery) :
    ∀ (templates : List Template) (galleries : MemoryGalleries), templates ≠ [] →
      (g.writeBlock templates galleries).lookup g.file
        = some (galleries.entry g.file ++ templates) := by
  intro templates
  induction templates with
  | nil => intro _ h; exact absurd rfl h
  | cons t rest ih =>
    intro galleries _
    have hone : (g.write t galleries).lookup g.file = some (galleries.entry g.file ++ [t]) :=
      MemoryGalleries.lookup_assign_self _ _ _
    cases rest with
    | nil => simpa [memGallery.writeBlock] using hone
    | cons t2 rest2 =>
      have h2 := ih (g.write t galleries) (List.cons_ne_nil _ _)
      have he : (g.write t galleries).entry g.file = galleries.entry g.file ++ [t] := by
        simp [MemoryGalleries.entry, hone]
      rw [he] at h2
      simpa [memGallery.writeBlock] using h2

/-- A call of `fromGallery` that finds the entry of the meta identity returns its files,
leaves the registry alone and constructs no gallery. -/
theorem FileList.fromGallery_cached (tools : GalleryTools) (rFile : File) (cache : Bool)
    (galleries : MemoryGalleries) (templates : List Template)
    (h : galleries.lookup (FileList.targetMeta tools (rFile.remove "append")) = some templates) :
    FileList.fromGallery tools rFile cache galleries
      = .ok (templates.map (fun t => t.file), galleries, []) := by
  simp [FileList.fromGallery, MemoryGalleries.contains, MemoryGalleries.entry, h]

/-- C21 as stated fails: for a gallery that reads as no record, the first `fromGallery` call
with `cache = true` writes nothing, so the registry gets no entry, and the second call
constructs and reads the gallery again. -/
theorem FileList_fromGallery_counterexample :
    FileList.fromGallery (exampleGalleryTools [[]]) ⟨[97, 46, 99, 115, 118], false, []⟩ true []
      = .ok ([], [], [⟨[97, 46, 99, 115, 118], false, []⟩,
          ⟨[97, 95, 109, 101, 116, 97, 48, 46, 109, 101, 109], false, []⟩])
    ∧ (FileList.fromGallery (exampleGalleryTools [[]]) ⟨[97, 46, 99, 115, 118], false, []⟩ true
        []).bind (fun first =>
          (FileList.fromGallery (exampleGalleryTools [[]]) ⟨[97, 46, 99, 115, 118], false, []⟩
            true first.2.1).map (fun second => second.2.2))
      = .ok [⟨[97, 46, 99, 115, 118], false, []⟩,
          ⟨[97, 95, 109, 101, 116, 97, 48, 46, 109, 101, 109], false, []⟩] := by
  decide

/-- C21, amended: (a) for every registry that holds an entry for the file of a `memGallery`,
`init` leaves the whole registry (and the member `gallerySize`) unchanged and constructs no
gallery; (b) after a first `fromGallery` call with `cache = true` that returned at least one
file, a second call for the same file, with either value of `cache`, returns the same list,
leaves the registry unchanged and constructs no gallery.  For (b) the meta identity has no
backing gallery file of its own, and reading a gallery does not touch the entry of the meta
identity. -/
theorem FileList_fromGallery_idempotent (tools : GalleryTools) :
    (∀ (g : memGallery) (gallerySize : Option Int) (galleries : MemoryGalleries),
        galleries.contains g.file = true →
        memGallery.init tools g gallerySize galleries
          = .ok ({ g with block := 0 }, gallerySize, galleries, []))
    ∧ (∀ (rFile : File) (galleries galleries1 : MemoryGalleries) (files made : List File)
        (cache2 : Bool),
        FileList.fromGallery tools rFile true galleries = .ok (files, galleries1, made) →
        files ≠ [] →
        ¬ (tools.suffix (tools.ofName (mid0 (FileList.targetMeta tools (rFile.remove "append")).name
              (((FileList.targetMeta tools (rFile.remove "append")).name.length : Int) - 4)))
            = [103, 97, 108]
          ∧ tools.fileExists (tools.ofName (mid0
              (FileList.targetMeta tools (rFile.remove "append")).name
              (((FileList.targetMeta tools (rFile.remove "append")).name.length : Int) - 4)))
            = true) →
        (∀ blockSize blocks galleries2,
          tools.read (rFile.remove "append") blockSize galleries = .ok (blocks, galleries2) →
          galleries2.lookup (FileList.targetMeta tools (rFile.remove "append"))
            = galleries.lookup (FileList.targetMeta tools (rFile.remove "append"))) →
        FileList.fromGallery tools rFile cache2 galleries1 = .ok (files, galleries1, [])) := by
  constructor
  · intro g gallerySize galleries hc
    simp [memGallery.init, hc]
  · intro rFile galleries galleries1 files made cache2 hfirst hne hback hread
    cases hl : galleries.lookup (FileList.targetMeta tools (rFile.remove "append")) with
    | some templates =>
      rw [FileList.fromGallery_cached tools rFile true galleries templates hl] at hfirst
      simp only [Outcome.ok.injEq, Prod.mk.injEq] at hfirst
      obtain ⟨hf, hg, _⟩ := hfirst
      subst hf hg
      exact FileList.fromGallery_cached tools rFile cache2 galleries templates hl
    | none =>
      have hcont : galleries.contains (FileList.targetMeta tools (rFile.remove "append"))
          = false := by
        simp [MemoryGalleries.contains, hl]
      have key : ∀ (templates : List Template) (galleries2 : MemoryGalleries),
          galleries2.lookup (FileList.targetMeta tools (rFile.remove "append")) = none →
          (match memGallery.init tools
              ⟨FileList.targetMeta tools (rFile.remove "append"), tools.blockSize, 0⟩ none
              galleries2 with
            | .ok (memOutput, _, galleries3, made) =>
              Outcome.ok (templates.map (fun t : Template => t.file),
                memOutput.writeBlock templates galleries3,
                [rFile.remove "append", FileList.targetMeta tools (rFile.remove "append")] ++ made)
            | .fatal => .fatal
            | .undefined => .undefined) = .ok (files, galleries1, made) →
          FileList.fromGallery tools rFile cache2 galleries1 = .ok (files, galleries1, []) := by
        intro templates galleries2 hl2 hrun
        have hc2 : galleries2.contains (FileList.targetMeta tools (rFile.remove "append"))
            = false := by
          simp [MemoryGalleries.contains, hl2]
        have hinit : memGallery.init tools
            ⟨FileList.targetMeta tools (rFile.remove "append"), tools.blockSize, 0⟩ none galleries2
            = .ok (⟨FileList.targetMeta tools (rFile.remove "append"), tools.blockSize, 0⟩, none,
                galleries2, []) := by
          unfold memGallery.init
          rw [if_neg]
          intro hcond
          exact hback ⟨hcond.1, hcond.2.1⟩
        rw [hinit] at hrun
        simp only [Outcome.ok.injEq, Prod.mk.injEq] at hrun
        obtain ⟨hf, hg, _⟩ := hrun
        have htne : templates ≠ [] := by
          intro h0
          rw [h0] at hf
          exact hne hf.symm
        have hlook := memGallery.lookup_writeBlock
          ⟨FileList.targetMeta tools (rFile.remove "append"), tools.blockSize, 0⟩ templates
          galleries2 htne
        have hentry : galleries2.entry (FileList.targetMeta tools (rFile.remove "append")) = [] := by
          simp [MemoryGalleries.entry, hl2]
        simp only [hentry, List.nil_append] at hlook
        rw [hg] at hlook
        rw [FileList.fromGallery_cached tools rFile cache2 galleries1 templates hlook, hf]
      unfold FileList.fromGallery at hfirst
      simp only [hcont, Bool.false_eq_true, if_false, if_true] at hfirst
      by_cases hsuf : tools.suffix (rFile.remove "append") ∈ FileList.matrixSuffixes
      · simp only [hsuf, if_true] at hfirst
        cases hr : tools.read (rFile.remove "append") (some 10) galleries with
        | ok r =>
          obtain ⟨blocks, galleries2⟩ := r
          rw [hr] at hfirst
          simp only [] at hfirst
          exact key _ galleries2 ((hread _ _ _ hr).trans hl) hfirst
        | fatal => rw [hr] at hfirst; simp at hfirst
        | undefined => rw [hr] at hfirst; simp at hfirst
      · simp only [hsuf, if_false] at hfirst
        cases hr : tools.read (rFile.remove "append") none galleries with
        | ok r =>
          obtain ⟨blocks, galleries2⟩ := r
          rw [hr] at hfirst
          simp only [] at hfirst
          exact key _ galleries2 ((hread _ _ _ hr).trans hl) hfirst
        | fatal => rw [hr] at hfirst; simp at hfirst
        | undefined => rw [hr] at hfirst; simp at hfirst

/-- Witness for C21 (amended): a gallery of one record, read twice through `fromGallery`. -/
theorem FileList_fromGallery_idempotent_witness :
    FileList.fromGallery (exampleGalleryTools [[⟨⟨[120], false, []⟩, []⟩]])
        ⟨[97, 46, 99, 115, 118], false, []⟩ false
        [(⟨[97, 95, 109, 101, 116, 97, 48, 46, 109, 101, 109], false, []⟩,
          [⟨⟨[120], false, []⟩, []⟩])]
      = .ok ([⟨[120], false, []⟩],
          [(⟨[97, 95, 109, 101, 116, 97, 48, 46, 109, 101, 109], false, []⟩,
            [⟨⟨[120], false, []⟩, []⟩])], []) :=
  (FileList_fromGallery_idempotent (exampleGalleryTools [[⟨⟨[120], false, []⟩, []⟩]])).2
    ⟨[97, 46, 99, 115, 118], false, []⟩ []
    [(⟨[97, 95, 109, 101, 116, 97, 48, 46, 109, 101, 109], false, []⟩,
      [⟨⟨[120], false, []⟩, []⟩])]
    [⟨[120], false, []⟩]
    [⟨[97, 46, 99, 115, 118], false, []⟩,
      ⟨[97, 95, 109, 101, 116, 97, 48, 46, 109, 101, 109], false, []⟩]
    false (by decide) (by decide) (by decide)
    (by
      intro blockSize blocks galleries2 h
      simp only [exampleGalleryTools, Outcome.ok.injEq, Prod.mk.injEq] at h
      rw [← h.2])

/-! ## C22 and C23: what the registry holds -/

set_option maxRecDepth 100000 in
/-- C22 fails on the code: for a sequence file, whose suffix `seq` is not among `gal`, `mem`,
`template` and `ut`, `fromGallery` with `cache = true` stores what the gallery reads as it
is; the two records stored under the `_meta` identity hold the matrices of the two
frames. -/
theorem FileList_fromGallery_keeps_matrices :
    (FileList.fromGallery exampleSeqTools ⟨[97, 46, 115, 101, 113], false, []⟩ true []).map
        (fun r => (r.2.1.entry
            ⟨[97, 95, 109, 101, 116, 97, 48, 46, 109, 101, 109], false, []⟩).map
          (fun t => t.mats))
      = .ok [[⟨1, 2, 1, [1, 2]⟩], [⟨1, 2, 1, [3, 4]⟩]] := by
  decide

/-- C23 fails on the code: when the registry already holds the identity (here with two
records), `init` assigns nothing to `gallerySize`, and `totalSize()` returns the
indeterminate value of a member that was never assigned; and when `init` did read a
backing gallery of one record, a later `write` leaves `totalSize()` at 1 while the registry
holds two records. -/
theorem memGallery_totalSize_unassigned :
    (memGallery.init (exampleGalleryTools [[]]) ⟨⟨[97, 46, 109, 101, 109], false, []⟩, 10, 0⟩
        none [(⟨[97, 46, 109, 101, 109], false, []⟩, [Template.null, Template.null])]).bind
      (fun r => memGallery.totalSize r.2.1) = .undefined
    ∧ (memGallery.init
        { exampleGalleryTools [[Template.null]] with fileExists := fun _ => true }
        ⟨⟨[97, 46, 103, 97, 108, 46, 109, 101, 109], false, []⟩, 10, 0⟩ none []).bind
      (fun r => (memGallery.totalSize r.2.1).map (fun n =>
        (n, ((r.1.write Template.null r.2.2.1).entry
          ⟨[97, 46, 103, 97, 108, 46, 109, 101, 109], false, []⟩).length)))
      = .ok (1, 2) := by
  decide


/-! ## The binary gallery of framed records -/

theorem galGallery.writeTemplate_fte (stream : TemplateStream) (t : Template)
    (hfte : t.file.fte = true) (hfile : t.file.isNull = false) :
    galGallery.writeTemplate stream t = stream.write ⟨t.file, []⟩ := by
  simp [galGallery.writeTemplate, hfte, hfile]

theorem galGallery.writeTemplate_full (stream : TemplateStream) (t : Template)
    (hfte : t.file.fte = false) (hmats : t.mats ≠ []) :
    galGallery.writeTemplate stream t = stream.write t := by
  have hne : t.isEmpty = false := by
    cases hm : t.mats with
    | nil => exact absurd hm hmats
    | cons _ _ => simp [Template.isEmpty, hm]
  simp [galGallery.writeTemplate, hfte, hne]

/-- A pass over a file that holds one frame which the stream operators read back as the
record `r`, not null: one block with `r`, marked with the length of the file. -/
theorem BinaryGallery.readPass_single (rt : QFile → Outcome (Template × QFile))
    (bytes : List Byte) (r : Template) (B fuel calls : Nat)
    (hlen : 0 < bytes.length)
    (hread : rt ⟨bytes, 0, []⟩ = .ok (r, ⟨bytes, bytes.length, []⟩))
    (hkept : (!r.isEmpty || !r.file.isNull) = true)
    (hB : 1 ≤ B) (hfuel : B + 1 ≤ fuel) (hcalls : 1 ≤ calls) :
    BinaryGallery.readPass rt fuel calls ⟨⟨bytes, 0, []⟩, none, true, false, B⟩
      = some (.ok ([[r.withProgress bytes.length]],
          ⟨⟨bytes, bytes.length, []⟩, some .readOnly, true, false, B⟩)) := by
  have hrec : BinaryGallery.holdsRecords rt bytes 0 [(r, bytes.length)] = true := by
    rw [BinaryGallery.holdsRecords_cons]
    exact ⟨hlen, le_refl _, hread, hkept, (BinaryGallery.holdsRecords_nil rt bytes _).2 rfl⟩
  obtain ⟨pos2, hblock, hrec2⟩ := BinaryGallery.readBlock_spec rt bytes [(r, bytes.length)] fuel 0
    ⟨⟨bytes, 0, []⟩, none, true, false, B⟩ ⟨⟨bytes, 0, []⟩, some .readOnly, true, false, B⟩
    rfl rfl rfl hrec (by simp) hfuel
  obtain ⟨B, rfl⟩ : ∃ b, B = b + 1 := ⟨B - 1, by omega⟩
  obtain ⟨calls, rfl⟩ : ∃ c, calls = c + 1 := ⟨calls - 1, by omega⟩
  simp only [List.drop_succ_cons, List.drop_nil, List.take_succ_cons, List.take_nil,
    List.map_cons, List.map_nil, List.isEmpty_nil] at hblock hrec2
  rw [BinaryGallery.holdsRecords_nil] at hrec2
  subst hrec2
  simp only [BinaryGallery.readPass, hblock, if_true]

theorem be32_length (n : Nat) : (be32 n).length = 4 := rfl

/-- The example stream writes a longer frame for a record with a matrix than for the same
file with none. -/
theorem exampleStream.write_grows (f : File) (m : Mat) (ms : List Mat) :
    (exampleStream.write ⟨f, []⟩).length < (exampleStream.write ⟨f, m :: ms⟩).length := by
  simp only [exampleStream, List.flatMap_nil, List.flatMap_cons, List.length_append,
    List.length_nil, be32_length, exampleStream.writeMat]
  omega

/-- The failure-to-enroll flag takes one byte of the example stream, whatever it is. -/
theorem exampleStream.write_flag (f : File) (b : Bool) (ms : List Mat) :
    (exampleStream.write ⟨{ f with fte := b }, ms⟩).length
      = (exampleStream.write ⟨f, ms⟩).length := by
  simp only [exampleStream, exampleStream.writeFile, List.length_append, List.length_singleton]

/-- C24, counterexample: the record marked failure-to-enroll with no name, no metadata and
no matrix.  Whatever the stream operators are, `galGallery::writeTemplate` emits nothing
for it, and a pass over the emitted bytes returns an empty block, no record; the
serialisation of its file with no matrix is not empty (13 bytes in the example stream).
Likewise, the marked record with a matrix but a null file is written as those 13 bytes,
which a pass reads back as no record. -/
theorem galGallery_sparse_write_counterexample :
    (∀ stream : TemplateStream, galGallery.writeTemplate stream ⟨⟨[], true, []⟩, []⟩ = [])
    ∧ (∀ (stream : TemplateStream) (B : Nat),
        BinaryGallery.readPass (galGallery.readTemplate stream) 1 1
            ⟨⟨galGallery.writeTemplate stream ⟨⟨[], true, []⟩, []⟩, 0, []⟩, none, true, false, B⟩
          = some (.ok ([[]], ⟨⟨[], 0, []⟩, some .readOnly, true, false, B⟩)))
    ∧ exampleStream.write ⟨⟨[], true, []⟩, []⟩ = [0, 0, 0, 0, 0, 0, 0, 0, 1, 0, 0, 0, 0]
    ∧ galGallery.writeTemplate exampleStream ⟨⟨[], true, []⟩, [⟨1, 3, 1, [10, 20, 30]⟩]⟩
        = [0, 0, 0, 0, 0, 0, 0, 0, 1, 0, 0, 0, 0]
    ∧ BinaryGallery.readPass (galGallery.readTemplate exampleStream) 3 1
          ⟨⟨[0, 0, 0, 0, 0, 0, 0, 0, 1, 0, 0, 0, 0], 0, []⟩, none, true, false, 2⟩
        = some (.ok ([[]],
            ⟨⟨[0, 0, 0, 0, 0, 0, 0, 0, 1, 0, 0, 0, 0], 13, []⟩, some .readOnly, true, false,
              2⟩)) := by
  refine ⟨fun stream => rfl, fun stream B => ?_, by decide, by decide, by decide⟩
  have h : galGallery.writeTemplate stream ⟨⟨[], true, []⟩, []⟩ = [] := rfl
  rw [h]
  simp [BinaryGallery.readPass, BinaryGallery.readBlock, BinaryGallery.readOpen,
    BinaryGallery.readLoop, BinaryGallery.seekStart, QFile.atEnd]

/-- C24, amended: for a record marked failure-to-enroll whose file is not null (it has a
name or some metadata), `galGallery::writeTemplate` emits exactly the frame of
`Template(t.file)`, the file with no matrix.  When the stream operators read that frame
back as it was written, a pass of `readBlock` over the emitted bytes returns one block with
one record: the original file with the progress marker added, and no matrix.  When a frame
grows with the first matrix and the flag has no bearing on its length, the emitted bytes
are fewer than those emitted for an unmarked record of the same name and metadata with a
matrix. -/
theorem galGallery_sparse_write (stream : TemplateStream) (t : Template)
    (hfte : t.file.fte = true) (hfile : t.file.isNull = false) :
    galGallery.writeTemplate stream t = stream.write ⟨t.file, []⟩
    ∧ (∀ B fuel calls : Nat,
        0 < (stream.write ⟨t.file, []⟩).length →
        stream.read ⟨stream.write ⟨t.file, []⟩, 0, []⟩
          = .ok (⟨t.file, []⟩,
              ⟨stream.write ⟨t.file, []⟩, (stream.write ⟨t.file, []⟩).length, []⟩) →
        1 ≤ B → B + 1 ≤ fuel → 1 ≤ calls →
        BinaryGallery.readPass (galGallery.readTemplate stream) fuel calls
            ⟨⟨galGallery.writeTemplate stream t, 0, []⟩, none, true, false, B⟩
          = some (.ok ([[⟨t.file.set "progress"
                (.int ((galGallery.writeTemplate stream t).length : Int)), []⟩]],
              ⟨⟨galGallery.writeTemplate stream t, (galGallery.writeTemplate stream t).length,
                []⟩, some .readOnly, true, false, B⟩)))
    ∧ (∀ t2 : Template,
        (∀ (f : File) (m : Mat) (ms : List Mat),
          (stream.write ⟨f, []⟩).length < (stream.write ⟨f, m :: ms⟩).length) →
        (∀ (f : File) (b : Bool) (ms : List Mat),
          (stream.write ⟨{ f with fte := b }, ms⟩).length = (stream.write ⟨f, ms⟩).length) →
        t2.file.name = t.file.name → t2.file.metadata = t.file.metadata →
        t2.file.fte = false → t2.mats ≠ [] →
        (galGallery.writeTemplate stream t).length
          < (galGallery.writeTemplate stream t2).length) := by
  have hw := galGallery.writeTemplate_fte stream t hfte hfile
  refine ⟨hw, ?_, ?_⟩
  · intro B fuel calls hlen hread hB hfuel hcalls
    rw [hw]
    have hkept : (!(⟨t.file, []⟩ : Template).isEmpty || !(⟨t.file, []⟩ : Template).file.isNull)
        = true := by
      simp [hfile]
    exact BinaryGallery.readPass_single (galGallery.readTemplate stream) _ ⟨t.file, []⟩ B fuel
      calls hlen hread hkept hB hfuel hcalls
  · intro t2 hgrow hflag hname hmeta hfte2 hmats
    rw [hw, galGallery.writeTemplate_full stream t2 hfte2 hmats]
    obtain ⟨f2, mats2⟩ := t2
    obtain ⟨name2, fte2, meta2⟩ := f2
    simp only at hname hmeta hfte2 hmats
    subst hname hmeta hfte2
    cases mats2 with
    | nil => exact absurd rfl hmats
    | cons m ms =>
      have h1 := hgrow t.file m ms
      have h2 := hflag t.file false (m :: ms)
      have h3 : ({ t.file with fte := false } : File) = ⟨t.file.name, false, t.file.metadata⟩ :=
        rfl
      rw [h3] at h2
      omega

/-- C24, witness: the example record `x` with a label and a matrix of three bytes, in the
example stream: 38 bytes are emitted, a pass reads them back as the file with the marker 38
and no matrix, and the unmarked record with the matrix takes more bytes. -/
theorem galGallery_sparse_write_witness :
    fteExample.file.fte = true ∧ fteExample.file.isNull = false
    ∧ BinaryGallery.readPass (galGallery.readTemplate exampleStream) 3 1
          ⟨⟨galGallery.writeTemplate exampleStream fteExample, 0, []⟩, none, true, false, 2⟩
        = some (.ok ([[⟨fteExample.file.set "progress"
              (.int ((galGallery.writeTemplate exampleStream fteExample).length : Int)), []⟩]],
            ⟨⟨galGallery.writeTemplate exampleStream fteExample,
              (galGallery.writeTemplate exampleStream fteExample).length, []⟩,
              some .readOnly, true, false, 2⟩))
    ∧ (galGallery.writeTemplate exampleStream fteExample).length
        < (galGallery.writeTemplate exampleStream
            ⟨⟨[120], false, [("Label", .int 9)]⟩, [⟨1, 3, 1, [10, 20, 30]⟩]⟩).length :=
  ⟨rfl, rfl,
    (galGallery_sparse_write exampleStream fteExample rfl rfl).2.1 2 3 1 (by decide) (by decide)
      (by decide) (by decide) (by decide),
    (galGallery_sparse_write exampleStream fteExample rfl rfl).2.2
      ⟨⟨[120], false, [("Label", .int 9)]⟩, [⟨1, 3, 1, [10, 20, 30]⟩]⟩
      exampleStream.write_grows exampleStream.write_flag rfl rfl rfl (by decide)⟩
/-! ## C25: the order and the filter of the directory gallery -/

/-- C25: for every directory tree and pattern, `EmptyGallery::readBlock` on a gallery whose
file is not null returns exactly the entries of the listing (the files of the subfolders,
subfolder after subfolder in naturally sorted order, followed by the files of the root)
whose file name matches the pattern, in the order of the listing, the i-th returned record
carrying the progress marker i; with an empty pattern nothing is removed. -/
theorem EmptyGallery_readBlock_listing (tools : DirectoryTools) (dir : Directory)
    (file : File) (regexp : QString) (B size : Nat) (hfile : file.isNull = false) :
    EmptyGallery.listing tools dir
        = (tools.naturalSort dir.folders).flatMap
            (fun folder => (dir.filesIn folder).map (fun f => ⟨tools.mkFile f folder, []⟩))
          ++ dir.files.map (fun f => ⟨tools.mkFile f dir.dirName, []⟩)
    ∧ (∀ i : Nat, (EmptyGallery.readBlock tools dir ⟨file, regexp, B, size⟩).1[i]?
        = (if regexp.isEmpty then EmptyGallery.listing tools dir
           else (EmptyGallery.listing tools dir).filter
              (fun t => tools.exactMatch regexp (tools.fileName t.file)))[i]?.map
          (fun t : Template => { t with file := t.file.set "progress" (.int (i : Int)) }))
    ∧ (EmptyGallery.readBlock tools dir ⟨file, regexp, B, size⟩).1.length
        = (if regexp.isEmpty then EmptyGallery.listing tools dir
           else (EmptyGallery.listing tools dir).filter
              (fun t => tools.exactMatch regexp (tools.fileName t.file))).length
    ∧ (EmptyGallery.readBlock tools dir ⟨file, regexp, B, size⟩).1.map Template.progress
        = (List.range (if regexp.isEmpty then EmptyGallery.listing tools dir
           else (EmptyGallery.listing tools dir).filter
              (fun t => tools.exactMatch regexp (tools.fileName t.file))).length).map
          (fun i : Nat => some (i : Int))
    ∧ (EmptyGallery.readBlock tools dir ⟨file, regexp, B, size⟩).2 = true := by
  have hblock : (EmptyGallery.readBlock tools dir ⟨file, regexp, B, size⟩).1
      = setProgress 0 0 (if regexp.isEmpty then EmptyGallery.listing tools dir
           else (EmptyGallery.listing tools dir).filter
              (fun t => tools.exactMatch regexp (tools.fileName t.file))) := by
    unfold EmptyGallery.readBlock
    by_cases hr : regexp.isEmpty = true
    · simp [hfile, hr]
    · simp only [hfile, hr, Bool.false_eq_true, if_false, Bool.not_false, if_true]
      rw [EmptyGallery.removeUnmatched_eq tools regexp _ _ (le_refl _)]
      simp
  refine ⟨rfl, ?_, ?_, ?_, ?_⟩
  · intro i
    rw [hblock, setProgress_getElem?]
    simp only [Nat.zero_add]
  · rw [hblock, setProgress_length]
  · rw [hblock, setProgress_progress]
    simp only [Nat.zero_add]
  · unfold EmptyGallery.readBlock
    simp [hfile]

/-- Witness for C25: the example tree filtered with the pattern `a`. -/
theorem EmptyGallery_readBlock_listing_witness :
    File.isNull ⟨[100], false, []⟩ = false ∧
    (EmptyGallery.readBlock exampleTools exampleTree ⟨⟨[100], false, []⟩, [97], 1, 5⟩).1.map
        Template.progress
      = (List.range (if List.isEmpty [97] then EmptyGallery.listing exampleTools exampleTree
           else (EmptyGallery.listing exampleTools exampleTree).filter
              (fun t => exampleTools.exactMatch [97] (exampleTools.fileName t.file))).length).map
          (fun i : Nat => some (i : Int)) :=
  ⟨rfl, (EmptyGallery_readBlock_listing exampleTools exampleTree ⟨[100], false, []⟩ [97] 1 5
    rfl).2.2.2.1⟩

/-! ## C26: the mode is fixed by the first use -/

theorem BinaryGallery.readOpen_open (g : BinaryGallery) (m : OpenMode) (h : g.mode = some m) :
    g.readOpen = .ok g := by
  simp [BinaryGallery.readOpen, h]

theorem BinaryGallery.writeOpen_open (remove append canOpen : Bool) (g : BinaryGallery)
    (m : OpenMode) (h : g.mode = some m) : g.writeOpen remove append canOpen = .ok g := by
  simp [BinaryGallery.writeOpen, h]

/-- The gallery that `readBlock` returns has the mode that `readOpen` left. -/
theorem BinaryGallery.readBlock_mode (rt : QFile → Outcome (Template × QFile)) (fuel : Nat)
    (g g1 : BinaryGallery) (r : List Template × Bool × BinaryGallery)
    (hopen : g.readOpen = .ok g1)
    (h : BinaryGallery.readBlock rt fuel g = some (.ok r)) : r.2.2.mode = g1.mode := by
  unfold BinaryGallery.readBlock at h
  rw [hopen] at h
  simp only [] at h
  split at h
  · simp at h
  · simp only [Option.some.injEq, Outcome.ok.injEq] at h
    rw [← h]
  · simp at h
  · simp at h

/-- A call on a gallery whose device is open leaves the mode as it is. -/
theorem BinaryGallery.call_mode (hooks : BinaryHooks) (remove append canOpen : Bool)
    (fuel : Nat) (c : GalleryCall) (g g2 : BinaryGallery) (m : OpenMode)
    (hm : g.mode = some m)
    (h : BinaryGallery.call hooks remove append canOpen fuel c g = some (.ok g2)) :
    g2.mode = some m := by
  cases c with
  | readBlock =>
    have hopen := BinaryGallery.readOpen_open g m hm
    simp only [BinaryGallery.call, BinaryGallery.readBlockWith, hopen] at h
    cases hr : BinaryGallery.readBlock (hooks.readTemplate g.mode) fuel g with
    | none => rw [hr] at h; simp at h
    | some o =>
      cases o with
      | ok r =>
        rw [hr] at h
        simp only [Option.some.injEq, Outcome.ok.injEq] at h
        rw [← h, BinaryGallery.readBlock_mode _ fuel g g r hopen hr, hm]
      | fatal => rw [hr] at h; simp at h
      | undefined => rw [hr] at h; simp at h
  | write t =>
    simp only [BinaryGallery.call, BinaryGallery.write,
      BinaryGallery.writeOpen_open remove append canOpen g m hm, Option.some.injEq] at h
    cases hw : hooks.writeTemplate g.mode t g.gallery with
    | ok gallery =>
      rw [hw] at h
      simp only [Outcome.ok.injEq] at h
      rw [← h]
      exact hm
    | fatal => rw [hw] at h; simp at h
    | undefined => rw [hw] at h; simp at h

/-- The first call on a gallery whose device is closed opens it: `readBlock` for reading,
`write` for writing. -/
theorem BinaryGallery.call_first (hooks : BinaryHooks) (remove append canOpen : Bool)
    (fuel : Nat) (c : GalleryCall) (g g2 : BinaryGallery) (hm : g.mode = none)
    (h : BinaryGallery.call hooks remove append canOpen fuel c g = some (.ok g2)) :
    g2.mode = some (BinaryGallery.openingMode append c) := by
  cases c with
  | readBlock =>
    by_cases he : g.fileExists = true
    · have hopen : g.readOpen
          = .ok { g with mode := some .readOnly, gallery := { g.gallery with pos := 0 } } := by
        simp [BinaryGallery.readOpen, hm, he]
      simp only [BinaryGallery.call, BinaryGallery.readBlockWith, hopen] at h
      cases hr : BinaryGallery.readBlock (hooks.readTemplate (some OpenMode.readOnly)) fuel g with
      | none => rw [hr] at h; simp at h
      | some o =>
        cases o with
        | ok r =>
          rw [hr] at h
          simp only [Option.some.injEq, Outcome.ok.injEq] at h
          rw [← h, BinaryGallery.readBlock_mode _ fuel g _ r hopen hr]
          rfl
        | fatal => rw [hr] at h; simp at h
        | undefined => rw [hr] at h; simp at h
    · have hopen : g.readOpen = .fatal := by
        simp [BinaryGallery.readOpen, hm, he]
      simp [BinaryGallery.call, BinaryGallery.readBlockWith, hopen] at h
  | write t =>
    by_cases hc : canOpen = true
    · simp only [BinaryGallery.call, BinaryGallery.write, BinaryGallery.writeOpen, hm,
        Option.isNone_none, if_true, hc, Bool.not_true, Bool.false_eq_true, if_false,
        Option.some.injEq] at h
      split at h
      · simp only [Outcome.ok.injEq] at h
        rw [← h]
        rfl
      · simp at h
      · simp at h
    · simp [BinaryGallery.call, BinaryGallery.write, BinaryGallery.writeOpen, hm, hc] at h

theorem QString.split_length (sep : Nat) (s : QString) :
    (QString.split sep s).length = s.count sep + 1 := by
  unfold QString.split List.splitOn
  induction s with
  | nil => rfl
  | cons c s ih =>
    rw [List.splitOnP_cons]
    by_cases h : c = sep
    · subst h
      simp [ih]
    · have h2 : (c == sep) = false := by simpa using h
      simp only [h2, Bool.false_eq_true, if_false, List.length_modifyHead, ih]
      simp [List.count_cons, h]

theorem QString.mem_intercalate (x sep : Nat) :
    ∀ vs : List QString, x ∈ List.intercalate [sep] vs → x = sep ∨ ∃ v ∈ vs, x ∈ v
  | [] => by simp [List.intercalate]
  | [v] => by
    intro h
    simp [List.intercalate, List.intersperse] at h
    exact Or.inr ⟨v, by simp, h⟩
  | v :: w :: vs => by
    intro h
    have h2 : List.intercalate [sep] (v :: w :: vs)
        = v ++ sep :: List.intercalate [sep] (w :: vs) := by
      simp [List.intercalate, List.intersperse]
    rw [h2] at h
    rcases List.mem_append.1 h with h3 | h3
    · exact Or.inr ⟨v, by simp, h3⟩
    · rcases List.mem_cons.1 h3 with h4 | h4
      · exact Or.inl h4
      · rcases QString.mem_intercalate x sep (w :: vs) h4 with h5 | ⟨u, hu, hx⟩
        · exact Or.inl h5
        · exact Or.inr ⟨u, List.mem_cons_of_mem _ hu, hx⟩

/-- A line of the form `name:v1,...,vm` splits into the name and the values. -/
theorem QString.split_form (name : QString) (vs : List QString) (hname : 58 ∉ name)
    (hvs : ∀ v ∈ vs, 58 ∉ v ∧ 44 ∉ v) (hne : vs ≠ []) :
    QString.split 58 (name ++ 58 :: List.intercalate [44] vs) = [name, List.intercalate [44] vs]
    ∧ QString.split 44 (List.intercalate [44] vs) = vs := by
  constructor
  · unfold QString.split List.splitOn
    have hfirst : ∀ x ∈ name, ¬ ((x == 58) = true) := by
      intro x hx h
      have h2 : x = 58 := by simpa using h
      subst h2
      exact hname hx
    rw [List.splitOnP_first _ _ hfirst 58 (by simp)]
    rw [List.splitOnP_eq_single]
    intro x hx
    rcases QString.mem_intercalate x 44 vs hx with h | ⟨v, hv, hxv⟩
    · subst h
      decide
    · intro h
      have h2 : x = 58 := by simpa using h
      subst h2
      exact (hvs v hv).1 hxv
  · exact List.splitOn_intercalate vs 44 (fun v hv => (hvs v hv).2) hne

theorem landmarksGallery.points_length :
    ∀ vals : List QReal, (landmarksGallery.points vals).length = vals.length / 2
  | [] => by simp [landmarksGallery.points]
  | [_] => by simp [landmarksGallery.points]
  | x :: y :: vals => by
    simp only [landmarksGallery.points, List.length_cons, landmarksGallery.points_length vals]
    omega

theorem landmarksGallery.points_get :
    ∀ (vals : List QReal) (k : Nat) (x y : QReal), vals[2 * k]? = some x →
      vals[2 * k + 1]? = some y → (landmarksGallery.points vals)[k]? = some (x, y)
  | [], k, x, y => by simp
  | [_], k, x, y => by
    intro _ h
    simp at h
  | a :: b :: vals, 0, x, y => by
    intro h1 h2
    simp only [Nat.mul_zero, List.getElem?_cons_zero, Option.some.injEq, Nat.zero_add,
      List.getElem?_cons_succ] at h1 h2
    subst h1 h2
    simp [landmarksGallery.points]
  | a :: b :: vals, k + 1, x, y => by
    intro h1 h2
    have e1 : 2 * (k + 1) = (2 * k + 1) + 1 := by omega
    rw [e1] at h1 h2
    simp only [List.getElem?_cons_succ] at h1 h2
    simp only [landmarksGallery.points, List.getElem?_cons_succ]
    exact landmarksGallery.points_get vals k x y h1 h2

/-- What the body of the loop does with a line whose values convert. -/
theorem landmarksGallery.readLine_cases (tools : LandmarkTools) (line : QString) (vals : List QReal)
    (hconv : (QString.split 58 line).length = 2 →
      tools.toFloats (QString.split 44 ((QString.split 58 line).getD 1 [])) = .ok vals
        ∧ vals.length = (QString.split 44 ((QString.split 58 line).getD 1 [])).length) :
    ((line.count 58 ≠ 1 ∨ (((QString.split 58 line).getD 1 []).count 44 + 1) % 2 = 1) →
      landmarksGallery.readLine tools line = .fatal)
    ∧ (¬ (line.count 58 ≠ 1 ∨ (((QString.split 58 line).getD 1 []).count 44 + 1) % 2 = 1) →
      tools.toFloats (QString.split 44 ((QString.split 58 line).getD 1 [])) = .ok vals
      ∧ vals.length = (QString.split 44 ((QString.split 58 line).getD 1 [])).length
      ∧ landmarksGallery.readLine tools line
        = .ok ⟨tools.setPoints (tools.ofName ((QString.split 58 line).getD 0 []))
            (landmarksGallery.points vals), []⟩) := by
  have hlen := QString.split_length 58 line
  have hlen2 := QString.split_length 44 ((QString.split 58 line).getD 1 [])
  by_cases hc : line.count 58 = 1
  · have h2 : (QString.split 58 line).length = 2 := by omega
    obtain ⟨hf, hv⟩ := hconv h2
    constructor
    · intro hbad
      rcases hbad with hbad | hbad
      · exact absurd hc hbad
      · have : vals.length % 2 ≠ 0 := by omega
        simp only [landmarksGallery.readLine, h2, hf]
        simp [this]
    · intro hgood
      have : vals.length % 2 = 0 := by omega
      refine ⟨hf, hv, ?_⟩
      simp only [landmarksGallery.readLine, h2, hf]
      simp [this]
  · have h2 : (QString.split 58 line).length ≠ 2 := by omega
    constructor
    · intro _
      simp [landmarksGallery.readLine, h2]
    · intro hgood
      exact absurd (Or.inl hc) hgood

/-- The loop over lines that all give a record. -/
theorem landmarksGallery.readLoop_ok (tools : LandmarkTools) :
    ∀ (lines : List QString) (ts acc : List Template),
      List.Forall₂ (fun line t => landmarksGallery.readLine tools line = .ok t) lines ts →
      landmarksGallery.readLoop tools lines acc = .ok (acc ++ ts)
  | [], ts, acc, h => by
    cases h
    simp [landmarksGallery.readLoop]
  | line :: lines, ts, acc, h => by
    cases h with
    | cons h1 h2 =>
      simp only [landmarksGallery.readLoop, h1]
      rw [landmarksGallery.readLoop_ok tools lines _ _ h2]
      simp

/-- The loop fails fatally when a line does, the lines before it giving records. -/
theorem landmarksGallery.readLoop_fatal (tools : LandmarkTools) :
    ∀ (lines : List QString) (acc : List Template),
      (∀ line ∈ lines, landmarksGallery.readLine tools line ≠ .undefined) →
      (landmarksGallery.readLoop tools lines acc = .fatal
        ↔ ∃ line ∈ lines, landmarksGallery.readLine tools line = .fatal)
  | [], acc, _ => by simp [landmarksGallery.readLoop]
  | line :: lines, acc, h => by
    have ih := fun acc2 => landmarksGallery.readLoop_fatal tools lines acc2
      (fun l hl => h l (List.mem_cons_of_mem _ hl))
    have h0 := h line (List.mem_cons_self _ _)
    cases hr : landmarksGallery.readLine tools line with
    | ok t =>
      simp only [landmarksGallery.readLoop, hr, ih, List.mem_cons, exists_eq_or_imp]
      simp
    | fatal => simp [landmarksGallery.readLoop, hr]
    | undefined => exact absurd hr h0

/-- C29: the landmarks format.  The values of every line with one colon are taken to
convert (`QtUtils::toFloats` returns as many numbers as it is given strings).  A split has
one part more than there are separators.  `readBlock` fails fatally exactly when some line
does not hold exactly one colon or holds an odd number of comma-separated values after it.
Otherwise it returns, with `done` set, one record per line in line order: the file made of
the part before the colon, with the points set to the pairs of consecutive values, in
order, half as many as there are values.  A line `name:v1,...,vm` without further colons
or commas splits into `name` and the values `v1`, ..., `vm`. -/
theorem landmarksGallery_readBlock_format (tools : LandmarkTools) (file : File)
    (hconv : ∀ line ∈ tools.readLines file, (QString.split 58 line).length = 2 →
      ∃ vals, tools.toFloats (QString.split 44 ((QString.split 58 line).getD 1 [])) = .ok vals
        ∧ vals.length = (QString.split 44 ((QString.split 58 line).getD 1 [])).length) :
    (∀ (sep : Nat) (s : QString), (QString.split sep s).length = s.count sep + 1)
    ∧ (landmarksGallery.readBlock tools file = .fatal ↔
        ∃ line ∈ tools.readLines file,
          line.count 58 ≠ 1 ∨ (((QString.split 58 line).getD 1 []).count 44 + 1) % 2 = 1)
    ∧ ((∀ line ∈ tools.readLines file,
          line.count 58 = 1 ∧ (((QString.split 58 line).getD 1 []).count 44 + 1) % 2 = 0) →
        ∃ ts, landmarksGallery.readBlock tools file = .ok (ts, true)
          ∧ ts.length = (tools.readLines file).length
          ∧ ∀ (i : Nat) (line : QString), (tools.readLines file)[i]? = some line →
              ∃ vals,
                tools.toFloats (QString.split 44 ((QString.split 58 line).getD 1 [])) = .ok vals
                ∧ ts[i]? = some ⟨tools.setPoints (tools.ofName ((QString.split 58 line).getD 0 []))
                    (landmarksGallery.points vals), []⟩
                ∧ 2 * (landmarksGallery.points vals).length
                    = (QString.split 44 ((QString.split 58 line).getD 1 [])).length
                ∧ ∀ (k : Nat) (x y : QReal), vals[2 * k]? = some x → vals[2 * k + 1]? = some y →
                    (landmarksGallery.points vals)[k]? = some (x, y))
    ∧ (∀ (name : QString) (vs : List QString), 58 ∉ name → (∀ v ∈ vs, 58 ∉ v ∧ 44 ∉ v) →
        vs ≠ [] →
        QString.split 58 (name ++ 58 :: List.intercalate [44] vs)
            = [name, List.intercalate [44] vs]
          ∧ QString.split 44 (List.intercalate [44] vs) = vs) := by
  -- every line either fails fatally or gives its record
  have hline : ∀ line ∈ tools.readLines file, ∃ vals,
      ((line.count 58 ≠ 1 ∨ (((QString.split 58 line).getD 1 []).count 44 + 1) % 2 = 1) →
        landmarksGallery.readLine tools line = .fatal)
      ∧ (¬ (line.count 58 ≠ 1 ∨ (((QString.split 58 line).getD 1 []).count 44 + 1) % 2 = 1) →
        tools.toFloats (QString.split 44 ((QString.split 58 line).getD 1 [])) = .ok vals
        ∧ vals.length = (QString.split 44 ((QString.split 58 line).getD 1 [])).length
        ∧ landmarksGallery.readLine tools line
          = .ok ⟨tools.setPoints (tools.ofName ((QString.split 58 line).getD 0 []))
              (landmarksGallery.points vals), []⟩) := by
    intro line hl
    by_cases h2 : (QString.split 58 line).length = 2
    · obtain ⟨vals, hv⟩ := hconv line hl h2
      exact ⟨vals, landmarksGallery.readLine_cases tools line vals (fun _ => hv)⟩
    · exact ⟨[], landmarksGallery.readLine_cases tools line [] (fun h => absurd h h2)⟩
  have hdef : ∀ line ∈ tools.readLines file,
      landmarksGallery.readLine tools line ≠ .undefined := by
    intro line hl
    obtain ⟨vals, h1, h2⟩ := hline line hl
    by_cases hb : line.count 58 ≠ 1 ∨ (((QString.split 58 line).getD 1 []).count 44 + 1) % 2 = 1
    · rw [h1 hb]
      simp
    · rw [(h2 hb).2.2]
      simp
  have hfatal : ∀ line ∈ tools.readLines file,
      (landmarksGallery.readLine tools line = .fatal
        ↔ (line.count 58 ≠ 1 ∨ (((QString.split 58 line).getD 1 []).count 44 + 1) % 2 = 1)) := by
    intro line hl
    obtain ⟨vals, h1, h2⟩ := hline line hl
    constructor
    · intro hf
      by_contra hb
      rw [(h2 hb).2.2] at hf
      simp at hf
    · exact h1
  refine ⟨QString.split_length, ?_, ?_, QString.split_form⟩
  · have hloop := landmarksGallery.readLoop_fatal tools (tools.readLines file) [] hdef
    constructor
    · intro h
      have h2 : landmarksGallery.readLoop tools (tools.readLines file) [] = .fatal := by
        unfold landmarksGallery.readBlock at h
        cases hr : landmarksGallery.readLoop tools (tools.readLines file) [] with
        | ok ts => simp [hr] at h
        | fatal => rfl
        | undefined => simp [hr] at h
      obtain ⟨line, hl, hf⟩ := hloop.1 h2
      exact ⟨line, hl, (hfatal line hl).1 hf⟩
    · rintro ⟨line, hl, hb⟩
      have h2 := hloop.2 ⟨line, hl, (hfatal line hl).2 hb⟩
      simp [landmarksGallery.readBlock, h2]
  · intro hgood
    have hrec : ∀ line ∈ tools.readLines file, ∃ vals,
        tools.toFloats (QString.split 44 ((QString.split 58 line).getD 1 [])) = .ok vals
        ∧ vals.length = (QString.split 44 ((QString.split 58 line).getD 1 [])).length
        ∧ landmarksGallery.readLine tools line
          = .ok ⟨tools.setPoints (tools.ofName ((QString.split 58 line).getD 0 []))
              (landmarksGallery.points vals), []⟩ := by
      intro line hl
      obtain ⟨vals, _, h2⟩ := hline line hl
      have hg := hgood line hl
      exact ⟨vals, h2 (by omega)⟩
    -- the records, line by line
    have hts : ∀ lines : List QString, (∀ line ∈ lines, line ∈ tools.readLines file) →
        ∃ ts, List.Forall₂ (fun line t => landmarksGallery.readLine tools line = .ok t) lines ts
          := by
      intro lines
      induction lines with
      | nil => exact fun _ => ⟨[], List.Forall₂.nil⟩
      | cons line lines ih =>
        intro hsub
        obtain ⟨ts, hts⟩ := ih (fun l hl => hsub l (List.mem_cons_of_mem _ hl))
        obtain ⟨vals, _, _, hr⟩ := hrec line (hsub line (List.mem_cons_self _ _))
        exact ⟨_ :: ts, List.Forall₂.cons hr hts⟩
    obtain ⟨ts, hts⟩ := hts (tools.readLines file) (fun _ h => h)
    have hrun := landmarksGallery.readLoop_ok tools (tools.readLines file) ts [] hts
    refine ⟨ts, by simp [landmarksGallery.readBlock, hrun], hts.length_eq.symm, ?_⟩
    intro i line hi
    obtain ⟨vals, hf, hv, hr⟩ := hrec line (List.getElem?_mem hi)
    have hlen2 := QString.split_length 44 ((QString.split 58 line).getD 1 [])
    have hg := hgood line (List.getElem?_mem hi)
    refine ⟨vals, hf, ?_, ?_, landmarksGallery.points_get vals⟩
    · have hi2 : i < (tools.readLines file).length := by
        by_contra hc
        rw [List.getElem?_eq_none (by omega)] at hi
        simp at hi
      have hi3 : i < ts.length := by rw [← hts.length_eq]; exact hi2
      have hget := List.Forall₂.get hts hi2 hi3
      have hline2 : (tools.readLines file).get ⟨i, hi2⟩ = line := by
        rw [List.getElem?_eq_getElem hi2] at hi
        simpa using hi
      rw [hline2, hr] at hget
      rw [List.getElem?_eq_getElem hi3]
      simp only [Outcome.ok.injEq] at hget
      simp only [Option.some.injEq]
      exact hget.symm
    · rw [landmarksGallery.points_length]
      omega

/-- C29, witness: the lines `a:1,2,3,4` and `b:5,6` give the record `a` with the points
(1, 2), (3, 4) and the record `b` with the point (5, 6). -/
theorem landmarksGallery_readBlock_format_witness :
    landmarksGallery.readBlock exampleLandmarkTools ⟨[], false, []⟩
        = .ok ([⟨⟨[97], false, [("Points", .pointF ⟨1, 0⟩ ⟨2, 0⟩),
              ("Points", .pointF ⟨3, 0⟩ ⟨4, 0⟩)]⟩, []⟩,
            ⟨⟨[98], false, [("Points", .pointF ⟨5, 0⟩ ⟨6, 0⟩)]⟩, []⟩], true)
    ∧ ¬ (landmarksGallery.readBlock exampleLandmarkTools ⟨[], false, []⟩ = .fatal) := by
  have hconv : ∀ line ∈ exampleLandmarkTools.readLines ⟨[], false, []⟩,
      (QString.split 58 line).length = 2 →
      ∃ vals, exampleLandmarkTools.toFloats
          (QString.split 44 ((QString.split 58 line).getD 1 [])) = .ok vals
        ∧ vals.length = (QString.split 44 ((QString.split 58 line).getD 1 [])).length := by
    intro line hl _
    have hl2 : line = [97, 58, 49, 44, 50, 44, 51, 44, 52] ∨ line = [98, 58, 53, 44, 54] := by
      simpa [exampleLandmarkTools] using hl
    rcases hl2 with rfl | rfl
    · exact ⟨[⟨1, 0⟩, ⟨2, 0⟩, ⟨3, 0⟩, ⟨4, 0⟩], by decide, by decide⟩
    · exact ⟨[⟨5, 0⟩, ⟨6, 0⟩], by decide, by decide⟩
  have h := landmarksGallery_readBlock_format exampleLandmarkTools ⟨[], false, []⟩ hconv
  refine ⟨by decide, ?_⟩
  rw [h.2.1]
  decide

/-! ## The gallery of comma-separated values: reading -/

/-- The first line of a text that is not empty, as `readLine` takes it. -/
theorem byteLines_step (xs : List Byte) : xs ≠ [] →
    byteLines xs
      = (if (xs.takeWhile (fun b => b != 10)).length < xs.length
          then xs.takeWhile (fun b => b != 10) ++ [10] else xs.takeWhile (fun b => b != 10))
        :: byteLines (xs.drop
            (if (xs.takeWhile (fun b => b != 10)).length < xs.length
              then xs.takeWhile (fun b => b != 10) ++ [10]
              else xs.takeWhile (fun b => b != 10)).length) := by
  induction xs with
  | nil => exact fun h => absurd rfl h
  | cons b bs ih =>
    intro _
    by_cases hb : b = 10
    · subst hb
      simp [byteLines]
    · have hb2 : (b != 10) = true := by simpa using hb
      by_cases hbs : bs = []
      · subst hbs
        simp [byteLines, hb, hb2]
      · have ih2 := ih hbs
        have htw : (b :: bs).takeWhile (fun b => b != 10)
            = b :: bs.takeWhile (fun b => b != 10) := by
          simp [List.takeWhile_cons, hb]
        rw [byteLines, if_neg hb, ih2, htw]
        simp only [List.length_cons, Nat.add_lt_add_iff_right]
        split_ifs <;> simp

theorem takeWhile_length_le (xs : List Byte) :
    (xs.takeWhile (fun b => b != 10)).length ≤ xs.length := by
  induction xs with
  | nil => simp
  | cons b bs ih =>
    simp only [List.takeWhile_cons]
    split
    · simp only [List.length_cons]
      omega
    · simp

/-- One `readLine` call away from the end of the file: it takes the next line of the text,
at least one byte, and leaves the device just past it. -/
theorem QFile.readLine_step (bytes : List Byte) (pos : Nat) (chunks : List Nat)
    (hpos : pos < bytes.length) :
    withStops pos (byteLines (bytes.drop pos))
        = ((QFile.readLine ⟨bytes, pos, chunks⟩).1,
            pos + (QFile.readLine ⟨bytes, pos, chunks⟩).1.length)
          :: withStops (pos + (QFile.readLine ⟨bytes, pos, chunks⟩).1.length)
              (byteLines (bytes.drop (pos + (QFile.readLine ⟨bytes, pos, chunks⟩).1.length)))
    ∧ 1 ≤ (QFile.readLine ⟨bytes, pos, chunks⟩).1.length
    ∧ pos + (QFile.readLine ⟨bytes, pos, chunks⟩).1.length ≤ bytes.length
    ∧ (QFile.readLine ⟨bytes, pos, chunks⟩).2
        = ⟨bytes, pos + (QFile.readLine ⟨bytes, pos, chunks⟩).1.length, chunks⟩ := by
  have hne : bytes.drop pos ≠ [] := by
    intro h
    have := congrArg List.length h
    simp at this
    omega
  have hstep := byteLines_step (bytes.drop pos) hne
  have hle := takeWhile_length_le (bytes.drop pos)
  have hlen : (bytes.drop pos).length = bytes.length - pos := by simp
  have hline : (QFile.readLine ⟨bytes, pos, chunks⟩).1
      = if ((bytes.drop pos).takeWhile (fun b => b != 10)).length < (bytes.drop pos).length
          then (bytes.drop pos).takeWhile (fun b => b != 10) ++ [10]
          else (bytes.drop pos).takeWhile (fun b => b != 10) := rfl
  refine ⟨?_, ?_, ?_, rfl⟩
  · rw [hstep, withStops, List.drop_drop, ← hline]
  · rw [hline]
    split
    · simp
    · omega
  · rw [hline]
    split
    · simp only [List.length_append, List.length_singleton]
      omega
    · omega

theorem withStops_length : ∀ (pos : Nat) (lines : List (List Byte)),
    (withStops pos lines).length = lines.length
  | _, [] => rfl
  | pos, line :: lines => by simp [withStops, withStops_length _ lines]

theorem withStops_end (bytes : List Byte) (pos : Nat) (hpos : bytes.length ≤ pos) :
    withStops pos (byteLines (bytes.drop pos)) = [] := by
  rw [List.drop_eq_nil_of_le hpos]
  rfl

/-- The loop of `readBlock`: it takes the next lines of the text, as many as it has
iterations, and appends the record of each line that has one. -/
theorem csvGallery.readLoop_rows (headers : List QString) (bytes : List Byte)
    (chunks : List Nat) :
    ∀ (n pos : Nat) (acc : List Template), pos ≤ bytes.length →
      ∃ pos2, pos ≤ pos2 ∧ pos2 ≤ bytes.length
        ∧ csvGallery.readLoop headers n ⟨bytes, pos, chunks⟩ acc
          = (acc ++ ((withStops pos (byteLines (bytes.drop pos))).take n).filterMap
              (csvGallery.record headers), ⟨bytes, pos2, chunks⟩)
        ∧ withStops pos2 (byteLines (bytes.drop pos2))
          = (withStops pos (byteLines (bytes.drop pos))).drop n := by
  intro n
  induction n with
  | zero =>
    intro pos acc hpos
    exact ⟨pos, le_refl _, hpos, by simp [csvGallery.readLoop], by simp⟩
  | succ n ih =>
    intro pos acc hpos
    by_cases hend : bytes.length ≤ pos
    · refine ⟨pos, le_refl _, hpos, ?_, ?_⟩
      · simp [csvGallery.readLoop, QFile.atEnd, hend, withStops_end bytes pos hend]
      · simp [withStops_end bytes pos hend]
    · obtain ⟨hrows, h1, hle, hdev⟩ := QFile.readLine_step bytes pos chunks (by omega)
      have hat : QFile.atEnd ⟨bytes, pos, chunks⟩ = false := by simp [QFile.atEnd]; omega
      rw [hrows]
      simp only [List.take_succ_cons, List.drop_succ_cons, List.filterMap_cons]
      by_cases hw : (csvGallery.split (csvGallery.decodeLine
          (QFile.readLine ⟨bytes, pos, chunks⟩).1)).length = headers.length
      · obtain ⟨pos2, hp1, hp2, hrun, hrest⟩ := ih (pos + (QFile.readLine ⟨bytes, pos, chunks⟩).1.length)
          (acc ++ [⟨(csvGallery.fill headers (csvGallery.split (csvGallery.decodeLine
            (QFile.readLine ⟨bytes, pos, chunks⟩).1))).set "progress"
              (.int ((pos + (QFile.readLine ⟨bytes, pos, chunks⟩).1.length : Nat) : Int)), []⟩]) hle
        refine ⟨pos2, by omega, hp2, ?_, hrest⟩
        rw [csvGallery.readLoop]
        simp only [hat, Bool.false_eq_true, if_false, hw, ne_eq, not_true_eq_false, hdev, hrun,
          csvGallery.record, if_true, List.append_assoc, List.singleton_append]
      · obtain ⟨pos2, hp1, hp2, hrun, hrest⟩ := ih (pos + (QFile.readLine ⟨bytes, pos, chunks⟩).1.length)
          acc hle
        refine ⟨pos2, by omega, hp2, ?_, hrest⟩
        rw [csvGallery.readLoop]
        simp only [hat, Bool.false_eq_true, if_false, hw, ne_eq, not_false_eq_true, if_true,
          hdev, hrun, csvGallery.record]

/-- A `readBlock` call on an open gallery past the header line. -/
theorem csvGallery.readBlock_next (headers : List QString) (bytes : List Byte)
    (chunks : List Nat) (B pos : Nat) (h0 : 0 < pos) (hpos : pos ≤ bytes.length) :
    ∃ pos2, pos ≤ pos2 ∧ pos2 ≤ bytes.length
      ∧ csvGallery.readBlock ⟨⟨bytes, pos, chunks⟩, true, true, headers, B⟩
        = .ok (((withStops pos (byteLines (bytes.drop pos))).take B).filterMap
              (csvGallery.record headers), decide (bytes.length ≤ pos2),
            ⟨⟨bytes, pos2, chunks⟩, true, true, headers, B⟩)
      ∧ withStops pos2 (byteLines (bytes.drop pos2))
        = (withStops pos (byteLines (bytes.drop pos))).drop B := by
  obtain ⟨pos2, hp1, hp2, hrun, hrest⟩ :=
    csvGallery.readLoop_rows headers bytes chunks B pos [] hpos
  refine ⟨pos2, hp1, hp2, ?_, hrest⟩
  have hne : pos ≠ 0 := by omega
  simp [csvGallery.readBlock, csvGallery.readOpen, csvGallery.readHeaders, hne, hrun,
    QFile.atEnd]

/-- The first `readBlock` call: the device is opened, the first line of the text gives the
headers, and the loop starts after it. -/
theorem csvGallery.readBlock_first (headers0 : List QString) (bytes : List Byte)
    (chunks : List Nat) (B pos0 : Nat) :
    ∃ pos2, pos2 ≤ bytes.length ∧ (bytes ≠ [] → 0 < pos2)
      ∧ csvGallery.readBlock ⟨⟨bytes, pos0, chunks⟩, false, true, headers0, B⟩
        = .ok ((((withStops 0 (byteLines bytes)).tail).take B).filterMap
              (csvGallery.record
                (csvGallery.split (csvGallery.decodeLine ((byteLines bytes).headD [])))),
            decide (bytes.length ≤ pos2),
            ⟨⟨bytes, pos2, chunks⟩, true, true,
              csvGallery.split (csvGallery.decodeLine ((byteLines bytes).headD [])), B⟩)
      ∧ withStops pos2 (byteLines (bytes.drop pos2))
        = ((withStops 0 (byteLines bytes)).tail).drop B := by
  by_cases hb : bytes = []
  · subst hb
    refine ⟨0, le_refl _, fun h => absurd rfl h, ?_, ?_⟩
    · cases B <;>
        simp [csvGallery.readBlock, csvGallery.readOpen, csvGallery.readHeaders, QFile.readLine,
          csvGallery.readLoop, QFile.atEnd, byteLines, withStops]
    · simp [byteLines, withStops]
  · have hlen : 0 < bytes.length := List.length_pos.2 hb
    obtain ⟨hrows, h1, hle, hdev⟩ := QFile.readLine_step bytes 0 chunks hlen
    simp only [List.drop_zero, Nat.zero_add] at hrows hle hdev
    have hhead : (byteLines bytes).headD [] = (QFile.readLine ⟨bytes, 0, chunks⟩).1 := by
      cases hl : byteLines bytes with
      | nil => rw [hl] at hrows; simp [withStops] at hrows
      | cons l ls =>
        rw [hl] at hrows
        simp only [withStops, List.cons.injEq, Prod.mk.injEq] at hrows
        simp [hrows.1.1]
    obtain ⟨pos2, hp1, hp2, hrun, hrest⟩ := csvGallery.readLoop_rows
      (csvGallery.split (csvGallery.decodeLine ((byteLines bytes).headD []))) bytes chunks B
      (QFile.readLine ⟨bytes, 0, chunks⟩).1.length [] hle
    refine ⟨pos2, hp2, fun _ => by omega, ?_, ?_⟩
    · rw [hrows]
      rw [← hhead] at hrun hdev
      simp only [List.tail_cons]
      simp only [csvGallery.readBlock, csvGallery.readOpen, csvGallery.readHeaders,
        Bool.not_false, Bool.not_true, if_true, Bool.false_eq_true, if_false, hdev, ← hhead,
        hrun, List.nil_append, QFile.atEnd]
    · rw [hrest, hrows]
      simp

/-- The calls after the first: with enough of them the pass ends, and the blocks hold the
records of the lines that were left. -/
theorem csvGallery.readPass_next (headers : List QString) (bytes : List Byte)
    (chunks : List Nat) (B : Nat) (hB : 1 ≤ B) :
    ∀ (calls pos : Nat), 0 < pos → pos ≤ bytes.length →
      (withStops pos (byteLines (bytes.drop pos))).length + 1 ≤ calls →
      ∃ blocks g2,
        csvGallery.readPass calls ⟨⟨bytes, pos, chunks⟩, true, true, headers, B⟩
          = some (.ok (blocks, g2))
        ∧ blocks.flatten = (withStops pos (byteLines (bytes.drop pos))).filterMap
            (csvGallery.record headers) := by
  intro calls
  induction calls with
  | zero => intro pos _ _ h; omega
  | succ calls ih =>
    intro pos h0 hpos hcalls
    obtain ⟨pos2, hp1, hp2, hblock, hrest⟩ :=
      csvGallery.readBlock_next headers bytes chunks B pos h0 hpos
    by_cases hend : bytes.length ≤ pos2
    · have hnil := withStops_end bytes pos2 hend
      rw [hnil] at hrest
      have htake : (withStops pos (byteLines (bytes.drop pos))).take B
          = withStops pos (byteLines (bytes.drop pos)) := by
        have h := List.take_append_drop B (withStops pos (byteLines (bytes.drop pos)))
        rw [← hrest, List.append_nil] at h
        exact h
      refine ⟨[((withStops pos (byteLines (bytes.drop pos))).take B).filterMap
        (csvGallery.record headers)], ⟨⟨bytes, pos2, chunks⟩, true, true, headers, B⟩, ?_, ?_⟩
      · simp only [csvGallery.readPass, hblock, hend, decide_True, if_true]
      · simp [htake]
    · have hpos2 : pos2 < bytes.length := by omega
      obtain ⟨hrows2, h1, _, _⟩ := QFile.readLine_step bytes pos2 chunks hpos2
      have hlen2 : 1 ≤ (withStops pos2 (byteLines (bytes.drop pos2))).length := by
        rw [hrows2]
        simp
      have hdrop : (withStops pos2 (byteLines (bytes.drop pos2))).length
          = (withStops pos (byteLines (bytes.drop pos))).length - B := by
        rw [hrest, List.length_drop]
      obtain ⟨blocks, g2, hrun, hflat⟩ := ih pos2 (by omega) hp2 (by omega)
      refine ⟨((withStops pos (byteLines (bytes.drop pos))).take B).filterMap
        (csvGallery.record headers) :: blocks, g2, ?_, ?_⟩
      · simp only [csvGallery.readPass, hblock, hend, decide_False, Bool.false_eq_true, if_false,
          hrun]
      · rw [List.flatten_cons, hflat, hrest, ← List.filterMap_append, List.take_append_drop]

theorem csvGallery.splitFrom_length : ∀ (first : Bool) (ws : List QString),
    (csvGallery.splitFrom first ws).length = ws.length
  | _, [] => rfl
  | _, [_] => rfl
  | first, w :: w2 :: ws => by
    simp [csvGallery.splitFrom, csvGallery.splitFrom_length false (w2 :: ws)]

/-- A line has one field more than it has commas. -/
theorem csvGallery.split_fields (line : QString) :
    (csvGallery.split line).length = line.count 44 + 1 := by
  have h := QString.split_length 44 line
  unfold QString.split at h
  rw [csvGallery.split, csvGallery.splitFrom_length, h]

theorem csvGallery.fillFrom_name (headers words : List QString) :
    ∀ (n j : Nat) (fi : File),
      (csvGallery.fillFrom headers words n j fi).name
        = if j = 0 ∧ 0 < n then words.getD 0 [] else fi.name := by
  intro n
  induction n with
  | zero => intro j fi; simp [csvGallery.fillFrom]
  | succ n ih =>
    intro j fi
    rw [csvGallery.fillFrom, ih]
    by_cases hj : j = 0
    · subst hj
      simp
    · simp [hj, File.set]

theorem csvGallery.fillFrom_other (headers words : List QString) (key : String) :
    ∀ (n j : Nat) (fi : File),
      (∀ i, j ≤ i → i < j + n → 1 ≤ i → QString.toKey (headers.getD i []) ≠ key) →
      (csvGallery.fillFrom headers words n j fi).value key = fi.value key := by
  intro n
  induction n with
  | zero => intro j fi _; simp [csvGallery.fillFrom]
  | succ n ih =>
    intro j fi h
    rw [csvGallery.fillFrom, ih _ _ (fun i h1 h2 h3 => h i (by omega) (by omega) h3)]
    by_cases hj : j = 0
    · subst hj
      simp [File.value]
    · simp only [hj, if_false]
      exact File.value_set_other fi _ key _ (Ne.symm (h j (le_refl _) (by omega) (by omega)))

theorem csvGallery.fillFrom_at (headers words : List QString) (i : Nat) (hi : 1 ≤ i) :
    ∀ (n j : Nat) (fi : File), j ≤ i → i < j + n →
      (∀ k, i < k → k < j + n →
        QString.toKey (headers.getD k []) ≠ QString.toKey (headers.getD i [])) →
      (csvGallery.fillFrom headers words n j fi).value (QString.toKey (headers.getD i []))
        = some (.string (words.getD i [])) := by
  intro n
  induction n with
  | zero => intro j fi h1 h2; omega
  | succ n ih =>
    intro j fi h1 h2 h
    rw [csvGallery.fillFrom]
    by_cases hj : i = j
    · subst hj
      have h0 : i ≠ 0 := by omega
      rw [csvGallery.fillFrom_other headers words _ n (i + 1) _
        (fun k hk1 hk2 _ => h k (by omega) (by omega))]
      simp only [h0, if_false]
      exact File.value_set_self _ _ _
    · exact ih (j + 1) _ (by omega) (by omega) (fun k hk1 hk2 => h k hk1 (by omega))

theorem csvGallery.key_at (headers : List QString) (j : Nat) (h1 : 1 ≤ j)
    (hj : j < headers.length) :
    (headers.tail.map QString.toKey ++ ["progress"])[j - 1]?
      = some (QString.toKey (headers.getD j [])) := by
  cases headers with
  | nil => simp at hj
  | cons h t =>
    obtain ⟨i, rfl⟩ : ∃ i, j = i + 1 := ⟨j - 1, by omega⟩
    have hi : i < t.length := by simpa using hj
    simp [List.getElem?_append_left, hi, List.getElem?_eq_getElem]

/-- The file built from the words of a line that has as many fields as the header, when
the keys of the header after the first and `progress` are pairwise different. -/
theorem csvGallery.fill_spec (headers words : List QString) (stop : Nat)
    (hlen : words.length = headers.length) (hpos : 1 ≤ headers.length)
    (hkeys : (headers.tail.map QString.toKey ++ ["progress"]).Nodup) :
    ((csvGallery.fill headers words).set "progress" (.int (stop : Int))).name = words.getD 0 []
    ∧ (∀ j, 1 ≤ j → j < headers.length →
        ((csvGallery.fill headers words).set "progress" (.int (stop : Int))).value
            (QString.toKey (headers.getD j []))
          = some (.string (words.getD j [])))
    ∧ ((csvGallery.fill headers words).set "progress" (.int (stop : Int))).value "progress"
        = some (.int (stop : Int)) := by
  have hnd := List.nodup_iff_getElem?_ne_getElem?.1 hkeys
  have hl : (headers.tail.map QString.toKey ++ ["progress"]).length = headers.length := by
    simp
    omega
  refine ⟨?_, ?_, File.value_set_self _ _ _⟩
  · have h := csvGallery.fillFrom_name headers words words.length 0 ⟨[], false, []⟩
    have hw : 0 < words.length := by omega
    simp only [hw, and_self, if_true] at h
    simpa [csvGallery.fill, File.set] using h
  · intro j h1 hj
    have hlast : (headers.tail.map QString.toKey ++ ["progress"])[headers.length - 1]?
        = some "progress" := by
      have : headers.length - 1 = (headers.tail.map QString.toKey).length := by simp
      rw [this]
      simp
    have hp : QString.toKey (headers.getD j []) ≠ "progress" := by
      intro he
      by_cases hjl : j = headers.length
      · omega
      · have := hnd (j - 1) (headers.length - 1) (by omega) (by omega)
        rw [csvGallery.key_at headers j h1 hj, hlast, he] at this
        exact this rfl
    rw [File.value_set_other _ _ _ _ hp]
    apply csvGallery.fillFrom_at headers words j h1 words.length 0 _ (by omega) (by omega)
    intro k hk1 hk2
    intro he
    have := hnd (j - 1) (k - 1) (by omega) (by omega)
    rw [csvGallery.key_at headers j h1 hj, csvGallery.key_at headers k (by omega) (by omega),
      he] at this
    exact this rfl

theorem Char.toNat_ofNat_valid (n : Nat) (h : n.isValidChar) : (Char.ofNat n).toNat = n := by
  unfold Char.ofNat
  simp only [h, dite_true]
  rfl

theorem unitChar_toNat (u : Nat) (h : u < 65536) :
    (unitChar u).toNat = if 55296 ≤ u ∧ u < 57344 then u + 983040 else u := by
  unfold unitChar
  split
  · exact Char.toNat_ofNat_valid _ (Or.inr ⟨by omega, by omega⟩)
  · apply Char.toNat_ofNat_valid
    by_cases h1 : u < 55296
    · exact Or.inl h1
    · exact Or.inr ⟨by omega, by omega⟩

/-- Different code units stand for different characters. -/
theorem unitChar_inj (u v : Nat) (hu : u < 65536) (hv : v < 65536)
    (h : unitChar u = unitChar v) : u = v := by
  have h2 := congrArg Char.toNat h
  rw [unitChar_toNat u hu, unitChar_toNat v hv] at h2
  split at h2 <;> split at h2 <;> omega

theorem map_unitChar_inj : ∀ (s s2 : QString), (∀ u ∈ s, u < 65536) → (∀ u ∈ s2, u < 65536) →
    s.map unitChar = s2.map unitChar → s = s2
  | [], [], _, _, _ => rfl
  | [], _ :: _, _, _, h => by simp at h
  | _ :: _, [], _, _, h => by simp at h
  | u :: s, v :: s2, hs, hs2, h => by
    simp only [List.map_cons, List.cons.injEq] at h
    have h1 := unitChar_inj u v (hs u (by simp)) (hs2 v (by simp)) h.1
    have h2 := map_unitChar_inj s s2 (fun w hw => hs w (by simp [hw]))
      (fun w hw => hs2 w (by simp [hw])) h.2
    rw [h1, h2]

/-- Different names give different keys. -/
theorem QString.toKey_inj (s s2 : QString) (hs : ∀ u ∈ s, u < 65536)
    (hs2 : ∀ u ∈ s2, u < 65536) (h : QString.toKey s = QString.toKey s2) : s = s2 :=
  map_unitChar_inj s s2 hs hs2 (congrArg String.data h)

theorem utf16Units_lt (uc : Nat) (h : uc ≤ 1114111) : ∀ u ∈ utf16Units uc, u < 65536 := by
  intro u hu
  unfold utf16Units at hu
  split at hu
  · simp only [List.mem_singleton] at hu
    omega
  · simp only [List.mem_cons, List.mem_singleton, List.not_mem_nil, or_false] at hu
    rcases hu with rfl | rfl <;> omega

theorem utf8Char_lt (b : Byte) (rest : List Byte) (units : List Nat) (used : Nat)
    (h : utf8Char b rest = some (units, used)) : ∀ u ∈ units, u < 65536 := by
  unfold utf8Char at h
  have hv : ∀ uc minUc, validCodePoint uc minUc = true → uc ≤ 1114111 := by
    intro uc minUc hc
    simp only [validCodePoint, Bool.and_eq_true, decide_eq_true_eq] at hc
    exact hc.2
  split at h
  · simp only [Option.some.injEq, Prod.mk.injEq] at h
    intro u hu
    rw [← h.1] at hu
    simp only [List.mem_singleton] at hu
    omega
  · split at h
    · simp at h
    · split at h
      · split at h
        · split at h
          · rename_i hc
            simp only [Bool.and_eq_true] at hc
            simp only [Option.some.injEq, Prod.mk.injEq] at h
            rw [← h.1]
            exact utf16Units_lt _ (hv _ _ hc.2)
          · simp at h
        · simp at h
      · split at h
        · split at h
          · split at h
            · rename_i hc
              simp only [Bool.and_eq_true] at hc
              simp only [Option.some.injEq, Prod.mk.injEq] at h
              rw [← h.1]
              exact utf16Units_lt _ (hv _ _ hc.2)
            · simp at h
          · simp at h
        · split at h
          · split at h
            · split at h
              · rename_i hc
                simp only [Bool.and_eq_true] at hc
                simp only [Option.some.injEq, Prod.mk.injEq] at h
                rw [← h.1]
                exact utf16Units_lt _ (hv _ _ hc.2)
              · simp at h
            · simp at h
          · simp at h

/-- The decoder yields UTF-16 code units. -/
theorem decodeUtf8_lt : ∀ (fuel : Nat) (bs : List Byte), ∀ u ∈ decodeUtf8 fuel bs, u < 65536
  | 0, _ => by simp [decodeUtf8]
  | _ + 1, [] => by simp [decodeUtf8]
  | fuel + 1, b :: rest => by
    intro u hu
    rw [decodeUtf8] at hu
    cases hc : utf8Char b rest with
    | none =>
      rw [hc] at hu
      simp only [List.mem_cons] at hu
      rcases hu with rfl | hu
      · decide
      · exact decodeUtf8_lt fuel rest u hu
    | some r =>
      obtain ⟨units, used⟩ := r
      rw [hc] at hu
      simp only [List.mem_append] at hu
      rcases hu with hu | hu
      · exact utf8Char_lt b rest units used hc u hu
      · exact decodeUtf8_lt fuel _ u hu

theorem fromUtf8_lt (bs : List Byte) : ∀ u ∈ fromUtf8 bs, u < 65536 := by
  unfold fromUtf8
  split
  · exact decodeUtf8_lt _ _
  · exact decodeUtf8_lt _ _

theorem chopped_subset (s : QString) : ∀ u ∈ chopped s, u ∈ s := by
  intro u hu
  unfold chopped at hu
  rw [List.mem_reverse] at hu
  exact List.mem_reverse.1 ((List.dropWhile_sublist _).subset hu)

theorem trimmed_subset (s : QString) : ∀ u ∈ trimmed s, u ∈ s := by
  intro u hu
  exact (List.dropWhile_sublist _).subset (chopped_subset _ u hu)

theorem mem_intercalate_of_mem (sep : Nat) : ∀ (ws : List QString) (w : QString), w ∈ ws →
    ∀ u ∈ w, u ∈ List.intercalate [sep] ws
  | [], _, h => by simp at h
  | [v], w, h => by
    simp only [List.mem_singleton] at h
    subst h
    simp [List.intercalate, List.intersperse]
  | v :: v2 :: ws, w, h => by
    intro u hu
    have h2 : List.intercalate [sep] (v :: v2 :: ws)
        = v ++ sep :: List.intercalate [sep] (v2 :: ws) := by
      simp [List.intercalate, List.intersperse]
    rw [h2]
    rcases List.mem_cons.1 h with h3 | h3
    · subst h3
      exact List.mem_append_left _ hu
    · exact List.mem_append_right _
        (List.mem_cons_of_mem _ (mem_intercalate_of_mem sep (v2 :: ws) w h3 u hu))

theorem csvGallery.splitFrom_subset : ∀ (first : Bool) (ws : List QString),
    ∀ w ∈ csvGallery.splitFrom first ws, ∃ w0 ∈ ws, ∀ u ∈ w, u ∈ w0
  | _, [] => by simp [csvGallery.splitFrom]
  | first, [v] => by
    intro w hw
    simp only [csvGallery.splitFrom, List.mem_singleton] at hw
    subst hw
    refine ⟨v, by simp, ?_⟩
    intro u hu
    split at hu
    · exact hu
    · exact (List.dropWhile_sublist _).subset hu
  | first, v :: v2 :: ws => by
    intro w hw
    simp only [csvGallery.splitFrom, List.mem_cons] at hw
    rcases hw with hw | hw
    · subst hw
      refine ⟨v, by simp, ?_⟩
      intro u hu
      have h2 := chopped_subset _ u hu
      split at h2
      · exact h2
      · exact (List.dropWhile_sublist _).subset h2
    · obtain ⟨w0, hw0, hsub⟩ := csvGallery.splitFrom_subset false (v2 :: ws) w hw
      exact ⟨w0, List.mem_cons_of_mem _ hw0, hsub⟩

/-- The fields of a line are made of code units of the line. -/
theorem csvGallery.split_subset (line : QString) :
    ∀ w ∈ csvGallery.split line, ∀ u ∈ w, u ∈ line := by
  intro w hw u hu
  obtain ⟨w0, hw0, hsub⟩ := csvGallery.splitFrom_subset true _ w hw
  have h := mem_intercalate_of_mem 44 (List.splitOn 44 line) w0 hw0 u (hsub u hu)
  rw [List.intercalate_splitOn] at h
  exact h

/-- The header names of a text are made of UTF-16 code units. -/
theorem csvGallery.headerOf_lt (bytes : List Byte) :
    ∀ h ∈ csvGallery.headerOf bytes, ∀ u ∈ h, u < 65536 := by
  intro h hh u hu
  have h1 := csvGallery.split_subset _ h hh u hu
  exact fromUtf8_lt _ u (trimmed_subset _ u h1)

/-- Header names that are pairwise different and different from `progress` give keys that
are. -/
theorem csvGallery.keys_nodup (headers : List QString)
    (hunits : ∀ h ∈ headers, ∀ u ∈ h, u < 65536)
    (hnames : (headers.tail ++ [progressName]).Nodup) :
    (headers.tail.map QString.toKey ++ ["progress"]).Nodup := by
  have hp : QString.toKey progressName = "progress" := by decide
  have hmap : (headers.tail ++ [progressName]).map QString.toKey
      = headers.tail.map QString.toKey ++ ["progress"] := by
    rw [List.map_append, List.map_singleton, hp]
  rw [← hmap]
  apply List.Nodup.map_on _ hnames
  intro x hx y hy hxy
  have hvalid : ∀ z ∈ headers.tail ++ [progressName], ∀ u ∈ z, u < 65536 := by
    intro z hz
    rcases List.mem_append.1 hz with h | h
    · exact hunits z (List.mem_of_mem_tail h)
    · simp only [List.mem_singleton] at h
      subst h
      decide
  exact QString.toKey_inj x y (hvalid x hx) (hvalid y hy) hxy

/-- C28, counterexample: the text `File,a,a`, `x,1,2`.  The header names the key `a` twice;
the one data row has three fields, and its record holds `a` with the value `2`, field 2,
not with field 1, `1`: the later column overwrites the earlier. -/
theorem csvGallery_readBlock_counterexample :
    csvGallery.headerOf csvTwice = [[70, 105, 108, 101], [97], [97]]
    ∧ csvGallery.split (csvGallery.decodeLine [120, 44, 49, 44, 50, 10]) = [[120], [49], [50]]
    ∧ csvGallery.readPass 2 ⟨⟨csvTwice, 0, []⟩, false, true, [], 2⟩
        = some (.ok ([[⟨⟨[120], false, [("a", .string [50]), ("progress", .int 15)]⟩, []⟩]],
            ⟨⟨csvTwice, 15, []⟩, true, true, [[70, 105, 108, 101], [97], [97]], 2⟩))
    ∧ (⟨[120], false, [("a", .string [50]), ("progress", .int 15)]⟩ : File).value
          (QString.toKey [97]) ≠ some (.string [49]) := by
  decide

/-- C28, amended: reading comma-separated values, `readBlockSize` being at least 1.  A
pass over a text, with enough calls, returns in row order the records of the data rows
(the lines after the first) that have as many fields as the header, the first line; a row
with another number of fields gives no record.  A field is a part between commas without
the white space next to the commas or at the ends of the line, so a line has one field
more than commas.  When the header fields after the first are pairwise different names
and none is `progress`, the record of a row has field 0 as file name, holds field `j`
under the key of header field `j` for every `j` from 1 on, and holds the offset just past
the row under `progress`. -/
theorem csvGallery_readBlock_rows (bytes : List Byte) (B calls : Nat) (hB : 1 ≤ B)
    (hcalls : (byteLines bytes).length + 1 ≤ calls) :
    (∃ blocks g2,
      csvGallery.readPass calls ⟨⟨bytes, 0, []⟩, false, true, [], B⟩ = some (.ok (blocks, g2))
      ∧ blocks.flatten = ((withStops 0 (byteLines bytes)).tail).filterMap
          (csvGallery.record (csvGallery.headerOf bytes)))
    ∧ (∀ row : List Byte × Nat,
        (csvGallery.split (csvGallery.decodeLine row.1)).length
            ≠ (csvGallery.headerOf bytes).length →
        csvGallery.record (csvGallery.headerOf bytes) row = none)
    ∧ (∀ line : QString, (csvGallery.split line).length = line.count 44 + 1)
    ∧ (((csvGallery.headerOf bytes).tail ++ [progressName]).Nodup →
        ∀ row : List Byte × Nat,
          (csvGallery.split (csvGallery.decodeLine row.1)).length
              = (csvGallery.headerOf bytes).length →
          ∃ file : File, csvGallery.record (csvGallery.headerOf bytes) row = some ⟨file, []⟩
            ∧ file.name = (csvGallery.split (csvGallery.decodeLine row.1)).getD 0 []
            ∧ (∀ j, 1 ≤ j → j < (csvGallery.headerOf bytes).length →
                file.value (QString.toKey ((csvGallery.headerOf bytes).getD j []))
                  = some (.string ((csvGallery.split (csvGallery.decodeLine row.1)).getD j [])))
            ∧ file.value "progress" = some (.int (row.2 : Int))) := by
  refine ⟨?_, ?_, csvGallery.split_fields, ?_⟩
  · obtain ⟨pos2, hp2, hp0, hblock, hrest⟩ := csvGallery.readBlock_first [] bytes [] B 0
    have hlen : (withStops 0 (byteLines bytes)).length = (byteLines bytes).length :=
      withStops_length 0 _
    obtain ⟨calls, rfl⟩ : ∃ c, calls = c + 1 := ⟨calls - 1, by omega⟩
    by_cases hend : bytes.length ≤ pos2
    · have hnil := withStops_end bytes pos2 hend
      rw [hnil] at hrest
      have htake : ((withStops 0 (byteLines bytes)).tail).take B
          = (withStops 0 (byteLines bytes)).tail := by
        have h := List.take_append_drop B ((withStops 0 (byteLines bytes)).tail)
        rw [← hrest, List.append_nil] at h
        exact h
      refine ⟨[(((withStops 0 (byteLines bytes)).tail).take B).filterMap
        (csvGallery.record (csvGallery.headerOf bytes))],
        ⟨⟨bytes, pos2, []⟩, true, true, csvGallery.headerOf bytes, B⟩, ?_, ?_⟩
      · simp only [csvGallery.readPass, hblock, hend, decide_True, if_true, csvGallery.headerOf]
      · simp [htake]
    · have hne : bytes ≠ [] := by
        intro h
        subst h
        simp at hend
      have hdrop : (withStops pos2 (byteLines (bytes.drop pos2))).length
          = (withStops 0 (byteLines bytes)).tail.length - B := by
        rw [hrest, List.length_drop]
      obtain ⟨hrows2, _, _, _⟩ := QFile.readLine_step bytes pos2 [] (by omega)
      have hlen2 : 1 ≤ (withStops pos2 (byteLines (bytes.drop pos2))).length := by
        rw [hrows2]
        simp
      rw [List.length_tail, hlen] at hdrop
      obtain ⟨blocks, g2, hrun, hflat⟩ := csvGallery.readPass_next (csvGallery.headerOf bytes)
        bytes [] B hB calls pos2 (hp0 hne) hp2 (by omega)
      refine ⟨(((withStops 0 (byteLines bytes)).tail).take B).filterMap
        (csvGallery.record (csvGallery.headerOf bytes)) :: blocks, g2, ?_, ?_⟩
      · unfold csvGallery.headerOf at hrun ⊢
        simp only [csvGallery.readPass, hblock, hend, decide_False, Bool.false_eq_true, if_false,
          hrun]
      · rw [List.flatten_cons, hflat, hrest, ← List.filterMap_append, List.take_append_drop]
  · intro row hne
    simp [csvGallery.record, hne]
  · intro hnames row hlen
    have hkeys := csvGallery.keys_nodup (csvGallery.headerOf bytes)
      (csvGallery.headerOf_lt bytes) hnames
    have hpos : 1 ≤ (csvGallery.headerOf bytes).length := by
      rw [csvGallery.headerOf, csvGallery.split_fields]
      omega
    obtain ⟨h1, h2, h3⟩ := csvGallery.fill_spec (csvGallery.headerOf bytes)
      (csvGallery.split (csvGallery.decodeLine row.1)) row.2 hlen hpos hkeys
    exact ⟨_, by simp only [csvGallery.record, hlen, if_true], h1, h2, h3⟩

/-- C28, witness: the text `File,a,b`, `x,1,2`, `y,3`, `z , 4 , 5` read in blocks of two
lines: the rows `x` and `z` give records, the row `y` with two fields gives none.  In the
text `File,U+1F600,U+1F601`, `x,1,2` the two names outside the basic plane are different,
and the record of the row holds `1` under the first and `2` under the second. -/
theorem csvGallery_readBlock_rows_witness :
    (∃ blocks g2,
      csvGallery.readPass 5 ⟨⟨csvExample, 0, []⟩, false, true, [], 2⟩ = some (.ok (blocks, g2))
      ∧ blocks.flatten
        = [⟨⟨[120], false, [("a", .string [49]), ("b", .string [50]), ("progress", .int 15)]⟩,
              []⟩,
            ⟨⟨[122], false, [("a", .string [52]), ("b", .string [53]), ("progress", .int 29)]⟩,
              []⟩])
    ∧ ((csvGallery.headerOf csvExample).tail ++ [progressName]).Nodup
    ∧ csvGallery.headerOf csvAstral = [[70, 105, 108, 101], [55357, 56832], [55357, 56833]]
    ∧ ∃ file : File,
        csvGallery.record (csvGallery.headerOf csvAstral) ([120, 44, 49, 44, 50, 10], 21)
          = some ⟨file, []⟩
        ∧ file.value (QString.toKey [55357, 56832]) = some (.string [49])
        ∧ file.value (QString.toKey [55357, 56833]) = some (.string [50]) := by
  obtain ⟨blocks, g2, h1, h2⟩ :=
    (csvGallery_readBlock_rows csvExample 2 5 (by decide) (by decide)).1
  obtain ⟨file, hrec, _, hval, _⟩ :=
    (csvGallery_readBlock_rows csvAstral 1 3 (by decide) (by decide)).2.2.2 (by decide)
      ([120, 44, 49, 44, 50, 10], 21) (by decide)
  have hh : csvGallery.headerOf csvAstral
      = [[70, 105, 108, 101], [55357, 56832], [55357, 56833]] := by decide
  refine ⟨⟨blocks, g2, h1, h2.trans (by decide)⟩, by decide, hh, file, hrec, ?_, ?_⟩
  · have h := hval 1 (by decide) (by decide)
    rw [hh] at h
    exact h
  · have h := hval 2 (by decide) (by decide)
    rw [hh] at h
    exact h

/-! ## The gallery of comma-separated values: writing -/

/-- The fields of a line joined by commas are the fields of its words. -/
theorem count_intercalate : ∀ (ws : List QString), ws ≠ [] →
    (List.intercalate [44] ws).count 44 + 1 = (ws.map (fun w => w.count 44 + 1)).sum
  | [], h => absurd rfl h
  | [w], _ => by simp [List.intercalate, List.intersperse]
  | w :: w2 :: ws, _ => by
    have ih := count_intercalate (w2 :: ws) (by simp)
    have h2 : List.intercalate [44] (w :: w2 :: ws)
        = w ++ 44 :: List.intercalate [44] (w2 :: ws) := by
      simp [List.intercalate, List.intersperse]
    rw [h2, List.count_append, List.count_cons_self, List.map_cons, List.sum_cons, ← ih]
    omega

theorem mapValue_mapInsert (m : List (String × Nat)) (key key2 : String) (c : Nat) :
    mapValue (mapInsert m key c) key2 = if key2 = key then c else mapValue m key2 := by
  induction m with
  | nil =>
    by_cases h : key2 = key
    · simp [mapValue, mapInsert, List.lookup, h]
    · have h2 : (key2 == key) = false := by simp [h]
      simp [mapValue, mapInsert, List.lookup, h, h2]
  | cons p rest ih =>
    obtain ⟨k, w⟩ := p
    unfold mapValue at ih ⊢
    rw [mapInsert]
    by_cases h1 : QString.less (QString.ofKey key) (QString.ofKey k) = true
    · simp only [h1, if_true]
      by_cases h : key2 = key
      · simp [List.lookup, h]
      · have h2 : (key2 == key) = false := by simp [h]
        simp [List.lookup, h, h2]
    · have h1f : QString.less (QString.ofKey key) (QString.ofKey k) = false := by
        simpa using h1
      simp only [h1f, Bool.false_eq_true, if_false]
      by_cases h3 : key = k
      · subst h3
        by_cases h : key2 = key
        · simp [List.lookup, h]
        · have h2 : (key2 == key) = false := by simp [h]
          simp [List.lookup, h, h2]
      · simp only [h3, if_false]
        by_cases h4 : key2 = k
        · subst h4
          have h5 : ¬ key2 = key := fun h => h3 h.symm
          simp [List.lookup, h5]
        · have h6 : (key2 == k) = false := by simp [h4]
          simp only [List.lookup, h6]
          exact ih

theorem mapInsert_keys {α : Type} (m : List (String × α)) (key key2 : String) (v : α) :
    key2 ∈ (mapInsert m key v).map (fun e => e.1)
      ↔ key2 = key ∨ key2 ∈ m.map (fun e => e.1) := by
  induction m with
  | nil => simp [mapInsert]
  | cons p rest ih =>
    obtain ⟨k, w⟩ := p
    rw [mapInsert]
    by_cases h1 : QString.less (QString.ofKey key) (QString.ofKey k) = true
    · simp [h1]
    · have h1f : QString.less (QString.ofKey key) (QString.ofKey k) = false := by
        simpa using h1
      by_cases h3 : key = k
      · subst h3
        simp [h1f]
      · simp only [h1f, Bool.false_eq_true, h3, if_false, List.map_cons, List.mem_cons, ih]
        tauto

theorem mapInsert_nodup {α : Type} (m : List (String × α)) (key : String) (v : α)
    (hm : (m.map (fun e => e.1)).Nodup) (hkey : key ∉ m.map (fun e => e.1)) :
    ((mapInsert m key v).map (fun e => e.1)).Nodup := by
  induction m with
  | nil => simp [mapInsert]
  | cons p rest ih =>
    obtain ⟨k, w⟩ := p
    simp only [List.map_cons, List.nodup_cons, List.mem_cons, not_or] at hm hkey
    rw [mapInsert]
    by_cases h1 : QString.less (QString.ofKey key) (QString.ofKey k) = true
    · simp only [h1, if_true, List.map_cons, List.nodup_cons, List.mem_cons, not_or]
      exact ⟨⟨hkey.1, hkey.2⟩, hm.1, hm.2⟩
    · have h1f : QString.less (QString.ofKey key) (QString.ofKey k) = false := by
        simpa using h1
      by_cases h3 : key = k
      · exact absurd h3 hkey.1
      · simp only [h1f, Bool.false_eq_true, h3, if_false, List.map_cons, List.nodup_cons,
          mapInsert_keys, not_or]
        exact ⟨⟨fun h => hkey.1 h.symm, hm.1⟩, ih hm.2 hkey.2⟩

theorem mapContains_false {α : Type} (m : List (String × α)) (key : String)
    (h : mapContains m key = false) : key ∉ m.map (fun e => e.1) := by
  intro hmem
  obtain ⟨e, he, hk⟩ := List.mem_map.1 hmem
  have : mapContains m key = true := by
    simp only [mapContains, List.any_eq_true]
    exact ⟨e, he, by simp [hk]⟩
  rw [h] at this
  exact Bool.false_ne_true this

theorem csvGallery.addSamples_nodup (file : File) :
    ∀ (keys : List String) (samples : List (String × QVariant)),
      (samples.map (fun e => e.1)).Nodup →
      ((keys.foldl (fun samples key =>
        if !mapContains samples key then
          match file.value key with
          | some v => mapInsert samples key v
          | none => samples
        else samples) samples).map (fun e => e.1)).Nodup := by
  intro keys
  induction keys with
  | nil => exact fun _ h => h
  | cons key keys ih =>
    intro samples h
    rw [List.foldl_cons]
    apply ih
    cases hc : mapContains samples key with
    | true => simpa using h
    | false =>
      cases hv : file.value key with
      | none => simpa using h
      | some v =>
        simp only [Bool.not_false, if_true]
        exact mapInsert_nodup samples key v h (mapContains_false samples key hc)

/-- The keys of the samples are pairwise different. -/
theorem csvGallery.samples_nodup (files : List File) :
    ((csvGallery.samples files).map (fun e => e.1)).Nodup := by
  have h : ∀ (fs : List File) (acc : List (String × QVariant)),
      (acc.map (fun e => e.1)).Nodup →
      ((fs.foldl csvGallery.addSamples acc).map (fun e => e.1)).Nodup := by
    intro fs
    induction fs with
    | nil => exact fun _ h => h
    | cons f fs ih =>
      intro acc hacc
      rw [List.foldl_cons]
      exact ih _ (csvGallery.addSamples_nodup f f.localKeys acc hacc)
  have h2 := h files [] (by simp)
  unfold csvGallery.samples mapRemove
  exact (h2.sublist ((List.filter_sublist _).map _)).sublist ((List.filter_sublist _).map _)

theorem csvGallery.columns_pos (v : QVariant) : 1 ≤ csvGallery.columns v := by
  cases v <;> simp [csvGallery.columns]

/-- The header element of a key without comma has as many fields as the value has
columns, and sets the column count to that number. -/
theorem csvGallery.getCSVElement_header (tools : CsvTools) (key : QString) (v : QVariant)
    (hkey : 44 ∉ key) :
    ∃ word, csvGallery.getCSVElement tools key (some v) true 0 = .ok (word, csvGallery.columns v)
      ∧ word.count 44 + 1 = csvGallery.columns v := by
  have h0 : key.count 44 = 0 := List.count_eq_zero.2 hkey
  cases v with
  | pointF x y =>
    exact ⟨key ++ [95, 88, 44] ++ key ++ [95, 89],
      by simp [csvGallery.getCSVElement, csvGallery.columns],
      by simp [List.count_append, List.count_cons, h0, csvGallery.columns]⟩
  | rectF x y w h =>
    exact ⟨key ++ [95, 88, 44] ++ key ++ [95, 89, 44] ++ key
        ++ [95, 87, 105, 100, 116, 104, 44] ++ key ++ [95, 72, 101, 105, 103, 104, 116],
      by simp [csvGallery.getCSVElement, csvGallery.columns],
      by simp [List.count_append, List.count_cons, h0, csvGallery.columns]⟩
  | byteArray b =>
    exact ⟨key, by simp [csvGallery.getCSVElement, csvGallery.columns],
      by simp [h0, csvGallery.columns]⟩
  | string s =>
    exact ⟨key, by simp [csvGallery.getCSVElement, csvGallery.columns],
      by simp [h0, csvGallery.columns]⟩
  | int i =>
    exact ⟨key, by simp [csvGallery.getCSVElement, csvGallery.columns],
      by simp [h0, csvGallery.columns]⟩

theorem csvGallery.count_nan : ∀ (n s : Nat),
    (((List.range' s n).map (fun _ => [44] ++ csvGallery.nan)).flatten).count 44 = n
  | 0, _ => by simp
  | n + 1, s => by
    rw [List.range'_succ, List.map_cons, List.flatten_cons, List.count_append,
      csvGallery.count_nan n (s + 1)]
    simp [csvGallery.nan, List.count_cons]
    omega

/-- The element of a missing value: as many `nan` as the column count says. -/
theorem csvGallery.getCSVElement_missing (tools : CsvTools) (key : QString) (n : Nat)
    (hn : 1 ≤ n) :
    ∃ word, csvGallery.getCSVElement tools key none false n = .ok (word, n)
      ∧ word.count 44 + 1 = n := by
  refine ⟨csvGallery.nan
    ++ ((List.range' 1 (n - 1)).map (fun _ => [44] ++ csvGallery.nan)).flatten,
    by simp [csvGallery.getCSVElement], ?_⟩
  rw [List.count_append, csvGallery.count_nan]
  simp [csvGallery.nan, List.count_cons]
  omega

/-- The element of a value in a row: fatal when the value has not the columns of the key,
otherwise a word of that many fields. -/
theorem csvGallery.getCSVElement_value (tools : CsvTools) (key : QString) (v : QVariant)
    (n : Nat) (hnumber : ∀ r, 44 ∉ tools.number r)
    (hvalue : csvGallery.columns v = 1 → 44 ∉ tools.toQString v) :
    (csvGallery.columns v ≠ n →
      csvGallery.getCSVElement tools key (some v) false n = .fatal)
    ∧ (csvGallery.columns v = n →
      ∃ word, csvGallery.getCSVElement tools key (some v) false n = .ok (word, n)
        ∧ word.count 44 + 1 = n) := by
  have hnum : ∀ r, (tools.number r).count 44 = 0 := fun r => List.count_eq_zero.2 (hnumber r)
  constructor
  · intro hne
    cases v <;> simp only [csvGallery.columns] at hne <;>
      simp [csvGallery.getCSVElement, Ne.symm hne]
  · intro he
    subst he
    cases v with
    | pointF x y =>
      exact ⟨tools.number x ++ [44] ++ tools.number y,
        by simp [csvGallery.getCSVElement, csvGallery.columns],
        by simp [List.count_append, List.count_cons, hnum, csvGallery.columns]⟩
    | rectF x y w h =>
      exact ⟨tools.number x ++ [44] ++ tools.number y ++ [44] ++ tools.number w ++ [44]
          ++ tools.number h,
        by simp [csvGallery.getCSVElement, csvGallery.columns],
        by simp [List.count_append, List.count_cons, hnum, csvGallery.columns]⟩
    | byteArray b =>
      have h0 := List.count_eq_zero.2 (hvalue rfl)
      exact ⟨tools.toQString (.byteArray b),
        by simp [csvGallery.getCSVElement, csvGallery.columns],
        by simp [h0, csvGallery.columns]⟩
    | string s =>
      have h0 := List.count_eq_zero.2 (hvalue rfl)
      exact ⟨tools.toQString (.string s),
        by simp [csvGallery.getCSVElement, csvGallery.columns],
        by simp [h0, csvGallery.columns]⟩
    | int i =>
      have h0 := List.count_eq_zero.2 (hvalue rfl)
      exact ⟨tools.toQString (.int i),
        by simp [csvGallery.getCSVElement, csvGallery.columns],
        by simp [h0, csvGallery.columns]⟩

/-- The header: one word per sample, of as many fields as the sample has columns, and the
column count of every key. -/
theorem csvGallery.makeHeader_spec (tools : CsvTools) :
    ∀ (samples : List (String × QVariant)),
      (∀ e ∈ samples, 44 ∉ QString.ofKey e.1) → (samples.map (fun e => e.1)).Nodup →
      ∃ words columnCounts,
        csvGallery.makeHeader tools samples = .ok (words, columnCounts)
        ∧ (words.map (fun w => w.count 44 + 1)).sum
          = (samples.map (fun e => csvGallery.columns e.2)).sum
        ∧ ∀ e ∈ samples, mapValue columnCounts e.1 = csvGallery.columns e.2 := by
  intro samples
  induction samples with
  | nil => exact fun _ _ => ⟨[], [], rfl, rfl, by simp⟩
  | cons e samples ih =>
    intro hkeys hnd
    obtain ⟨key, v⟩ := e
    simp only [List.map_cons, List.nodup_cons] at hnd
    obtain ⟨words, counts, hrun, hsum, hcounts⟩ :=
      ih (fun e he => hkeys e (List.mem_cons_of_mem _ he)) hnd.2
    obtain ⟨word, hword, hfields⟩ := csvGallery.getCSVElement_header tools (QString.ofKey key) v
      (hkeys (key, v) (List.mem_cons_self _ _))
    refine ⟨word :: words, mapInsert counts key (csvGallery.columns v), ?_, ?_, ?_⟩
    · simp only [csvGallery.makeHeader, hword, hrun]
    · simp only [List.map_cons, List.sum_cons, hfields, hsum]
    · intro e he
      rw [mapValue_mapInsert]
      rcases List.mem_cons.1 he with h | h
      · subst h
        simp
      · have hne : e.1 ≠ key := by
          intro h2
          exact hnd.1 (h2 ▸ List.mem_map.2 ⟨e, h, rfl⟩)
        simp only [hne, if_false]
        exact hcounts e h

/-- A row of the table: fatal when some value of the file has not the columns of its key,
otherwise words of as many fields as the samples have columns. -/
theorem csvGallery.makeRow_spec (tools : CsvTools) (columnCounts : List (String × Nat))
    (file : File) (hnumber : ∀ r, 44 ∉ tools.number r)
    (hvalues : ∀ key v, file.value key = some v → csvGallery.columns v = 1 →
      44 ∉ tools.toQString v) :
    ∀ (samples : List (String × QVariant)),
      (∀ e ∈ samples, mapValue columnCounts e.1 = csvGallery.columns e.2) →
      ((∃ e ∈ samples, ∃ v, file.value e.1 = some v
          ∧ csvGallery.columns v ≠ csvGallery.columns e.2) →
        csvGallery.makeRow tools columnCounts file (samples.map (fun e => e.1)) = .fatal)
      ∧ (¬ (∃ e ∈ samples, ∃ v, file.value e.1 = some v
          ∧ csvGallery.columns v ≠ csvGallery.columns e.2) →
        ∃ words,
          csvGallery.makeRow tools columnCounts file (samples.map (fun e => e.1)) = .ok words
          ∧ (words.map (fun w => w.count 44 + 1)).sum
            = (samples.map (fun e => csvGallery.columns e.2)).sum) := by
  intro samples
  induction samples with
  | nil =>
    intro _
    exact ⟨fun h => by simp at h, fun _ => ⟨[], rfl, rfl⟩⟩
  | cons e samples ih =>
    intro hcounts
    obtain ⟨ih1, ih2⟩ := ih (fun e he => hcounts e (List.mem_cons_of_mem _ he))
    have hc := hcounts e (List.mem_cons_self _ _)
    -- the element of the first key
    have hfirst : (∀ v, file.value e.1 = some v → csvGallery.columns v = csvGallery.columns e.2) →
        ∃ word, csvGallery.getCSVElement tools (QString.ofKey e.1) (file.value e.1) false
            (mapValue columnCounts e.1) = .ok (word, csvGallery.columns e.2)
          ∧ word.count 44 + 1 = csvGallery.columns e.2 := by
      intro hsame
      rw [hc]
      cases hv : file.value e.1 with
      | none =>
        exact csvGallery.getCSVElement_missing tools _ _ (csvGallery.columns_pos e.2)
      | some v =>
        exact (csvGallery.getCSVElement_value tools _ v _ hnumber (hvalues e.1 v hv)).2
          (hsame v hv)
    by_cases hsame : ∀ v, file.value e.1 = some v → csvGallery.columns v = csvGallery.columns e.2
    · obtain ⟨word, hword, hfields⟩ := hfirst hsame
      constructor
      · rintro ⟨e2, he2, v, hv, hne⟩
        have hrest : ∃ e ∈ samples, ∃ v, file.value e.1 = some v
            ∧ csvGallery.columns v ≠ csvGallery.columns e.2 := by
          rcases List.mem_cons.1 he2 with h | h
          · subst h
            exact absurd (hsame v hv) hne
          · exact ⟨e2, h, v, hv, hne⟩
        simp only [List.map_cons, csvGallery.makeRow, hword, ih1 hrest]
      · intro hno
        obtain ⟨words, hrun, hsum⟩ := ih2 (fun ⟨e2, he2, h⟩ =>
          hno ⟨e2, List.mem_cons_of_mem _ he2, h⟩)
        refine ⟨word :: words, ?_, ?_⟩
        · simp only [List.map_cons, csvGallery.makeRow, hword, hrun]
        · simp only [List.map_cons, List.sum_cons, hfields, hsum]
    · have hbad : ∃ v, file.value e.1 = some v
          ∧ csvGallery.columns v ≠ csvGallery.columns e.2 := by
        by_contra hcon
        exact hsame (fun v hv => by
          by_contra hne
          exact hcon ⟨v, hv, hne⟩)
      obtain ⟨v, hv, hne⟩ := hbad
      have hf := (csvGallery.getCSVElement_value tools (QString.ofKey e.1) v
        (csvGallery.columns e.2) hnumber (hvalues e.1 v hv)).1 hne
      constructor
      · intro _
        simp only [List.map_cons, csvGallery.makeRow, hc, hv, hf]
      · intro hno
        exact absurd ⟨e, List.mem_cons_self _ _, v, hv, hne⟩ hno

theorem lookup_mem (md : List (String × QVariant)) (key : String) (v : QVariant)
    (h : md.lookup key = some v) : (key, v) ∈ md := by
  induction md with
  | nil => simp [List.lookup] at h
  | cons p rest ih =>
    obtain ⟨k, w⟩ := p
    by_cases hk : key = k
    · subst hk
      simp [List.lookup] at h
      simp [h]
    · have h2 : (key == k) = false := by simp [hk]
      simp only [List.lookup, h2] at h
      exact List.mem_cons_of_mem _ (ih h)

/-- The table: fatal when some value of some file has not the columns of its key, otherwise
one line per file, each of one field more than the samples have columns. -/
theorem csvGallery.makeTable_spec (tools : CsvTools) (columnCounts : List (String × Nat))
    (samples : List (String × QVariant)) (hnumber : ∀ r, 44 ∉ tools.number r)
    (hcounts : ∀ e ∈ samples, mapValue columnCounts e.1 = csvGallery.columns e.2) :
    ∀ (files : List File), (∀ f ∈ files, 44 ∉ f.name) →
      (∀ f ∈ files, ∀ e ∈ f.metadata, csvGallery.columns e.2 = 1 → 44 ∉ tools.toQString e.2) →
      ((∃ f ∈ files, ∃ e ∈ samples, ∃ v, f.value e.1 = some v
          ∧ csvGallery.columns v ≠ csvGallery.columns e.2) →
        csvGallery.makeTable tools columnCounts (samples.map (fun e => e.1)) files = .fatal)
      ∧ (¬ (∃ f ∈ files, ∃ e ∈ samples, ∃ v, f.value e.1 = some v
          ∧ csvGallery.columns v ≠ csvGallery.columns e.2) →
        ∃ lines,
          csvGallery.makeTable tools columnCounts (samples.map (fun e => e.1)) files = .ok lines
          ∧ lines.length = files.length
          ∧ ∀ line ∈ lines, line.count 44 + 1
              = 1 + (samples.map (fun e => csvGallery.columns e.2)).sum) := by
  intro files
  induction files with
  | nil =>
    intro _ _
    exact ⟨fun h => by simp at h, fun _ => ⟨[], rfl, rfl, by simp⟩⟩
  | cons file files ih =>
    intro hnames hvalues
    obtain ⟨ih1, ih2⟩ := ih (fun f hf => hnames f (List.mem_cons_of_mem _ hf))
      (fun f hf => hvalues f (List.mem_cons_of_mem _ hf))
    obtain ⟨hrow1, hrow2⟩ := csvGallery.makeRow_spec tools columnCounts file hnumber
      (fun key v hv hc => hvalues file (List.mem_cons_self _ _) (key, v)
        (lookup_mem file.metadata key v hv) hc) samples hcounts
    by_cases hbad : ∃ e ∈ samples, ∃ v, file.value e.1 = some v
        ∧ csvGallery.columns v ≠ csvGallery.columns e.2
    · constructor
      · intro _
        simp only [csvGallery.makeTable, hrow1 hbad]
      · intro hno
        exact absurd ⟨file, List.mem_cons_self _ _, hbad⟩ hno
    · obtain ⟨words, hwords, hsum⟩ := hrow2 hbad
      constructor
      · rintro ⟨f, hf, hm⟩
        have hrest : ∃ f ∈ files, ∃ e ∈ samples, ∃ v, f.value e.1 = some v
            ∧ csvGallery.columns v ≠ csvGallery.columns e.2 := by
          rcases List.mem_cons.1 hf with h | h
          · subst h
            exact absurd hm hbad
          · exact ⟨f, h, hm⟩
        simp only [csvGallery.makeTable, hwords, ih1 hrest]
      · intro hno
        obtain ⟨lines, hlines, hlen, hfields⟩ := ih2 (fun ⟨f, hf, h⟩ =>
          hno ⟨f, List.mem_cons_of_mem _ hf, h⟩)
        refine ⟨List.intercalate [44] (file.name :: words) :: lines, ?_, ?_, ?_⟩
        · simp only [csvGallery.makeTable, hwords, hlines]
        · simp [hlen]
        · intro line hl
          rcases List.mem_cons.1 hl with h | h
          · subst h
            rw [count_intercalate _ (by simp), List.map_cons, List.sum_cons, hsum,
              List.count_eq_zero.2 (hnames file (List.mem_cons_self _ _))]
          · exact hfields line h

theorem decimal_digits : ∀ (fuel n : Nat), 44 ∉ decimal fuel n
  | 0, _ => by simp [decimal]
  | fuel + 1, n => by
    rw [decimal]
    split
    · simp
      omega
    · have ih := decimal_digits fuel (n / 10)
      simp only [List.mem_append, List.mem_singleton, not_or]
      exact ⟨ih, by omega⟩

theorem exampleNumber_digits (r : QReal) : 44 ∉ exampleNumber r := by
  unfold exampleNumber
  have h1 := decimal_digits 20 r.mant.natAbs
  have h2 := decimal_digits 20 (2 ^ r.exp)
  simp only [List.mem_append, not_or]
  refine ⟨⟨?_, h1⟩, ?_⟩
  · split <;> simp
  · split
    · simp
    · simp only [List.mem_append, List.mem_singleton, not_or]
      exact ⟨by decide, h2⟩

/-- C30, counterexample: one file named `a,b` without metadata; no string value holds a
comma, as there is none.  Whatever the conversions, the destructor does not fail and writes
the header `File`, one field, and the row `a,b`, two fields.  Likewise the key `k,1` with
the value `v` gives the header `File,k,1`, three fields, over the row `a,v`, two fields. -/
theorem csvGallery_destructor_counterexample :
    (∀ tools : CsvTools,
      csvGallery.destructor tools [⟨[97, 44, 98], false, []⟩]
        = .ok (some [[70, 105, 108, 101], [97, 44, 98]]))
    ∧ List.count 44 ([70, 105, 108, 101] : QString) + 1 = 1
    ∧ List.count 44 ([97, 44, 98] : QString) + 1 = 2
    ∧ csvGallery.destructor exampleCsvTools [⟨[97], false, [("k,1", .string [118])]⟩]
        = .ok (some [[70, 105, 108, 101, 44, 107, 44, 49], [97, 44, 118]]) := by
  refine ⟨fun tools => rfl, by decide, by decide, by decide⟩

/-- C30, amended: column consistency of the writer.  The files written are not none; no
file name, no key of a column and no text of a value of one column holds a comma, and
`QString::number` yields none.  The destructor fails fatally exactly when some file holds,
under the key of a column, a value that has not the columns of the sample of that key (1
for a value that converts to a string, 2 for a point, 4 for a rectangle).  Otherwise it
writes a header and one row per file; the header has one field for `File` and then as many
as the samples have columns, and every row has as many fields as the header.  The element
of a missing value has as many fields as the column count it is given. -/
theorem csvGallery_destructor_columns (tools : CsvTools) (files : List File)
    (hfiles : files ≠ []) (hnumber : ∀ r, 44 ∉ tools.number r)
    (hnames : ∀ f ∈ files, 44 ∉ f.name)
    (hkeys : ∀ e ∈ csvGallery.samples files, 44 ∉ QString.ofKey e.1)
    (hvalues : ∀ f ∈ files, ∀ e ∈ f.metadata, csvGallery.columns e.2 = 1 →
      44 ∉ tools.toQString e.2) :
    (csvGallery.destructor tools files = .fatal ↔
      ∃ f ∈ files, ∃ e ∈ csvGallery.samples files, ∃ v, f.value e.1 = some v
        ∧ csvGallery.columns v ≠ csvGallery.columns e.2)
    ∧ (¬ (∃ f ∈ files, ∃ e ∈ csvGallery.samples files, ∃ v, f.value e.1 = some v
          ∧ csvGallery.columns v ≠ csvGallery.columns e.2) →
        ∃ header rows,
          csvGallery.destructor tools files = .ok (some (header :: rows))
          ∧ rows.length = files.length
          ∧ header.count 44 + 1
            = 1 + ((csvGallery.samples files).map (fun e => csvGallery.columns e.2)).sum
          ∧ ∀ row ∈ rows, row.count 44 + 1 = header.count 44 + 1)
    ∧ (∀ (key : QString) (n : Nat), 1 ≤ n →
        ∃ word, csvGallery.getCSVElement tools key none false n = .ok (word, n)
          ∧ word.count 44 + 1 = n) := by
  have hne : files.isEmpty = false := by
    cases files with
    | nil => exact absurd rfl hfiles
    | cons _ _ => rfl
  obtain ⟨words, counts, hhead, hsum, hcounts⟩ := csvGallery.makeHeader_spec tools
    (csvGallery.samples files) hkeys (csvGallery.samples_nodup files)
  obtain ⟨htab1, htab2⟩ := csvGallery.makeTable_spec tools counts (csvGallery.samples files)
    hnumber hcounts files hnames hvalues
  have hok : ¬ (∃ f ∈ files, ∃ e ∈ csvGallery.samples files, ∃ v, f.value e.1 = some v
      ∧ csvGallery.columns v ≠ csvGallery.columns e.2) →
      ∃ header rows,
        csvGallery.destructor tools files = .ok (some (header :: rows))
        ∧ rows.length = files.length
        ∧ header.count 44 + 1
          = 1 + ((csvGallery.samples files).map (fun e => csvGallery.columns e.2)).sum
        ∧ ∀ row ∈ rows, row.count 44 + 1 = header.count 44 + 1 := by
    intro hno
    obtain ⟨lines, hlines, hlen, hfields⟩ := htab2 hno
    have hheader : (List.intercalate [44] ([70, 105, 108, 101] :: words)).count 44 + 1
        = 1 + ((csvGallery.samples files).map (fun e => csvGallery.columns e.2)).sum := by
      rw [count_intercalate _ (by simp), List.map_cons, List.sum_cons, hsum]
      rfl
    refine ⟨List.intercalate [44] ([70, 105, 108, 101] :: words), lines, ?_, hlen, hheader, ?_⟩
    · simp only [csvGallery.destructor, hne, Bool.false_eq_true, if_false, hhead, hlines]
    · intro row hrow
      rw [hheader]
      exact hfields row hrow
  refine ⟨⟨?_, ?_⟩, hok, csvGallery.getCSVElement_missing tools⟩
  · intro hf
    by_contra hno
    obtain ⟨header, rows, hrun, _⟩ := hok hno
    rw [hrun] at hf
    simp at hf
  · intro hbad
    simp only [csvGallery.destructor, hne, Bool.false_eq_true, if_false, hhead, htab1 hbad]

/-- C30, witness: the files `a`, with the label `v` and the point (1, 2), and `b`, with the
label `w`: the header `File,L,P_X,P_Y` and the rows `a,v,1,2` and `b,w,nan,nan`, four
fields each. -/
theorem csvGallery_destructor_columns_witness :
    csvGallery.destructor exampleCsvTools csvFiles
        = .ok (some [[70, 105, 108, 101, 44, 76, 44, 80, 95, 88, 44, 80, 95, 89],
            [97, 44, 118, 44, 49, 44, 50], [98, 44, 119, 44, 110, 97, 110, 44, 110, 97, 110]])
    ∧ ¬ (csvGallery.destructor exampleCsvTools csvFiles = .fatal)
    ∧ ∃ header rows,
        csvGallery.destructor exampleCsvTools csvFiles = .ok (some (header :: rows))
        ∧ rows.length = csvFiles.length
        ∧ header.count 44 + 1
          = 1 + ((csvGallery.samples csvFiles).map (fun e => csvGallery.columns e.2)).sum
        ∧ ∀ row ∈ rows, row.count 44 + 1 = header.count 44 + 1 := by
  have h := csvGallery_destructor_columns exampleCsvTools csvFiles (by decide)
    exampleNumber_digits (by decide) (by decide) (by decide)
  have hno : ¬ (∃ f ∈ csvFiles, ∃ e ∈ csvGallery.samples csvFiles, ∃ v,
      f.value e.1 = some v ∧ csvGallery.columns v ≠ csvGallery.columns e.2) := by
    rw [← h.1]
    decide
  exact ⟨by decide, by decide, h.2.1 hno⟩
end br
